import Mathlib

/-!
# Opus packet framing (`OPUS/libopus/opus.c`)

A shallow embedding of the packet parser of the Opus decoder and of the
size-field codec it relies on, followed by the properties proved about them.

Conventions of the embedding

* a packet buffer is a `List Byte`; a C pointer into it is the buffer together
  with an offset (`data - data0`), and a byte outside the buffer reads as `0`;
* C `int` / `int32_t` values are `Int`; the conversions the source performs to
  `int16_t` and `unsigned char` are the explicit wrappers `int16` and `toByte`;
* bitwise operators act on the natural number held by a byte (or by an `int`
  known to be non-negative at that point);
* a loop is a structurally recursive function over its iteration count (for the
  `do ... while` loop of the padding, over a bound on it: `padding_loop_bound`);
* the error codes of `opus_defines.h` are the constructors of `OpusError`;
* the output array `size[48]` is returned as the list of the entries
  `size[0..count-1]` the function has written; the pointer `size` itself is
  taken to be non-null.
-/

namespace Opus

/-- An `unsigned char`. -/
abbrev Byte := Fin 256

/-- The error codes returned by the library (`opus_defines.h`). -/
inductive OpusError where
  | OPUS_BAD_ARG
  | OPUS_BUFFER_TOO_SMALL
  | OPUS_INTERNAL_ERROR
  | OPUS_INVALID_PACKET
  | OPUS_UNIMPLEMENTED
  | OPUS_INVALID_STATE
  | OPUS_ALLOC_FAIL
  deriving DecidableEq, Repr

open OpusError

/-- The byte `data0[i]`, as a natural number. -/
def rd (data : List Byte) (i : Int) : Nat :=
  if i < 0 then 0 else (data.getD i.toNat 0).val

/-- Conversion to `int16_t` (two's complement wrap-around). -/
def int16 (x : Int) : Int := (x + 32768) % 65536 - 32768

/-- Conversion to `int32_t`, which is also `int` (two's complement wrap-around). -/
def int32 (x : Int) : Int := (x + 2147483648) % 4294967296 - 2147483648

/-- Conversion to `unsigned char`. -/
def toByte (x : Int) : Byte := ⟨(x % 256).toNat, by omega⟩

/-- The function `encode_size(size, data)`: the return value and the bytes stored
at `data[0..]`. -/
def encode_size (size : Int) : Int × List Byte :=
  if size < 252 then
    (1, [toByte size])
  else
    let d0 : Byte := toByte (252 + ((size.toNat &&& 0x3 : Nat) : Int))
    let d1 : Byte := toByte ((size - (d0.val : Int)) >>> (2 : Nat))
    (2, [d0, d1])

/-- The function `parse_size(data0 + pos, len, size)`: the return value and the
value stored in `*size`. -/
def parse_size (data : List Byte) (pos : Int) (len : Int) : Int × Int :=
  if len < 1 then (-1, -1)
  else if rd data pos < 252 then (1, int16 (rd data pos))
  else if len < 2 then (-1, -1)
  else (2, int16 (4 * (rd data (pos + 1) : Int) + (rd data pos : Int)))

/-- The function `opus_packet_get_samples_per_frame(data, Fs)`; the division is
the truncating division of C, and the shift `Fs << audiosize` and the product
`Fs*60` are taken in 32 bits: `int32 (Fs * 2^audiosize)` and `int32 (Fs * 60)`. -/
def opus_packet_get_samples_per_frame (data : List Byte) (Fs : Int) : Int :=
  if rd data 0 &&& 0x80 ≠ 0 then
    let audiosize := (rd data 0 >>> 3) &&& 0x3
    (int32 (Fs * 2 ^ audiosize)).tdiv 400
  else if rd data 0 &&& 0x60 = 0x60 then
    if rd data 0 &&& 0x08 ≠ 0 then Fs.tdiv 50 else Fs.tdiv 100
  else
    let audiosize := (rd data 0 >>> 3) &&& 0x3
    if audiosize = 3 then (int32 (Fs * 60)).tdiv 1000
    else (int32 (Fs * 2 ^ audiosize)).tdiv 100

/-- The locals of `opus_packet_parse_impl` that are live after its `switch`. -/
structure SwitchState where
  count : Int
  cbr : Bool
  /-- The offset `data - data0`. -/
  pos : Int
  len : Int
  last_size : Int
  pad : Int
  /-- The entries of `size[]` written so far, from index 0. -/
  size : List Int
  deriving DecidableEq, Repr

/-- The `do ... while (p==255)` loop reading the padding length (lines
157-166); the first argument bounds the number of iterations (each one needs
`len > 0` and lowers `len`). Returns the new `data - data0`, `len` and `pad`. -/
def padding_loop : Nat → List Byte → Int → Int → Int → Except OpusError (Int × Int × Int)
  | 0, _, _, _, _ => .error OPUS_INVALID_PACKET
  | n + 1, data, pos, len, pad =>
    if len ≤ 0 then .error OPUS_INVALID_PACKET
    else
      let p := rd data pos
      let tmp : Int := if p = 255 then 254 else p
      if p = 255 then padding_loop n data (pos + 1) (len - 1 - tmp) (pad + tmp)
      else .ok (pos + 1, len - 1 - tmp, pad + tmp)

/-- The loop `for (i=0;i<count-1;i++)` of the VBR case (lines 176-184); the
first argument is the number of iterations left. Returns the new
`data - data0`, `len`, `last_size` and the sizes written. -/
def vbr_loop : Nat → List Byte → Int → Int → Int → List Int →
    Except OpusError (Int × Int × Int × List Int)
  | 0, _, pos, len, last_size, size => .ok (pos, len, last_size, size)
  | n + 1, data, pos, len, last_size, size =>
    let r := parse_size data pos len
    let len1 := len - r.1
    if r.2 < 0 ∨ r.2 > len1 then .error OPUS_INVALID_PACKET
    else vbr_loop n data (pos + r.1) len1 (last_size - (r.1 + r.2)) (size ++ [r.2])

/-- The padding of a code-3 packet (lines 153-167), present when bit 6 of the
count byte `ch` is set; `len` has been decremented for the TOC and count bytes,
`data - data0 = 2`. Returns the new `data - data0`, `len` and `pad`. -/
def parse_padding (data : List Byte) (ch : Nat) (len : Int) :
    Except OpusError (Int × Int × Int) :=
  if ch &&& 0x40 ≠ 0 then padding_loop len.toNat data 2 len 0
  else .ok (2, len, 0)

/-- The `default:` branch of the switch (frame-count-code 3, lines 144-196);
`len` has already been decremented for the TOC byte, `data - data0 = 1`. -/
def parse_code3 (data : List Byte) (len : Int) (self_delimited : Bool)
    (framesize : Int) : Except OpusError SwitchState :=
  if len < 1 then .error OPUS_INVALID_PACKET
  else
    let ch := rd data 1
    let count : Int := ((ch &&& 0x3F : Nat) : Int)
    if count ≤ 0 ∨ framesize * count > 5760 then .error OPUS_INVALID_PACKET
    else
      let len1 := len - 1
      match parse_padding data ch len1 with
      | .error e => .error e
      | .ok (pos, len2, pad) =>
        if len2 < 0 then .error OPUS_INVALID_PACKET
        else
          let cbr : Bool := decide (ch &&& 0x80 = 0)
          if !cbr then
            match vbr_loop (count - 1).toNat data pos len2 len2 [] with
            | .error e => .error e
            | .ok (pos3, len3, last_size, size) =>
              if last_size < 0 then .error OPUS_INVALID_PACKET
              else .ok ⟨count, cbr, pos3, len3, last_size, pad, size⟩
          else if !self_delimited then
            let last_size := len2.tdiv count
            if last_size * count ≠ len2 then .error OPUS_INVALID_PACKET
            else .ok ⟨count, cbr, pos, len2, last_size, pad,
                      List.replicate (count - 1).toNat (int16 last_size)⟩
          else .ok ⟨count, cbr, pos, len2, len, pad, []⟩

/-- The `switch (toc&0x3)` of `opus_packet_parse_impl` (lines 110-197); `len`
has already been decremented for the TOC byte. -/
def parse_switch (data : List Byte) (len : Int) (self_delimited : Bool)
    (toc : Nat) (framesize : Int) : Except OpusError SwitchState :=
  if toc &&& 0x3 = 0 then
    .ok ⟨1, false, 1, len, len, 0, []⟩
  else if toc &&& 0x3 = 1 then
    if !self_delimited then
      if len.toNat &&& 0x1 ≠ 0 then .error OPUS_INVALID_PACKET
      else .ok ⟨2, true, 1, len, len.tdiv 2, 0, [int16 (len.tdiv 2)]⟩
    else .ok ⟨2, true, 1, len, len, 0, []⟩
  else if toc &&& 0x3 = 2 then
    let r := parse_size data 1 len
    let len1 := len - r.1
    if r.2 < 0 ∨ r.2 > len1 then .error OPUS_INVALID_PACKET
    else .ok ⟨2, false, 1 + r.1, len1, len1 - r.2, 0, [r.2]⟩
  else parse_code3 data len self_delimited framesize

/-- The outputs of a successful `opus_packet_parse_impl`. -/
structure ParseOut where
  /-- The value stored in `*out_toc`. -/
  toc : Nat
  /-- The return value. -/
  count : Int
  /-- The entries `size[0..count-1]`. -/
  size : List Int
  /-- The entries `frames[0..count-1]`, as offsets from `data0`. -/
  frames : List Int
  payload_offset : Int
  packet_offset : Int
  /-- The local `pad` at the return: the number of padding bytes. -/
  padding : Int
  deriving DecidableEq, Repr

/-- The loop `for (i=0;i<count;i++) { frames[i] = data; data += size[i]; }`
(lines 228-233): iterations left, `i`, `data - data0`, `frames[0..i-1]`. -/
def frames_loop (size : List Int) : Nat → Nat → Int → List Int → List Int × Int
  | 0, _, pos, frames => (frames, pos)
  | n + 1, i, pos, frames =>
    frames_loop size n (i + 1) (pos + size.getD i 0) (frames ++ [pos])

/-- Lines 225-241: the outputs stored once every size is known. -/
def parse_finish (toc : Nat) (count pos pad : Int) (size : List Int) : ParseOut :=
  let r := frames_loop size count.toNat 0 pos []
  { toc := toc, count := count, size := size, frames := r.1,
    payload_offset := pos, packet_offset := pad + r.2, padding := pad }

/-- Lines 198-241 of `opus_packet_parse_impl`: the size of the last frame. -/
def parse_tail (data : List Byte) (self_delimited : Bool) (toc : Nat)
    (h : SwitchState) : Except OpusError ParseOut :=
  if self_delimited then
    let r := parse_size data h.pos h.len
    let len1 := h.len - r.1
    if r.2 < 0 ∨ r.2 > len1 then .error OPUS_INVALID_PACKET
    else if h.cbr then
      if r.2 * h.count > len1 then .error OPUS_INVALID_PACKET
      else .ok (parse_finish toc h.count (h.pos + r.1) h.pad
                  (List.replicate (h.count - 1).toNat r.2 ++ [r.2]))
    else if r.1 + r.2 > h.last_size then .error OPUS_INVALID_PACKET
    else .ok (parse_finish toc h.count (h.pos + r.1) h.pad (h.size ++ [r.2]))
  else
    if h.last_size > 1275 then .error OPUS_INVALID_PACKET
    else .ok (parse_finish toc h.count h.pos h.pad (h.size ++ [int16 h.last_size]))

/-- The function `opus_packet_parse_impl(data, len, self_delimited, ...)`: an error
code, or the outputs stored through the pointer arguments. -/
def opus_packet_parse_impl (data : List Byte) (len : Int) (self_delimited : Bool) :
    Except OpusError ParseOut :=
  if len < 0 then .error OPUS_BAD_ARG
  else if len = 0 then .error OPUS_INVALID_PACKET
  else
    let framesize := opus_packet_get_samples_per_frame data 48000
    let toc := rd data 0
    match parse_switch data (len - 1) self_delimited toc framesize with
    | .error e => .error e
    | .ok h => parse_tail data self_delimited toc h

/-- The function `opus_packet_parse(data, len, ...)`. -/
def opus_packet_parse (data : List Byte) (len : Int) : Except OpusError ParseOut :=
  opus_packet_parse_impl data len false

/-! ## Return values as C integers -/

/-- Modelled from the spec: the integer values of the error codes, which come
from `opus_defines.h` (not among the sources). The spec only says that an error
code is negative; the values are those of the Opus API. -/
def OpusError.toInt : OpusError → Int
  | .OPUS_BAD_ARG => -1
  | .OPUS_BUFFER_TOO_SMALL => -2
  | .OPUS_INTERNAL_ERROR => -3
  | .OPUS_INVALID_PACKET => -4
  | .OPUS_UNIMPLEMENTED => -5
  | .OPUS_INVALID_STATE => -6
  | .OPUS_ALLOC_FAIL => -7

/-- The `int` returned by `opus_packet_parse_impl`: the frame count, or the
error code. -/
def parse_ret (r : Except OpusError ParseOut) : Int :=
  match r with
  | .error e => e.toInt
  | .ok out => out.count

/-! ## Metadata read from the TOC byte (`opus_decoder.c`) -/

/-- Modelled from the spec: the coding mode "prediction-only", the constant
`MODE_SILK_ONLY` of `opus_private.h` (not among the sources). -/
def MODE_SILK_ONLY : Int := 1000

/-- Modelled from the spec: the coding mode "hybrid", the constant `MODE_HYBRID`
of `opus_private.h` (not among the sources). -/
def MODE_HYBRID : Int := 1001

/-- Modelled from the spec: the coding mode "transform-only", the constant
`MODE_CELT_ONLY` of `opus_private.h` (not among the sources). -/
def MODE_CELT_ONLY : Int := 1002

/-- Modelled from the spec: the first of the five ordered bandwidths, a constant
of `opus_defines.h` (not among the sources). -/
def OPUS_BANDWIDTH_NARROWBAND : Int := 1101

/-- Modelled from the spec: the second of the five ordered bandwidths. -/
def OPUS_BANDWIDTH_MEDIUMBAND : Int := 1102

/-- Modelled from the spec: the third of the five ordered bandwidths. -/
def OPUS_BANDWIDTH_WIDEBAND : Int := 1103

/-- Modelled from the spec: the fourth of the five ordered bandwidths. -/
def OPUS_BANDWIDTH_SUPERWIDEBAND : Int := 1104

/-- Modelled from the spec: the fifth of the five ordered bandwidths. -/
def OPUS_BANDWIDTH_FULLBAND : Int := 1105

/-- The function `opus_packet_get_mode(data)`. -/
def opus_packet_get_mode (data : List Byte) : Int :=
  if rd data 0 &&& 0x80 ≠ 0 then MODE_CELT_ONLY
  else if rd data 0 &&& 0x60 = 0x60 then MODE_HYBRID
  else MODE_SILK_ONLY

/-- The function `opus_packet_get_bandwidth(data)`. -/
def opus_packet_get_bandwidth (data : List Byte) : Int :=
  if rd data 0 &&& 0x80 ≠ 0 then
    let bandwidth := OPUS_BANDWIDTH_MEDIUMBAND + (((rd data 0 >>> 5) &&& 0x3 : Nat) : Int)
    if bandwidth = OPUS_BANDWIDTH_MEDIUMBAND then OPUS_BANDWIDTH_NARROWBAND
    else bandwidth
  else if rd data 0 &&& 0x60 = 0x60 then
    if rd data 0 &&& 0x10 ≠ 0 then OPUS_BANDWIDTH_FULLBAND
    else OPUS_BANDWIDTH_SUPERWIDEBAND
  else
    OPUS_BANDWIDTH_NARROWBAND + (((rd data 0 >>> 5) &&& 0x3 : Nat) : Int)

/-- The function `opus_packet_get_nb_channels(data)`. -/
def opus_packet_get_nb_channels (data : List Byte) : Int :=
  if rd data 0 &&& 0x4 ≠ 0 then 2 else 1

/-- The function `opus_packet_get_nb_frames(packet, len)`: the frame count, or a
negative error code. -/
def opus_packet_get_nb_frames (packet : List Byte) (len : Int) : Int :=
  if len < 1 then OpusError.OPUS_BAD_ARG.toInt
  else
    let count := rd packet 0 &&& 0x3
    if count = 0 then 1
    else if count ≠ 3 then 2
    else if len < 2 then OpusError.OPUS_INVALID_PACKET.toInt
    else (((rd packet 1 &&& 0x3F : Nat)) : Int)

/-- The function `opus_packet_get_nb_samples(packet, len, Fs)`: the number of
samples, or a negative error code. The products `count*...`, `samples*25` and
`Fs*3` are taken in 32 bits. -/
def opus_packet_get_nb_samples (packet : List Byte) (len : Int) (Fs : Int) : Int :=
  let count := opus_packet_get_nb_frames packet len
  if count < 0 then count
  else
    let samples := int32 (count * opus_packet_get_samples_per_frame packet Fs)
    if int32 (samples * 25) > int32 (Fs * 3) then OpusError.OPUS_INVALID_PACKET.toInt
    else samples

/-! ## The decoder state and its collaborators (`opus_decoder.c`)

The two sub-decoders, the entropy decoder and the fixed-point helpers are not
among the sources: they are the fields of `Engines`, arbitrary functions that
receive everything the C function can read and return everything it can write.
Sample memory is a map from offsets to samples, a pointer into it an offset. A
result `none` stands for a call that does not return within the iteration bounds
of the model; the theorems establish results of the form `some _`. -/

/-- Sample memory: the `opus_val16` stored at each offset. -/
abbrev PCM := Int → Int

/-- Modelled from the spec: the minimum `IMIN(a,b)` of `celt/arch.h`
(not among the sources). -/
def IMIN (a b : Int) : Int := if a < b then a else b

/-- Modelled from the spec: the maximum `IMAX(a,b)` of `celt/arch.h`
(not among the sources). -/
def IMAX (a b : Int) : Int := if a > b then a else b

/-- Modelled from the spec: the saturation `SAT16` to the 16-bit range, of
`celt/arch.h` (not among the sources). -/
def SAT16 (x : Int) : Int := if x > 32767 then 32767 else if x < -32768 then -32768 else x

/-- Modelled from the spec: the saturation `SATURATE(x,a)` to `-a..a`, of
`celt/arch.h` (not among the sources). -/
def SATURATE (x a : Int) : Int := if x > a then a else if x < -a then -a else x

/-- The fields of `silk_DecControlStruct` (`silk/control.h`) that
`opus_decoder.c` reads or writes. -/
structure DecControlStruct where
  nChannelsAPI : Int
  nChannelsInternal : Int
  API_sampleRate : Int
  internalSampleRate : Int
  payloadSize_ms : Int
  prevPitchLag : Int
  deriving DecidableEq, Repr

/-- The entropy decoder `ec_dec` (`celt/entcode.h`): the two fields the source
touches, and the other fields as a block. -/
structure ec_dec where
  storage : Int
  rng : Nat
  rest : List Int
  deriving DecidableEq, Repr

/-- The structure `OpusDecoder`, followed by the memory of the two sub-decoders
that the source places behind it (at `silk_dec_offset` and `celt_dec_offset`). -/
structure OpusDecoder where
  celt_dec_offset : Int
  silk_dec_offset : Int
  channels : Int
  Fs : Int
  DecControl : DecControlStruct
  decode_gain : Int
  arch : Int
  stream_channels : Int
  bandwidth : Int
  mode : Int
  prev_mode : Int
  frame_size : Int
  prev_redundancy : Int
  last_packet_duration : Int
  rangeFinal : Nat
  silk_dec : List Int
  celt_dec : List Int
  deriving DecidableEq, Repr

/-- The requests `opus_decoder.c` sends to `celt_decoder_ctl`. -/
inductive CeltRequest where
  | CELT_SET_SIGNALLING (x : Int)
  | CELT_SET_END_BAND (x : Int)
  | CELT_SET_CHANNELS (x : Int)
  | CELT_SET_START_BAND (x : Int)
  | OPUS_GET_FINAL_RANGE
  | OPUS_RESET_STATE
  | CELT_GET_MODE
  | OPUS_GET_PITCH
  | OPUS_SET_PHASE_INVERSION_DISABLED (x : Int)
  | OPUS_GET_PHASE_INVERSION_DISABLED
  deriving DecidableEq, Repr

/-- What a `celt_decoder_ctl` call leaves: the sub-decoder memory, the return
value, the value stored through the pointer argument and, for `CELT_GET_MODE`,
the window of the mode. -/
structure CtlOut where
  celt_dec : List Int
  ret : Int
  value : Int
  window : Int → Int

/-- What a `silk_Decode` call leaves; `nSamplesOut` is `silk_frame_size`. -/
structure SilkOut where
  silk_dec : List Int
  DecControl : DecControlStruct
  dec : ec_dec
  pcm : PCM
  nSamplesOut : Int
  ret : Int

/-- What a `celt_decode_with_ec` call leaves. -/
structure CeltOut where
  celt_dec : List Int
  dec : ec_dec
  pcm : PCM
  ret : Int

/-- The collaborators of the decoder that are not among the sources. -/
structure Engines where
  /-- The call `ec_dec_init(&dec, data, len)`: buffer, offset of `data`, `len`. -/
  ec_dec_init : List Byte → Int → Int → ec_dec
  ec_tell : ec_dec → Int
  ec_dec_bit_logp : ec_dec → Int → ec_dec × Int
  ec_dec_uint : ec_dec → Int → ec_dec × Int
  /-- The return value and the size stored by `silk_Get_Decoder_Size`. -/
  silk_Get_Decoder_Size : Int × Int
  silk_InitDecoder : List Int → List Int × Int
  /-- The call `silk_Decode(silk_dec, &DecControl, lost_flag, first_frame, &dec,
  pcm_ptr, &silk_frame_size, arch)`, `pcm_ptr` given as memory and offset. -/
  silk_Decode : List Int → DecControlStruct → Int → Int → ec_dec → PCM → Int → Int → SilkOut
  celt_decoder_get_size : Int → Int
  celt_decoder_init : List Int → Int → Int → List Int × Int
  celt_decoder_ctl : List Int → CeltRequest → CtlOut
  /-- The call `celt_decode_with_ec(celt_dec, data, len, pcm, frame_size, dec,
  accum)`: `data` is a buffer and an offset, or `NULL`; `dec` may be `NULL`. -/
  celt_decode_with_ec : List Int → Option (List Byte × Int) → Int → PCM → Int → Int →
    Option ec_dec → Int → CeltOut
  /-- The gain `celt_exp2(MULT16_16_P15(QCONST16(6.48814081e-4f, 25), g))`. -/
  gain_of : Int → Int
  MULT16_32_P16 : Int → Int → Int
  opus_select_arch : Int
  align : Int → Int
  sizeof_OpusDecoder : Int
  /-- The indeterminate content of the local `dec` before `ec_dec_init`. -/
  dec_uninit : ec_dec
  /-- The indeterminate content of a buffer allocated on the stack. -/
  stack_pcm : PCM

/-- What a decoding function leaves: the return value, the decoder state and the
sample memory behind `pcm`. -/
structure DecodeOut where
  ret : Int
  st : OpusDecoder
  pcm : PCM

/-- The loop `for (i=0;i<n;i++) p[i] = 0;` on the memory `pcm` with `p` at offset
`off`: iterations left, `i`. -/
def zero_loop (off : Int) : Nat → Int → PCM → PCM
  | 0, _, pcm => pcm
  | n + 1, i, pcm => zero_loop off n (i + 1) (fun j => if j = off + i then 0 else pcm j)

/-- The function `opus_decoder_init(st, Fs, channels)`: the return value and the
state it leaves. -/
def opus_decoder_init (ext : Engines) (st : OpusDecoder) (Fs channels : Int) :
    Int × OpusDecoder :=
  if (Fs ≠ 48000 ∧ Fs ≠ 24000 ∧ Fs ≠ 16000 ∧ Fs ≠ 12000 ∧ Fs ≠ 8000)
      ∨ (channels ≠ 1 ∧ channels ≠ 2) then
    (OpusError.OPUS_BAD_ARG.toInt, st)
  else if ext.silk_Get_Decoder_Size.1 ≠ 0 then
    -- opus_decoder_get_size returns 0, nothing is cleared
    (OpusError.OPUS_INTERNAL_ERROR.toInt, st)
  else
    let silkDecSizeBytes := ext.align ext.silk_Get_Decoder_Size.2
    let silk_dec_offset := ext.align ext.sizeof_OpusDecoder
    -- OPUS_CLEAR, then the fields set before the sub-decoders are initialised
    let st1 : OpusDecoder :=
      { celt_dec_offset := silk_dec_offset + silkDecSizeBytes,
        silk_dec_offset := silk_dec_offset,
        channels := channels, Fs := Fs,
        DecControl := ⟨channels, 0, Fs, 0, 0, 0⟩,
        decode_gain := 0, arch := 0, stream_channels := channels,
        bandwidth := 0, mode := 0, prev_mode := 0, frame_size := 0,
        prev_redundancy := 0, last_packet_duration := 0, rangeFinal := 0,
        silk_dec := List.replicate silkDecSizeBytes.toNat 0,
        celt_dec := List.replicate (ext.celt_decoder_get_size channels).toNat 0 }
    let rs := ext.silk_InitDecoder st1.silk_dec
    let st2 := { st1 with silk_dec := rs.1 }
    if rs.2 ≠ 0 then (OpusError.OPUS_INTERNAL_ERROR.toInt, st2)
    else
      let rc := ext.celt_decoder_init st2.celt_dec Fs channels
      let st3 := { st2 with celt_dec := rc.1 }
      if rc.2 ≠ 0 then (OpusError.OPUS_INTERNAL_ERROR.toInt, st3)
      else
        let st4 := { st3 with
          celt_dec := (ext.celt_decoder_ctl st3.celt_dec (.CELT_SET_SIGNALLING 0)).celt_dec }
        (0, { st4 with prev_mode := 0, frame_size := Fs.tdiv 400,
                       arch := ext.opus_select_arch })

/-- Modelled from the spec: the constant `Q15ONE` of the fixed-point build
(`celt/arch.h`), the Q15 value of one. -/
def Q15ONE : Int := 32767

/-- Modelled from the spec: the macro `MULT16_16(a,b)` of `celt/fixed_generic.h`,
the 32-bit product of two 16-bit values. -/
def MULT16_16 (a b : Int) : Int := a * b

/-- Modelled from the spec: the macro `MAC16_16(c,a,b)` of `celt/fixed_generic.h`,
`c` plus the 32-bit product of two 16-bit values. -/
def MAC16_16 (c a b : Int) : Int := c + a * b

/-- Modelled from the spec: the macro `SHR32(a,shift)` of `celt/fixed_generic.h`,
the arithmetic right shift of a 32-bit value. -/
def SHR32 (a : Int) (shift : Nat) : Int := a >>> shift

/-- Modelled from the spec: the macro `MULT16_16_Q15(a,b)` of
`celt/fixed_generic.h`, the product of two 16-bit values shifted right by 15. -/
def MULT16_16_Q15 (a b : Int) : Int := SHR32 (MULT16_16 a b) 15

/-- The function `smooth_fade(in1, in2, out, overlap, channels, window, Fs)`; each
pointer is a memory and an offset, and a value stored in an `opus_val16` is
converted to 16 bits. The inner loop: iterations left, `i`. -/
def smooth_fade_inner (in1 : PCM) (o1 : Int) (in2 : PCM) (o2 : Int) (oo : Int)
    (channels : Int) (window : Int → Int) (inc c : Int) : Nat → Int → PCM → PCM
  | 0, _, out => out
  | n + 1, i, out =>
    let w := int16 (MULT16_16_Q15 (window (i * inc)) (window (i * inc)))
    let v := int16 (SHR32 (MAC16_16 (MULT16_16 w (in2 (o2 + (i * channels + c))))
                      (Q15ONE - w) (in1 (o1 + (i * channels + c)))) 15)
    smooth_fade_inner in1 o1 in2 o2 oo channels window inc c n (i + 1)
      (fun j => if j = oo + (i * channels + c) then v else out j)

/-- The outer loop of `smooth_fade` over the channels: iterations left, `c`. -/
def smooth_fade_outer (in1 : PCM) (o1 : Int) (in2 : PCM) (o2 : Int) (oo : Int)
    (overlap channels : Int) (window : Int → Int) (inc : Int) : Nat → Int → PCM → PCM
  | 0, _, out => out
  | n + 1, c, out =>
    smooth_fade_outer in1 o1 in2 o2 oo overlap channels window inc n (c + 1)
      (smooth_fade_inner in1 o1 in2 o2 oo channels window inc c overlap.toNat 0 out)

/-- The function `smooth_fade`: the memory behind `out` after the call. The
source only calls it with `out` equal to `in1` or to `in2`, sample by sample, so
the inputs are read from the memories as they are at the call. -/
def smooth_fade (in1 : PCM) (o1 : Int) (in2 : PCM) (o2 : Int) (out : PCM) (oo : Int)
    (overlap channels : Int) (window : Int → Int) (Fs : Int) : PCM :=
  smooth_fade_outer in1 o1 in2 o2 oo overlap channels window ((48000 : Int).tdiv Fs)
    channels.toNat 0 out

/-- The loop `for (i=0;i<n;i++) dst[i] = src[i];`: iterations left, `i`. -/
def copy_loop (src : PCM) (os : Int) (od : Int) : Nat → Int → PCM → PCM
  | 0, _, dst => dst
  | n + 1, i, dst => copy_loop src os od n (i + 1)
      (fun j => if j = od + i then src (os + i) else dst j)

/-- The loop `for (i=0;i<n;i++) pcm[i] = SAT16(ADD32(pcm[i], pcm_silk[i]));`:
iterations left, `i`. -/
def add_loop (pcm_silk : PCM) (off : Int) : Nat → Int → PCM → PCM
  | 0, _, pcm => pcm
  | n + 1, i, pcm => add_loop pcm_silk off n (i + 1)
      (fun j => if j = off + i then SAT16 (pcm (off + i) + pcm_silk i) else pcm j)

/-- The loop applying the decode gain (lines 563-568): iterations left, `i`. -/
def gain_loop (ext : Engines) (gain : Int) (off : Int) : Nat → Int → PCM → PCM
  | 0, _, pcm => pcm
  | n + 1, i, pcm => gain_loop ext gain off n (i + 1)
      (fun j => if j = off + i then
          int16 (SATURATE (ext.MULT16_32_P16 (pcm (off + i)) gain) 32767)
        else pcm j)

/-- The loop of lines 530-534 copying the first `F2_5` samples of every channel
from `redundant_audio`: the inner loop over `i` for the channel `c`. -/
def redundant_copy_inner (src : PCM) (off channels c : Int) : Nat → Int → PCM → PCM
  | 0, _, pcm => pcm
  | n + 1, i, pcm => redundant_copy_inner src off channels c n (i + 1)
      (fun j => if j = off + (channels * i + c) then src (channels * i + c) else pcm j)

/-- The outer loop of lines 530-534 over the channels: iterations left, `c`. -/
def redundant_copy_outer (src : PCM) (off channels F2_5 : Int) : Nat → Int → PCM → PCM
  | 0, _, pcm => pcm
  | n + 1, c, pcm => redundant_copy_outer src off channels F2_5 n (c + 1)
      (redundant_copy_inner src off channels c F2_5.toNat 0 pcm)

/-- The `do ... while (audiosize > 0)` loop of the concealment of more than 20 ms
(lines 270-279); `self` is the recursive call `opus_decode_frame(st, NULL, 0, pcm,
frame_size, 0)`. Iterations left, then `st`, the memory, the offset of `pcm` and
`audiosize`. -/
def plc_chunk_loop (self : OpusDecoder → PCM → Int → Int → Option DecodeOut)
    (F20 frame_size : Int) : Nat → OpusDecoder → PCM → Int → Int → Option DecodeOut
  | 0, _, _, _, _ => none
  | n + 1, st, pcm, off, audiosize =>
    match self st pcm off (IMIN audiosize F20) with
    | none => none
    | some r =>
      if r.ret < 0 then some r
      else if audiosize - r.ret > 0 then
        plc_chunk_loop self F20 frame_size n r.st r.pcm (off + r.ret * r.st.channels)
          (audiosize - r.ret)
      else some ⟨frame_size, r.st, r.pcm⟩

/-- The `do ... while (decoded_samples < frame_size)` loop calling the SILK
decoder (lines 368-386), on the memory `buf` that `pcm_ptr` points into.
Iterations left, then `st`, `dec`, the memory, the offset of `pcm_ptr` and
`decoded_samples`. An `error` is the return of `OPUS_INTERNAL_ERROR`. -/
def silk_loop (ext : Engines) (lost_flag frame_size : Int) :
    Nat → OpusDecoder → ec_dec → PCM → Int → Int →
      Option (Except (OpusDecoder × PCM) (OpusDecoder × ec_dec × PCM))
  | 0, _, _, _, _, _ => none
  | n + 1, st, dec, buf, ptr, decoded_samples =>
    let first_frame : Int := if decoded_samples = 0 then 1 else 0
    let r := ext.silk_Decode st.silk_dec st.DecControl lost_flag first_frame dec buf ptr
      st.arch
    let st1 : OpusDecoder := { st with silk_dec := r.silk_dec, DecControl := r.DecControl }
    if r.ret ≠ 0 ∧ lost_flag = 0 then some (.error (st1, r.pcm))
    else
      let silk_frame_size := if r.ret ≠ 0 then frame_size else r.nSamplesOut
      let buf1 := if r.ret ≠ 0 then
          zero_loop ptr (frame_size * st1.channels).toNat 0 r.pcm
        else r.pcm
      if decoded_samples + silk_frame_size < frame_size then
        silk_loop ext lost_flag frame_size n st1 r.dec buf1
          (ptr + silk_frame_size * st1.channels) (decoded_samples + silk_frame_size)
      else some (.ok (st1, r.dec, buf1))

/-- A `celt_decoder_ctl` request whose outputs are not used: the state after it. -/
def celt_ctl (ext : Engines) (st : OpusDecoder) (req : CeltRequest) : OpusDecoder :=
  { st with celt_dec := (ext.celt_decoder_ctl st.celt_dec req).celt_dec }

/-- The preparation of the SILK decoder in `opus_decode_frame` (lines 340-364):
its re-initialisation after a CELT-only frame and the fields of `DecControl`. -/
def frame_silk_setup (ext : Engines) (st : OpusDecoder)
    (data : Option (List Byte × Int)) (mode bandwidth audiosize : Int) : OpusDecoder :=
  let st1 : OpusDecoder :=
    if st.prev_mode = MODE_CELT_ONLY then
      { st with silk_dec := (ext.silk_InitDecoder st.silk_dec).1 }
    else st
  let dc1 : DecControlStruct :=
    { st1.DecControl with
      payloadSize_ms := IMAX 10 ((1000 * audiosize).tdiv st1.Fs) }
  let dc2 : DecControlStruct :=
    if data.isSome then
      { dc1 with
        nChannelsInternal := st1.stream_channels,
        internalSampleRate :=
          if mode = MODE_SILK_ONLY then
            if bandwidth = OPUS_BANDWIDTH_NARROWBAND then 8000
            else if bandwidth = OPUS_BANDWIDTH_MEDIUMBAND then 12000
            else if bandwidth = OPUS_BANDWIDTH_WIDEBAND then 16000
            else 16000
          else 16000 }
    else dc1
  { st1 with DecControl := dc2 }

/-- The SILK processing of `opus_decode_frame` (lines 331-387), entered when
`mode != MODE_CELT_ONLY`: the state, `dec`, the memory behind `pcm` and the buffer
`pcm_silk` it leaves; an `error` is the return of `OPUS_INTERNAL_ERROR`. -/
def frame_silk_stage (ext : Engines) (st : OpusDecoder)
    (data : Option (List Byte × Int)) (mode bandwidth audiosize frame_size : Int)
    (decode_fec : Int) (celt_accum : Bool) (dec : ec_dec) (pcm : PCM) (off : Int)
    (pcm_silk : PCM) :
    Option (Except DecodeOut (OpusDecoder × ec_dec × PCM × PCM)) :=
  let lost_flag : Int := if data.isSome then 2 * decode_fec else 1
  if celt_accum then
    match silk_loop ext lost_flag frame_size (frame_size.toNat + 1)
        (frame_silk_setup ext st data mode bandwidth audiosize) dec pcm off 0 with
    | none => none
    | some (.error (st3, buf)) =>
      some (.error ⟨OpusError.OPUS_INTERNAL_ERROR.toInt, st3, buf⟩)
    | some (.ok (st3, dec3, buf)) => some (.ok (st3, dec3, buf, pcm_silk))
  else
    match silk_loop ext lost_flag frame_size (frame_size.toNat + 1)
        (frame_silk_setup ext st data mode bandwidth audiosize) dec pcm_silk 0 0 with
    | none => none
    | some (.error (st3, _)) =>
      some (.error ⟨OpusError.OPUS_INTERNAL_ERROR.toInt, st3, pcm⟩)
    | some (.ok (st3, dec3, buf)) => some (.ok (st3, dec3, pcm, buf))

/-- The locals set by the search for a redundant frame (lines 389-418). -/
structure RedundancyVars where
  redundancy : Int
  celt_to_silk : Int
  redundancy_bytes : Int
  len : Int
  dec : ec_dec

/-- The search for a redundant frame (lines 389-418). -/
def frame_redundancy (ext : Engines) (st : OpusDecoder)
    (data : Option (List Byte × Int)) (mode len decode_fec : Int) (dec : ec_dec) :
    RedundancyVars :=
  if decode_fec = 0 ∧ mode ≠ MODE_CELT_ONLY ∧ data.isSome ∧
      ext.ec_tell dec + 17 + 20 * (if st.mode = MODE_HYBRID then 1 else 0) ≤ 8 * len then
    let r1 : ec_dec × Int :=
      if mode = MODE_HYBRID then ext.ec_dec_bit_logp dec 12 else (dec, 1)
    if r1.2 ≠ 0 then
      let r2 := ext.ec_dec_bit_logp r1.1 1
      let r3 : ec_dec × Int :=
        if mode = MODE_HYBRID then
          ((ext.ec_dec_uint r2.1 256).1, (ext.ec_dec_uint r2.1 256).2 + 2)
        else (r2.1, len - ((ext.ec_tell r2.1 + 7) >>> (3 : Nat)))
      let len1 := len - r3.2
      if len1 * 8 < ext.ec_tell r3.1 then
        ⟨0, r2.2, 0, 0, { r3.1 with storage := r3.1.storage - 0 }⟩
      else
        ⟨r1.2, r2.2, r3.2, len1, { r3.1 with storage := r3.1.storage - r3.2 }⟩
    else ⟨r1.2, 0, 0, len, r1.1⟩
  else ⟨0, 0, 0, len, dec⟩

/-- The `switch (bandwidth)` choosing `endband` (lines 439-459). -/
def frame_endband (bandwidth : Int) : Int :=
  if bandwidth = OPUS_BANDWIDTH_NARROWBAND then 13
  else if bandwidth = OPUS_BANDWIDTH_MEDIUMBAND ∨ bandwidth = OPUS_BANDWIDTH_WIDEBAND then 17
  else if bandwidth = OPUS_BANDWIDTH_SUPERWIDEBAND then 19
  else 21

/-- The locals of `opus_decode_frame` that are live from line 437 on. -/
structure FrameVars where
  st : OpusDecoder
  pcm : PCM
  pcm_silk : PCM
  redundant_audio : PCM
  dec : ec_dec
  redundant_rng : Nat
  celt_ret : Int
  window : Int → Int

/-- The CELT processing of `opus_decode_frame` (lines 437-515): band limits, the
redundant frame decoded before the main one, the main CELT frame (or, in
SILK-only mode, the silence frame), the sum of the two outputs and the window. -/
def frame_celt_stage (ext : Engines) (st : OpusDecoder)
    (data : Option (List Byte × Int)) (mode bandwidth frame_size decode_fec : Int)
    (celt_accum : Bool) (rv : RedundancyVars) (pcm : PCM) (off : Int) (pcm_silk : PCM)
    (F2_5 F5 F20 : Int) : FrameVars :=
  let start_band : Int := if mode ≠ MODE_CELT_ONLY then 17 else 0
  let st1 := if bandwidth ≠ 0 then
      celt_ctl ext st (.CELT_SET_END_BAND (frame_endband bandwidth))
    else st
  let st2 := celt_ctl ext st1 (.CELT_SET_CHANNELS st1.stream_channels)
  let red_data : Option (List Byte × Int) := data.map (fun d => (d.1, d.2 + rv.len))
  -- 5 ms redundant frame for CELT->SILK
  let st3a := celt_ctl ext st2 (.CELT_SET_START_BAND 0)
  let c3 := ext.celt_decode_with_ec st3a.celt_dec red_data rv.redundancy_bytes
    ext.stack_pcm 0 F5 none 0
  let g3 := ext.celt_decoder_ctl c3.celt_dec .OPUS_GET_FINAL_RANGE
  let pre : Bool := decide (rv.redundancy ≠ 0 ∧ rv.celt_to_silk ≠ 0)
  let st3 : OpusDecoder := if pre then { st3a with celt_dec := g3.celt_dec } else st2
  let redundant_audio : PCM := if pre then c3.pcm else ext.stack_pcm
  let redundant_rng : Nat := if pre then g3.value.toNat else 0
  let st4 := celt_ctl ext st3 (.CELT_SET_START_BAND start_band)
  let accum : Int := if celt_accum then 1 else 0
  if mode ≠ MODE_SILK_ONLY then
    let celt_frame_size := IMIN F20 frame_size
    let st5 := if mode ≠ st4.prev_mode ∧ st4.prev_mode > 0 ∧ st4.prev_redundancy = 0 then
        celt_ctl ext st4 .OPUS_RESET_STATE
      else st4
    let c := ext.celt_decode_with_ec st5.celt_dec
      (if decode_fec ≠ 0 then none else data) rv.len pcm off celt_frame_size
      (some rv.dec) accum
    let st6 : OpusDecoder := { st5 with celt_dec := c.celt_dec }
    let pcm6 := if ¬ celt_accum then
        add_loop pcm_silk off (frame_size * st6.channels).toNat 0 c.pcm
      else c.pcm
    let pcm7 := if mode ≠ MODE_CELT_ONLY then pcm6 else c.pcm
    let m := ext.celt_decoder_ctl st6.celt_dec .CELT_GET_MODE
    ⟨{ st6 with celt_dec := m.celt_dec }, pcm7, pcm_silk, redundant_audio, c.dec,
      redundant_rng, c.ret, m.window⟩
  else
    let pcm5 := if ¬ celt_accum then
        zero_loop off (frame_size * st4.channels).toNat 0 pcm
      else pcm
    let fade : Bool := decide (st4.prev_mode = MODE_HYBRID ∧
      ¬ (rv.redundancy ≠ 0 ∧ rv.celt_to_silk ≠ 0 ∧ st4.prev_redundancy ≠ 0))
    let st5a := celt_ctl ext st4 (.CELT_SET_START_BAND 0)
    let c := ext.celt_decode_with_ec st5a.celt_dec (some ([0xFF, 0xFF], 0)) 2 pcm5 off F2_5
      none accum
    let st6 : OpusDecoder := if fade then { st5a with celt_dec := c.celt_dec } else st4
    let pcm6 := if fade then c.pcm else pcm5
    let pcm7 := if ¬ celt_accum then
        add_loop pcm_silk off (frame_size * st6.channels).toNat 0 pcm6
      else pcm6
    let m := ext.celt_decoder_ctl st6.celt_dec .CELT_GET_MODE
    ⟨{ st6 with celt_dec := m.celt_dec }, pcm7, pcm_silk, redundant_audio, rv.dec,
      redundant_rng, 0, m.window⟩

/-- The end of `opus_decode_frame` (lines 517-586): the redundant frame decoded
after the main one, the cross-fades, the gain, the update of the state and the
return value. -/
def frame_final_stage (ext : Engines) (v : FrameVars)
    (data : Option (List Byte × Int)) (rv : RedundancyVars) (transition : Bool)
    (pcm_transition : PCM) (off frame_size audiosize mode F2_5 F5 : Int) : DecodeOut :=
  let ch := v.st.channels
  let red_data : Option (List Byte × Int) := data.map (fun d => (d.1, d.2 + rv.len))
  -- 5 ms redundant frame for SILK->CELT
  let post : Bool := decide (rv.redundancy ≠ 0 ∧ rv.celt_to_silk = 0)
  let s1 := celt_ctl ext v.st .OPUS_RESET_STATE
  let s2 := celt_ctl ext s1 (.CELT_SET_START_BAND 0)
  let c := ext.celt_decode_with_ec s2.celt_dec red_data rv.redundancy_bytes
    v.redundant_audio 0 F5 none 0
  let g := ext.celt_decoder_ctl c.celt_dec .OPUS_GET_FINAL_RANGE
  let st1 : OpusDecoder := if post then { s2 with celt_dec := g.celt_dec } else v.st
  let redundant_audio : PCM := if post then c.pcm else v.redundant_audio
  let redundant_rng : Nat := if post then g.value.toNat else v.redundant_rng
  let pcm1 : PCM := if post then
      smooth_fade v.pcm (off + ch * (frame_size - F2_5)) redundant_audio (ch * F2_5)
        v.pcm (off + ch * (frame_size - F2_5)) F2_5 ch v.window st1.Fs
    else v.pcm
  let pre : Bool := decide (rv.redundancy ≠ 0 ∧ rv.celt_to_silk ≠ 0)
  let pcm2 : PCM := if pre then
      smooth_fade redundant_audio (ch * F2_5)
        (redundant_copy_outer redundant_audio off ch F2_5 ch.toNat 0 pcm1) (off + ch * F2_5)
        (redundant_copy_outer redundant_audio off ch F2_5 ch.toNat 0 pcm1) (off + ch * F2_5)
        F2_5 ch v.window st1.Fs
    else pcm1
  let pcm3 : PCM := if transition then
      if audiosize ≥ F5 then
        smooth_fade pcm_transition (ch * F2_5)
          (copy_loop pcm_transition 0 off (ch * F2_5).toNat 0 pcm2) (off + ch * F2_5)
          (copy_loop pcm_transition 0 off (ch * F2_5).toNat 0 pcm2) (off + ch * F2_5)
          F2_5 ch v.window st1.Fs
      else smooth_fade pcm_transition 0 pcm2 off pcm2 off F2_5 ch v.window st1.Fs
    else pcm2
  let pcm4 : PCM := if st1.decode_gain ≠ 0 then
      gain_loop ext (ext.gain_of st1.decode_gain) off (frame_size * ch).toNat 0 pcm3
    else pcm3
  let st2 : OpusDecoder :=
    { st1 with
      rangeFinal := if rv.len ≤ 1 then 0 else v.dec.rng ^^^ redundant_rng,
      prev_mode := mode,
      prev_redundancy := if rv.redundancy ≠ 0 ∧ rv.celt_to_silk = 0 then 1 else 0 }
  ⟨if v.celt_ret < 0 then v.celt_ret else audiosize, st2, pcm4⟩

/-- The part of `opus_decode_frame` after the choice of `audiosize`, `mode` and
`bandwidth` (lines 291-586); `self` is the recursive call
`opus_decode_frame(st, NULL, 0, pcm, frame_size, 0)`, whose return value the source
ignores here. -/
def frame_main (ext : Engines) (self : OpusDecoder → PCM → Int → Int → Option DecodeOut)
    (st : OpusDecoder) (data : Option (List Byte × Int)) (len : Int) (pcm : PCM)
    (off frame_size decode_fec audiosize mode bandwidth : Int) (dec : ec_dec)
    (F2_5 F5 F10 F20 : Int) : Option DecodeOut :=
  let celt_accum : Bool := decide (mode ≠ MODE_CELT_ONLY ∧ frame_size ≥ F10)
  let transition0 : Bool := decide (data.isSome ∧ st.prev_mode > 0 ∧
    ((mode = MODE_CELT_ONLY ∧ st.prev_mode ≠ MODE_CELT_ONLY ∧ st.prev_redundancy = 0)
      ∨ (mode ≠ MODE_CELT_ONLY ∧ st.prev_mode = MODE_CELT_ONLY)))
  let t1 : Option (OpusDecoder × PCM) :=
    if transition0 ∧ mode = MODE_CELT_ONLY then
      (self st ext.stack_pcm 0 (IMIN F5 audiosize)).map (fun r => (r.st, r.pcm))
    else some (st, ext.stack_pcm)
  match t1 with
  | none => none
  | some (st1, pcm_transition1) =>
    if audiosize > frame_size then some ⟨OpusError.OPUS_BAD_ARG.toInt, st1, pcm⟩
    else
      let s2 : Option (Except DecodeOut (OpusDecoder × ec_dec × PCM × PCM)) :=
        if mode ≠ MODE_CELT_ONLY then
          frame_silk_stage ext st1 data mode bandwidth audiosize audiosize decode_fec
            celt_accum dec pcm off ext.stack_pcm
        else some (.ok (st1, dec, pcm, ext.stack_pcm))
      match s2 with
      | none => none
      | some (.error out) => some out
      | some (.ok (st2, dec2, pcm2, pcm_silk)) =>
        let rv := frame_redundancy ext st2 data mode len decode_fec dec2
        let transition : Bool := transition0 && decide (rv.redundancy = 0)
        let t3 : Option (OpusDecoder × PCM) :=
          if transition ∧ mode ≠ MODE_CELT_ONLY then
            (self st2 ext.stack_pcm 0 (IMIN F5 audiosize)).map (fun r => (r.st, r.pcm))
          else some (st2, pcm_transition1)
        match t3 with
        | none => none
        | some (st3, pcm_transition) =>
          some (frame_final_stage ext
            (frame_celt_stage ext st3 data mode bandwidth audiosize decode_fec celt_accum
              rv pcm2 off pcm_silk F2_5 F5 F20)
            data rv transition pcm_transition off audiosize audiosize mode F2_5 F5)

/-- The body of `opus_decode_frame(st, data, len, pcm, frame_size, decode_fec)`,
with `self` for its recursive calls; `data` is a buffer and an offset, or `NULL`,
and `pcm` a memory and the offset `off`. -/
def opus_decode_frame_body (ext : Engines)
    (self : OpusDecoder → PCM → Int → Int → Option DecodeOut)
    (st : OpusDecoder) (data : Option (List Byte × Int)) (len : Int) (pcm : PCM)
    (off frame_size decode_fec : Int) : Option DecodeOut :=
  let F20 := st.Fs.tdiv 50
  let F10 := F20 >>> (1 : Nat)
  let F5 := F10 >>> (1 : Nat)
  let F2_5 := F5 >>> (1 : Nat)
  if frame_size < F2_5 then some ⟨OpusError.OPUS_BUFFER_TOO_SMALL.toInt, st, pcm⟩
  else
    let frame_size1 := IMIN frame_size (st.Fs.tdiv 25 * 3)
    let data1 : Option (List Byte × Int) := if len ≤ 1 then none else data
    let frame_size2 := if len ≤ 1 then IMIN frame_size1 st.frame_size else frame_size1
    match data1 with
    | some d =>
      frame_main ext self st (some d) len pcm off frame_size2 decode_fec st.frame_size
        st.mode st.bandwidth (ext.ec_dec_init d.1 d.2 len) F2_5 F5 F10 F20
    | none =>
      if st.prev_mode = 0 then
        some ⟨frame_size2, st, zero_loop off (frame_size2 * st.channels).toNat 0 pcm⟩
      else if frame_size2 > F20 then
        plc_chunk_loop self F20 frame_size2 (frame_size2.toNat + 1) st pcm off frame_size2
      else
        let audiosize : Int :=
          if frame_size2 < F20 then
            if frame_size2 > F10 then F10
            else if st.prev_mode ≠ MODE_SILK_ONLY ∧ frame_size2 > F5 ∧ frame_size2 < F10 then F5
            else frame_size2
          else frame_size2
        frame_main ext self st none len pcm off frame_size2 decode_fec audiosize
          st.prev_mode 0 ext.dec_uninit F2_5 F5 F10 F20

/-- The function `opus_decode_frame` with its recursion unfolded to the given
nesting depth. -/
def opus_decode_frame_depth (ext : Engines) :
    Nat → OpusDecoder → Option (List Byte × Int) → Int → PCM → Int → Int → Int →
      Option DecodeOut
  | 0 => fun _ _ _ _ _ _ _ => none
  | d + 1 => fun st data len pcm off frame_size decode_fec =>
    opus_decode_frame_body ext
      (fun st1 pcm1 off1 fs1 => opus_decode_frame_depth ext d st1 none 0 pcm1 off1 fs1 0)
      st data len pcm off frame_size decode_fec

/-- The function `opus_decode_frame`. Its recursive calls are concealment calls,
nested at most three deep (a frame with data, the concealment of the transition,
one 20 ms chunk of it). -/
def opus_decode_frame (ext : Engines) (st : OpusDecoder)
    (data : Option (List Byte × Int)) (len : Int) (pcm : PCM)
    (off frame_size decode_fec : Int) : Option DecodeOut :=
  opus_decode_frame_depth ext 3 st data len pcm off frame_size decode_fec

/-- The `do ... while (pcm_count < frame_size)` loop of `opus_decode_native` for a
lost packet (lines 613-627): iterations left, then `st`, the memory behind `pcm`
and `pcm_count`. -/
def native_conceal_loop (ext : Engines) (frame_size : Int) :
    Nat → OpusDecoder → PCM → Int → Option DecodeOut
  | 0, _, _, _ => none
  | n + 1, st, pcm, pcm_count =>
    match opus_decode_frame ext st none 0 pcm (pcm_count * st.channels)
        (frame_size - pcm_count) 0 with
    | none => none
    | some r =>
      if r.ret < 0 then some r
      else if pcm_count + r.ret < frame_size then
        native_conceal_loop ext frame_size n r.st r.pcm (pcm_count + r.ret)
      else
        some ⟨pcm_count + r.ret,
          { r.st with last_packet_duration := pcm_count + r.ret }, r.pcm⟩

/-- The call `opus_decode_native(st, NULL, 0, pcm, frame_size, 0, 0, NULL,
soft_clip)` that `opus_decode_native` makes on itself (lines 602-627 with
`decode_fec = 0`). -/
def opus_decode_native_null (ext : Engines) (st : OpusDecoder) (pcm : PCM)
    (frame_size : Int) : Option DecodeOut :=
  if frame_size.tmod (st.Fs.tdiv 400) ≠ 0 then some ⟨OpusError.OPUS_BAD_ARG.toInt, st, pcm⟩
  else native_conceal_loop ext frame_size (frame_size.toNat + 1) st pcm 0

/-- The loop `for (i=0;i<count;i++)` of `opus_decode_native` (lines 703-720):
iterations left, `i`, then `st`, the memory behind `pcm`, the offset of `data` and
`nb_samples`. -/
def native_frames_loop (ext : Engines) (buf : List Byte) (size : List Int)
    (frame_size : Int) : Nat → Nat → OpusDecoder → PCM → Int → Int → Option DecodeOut
  | 0, _, st, pcm, _, nb_samples =>
    some ⟨nb_samples, { st with last_packet_duration := nb_samples }, pcm⟩
  | n + 1, i, st, pcm, d, nb_samples =>
    match opus_decode_frame ext st (some (buf, d)) (size.getD i 0) pcm
        (nb_samples * st.channels) (frame_size - nb_samples) 0 with
    | none => none
    | some r =>
      if r.ret < 0 then some r
      else native_frames_loop ext buf size frame_size n (i + 1) r.st r.pcm
        (d + size.getD i 0) (nb_samples + r.ret)

/-- The function `opus_decode_native(st, data, len, pcm, frame_size, decode_fec,
self_delimited, packet_offset, soft_clip)`; `data` is the packet buffer or `NULL`,
and the value stored through `packet_offset` is the one of
`opus_packet_parse_impl`. -/
def opus_decode_native (ext : Engines) (st : OpusDecoder) (data : Option (List Byte))
    (len : Int) (pcm : PCM) (frame_size decode_fec : Int) (self_delimited : Bool)
    (soft_clip : Int) : Option DecodeOut :=
  if decode_fec < 0 ∨ decode_fec > 1 then some ⟨OpusError.OPUS_BAD_ARG.toInt, st, pcm⟩
  else if (decode_fec ≠ 0 ∨ len = 0 ∨ data.isNone) ∧
      frame_size.tmod (st.Fs.tdiv 400) ≠ 0 then
    some ⟨OpusError.OPUS_BAD_ARG.toInt, st, pcm⟩
  else
    match data with
    | none => native_conceal_loop ext frame_size (frame_size.toNat + 1) st pcm 0
    | some buf =>
      if len = 0 then native_conceal_loop ext frame_size (frame_size.toNat + 1) st pcm 0
      else if len < 0 then some ⟨OpusError.OPUS_BAD_ARG.toInt, st, pcm⟩
      else
        let packet_mode := opus_packet_get_mode buf
        let packet_bandwidth := opus_packet_get_bandwidth buf
        let packet_frame_size := opus_packet_get_samples_per_frame buf st.Fs
        let packet_stream_channels := opus_packet_get_nb_channels buf
        match opus_packet_parse_impl buf len self_delimited with
        | .error e => some ⟨e.toInt, st, pcm⟩
        | .ok p =>
          if decode_fec ≠ 0 then
            if frame_size < packet_frame_size ∨ packet_mode = MODE_CELT_ONLY
                ∨ st.mode = MODE_CELT_ONLY then
              opus_decode_native_null ext st pcm frame_size
            else
              let duration_copy := st.last_packet_duration
              let pre : Option DecodeOut :=
                if frame_size - packet_frame_size ≠ 0 then
                  opus_decode_native_null ext st pcm (frame_size - packet_frame_size)
                else some ⟨0, st, pcm⟩
              match pre with
              | none => none
              | some r =>
                if r.ret < 0 then
                  some ⟨r.ret, { r.st with last_packet_duration := duration_copy }, r.pcm⟩
                else
                  let st1 : OpusDecoder :=
                    { r.st with mode := packet_mode, bandwidth := packet_bandwidth,
                                frame_size := packet_frame_size,
                                stream_channels := packet_stream_channels }
                  match opus_decode_frame ext st1 (some (buf, p.payload_offset))
                      (p.size.getD 0 0) r.pcm
                      (st1.channels * (frame_size - packet_frame_size))
                      packet_frame_size 1 with
                  | none => none
                  | some r2 =>
                    if r2.ret < 0 then some r2
                    else some ⟨frame_size,
                      { r2.st with last_packet_duration := frame_size }, r2.pcm⟩
          else if p.count * packet_frame_size > frame_size then
            some ⟨OpusError.OPUS_BUFFER_TOO_SMALL.toInt, st, pcm⟩
          else
            let st1 : OpusDecoder :=
              { st with mode := packet_mode, bandwidth := packet_bandwidth,
                        frame_size := packet_frame_size,
                        stream_channels := packet_stream_channels }
            native_frames_loop ext buf p.size frame_size p.count.toNat 0 st1 pcm
              p.payload_offset 0

/-- The function `opus_decode(st, data, len, pcm, frame_size, decode_fec)`. -/
def opus_decode (ext : Engines) (st : OpusDecoder) (data : Option (List Byte))
    (len : Int) (pcm : PCM) (frame_size decode_fec : Int) : Option DecodeOut :=
  if frame_size ≤ 0 then some ⟨OpusError.OPUS_BAD_ARG.toInt, st, pcm⟩
  else opus_decode_native ext st data len pcm frame_size decode_fec false 0

/-- The fields of the state that `opus_decode_frame` never assigns and never
hands to a collaborator for writing. -/
def OpusDecoder.fixed (st : OpusDecoder) :
    Int × Int × Int × Int × Int × Int × Int × Int × Int × Int × Int :=
  (st.celt_dec_offset, st.silk_dec_offset, st.channels, st.Fs, st.decode_gain, st.arch,
    st.stream_channels, st.bandwidth, st.mode, st.frame_size, st.last_packet_duration)

/-- A stand-in for the collaborators, used to evaluate the decoder on examples:
every call succeeds, leaves the memories as they are, and a sub-decoder reports
the number of samples it was asked for (at least one, for the SILK decoder). -/
def silent_engines : Engines where
  ec_dec_init := fun _ _ len => ⟨len, 0, []⟩
  ec_tell := fun _ => 0
  ec_dec_bit_logp := fun d _ => (d, 0)
  ec_dec_uint := fun d _ => (d, 0)
  silk_Get_Decoder_Size := (0, 16)
  silk_InitDecoder := fun s => (s, 0)
  silk_Decode := fun s dc _ _ dec pcm _ _ =>
    ⟨s, dc, dec, pcm, IMAX 1 ((dc.payloadSize_ms * dc.API_sampleRate).tdiv 1000), 0⟩
  celt_decoder_get_size := fun _ => 16
  celt_decoder_init := fun c _ _ => (c, 0)
  celt_decoder_ctl := fun c _ => ⟨c, 0, 0, fun _ => 0⟩
  celt_decode_with_ec := fun c _ _ pcm _ fs dec _ => ⟨c, dec.getD ⟨0, 0, []⟩, pcm, fs⟩
  gain_of := fun _ => 0
  MULT16_32_P16 := fun a _ => a
  opus_select_arch := 0
  align := fun x => x
  sizeof_OpusDecoder := 64
  dec_uninit := ⟨0, 0, []⟩
  stack_pcm := fun _ => 0

/-- A block of memory for an `OpusDecoder` before `opus_decoder_init`, used in
examples. -/
def blank_decoder : OpusDecoder :=
  ⟨0, 0, 0, 0, ⟨0, 0, 0, 0, 0, 0⟩, 0, 0, 0, 0, 0, 0, 0, 0, 0, 0, [], []⟩

/-- A decoder, used in examples, that has decoded a CELT frame: the freshly
initialised 48 kHz stereo decoder with `prev_mode` set to `MODE_CELT_ONLY`. -/
def celt_history_decoder : OpusDecoder :=
  { (opus_decoder_init silent_engines blank_decoder 48000 2).2 with
    prev_mode := MODE_CELT_ONLY }

/-! ## Control requests and reachable states (`opus_decoder.c`) -/

/-- The requests `opus_decoder_ctl` distinguishes. A request that hands over a
pointer carries whether the pointer is non-null; the numbers of the requests are
in `opus_defines.h`, which is not among the sources, and every number without a
`case` is `unknown`. -/
inductive CtlRequest where
  | OPUS_GET_BANDWIDTH_REQUEST (value : Bool)
  | OPUS_GET_FINAL_RANGE_REQUEST (value : Bool)
  | OPUS_RESET_STATE
  | OPUS_GET_SAMPLE_RATE_REQUEST (value : Bool)
  | OPUS_GET_PITCH_REQUEST (value : Bool)
  | OPUS_GET_GAIN_REQUEST (value : Bool)
  | OPUS_SET_GAIN_REQUEST (value : Int)
  | OPUS_GET_LAST_PACKET_DURATION_REQUEST (value : Bool)
  | OPUS_SET_PHASE_INVERSION_DISABLED_REQUEST (value : Int)
  | OPUS_GET_PHASE_INVERSION_DISABLED_REQUEST (value : Bool)
  | unknown (request : Int)
  deriving DecidableEq, Repr

/-- What an `opus_decoder_ctl` call leaves: the return value, the decoder state
and the value stored through the pointer argument, if one is stored. -/
structure DecoderCtlOut where
  ret : Int
  st : OpusDecoder
  value : Option Int

/-- The `OPUS_RESET_STATE` case of `opus_decoder_ctl` (lines 770-781): the fields
from `stream_channels` to the end of the structure are cleared, both sub-decoders
are reset, and `stream_channels` and `frame_size` are set again. -/
def opus_decoder_reset (ext : Engines) (st : OpusDecoder) : OpusDecoder :=
  let st1 : OpusDecoder :=
    { st with stream_channels := 0, bandwidth := 0, mode := 0, prev_mode := 0,
              frame_size := 0, prev_redundancy := 0, last_packet_duration := 0,
              rangeFinal := 0 }
  let st2 := celt_ctl ext st1 .OPUS_RESET_STATE
  let st3 : OpusDecoder := { st2 with silk_dec := (ext.silk_InitDecoder st2.silk_dec).1 }
  { st3 with stream_channels := st3.channels, frame_size := st3.Fs.tdiv 400 }

/-- The function `opus_decoder_ctl(st, request, ...)`. -/
def opus_decoder_ctl (ext : Engines) (st : OpusDecoder) : CtlRequest → DecoderCtlOut
  | .OPUS_GET_BANDWIDTH_REQUEST value =>
    if ¬ value then ⟨OpusError.OPUS_BAD_ARG.toInt, st, none⟩
    else ⟨0, st, some st.bandwidth⟩
  | .OPUS_GET_FINAL_RANGE_REQUEST value =>
    if ¬ value then ⟨OpusError.OPUS_BAD_ARG.toInt, st, none⟩
    else ⟨0, st, some (st.rangeFinal : Int)⟩
  | .OPUS_RESET_STATE => ⟨0, opus_decoder_reset ext st, none⟩
  | .OPUS_GET_SAMPLE_RATE_REQUEST value =>
    if ¬ value then ⟨OpusError.OPUS_BAD_ARG.toInt, st, none⟩
    else ⟨0, st, some st.Fs⟩
  | .OPUS_GET_PITCH_REQUEST value =>
    if ¬ value then ⟨OpusError.OPUS_BAD_ARG.toInt, st, none⟩
    else if st.prev_mode = MODE_CELT_ONLY then
      let r := ext.celt_decoder_ctl st.celt_dec .OPUS_GET_PITCH
      ⟨r.ret, { st with celt_dec := r.celt_dec }, some r.value⟩
    else ⟨0, st, some st.DecControl.prevPitchLag⟩
  | .OPUS_GET_GAIN_REQUEST value =>
    if ¬ value then ⟨OpusError.OPUS_BAD_ARG.toInt, st, none⟩
    else ⟨0, st, some st.decode_gain⟩
  | .OPUS_SET_GAIN_REQUEST value =>
    if value < -32768 ∨ value > 32767 then ⟨OpusError.OPUS_BAD_ARG.toInt, st, none⟩
    else ⟨0, { st with decode_gain := value }, none⟩
  | .OPUS_GET_LAST_PACKET_DURATION_REQUEST value =>
    if ¬ value then ⟨OpusError.OPUS_BAD_ARG.toInt, st, none⟩
    else ⟨0, st, some st.last_packet_duration⟩
  | .OPUS_SET_PHASE_INVERSION_DISABLED_REQUEST value =>
    if value < 0 ∨ value > 1 then ⟨OpusError.OPUS_BAD_ARG.toInt, st, none⟩
    else
      let r := ext.celt_decoder_ctl st.celt_dec (.OPUS_SET_PHASE_INVERSION_DISABLED value)
      ⟨r.ret, { st with celt_dec := r.celt_dec }, none⟩
  | .OPUS_GET_PHASE_INVERSION_DISABLED_REQUEST value =>
    if ¬ value then ⟨OpusError.OPUS_BAD_ARG.toInt, st, none⟩
    else
      let r := ext.celt_decoder_ctl st.celt_dec .OPUS_GET_PHASE_INVERSION_DISABLED
      ⟨r.ret, { st with celt_dec := r.celt_dec }, some r.value⟩
  | .unknown _ => ⟨OpusError.OPUS_UNIMPLEMENTED.toInt, st, none⟩

/-- The decoder states a caller can reach: the state left by a successful
`opus_decoder_init`, and from a reachable state the one left by any call of
`opus_decode` that returns or by any call of `opus_decoder_ctl`. -/
inductive Reachable (ext : Engines) : OpusDecoder → Prop where
  | init (st0 st : OpusDecoder) (Fs channels : Int) :
    opus_decoder_init ext st0 Fs channels = (0, st) → Reachable ext st
  | decode (st : OpusDecoder) (data : Option (List Byte)) (len : Int) (pcm : PCM)
      (frame_size decode_fec : Int) (out : DecodeOut) :
    Reachable ext st → opus_decode ext st data len pcm frame_size decode_fec = some out →
    Reachable ext out.st
  | ctl (st : OpusDecoder) (req : CtlRequest) :
    Reachable ext st → Reachable ext (opus_decoder_ctl ext st req).st

/-- A stand-in for the collaborators whose CELT decoder checks its arguments,
used in examples at 48 kHz: as `silent_engines`, but `celt_decode_with_ec` reports
`OPUS_BAD_ARG` unless it is asked for 120, 240, 480 or 960 samples (2.5, 5, 10 or
20 ms) with a length from 0 to 1275. -/
def strict_engines : Engines :=
  { silent_engines with
    celt_decode_with_ec := fun c _ len pcm _ fs dec _ =>
      ⟨c, dec.getD ⟨0, 0, []⟩, pcm,
        if (fs = 120 ∨ fs = 240 ∨ fs = 480 ∨ fs = 960) ∧ 0 ≤ len ∧ len ≤ 1275 then fs
        else OpusError.OPUS_BAD_ARG.toInt⟩ }

/-- The fields of the state that a decode call changes only by committing the
parameters of a packet: those of `OpusDecoder.fixed` without
`last_packet_duration`. -/
def OpusDecoder.config (st : OpusDecoder) :
    Int × Int × Int × Int × Int × Int × Int × Int × Int × Int :=
  (st.celt_dec_offset, st.silk_dec_offset, st.channels, st.Fs, st.decode_gain, st.arch,
    st.stream_channels, st.bandwidth, st.mode, st.frame_size)

/-- The decoder states a caller can reach without a frame of more than one byte
having been handed to `opus_decode_frame`: from a successful
`opus_decoder_init`, by calls of `opus_decoder_ctl` and by calls of `opus_decode`
that return and whose packet is absent, empty, or made of frames of at most one
byte. -/
inductive NoRealFrame (ext : Engines) : OpusDecoder → Prop where
  | init (st0 st : OpusDecoder) (Fs channels : Int) :
    opus_decoder_init ext st0 Fs channels = (0, st) → NoRealFrame ext st
  | decode (st : OpusDecoder) (data : Option (List Byte)) (len : Int) (pcm : PCM)
      (frame_size decode_fec : Int) (out : DecodeOut) :
    NoRealFrame ext st →
    (data = none ∨ len = 0 ∨ ∀ buf p, data = some buf →
      opus_packet_parse_impl buf len false = .ok p → ∀ j : Nat, p.size.getD j 0 ≤ 1) →
    opus_decode ext st data len pcm frame_size decode_fec = some out →
    NoRealFrame ext out.st
  | ctl (st : OpusDecoder) (req : CtlRequest) :
    NoRealFrame ext st → NoRealFrame ext (opus_decoder_ctl ext st req).st







/-! ## The coefficient fit `silk_LPC_fit` (`silk/LPC_fit.c`)

An array is a function from indices to values. The macros of `silk/SigProc_FIX.h`
and `silk/typedef.h` and the function `silk_bwexpander_32` are not among the
sources: the macros are modelled, the function is a parameter. -/

/-- Modelled from the spec: the constant `silk_int16_MAX`, the largest `int16_t`. -/
def silk_int16_MAX : Int := 32767

/-- Modelled from the spec: the constant `silk_int16_MIN`, the smallest `int16_t`. -/
def silk_int16_MIN : Int := -32768

/-- Modelled from the spec: the macro `silk_abs(a)`, `(a > 0) ? a : -a` on an
`int32_t`. -/
def silk_abs (a : Int) : Int := if a > 0 then a else int32 (-a)

/-- Modelled from the spec: the macro `silk_min(a, b)`, `(a < b) ? a : b`. -/
def silk_min (a b : Int) : Int := if a < b then a else b

/-- Modelled from the spec: the macro `silk_RSHIFT_ROUND(a, shift)`,
`shift == 1 ? (a >> 1) + (a & 1) : ((a >> (shift - 1)) + 1) >> 1`; the low bit
`a & 1` of a two's complement value is `a mod 2`. -/
def silk_RSHIFT_ROUND (a shift : Int) : Int :=
  if shift = 1 then (a >>> (1 : Nat)) + a % 2
  else ((a >>> (shift - 1).toNat) + 1) >>> (1 : Nat)

/-- Modelled from the spec: the macro `silk_SAT16(a)`, the clamp to
`silk_int16_MIN..silk_int16_MAX`. -/
def silk_SAT16 (a : Int) : Int :=
  if a > silk_int16_MAX then silk_int16_MAX
  else if a < silk_int16_MIN then silk_int16_MIN
  else a

/-- Modelled from the spec: the macro `silk_LSHIFT(a, shift)`, the left shift of
the 32-bit pattern, read as an `int32_t`. -/
def silk_LSHIFT (a shift : Int) : Int := int32 (a * 2 ^ shift.toNat)

/-- Modelled from the spec: the macro `silk_RSHIFT32(a, shift)`, the arithmetic
right shift. -/
def silk_RSHIFT32 (a shift : Int) : Int := a >>> shift.toNat

/-- Modelled from the spec: the macro `silk_MUL(a, b)`, the 32-bit product. -/
def silk_MUL (a b : Int) : Int := int32 (a * b)

/-- Modelled from the spec: the macro `silk_DIV32(a, b)`, the 32-bit quotient
(rounded towards zero). -/
def silk_DIV32 (a b : Int) : Int := int32 (a.tdiv b)

/-- Modelled from the spec: the value of `SILK_FIX_CONST(0.999, 16)`,
`(int32_t)(0.999 * 65536 + 0.5)`. -/
def SILK_FIX_CONST_0_999_Q16 : Int := 65470

/-- The loop of `silk_LPC_fit` that finds the maximum absolute value and its
index (lines 46-52): iterations left, `k`, `maxabs`, `idx`. -/
def lpc_maxabs_loop (a_QIN : Int → Int) : Nat → Int → Int → Int → Int × Int
  | 0, _, maxabs, idx => (maxabs, idx)
  | n + 1, k, maxabs, idx =>
    if silk_abs (a_QIN k) > maxabs then lpc_maxabs_loop a_QIN n (k + 1) (silk_abs (a_QIN k)) k
    else lpc_maxabs_loop a_QIN n (k + 1) maxabs idx

/-- The loop `for( i = 0; i < 10; i++ )` of `silk_LPC_fit` (lines 43-64):
iterations left, `a_QIN`, `idx`. The result is whether the loop ran to `i == 10`,
and `a_QIN`. -/
def lpc_fit_loop (silk_bwexpander_32 : (Int → Int) → Int → Int → Int → Int)
    (QOUT QIN d : Int) : Nat → (Int → Int) → Int → Bool × (Int → Int)
  | 0, a_QIN, _ => (true, a_QIN)
  | n + 1, a_QIN, idx =>
    let m := lpc_maxabs_loop a_QIN d.toNat 0 0 idx
    let maxabs := silk_RSHIFT_ROUND m.1 (QIN - QOUT)
    if maxabs > silk_int16_MAX then
      let maxabs1 := silk_min maxabs 163838
      let chirp_Q16 := int32 (SILK_FIX_CONST_0_999_Q16
        - silk_DIV32 (silk_LSHIFT (maxabs1 - silk_int16_MAX) 14)
            (silk_RSHIFT32 (silk_MUL maxabs1 (m.2 + 1)) 2))
      lpc_fit_loop silk_bwexpander_32 QOUT QIN d n (silk_bwexpander_32 a_QIN d chirp_Q16) m.2
    else (false, a_QIN)

/-- The loop of `silk_LPC_fit` that clips the coefficients (lines 68-71):
iterations left, `k`, `a_QOUT`, `a_QIN`. -/
def lpc_clip_loop (QOUT QIN : Int) :
    Nat → Int → (Int → Int) → (Int → Int) → (Int → Int) × (Int → Int)
  | 0, _, a_QOUT, a_QIN => (a_QOUT, a_QIN)
  | n + 1, k, a_QOUT, a_QIN =>
    lpc_clip_loop QOUT QIN n (k + 1)
      (fun j => if j = k then
          int16 (silk_SAT16 (silk_RSHIFT_ROUND (a_QIN k) (QIN - QOUT)))
        else a_QOUT j)
      (fun j => if j = k then
          silk_LSHIFT (int16 (silk_SAT16 (silk_RSHIFT_ROUND (a_QIN k) (QIN - QOUT))))
            (QIN - QOUT)
        else a_QIN j)

/-- The loop of `silk_LPC_fit` that rounds the coefficients (lines 73-75):
iterations left, `k`, `a_QOUT`. -/
def lpc_round_loop (a_QIN : Int → Int) (QOUT QIN : Int) : Nat → Int → (Int → Int) → Int → Int
  | 0, _, a_QOUT => a_QOUT
  | n + 1, k, a_QOUT =>
    lpc_round_loop a_QIN QOUT QIN n (k + 1)
      (fun j => if j = k then int16 (silk_RSHIFT_ROUND (a_QIN k) (QIN - QOUT)) else a_QOUT j)

/-- The function `silk_LPC_fit(a_QOUT, a_QIN, QOUT, QIN, d)`: the arrays `a_QOUT`
and `a_QIN` after the call. -/
def silk_LPC_fit (silk_bwexpander_32 : (Int → Int) → Int → Int → Int → Int)
    (a_QOUT a_QIN : Int → Int) (QOUT QIN d : Int) : (Int → Int) × (Int → Int) :=
  let r := lpc_fit_loop silk_bwexpander_32 QOUT QIN d 10 a_QIN 0
  if r.1 then lpc_clip_loop QOUT QIN d.toNat 0 a_QOUT r.2
  else (lpc_round_loop r.2 QOUT QIN d.toNat 0 a_QOUT, r.2)

/-! ## Basic facts -/

theorem rd_lt (data : List Byte) (i : Int) : rd data i < 256 := by
  unfold rd
  split
  · omega
  · exact (data.getD i.toNat 0).isLt

theorem int16_id (x : Int) (h0 : -32768 ≤ x) (h1 : x ≤ 32767) : int16 x = x := by
  unfold int16
  omega

theorem int32_id (x : Int) (h0 : -2147483648 ≤ x) (h1 : x < 2147483648) : int32 x = x := by
  unfold int32
  omega

theorem toByte_val (x : Int) (h0 : 0 ≤ x) (h1 : x < 256) : ((toByte x).val : Int) = x := by
  simp only [toByte]
  omega

/-- What `parse_size` can return: either the failure pair, or a byte count of 1
or 2 that fits in `len` together with a size in `0..1275`. -/
theorem parse_size_cases (data : List Byte) (pos len : Int) :
    (parse_size data pos len = (-1, -1) ∧ (len < 1 ∨ (252 ≤ rd data pos ∧ len < 2))) ∨
    (parse_size data pos len = (1, (rd data pos : Int)) ∧ 1 ≤ len ∧ rd data pos < 252) ∨
    (parse_size data pos len = (2, 4 * (rd data (pos + 1) : Int) + (rd data pos : Int)) ∧
       2 ≤ len ∧ 252 ≤ rd data pos) := by
  have h0 := rd_lt data pos
  have h1 := rd_lt data (pos + 1)
  unfold parse_size
  by_cases hl : len < 1
  · simp [hl]
  · by_cases hb : rd data pos < 252
    · right; left
      rw [if_neg hl, if_pos hb, int16_id _ (by omega) (by omega)]
      exact ⟨rfl, by omega, hb⟩
    · by_cases hl2 : len < 2
      · left
        rw [if_neg hl, if_neg hb, if_pos hl2]
        exact ⟨rfl, Or.inr ⟨by omega, hl2⟩⟩
      · right; right
        rw [if_neg hl, if_neg hb, if_neg hl2, int16_id _ (by omega) (by omega)]
        exact ⟨rfl, by omega, by omega⟩

theorem parse_size_bounds (data : List Byte) (pos len : Int)
    (h : ¬ ((parse_size data pos len).2 < 0)) :
    1 ≤ (parse_size data pos len).1 ∧ (parse_size data pos len).1 ≤ 2 ∧
    (parse_size data pos len).1 ≤ len ∧
    0 ≤ (parse_size data pos len).2 ∧ (parse_size data pos len).2 ≤ 1275 := by
  have h0 := rd_lt data pos
  have h1 := rd_lt data (pos + 1)
  rcases parse_size_cases data pos len with ⟨he, _⟩ | ⟨he, hl, hb⟩ | ⟨he, hl, hb⟩
  · rw [he] at h; simp at h
  · rw [he]; simp only; omega
  · rw [he]; simp only; omega

/-! ## The size-field codec -/

/-- C2: for every size in `0..251`, `encode_size` returns 1 and writes exactly one
byte, and `parse_size` on that byte (whatever follows it, with `len >= 1`) returns
1 consumed byte and stores the original size. -/
theorem encode_size_one_byte_roundtrip (size len : Int) (rest : List Byte)
    (h0 : 0 ≤ size) (h1 : size < 252) (hl : 1 ≤ len) :
    (encode_size size).1 = 1 ∧ (encode_size size).2.length = 1 ∧
    parse_size ((encode_size size).2 ++ rest) 0 len = (1, size) := by
  have hv : ((toByte size).val : Int) = size := toByte_val size h0 (by omega)
  have henc : encode_size size = (1, [toByte size]) := by
    unfold encode_size
    rw [if_pos h1]
  rw [henc]
  refine ⟨rfl, rfl, ?_⟩
  have hr : rd ([toByte size] ++ rest) 0 = (toByte size).val := by
    simp [rd]
  unfold parse_size
  rw [if_neg (by omega), hr, if_pos (by omega), int16_id _ (by omega) (by omega), hv]

theorem encode_size_one_byte_roundtrip_witness :
    (encode_size 251).1 = 1 ∧ (encode_size 251).2.length = 1 ∧
    parse_size ((encode_size 251).2 ++ [7, 9]) 0 3 = (1, 251) :=
  encode_size_one_byte_roundtrip 251 3 [7, 9] (by decide) (by decide) (by decide)

/-- C3 fails as stated: for `size = 1276` the second byte is truncated to 8 bits
(`(1276 - 252) >> 2 = 256` is stored as `0`), so `parse_size` returns 252. -/
theorem encode_size_two_byte_counterexample :
    (252 : Int) ≤ 1276 ∧ encode_size 1276 = (2, [252, 0]) ∧
    ((1276 : Int) - 252) >>> (2 : Nat) = 256 ∧
    parse_size (encode_size 1276).2 0 2 = (2, 252) ∧
    ¬ (parse_size (encode_size 1276).2 0 2).2 = 1276 := by
  decide


theorem and_three (n : Nat) : n &&& 3 = n % 4 :=
  Nat.and_pow_two_sub_one_eq_mod n 2

theorem shiftRight_two (m : Int) : m >>> (2 : Nat) = m / 4 := by
  rw [Int.shiftRight_eq_div_pow]
  rfl

/-- C3 (amended): for every size in `252..1275`, `encode_size` returns 2 and
writes exactly two bytes, `byte0 = 252 + (size & 3)` and
`byte1 = (size - byte0) >> 2`, and `parse_size` on those two bytes (whatever
follows them, with `len >= 2`) returns 2 consumed bytes and the decoded value
`4*byte1 + byte0`, which equals `size`. -/
theorem encode_size_two_byte_roundtrip (size len : Int) (rest : List Byte)
    (h0 : 252 ≤ size) (h1 : size ≤ 1275) (hl : 2 ≤ len) :
    (encode_size size).1 = 2 ∧ (encode_size size).2.length = 2 ∧
    rd (encode_size size).2 0 = 252 + (size.toNat &&& 0x3) ∧
    (rd (encode_size size).2 1 : Int)
      = (size - (rd (encode_size size).2 0 : Int)) >>> (2 : Nat) ∧
    parse_size ((encode_size size).2 ++ rest) 0 len
      = (2, 4 * (rd (encode_size size).2 1 : Int) + (rd (encode_size size).2 0 : Int)) ∧
    4 * (rd (encode_size size).2 1 : Int) + (rd (encode_size size).2 0 : Int) = size := by
  have hand : size.toNat &&& 0x3 = size.toNat % 4 := and_three _
  have hd0 : ((toByte (252 + ((size.toNat &&& 0x3 : Nat) : Int))).val : Int)
      = 252 + ((size.toNat &&& 0x3 : Nat) : Int) :=
    toByte_val _ (by omega) (by omega)
  have hd0n : (toByte (252 + ((size.toNat &&& 0x3 : Nat) : Int))).val
      = 252 + (size.toNat &&& 0x3) := by
    omega
  have hsh : (size - ((toByte (252 + ((size.toNat &&& 0x3 : Nat) : Int))).val : Int))
        >>> (2 : Nat)
      = (size - ((toByte (252 + ((size.toNat &&& 0x3 : Nat) : Int))).val : Int)) / 4 :=
    shiftRight_two _
  have hd1 : ((toByte ((size - ((toByte (252 + ((size.toNat &&& 0x3 : Nat) : Int))).val : Int))
        >>> (2 : Nat))).val : Int)
      = (size - ((toByte (252 + ((size.toNat &&& 0x3 : Nat) : Int))).val : Int))
        >>> (2 : Nat) :=
    toByte_val _ (by omega) (by omega)
  have henc : encode_size size
      = ((2 : Int), [toByte (252 + ((size.toNat &&& 0x3 : Nat) : Int)),
             toByte ((size - ((toByte (252 + ((size.toNat &&& 0x3 : Nat) : Int))).val : Int))
               >>> (2 : Nat))]) := by
    unfold encode_size
    rw [if_neg (by omega)]
  have hw0 : ∀ a b : Byte, rd [a, b] 0 = a.val := by
    intro a b; simp [rd]
  have hw1 : ∀ a b : Byte, rd [a, b] 1 = b.val := by
    intro a b; simp [rd]
  have hr0 : ∀ a b : Byte, rd ([a, b] ++ rest) 0 = a.val := by
    intro a b; simp [rd]
  have hr1 : ∀ a b : Byte, rd ([a, b] ++ rest) (0 + 1) = b.val := by
    intro a b; simp [rd]
  rw [henc]
  refine ⟨rfl, rfl, (hw0 _ _).trans hd0n, ?_, ?_, ?_⟩
  · show ((rd [_, _] 1 : Nat) : Int) = (size - ((rd [_, _] 0 : Nat) : Int)) >>> (2 : Nat)
    rw [hw0, hw1]
    exact hd1
  · show parse_size ([_, _] ++ rest) 0 len
      = (2, 4 * ((rd [_, _] 1 : Nat) : Int) + ((rd [_, _] 0 : Nat) : Int))
    rw [hw0, hw1]
    unfold parse_size
    rw [if_neg (by omega), hr0, if_neg (by omega), if_neg (by omega), hr1,
      int16_id _ (by omega) (by omega)]
  · show 4 * ((rd [_, _] 1 : Nat) : Int) + ((rd [_, _] 0 : Nat) : Int) = size
    rw [hw0, hw1]
    omega

theorem encode_size_two_byte_roundtrip_witness :
    (encode_size 1275).1 = 2 ∧ (encode_size 1275).2.length = 2 ∧
    rd (encode_size 1275).2 0 = 252 + ((1275 : Int).toNat &&& 0x3) ∧
    (rd (encode_size 1275).2 1 : Int)
      = ((1275 : Int) - (rd (encode_size 1275).2 0 : Int)) >>> (2 : Nat) ∧
    parse_size ((encode_size 1275).2 ++ [1, 2]) 0 4
      = (2, 4 * (rd (encode_size 1275).2 1 : Int) + (rd (encode_size 1275).2 0 : Int)) ∧
    4 * (rd (encode_size 1275).2 1 : Int) + (rd (encode_size 1275).2 0 : Int) = 1275 :=
  encode_size_two_byte_roundtrip 1275 4 [1, 2] (by decide) (by decide) (by decide)

/-! ## The loops of the parser -/

theorem frames_loop_snd (size : List Int) :
    ∀ (n i : Nat) (pos : Int) (fr : List Int), i + n = size.length →
      (frames_loop size n i pos fr).2 = pos + (size.drop i).sum := by
  intro n
  induction n with
  | zero =>
    intro i pos fr h
    have hi : size.length ≤ i := by omega
    simp [frames_loop, List.drop_eq_nil_of_le hi]
  | succ n ih =>
    intro i pos fr h
    have hi : i < size.length := by omega
    rw [frames_loop, ih (i + 1) _ _ (by omega), List.drop_eq_getElem_cons hi,
      List.getD_eq_getElem _ _ hi, List.sum_cons]
    omega

/-- The iteration bound of `padding_loop` is adequate: any two bounds that are at
least `len` give the same result, since an iteration needs `len > 0` and lowers
`len`. -/
theorem padding_loop_bound :
    ∀ (n m : Nat) (data : List Byte) (pos len pad : Int), len ≤ n → len ≤ m →
      padding_loop n data pos len pad = padding_loop m data pos len pad := by
  intro n
  induction n with
  | zero =>
    intro m data pos len pad hn hm
    cases m with
    | zero => rfl
    | succ m =>
      rw [padding_loop, padding_loop, if_pos (by omega)]
  | succ n ih =>
    intro m data pos len pad hn hm
    have hb := rd_lt data pos
    cases m with
    | zero =>
      rw [padding_loop, padding_loop, if_pos (by omega)]
    | succ m =>
      rw [padding_loop, padding_loop]
      by_cases hl : len ≤ 0
      · rw [if_pos hl, if_pos hl]
      · rw [if_neg hl, if_neg hl]
        by_cases hp : rd data pos = 255
        · simp only [hp, if_true]
          exact ih m data _ _ _ (by omega) (by omega)
        · simp only [hp, if_false]

theorem padding_loop_ok :
    ∀ (n : Nat) (data : List Byte) (pos len pad pos1 len1 pad1 : Int),
      padding_loop n data pos len pad = .ok (pos1, len1, pad1) →
      pos1 + len1 + pad1 = pos + len + pad ∧ pad ≤ pad1 ∧ pos < pos1 := by
  intro n
  induction n with
  | zero =>
    intro data pos len pad pos1 len1 pad1 h
    simp [padding_loop] at h
  | succ n ih =>
    intro data pos len pad pos1 len1 pad1 h
    have hb := rd_lt data pos
    rw [padding_loop] at h
    by_cases hl : len ≤ 0
    · rw [if_pos hl] at h
      cases h
    · rw [if_neg hl] at h
      by_cases hp : rd data pos = 255
      · simp only [hp, if_true] at h
        have := ih _ _ _ _ _ _ _ h
        omega
      · simp only [hp, if_false] at h
        injection h with h
        simp only [Prod.mk.injEq] at h
        omega

theorem vbr_loop_ok :
    ∀ (n : Nat) (data : List Byte) (pos len last : Int) (size : List Int)
      (pos1 len1 last1 : Int) (size1 : List Int),
      vbr_loop n data pos len last size = .ok (pos1, len1, last1, size1) →
      ∃ new : List Int, size1 = size ++ new ∧ new.length = n ∧
        (∀ s ∈ new, 0 ≤ s ∧ s ≤ 1275) ∧
        last1 + (pos1 - pos) + new.sum = last ∧ pos ≤ pos1 ∧
        len1 + (pos1 - pos) = len := by
  intro n
  induction n with
  | zero =>
    intro data pos len last size pos1 len1 last1 size1 h
    simp only [vbr_loop, Except.ok.injEq, Prod.mk.injEq] at h
    obtain ⟨h1, h2, h3, h4⟩ := h
    refine ⟨[], by simp [h4], rfl, by simp, by simp; omega, by omega, by omega⟩
  | succ n ih =>
    intro data pos len last size pos1 len1 last1 size1 h
    rw [vbr_loop] at h
    by_cases hc : (parse_size data pos len).2 < 0 ∨
        (parse_size data pos len).2 > len - (parse_size data pos len).1
    · rw [if_pos hc] at h
      cases h
    · rw [if_neg hc] at h
      have hb := parse_size_bounds data pos len (fun hh => hc (Or.inl hh))
      obtain ⟨new, e1, e2, e3, e4, e5, e6⟩ := ih _ _ _ _ _ _ _ _ _ h
      refine ⟨(parse_size data pos len).2 :: new, by simp [e1], by simp [e2], ?_, ?_, ?_, ?_⟩
      · intro s hs
        rcases List.mem_cons.1 hs with hs | hs
        · subst hs; omega
        · exact e3 s hs
      · rw [List.sum_cons]; omega
      · omega
      · omega

/-! ## The switch on the frame-count-code -/

theorem parse_padding_ok (data : List Byte) (ch : Nat) (len pos1 len1 pad1 : Int)
    (h : parse_padding data ch len = .ok (pos1, len1, pad1)) :
    pos1 + len1 + pad1 = 2 + len ∧ 0 ≤ pad1 ∧ 2 ≤ pos1 := by
  unfold parse_padding at h
  by_cases hc : ch &&& 0x40 ≠ 0
  · rw [if_pos hc] at h
    have := padding_loop_ok _ _ _ _ _ _ _ _ h
    omega
  · rw [if_neg hc] at h
    simp only [Except.ok.injEq, Prod.mk.injEq] at h
    omega

/-- Every way `parse_code3` can succeed. -/
theorem parse_code3_ok (data : List Byte) (len : Int) (sd : Bool) (fs : Int)
    (h : SwitchState) (hok : parse_code3 data len sd fs = .ok h) :
    1 ≤ len ∧ 1 ≤ ((rd data 1 &&& 0x3F : Nat) : Int) ∧
    fs * ((rd data 1 &&& 0x3F : Nat) : Int) ≤ 5760 ∧
    h.count = ((rd data 1 &&& 0x3F : Nat) : Int) ∧
    h.cbr = decide (rd data 1 &&& 0x80 = 0) ∧
    ∃ pos2 len2 : Int, parse_padding data (rd data 1) (len - 1) = .ok (pos2, len2, h.pad) ∧
      0 ≤ len2 ∧
      ((rd data 1 &&& 0x80 ≠ 0 ∧
          vbr_loop (h.count - 1).toNat data pos2 len2 len2 []
            = .ok (h.pos, h.len, h.last_size, h.size) ∧ 0 ≤ h.last_size) ∨
       (rd data 1 &&& 0x80 = 0 ∧ sd = false ∧ h.pos = pos2 ∧ h.len = len2 ∧
          h.last_size = len2.tdiv h.count ∧ h.last_size * h.count = len2 ∧
          h.size = List.replicate (h.count - 1).toNat (int16 h.last_size)) ∨
       (rd data 1 &&& 0x80 = 0 ∧ sd = true ∧ h.pos = pos2 ∧ h.len = len2 ∧
          h.last_size = len ∧ h.size = [])) := by
  unfold parse_code3 at hok
  by_cases hl : len < 1
  · rw [if_pos hl] at hok; cases hok
  rw [if_neg hl] at hok
  simp only at hok
  by_cases hc : ((rd data 1 &&& 0x3F : Nat) : Int) ≤ 0 ∨
      fs * ((rd data 1 &&& 0x3F : Nat) : Int) > 5760
  · rw [if_pos hc] at hok; cases hok
  rw [if_neg hc] at hok
  refine ⟨by omega, by omega, by omega, ?_⟩
  split at hok
  · cases hok
  · rename_i pos2 len2 pad hpad
    by_cases hl2 : len2 < 0
    · rw [if_pos hl2] at hok; cases hok
    rw [if_neg hl2] at hok
    by_cases hv : rd data 1 &&& 0x80 = 0
    · simp only [hv, decide_True, Bool.not_true, Bool.false_eq_true, if_false] at hok
      cases sd
      · simp only [Bool.not_false, if_true] at hok
        by_cases hd : len2.tdiv ((rd data 1 &&& 0x3F : Nat) : Int)
            * ((rd data 1 &&& 0x3F : Nat) : Int) ≠ len2
        · rw [if_pos hd] at hok; cases hok
        · rw [if_neg hd] at hok
          injection hok with hok
          subst hok
          simp only [ne_eq, not_not] at hd
          exact ⟨rfl, by simp [hv], pos2, len2, hpad, by omega,
            Or.inr (Or.inl ⟨hv, rfl, rfl, rfl, rfl, hd, rfl⟩)⟩
      · simp only [Bool.not_true, Bool.false_eq_true, if_false] at hok
        injection hok with hok
        subst hok
        exact ⟨rfl, by simp [hv], pos2, len2, hpad, by omega,
          Or.inr (Or.inr ⟨hv, rfl, rfl, rfl, rfl, rfl⟩)⟩
    · simp only [hv, decide_False, Bool.not_false, if_true] at hok
      split at hok
      · cases hok
      · rename_i pos3 len3 last size hvbr
        by_cases hls : last < 0
        · rw [if_pos hls] at hok; cases hok
        · rw [if_neg hls] at hok
          injection hok with hok
          subst hok
          exact ⟨rfl, by simp [hv], pos2, len2, hpad, by omega,
            Or.inl ⟨hv, hvbr, by simpa using hls⟩⟩


theorem replicate_snoc (n : Nat) (a : Int) :
    List.replicate (n + 1) a = List.replicate n a ++ [a] := by
  rw [List.replicate_add]
  rfl

theorem sum_replicate_int (n : Nat) (a : Int) : (List.replicate n a).sum = (n : Int) * a := by
  simp

/-- What holds after the switch when `self_delimited = 0`: `count - 1` sizes have
been written, and once `last_size` passes the 1275 check the sizes are in range
and account, with the header and the padding, for the whole packet. -/
theorem parse_switch_inv (data : List Byte) (len : Int) (toc : Nat) (fs : Int)
    (h : SwitchState) (hl : 0 ≤ len)
    (hok : parse_switch data len false toc fs = .ok h) :
    1 ≤ h.count ∧ (h.size.length : Int) + 1 = h.count ∧ 0 ≤ h.last_size ∧
    0 ≤ h.pad ∧ 1 ≤ h.pos ∧
    (h.last_size ≤ 1275 →
      (∀ s ∈ h.size, 0 ≤ s ∧ s ≤ 1275) ∧
      h.pos + h.size.sum + h.last_size + h.pad = len + 1) := by
  unfold parse_switch at hok
  by_cases c0 : toc &&& 0x3 = 0
  · rw [if_pos c0] at hok
    injection hok with hok
    subst hok
    simp
    omega
  rw [if_neg c0] at hok
  by_cases c1 : toc &&& 0x3 = 1
  · rw [if_pos c1] at hok
    simp only [Bool.not_false, if_true] at hok
    by_cases hodd : len.toNat &&& 0x1 ≠ 0
    · rw [if_pos hodd] at hok; cases hok
    · rw [if_neg hodd] at hok
      injection hok with hok
      subst hok
      have he : len.toNat % 2 = 0 := by
        rw [← Nat.and_one_is_mod]
        simpa using hodd
      have ht : len.tdiv 2 = len / 2 := Int.tdiv_eq_ediv hl (by decide)
      simp only [ht]
      refine ⟨by decide, by simp, by omega, by decide, by decide, ?_⟩
      intro h1
      rw [int16_id _ (by omega) (by omega)]
      simp
      omega
  rw [if_neg c1] at hok
  by_cases c2 : toc &&& 0x3 = 2
  · rw [if_pos c2] at hok
    simp only at hok
    by_cases hc : (parse_size data 1 len).2 < 0 ∨
        (parse_size data 1 len).2 > len - (parse_size data 1 len).1
    · rw [if_pos hc] at hok; cases hok
    · rw [if_neg hc] at hok
      have hb := parse_size_bounds data 1 len (fun hh => hc (Or.inl hh))
      injection hok with hok
      subst hok
      simp
      omega
  rw [if_neg c2] at hok
  obtain ⟨h1, h2, _, h4, _, pos2, len2, hpad, hl2, hcase⟩ :=
    parse_code3_ok data len false fs h hok
  have hp := parse_padding_ok _ _ _ _ _ _ hpad
  have hcnt : ((h.count - 1).toNat : Int) = h.count - 1 := by omega
  rcases hcase with ⟨_, hv, hls⟩ | ⟨_, _, e1, e2, e3, e4, e5⟩ | ⟨_, hsd, _⟩
  · obtain ⟨new, n1, n2, n3, n4, n5, n6⟩ := vbr_loop_ok _ _ _ _ _ _ _ _ _ _ hv
    rw [List.nil_append] at n1
    refine ⟨by omega, by rw [n1, n2]; exact_mod_cast (by omega), hls, hp.2.1, by omega, ?_⟩
    intro _
    rw [n1]
    exact ⟨n3, by omega⟩
  · have hnn : 0 ≤ h.last_size := by
      rw [e3]; exact Int.tdiv_nonneg hl2 (by omega)
    refine ⟨by omega, by rw [e5, List.length_replicate]; omega, hnn, hp.2.1, by omega, ?_⟩
    intro hle
    rw [e5, int16_id _ (by omega) (by omega)]
    refine ⟨?_, ?_⟩
    · intro s hs
      rw [List.eq_of_mem_replicate hs]
      omega
    · rw [sum_replicate_int, hcnt]
      have : (h.count - 1) * h.last_size + h.last_size = h.last_size * h.count := by ring
      omega
  · cases hsd

/-! ## The whole parser, `self_delimited = 0` -/

/-- A successful parse with `self_delimited = 0` went through the switch and
passed the 1275 check on `last_size`. -/
theorem parse_impl_ok_false (data : List Byte) (len : Int) (out : ParseOut)
    (hok : opus_packet_parse_impl data len false = .ok out) :
    1 ≤ len ∧ ∃ h : SwitchState,
      parse_switch data (len - 1) false (rd data 0)
        (opus_packet_get_samples_per_frame data 48000) = .ok h ∧
      h.last_size ≤ 1275 ∧
      out = parse_finish (rd data 0) h.count h.pos h.pad (h.size ++ [int16 h.last_size]) := by
  unfold opus_packet_parse_impl at hok
  by_cases h0 : len < 0
  · rw [if_pos h0] at hok; cases hok
  rw [if_neg h0] at hok
  by_cases h1 : len = 0
  · rw [if_pos h1] at hok; cases hok
  rw [if_neg h1] at hok
  refine ⟨by omega, ?_⟩
  simp only at hok
  split at hok
  · cases hok
  · rename_i h hsw
    refine ⟨h, hsw, ?_⟩
    unfold parse_tail at hok
    simp only [Bool.false_eq_true, if_false] at hok
    by_cases hls : h.last_size > 1275
    · rw [if_pos hls] at hok; cases hok
    · rw [if_neg hls] at hok
      injection hok with hok
      exact ⟨by omega, hok.symm⟩

theorem parse_finish_packet_offset (toc : Nat) (count pos pad : Int) (size : List Int)
    (hlen : (size.length : Int) = count) :
    (parse_finish toc count pos pad size).packet_offset = pad + (pos + size.sum) := by
  have hn : 0 + count.toNat = size.length := by omega
  simp only [parse_finish]
  rw [frames_loop_snd size _ _ _ _ hn, List.drop_zero]

/-- C1: whenever `opus_packet_parse_impl` succeeds with `self_delimited = 0`, it
returns `count` sizes, and the header bytes (`payload_offset`), the frame sizes
and the padding add up to the packet length exactly; the reported
`packet_offset`, which is `pad + payload_offset + sum of the sizes`, equals `len`. -/
theorem parse_accounts_for_every_byte (data : List Byte) (len : Int) (out : ParseOut)
    (hok : opus_packet_parse_impl data len false = .ok out) :
    (out.size.length : Int) = out.count ∧
    out.payload_offset + out.size.sum + out.padding = len ∧
    out.packet_offset = out.padding + (out.payload_offset + out.size.sum) ∧
    out.packet_offset = len := by
  obtain ⟨hl, h, hsw, hls, rfl⟩ := parse_impl_ok_false data len out hok
  obtain ⟨i1, i2, i3, i4, i5, i6⟩ := parse_switch_inv data (len - 1) _ _ h (by omega) hsw
  obtain ⟨_, i7⟩ := i6 hls
  have hlen : ((h.size ++ [int16 h.last_size]).length : Int) = h.count := by
    rw [List.length_append, List.length_singleton]
    push_cast
    omega
  have hsum : (h.size ++ [int16 h.last_size]).sum = h.size.sum + h.last_size := by
    rw [List.sum_append, List.sum_singleton, int16_id _ (by omega) (by omega)]
  have hpo := parse_finish_packet_offset (rd data 0) h.count h.pos h.pad _ hlen
  rw [hsum] at hpo
  refine ⟨hlen, ?_, ?_, ?_⟩
  · show h.pos + (h.size ++ [int16 h.last_size]).sum + h.pad = len
    rw [hsum]; omega
  · show _ = h.pad + (h.pos + (h.size ++ [int16 h.last_size]).sum)
    rw [hsum]; exact hpo
  · rw [hpo]; omega

theorem parse_accounts_for_every_byte_witness :
    opus_packet_parse_impl [3, 0x43, 2, 5, 6, 6, 0, 0] 8 false
      = .ok ⟨3, 3, [1, 1, 1], [3, 4, 5], 3, 8, 2⟩ ∧
    ((([1, 1, 1] : List Int).length : Nat) : Int) = 3 ∧
    (3 : Int) + ([1, 1, 1] : List Int).sum + 2 = 8 ∧
    (8 : Int) = 2 + (3 + ([1, 1, 1] : List Int).sum) ∧ (8 : Int) = 8 :=
  ⟨rfl, parse_accounts_for_every_byte [3, 0x43, 2, 5, 6, 6, 0, 0] 8
    ⟨3, 3, [1, 1, 1], [3, 4, 5], 3, 8, 2⟩ rfl⟩


theorem parse_impl_of_switch_error (data : List Byte) (len : Int) (sd : Bool)
    (e : OpusError) (hl : 1 ≤ len)
    (hsw : parse_switch data (len - 1) sd (rd data 0)
      (opus_packet_get_samples_per_frame data 48000) = .error e) :
    opus_packet_parse_impl data len sd = .error e := by
  unfold opus_packet_parse_impl
  rw [if_neg (by omega), if_neg (by omega)]
  simp only [hsw]

theorem parse_impl_of_switch_ok (data : List Byte) (len : Int) (sd : Bool)
    (h : SwitchState) (hl : 1 ≤ len)
    (hsw : parse_switch data (len - 1) sd (rd data 0)
      (opus_packet_get_samples_per_frame data 48000) = .ok h) :
    opus_packet_parse_impl data len sd = parse_tail data sd (rd data 0) h := by
  unfold opus_packet_parse_impl
  rw [if_neg (by omega), if_neg (by omega)]
  simp only [hsw]

theorem parse_switch_code0 (data : List Byte) (len : Int) (sd : Bool) (toc : Nat)
    (fs : Int) (hc : toc &&& 0x3 = 0) :
    parse_switch data len sd toc fs = .ok ⟨1, false, 1, len, len, 0, []⟩ := by
  unfold parse_switch
  rw [if_pos hc]

theorem parse_switch_code1 (data : List Byte) (len : Int) (toc : Nat)
    (fs : Int) (hc : toc &&& 0x3 = 1) :
    parse_switch data len false toc fs =
      if len.toNat &&& 0x1 ≠ 0 then .error OPUS_INVALID_PACKET
      else .ok ⟨2, true, 1, len, len.tdiv 2, 0, [int16 (len.tdiv 2)]⟩ := by
  unfold parse_switch
  rw [if_neg (by omega), if_pos hc]
  simp

theorem parse_switch_code2 (data : List Byte) (len : Int) (sd : Bool) (toc : Nat)
    (fs : Int) (hc : toc &&& 0x3 = 2) :
    parse_switch data len sd toc fs =
      if (parse_size data 1 len).2 < 0 ∨
          (parse_size data 1 len).2 > len - (parse_size data 1 len).1 then
        .error OPUS_INVALID_PACKET
      else .ok ⟨2, false, 1 + (parse_size data 1 len).1, len - (parse_size data 1 len).1,
        len - (parse_size data 1 len).1 - (parse_size data 1 len).2, 0,
        [(parse_size data 1 len).2]⟩ := by
  unfold parse_switch
  rw [if_neg (by omega), if_neg (by omega), if_pos hc]

theorem parse_switch_code3 (data : List Byte) (len : Int) (sd : Bool) (toc : Nat)
    (fs : Int) (hc : toc &&& 0x3 = 3) :
    parse_switch data len sd toc fs = parse_code3 data len sd fs := by
  unfold parse_switch
  rw [if_neg (by omega), if_neg (by omega), if_neg (by omega)]

theorem parse_tail_false (data : List Byte) (toc : Nat) (h : SwitchState) :
    parse_tail data false toc h =
      if h.last_size > 1275 then .error OPUS_INVALID_PACKET
      else .ok (parse_finish toc h.count h.pos h.pad (h.size ++ [int16 h.last_size])) := by
  unfold parse_tail
  simp

/-! ## Frame-count-codes 0 and 1 -/

/-- C7: a packet with frame-count-code 0 and `1 <= len <= 1276`, parsed with
`self_delimited = 0`, yields `count = 1`, `payload_offset = 1` and
`size[0] = len - 1` (the frame starts at offset 1, there is no padding and
`packet_offset = len`); in particular the one-byte packet `0x00` yields one frame
of length 0. -/
theorem parse_code0_single_frame (data : List Byte) (len : Int)
    (hc : rd data 0 &&& 0x3 = 0) (h1 : 1 ≤ len) (h2 : len ≤ 1276) :
    opus_packet_parse_impl data len false
      = .ok ⟨rd data 0, 1, [len - 1], [1], 1, len, 0⟩ ∧
    opus_packet_parse_impl [0x00] 1 false = .ok ⟨0, 1, [0], [1], 1, 1, 0⟩ := by
  refine ⟨?_, rfl⟩
  rw [parse_impl_of_switch_ok data len false _ h1 (parse_switch_code0 _ _ _ _ _ hc),
    parse_tail_false]
  simp only
  rw [if_neg (by omega), int16_id _ (by omega) (by omega)]
  simp [parse_finish, frames_loop]

theorem parse_code0_single_frame_witness :
    opus_packet_parse_impl [0x08, 1, 2, 3] 4 false
      = .ok ⟨rd [0x08, 1, 2, 3] 0, 1, [4 - 1], [1], 1, 4, 0⟩ ∧
    opus_packet_parse_impl [0x00] 1 false = .ok ⟨0, 1, [0], [1], 1, 1, 0⟩ :=
  parse_code0_single_frame [0x08, 1, 2, 3] 4 (by decide) (by decide) (by decide)

/-- C4: for a packet whose TOC has frame-count-code 1, parsed with
`self_delimited = 0`: if the number of bytes after the TOC (`len - 1`) is odd the
parser returns `OPUS_INVALID_PACKET`; if it is even and parsing succeeds,
`count = 2` and both frames have size `(len - 1) / 2`. -/
theorem parse_code1_two_equal_frames (data : List Byte) (len : Int)
    (hl : 1 ≤ len) (hc : rd data 0 &&& 0x3 = 1) :
    ((len - 1) % 2 = 1 →
      opus_packet_parse_impl data len false = .error OPUS_INVALID_PACKET) ∧
    ((len - 1) % 2 = 0 → ∀ out : ParseOut,
      opus_packet_parse_impl data len false = .ok out →
      out.count = 2 ∧ out.size = [(len - 1) / 2, (len - 1) / 2]) := by
  have hand : (len - 1).toNat &&& 0x1 = (len - 1).toNat % 2 := Nat.and_one_is_mod _
  have hsw := parse_switch_code1 data (len - 1) (rd data 0)
    (opus_packet_get_samples_per_frame data 48000) hc
  constructor
  · intro hodd
    rw [if_pos (by omega)] at hsw
    exact parse_impl_of_switch_error data len false _ hl hsw
  · intro heven out hok
    rw [if_neg (by omega)] at hsw
    rw [parse_impl_of_switch_ok data len false _ hl hsw, parse_tail_false] at hok
    simp only at hok
    have ht : (len - 1).tdiv 2 = (len - 1) / 2 := Int.tdiv_eq_ediv (by omega) (by decide)
    rw [ht] at hok
    by_cases hbig : (len - 1) / 2 > 1275
    · rw [if_pos hbig] at hok; cases hok
    · rw [if_neg hbig, int16_id _ (by omega) (by omega)] at hok
      injection hok with hok
      subst hok
      simp [parse_finish]

theorem parse_code1_two_equal_frames_witness :
    (((4 : Int) - 1) % 2 = 1 ∧
      opus_packet_parse_impl [1, 5, 5, 6] 4 false = .error OPUS_INVALID_PACKET) ∧
    (((5 : Int) - 1) % 2 = 0 ∧
      opus_packet_parse_impl [1, 5, 5, 6, 6] 5 false = .ok ⟨1, 2, [2, 2], [1, 3], 1, 5, 0⟩ ∧
      (2 : Int) = 2 ∧ ([2, 2] : List Int) = [(5 - 1) / 2, (5 - 1) / 2]) :=
  ⟨⟨by decide,
    (parse_code1_two_equal_frames [1, 5, 5, 6] 4 (by decide) (by decide)).1 (by decide)⟩,
   by decide, rfl,
    (parse_code1_two_equal_frames [1, 5, 5, 6, 6] 5 (by decide) (by decide)).2 (by decide)
      ⟨1, 2, [2, 2], [1, 3], 1, 5, 0⟩ rfl⟩

/-! ## The 1275-byte limit on implicit sizes -/

/-- C6: with `self_delimited = 0`, whenever the switch leaves an implicit last-frame
size `last_size` (the remaining bytes for code 0, half the remainder for code 1,
the remainder after the first frame for code 2, the per-frame or last-frame
remainder for code 3) greater than 1275, the parser returns `OPUS_INVALID_PACKET`,
in particular for code 0 when `len - 1 > 1275` and for code 1 when
`(len - 1) / 2 > 1275`; and whenever it succeeds, every returned `size[i]` is in
`0..1275`. -/
theorem parse_rejects_implicit_size_above_1275 (data : List Byte) (len : Int) :
    (∀ h : SwitchState, 1 ≤ len →
      parse_switch data (len - 1) false (rd data 0)
        (opus_packet_get_samples_per_frame data 48000) = .ok h →
      1275 < h.last_size →
      opus_packet_parse_impl data len false = .error OPUS_INVALID_PACKET) ∧
    (rd data 0 &&& 0x3 = 0 → 1275 < len - 1 →
      opus_packet_parse_impl data len false = .error OPUS_INVALID_PACKET) ∧
    (rd data 0 &&& 0x3 = 1 → 1275 < (len - 1) / 2 →
      opus_packet_parse_impl data len false = .error OPUS_INVALID_PACKET) ∧
    (∀ out : ParseOut, opus_packet_parse_impl data len false = .ok out →
      ∀ s ∈ out.size, 0 ≤ s ∧ s ≤ 1275) := by
  have hgen : ∀ h : SwitchState, 1 ≤ len →
      parse_switch data (len - 1) false (rd data 0)
        (opus_packet_get_samples_per_frame data 48000) = .ok h →
      1275 < h.last_size →
      opus_packet_parse_impl data len false = .error OPUS_INVALID_PACKET := by
    intro h hl hsw hbig
    rw [parse_impl_of_switch_ok data len false h hl hsw, parse_tail_false, if_pos hbig]
  refine ⟨hgen, ?_, ?_, ?_⟩
  · intro hc hbig
    exact hgen _ (by omega) (parse_switch_code0 _ _ _ _ _ hc) hbig
  · intro hc hbig
    have hsw := parse_switch_code1 data (len - 1) (rd data 0)
      (opus_packet_get_samples_per_frame data 48000) hc
    by_cases hodd : (len - 1).toNat &&& 0x1 ≠ 0
    · rw [if_pos hodd] at hsw
      exact parse_impl_of_switch_error data len false _ (by omega) hsw
    · rw [if_neg hodd] at hsw
      refine hgen _ (by omega) hsw ?_
      show 1275 < (len - 1).tdiv 2
      rw [Int.tdiv_eq_ediv (by omega) (by decide)]
      exact hbig
  · intro out hok s hs
    obtain ⟨hl, h, hsw, hls, rfl⟩ := parse_impl_ok_false data len out hok
    obtain ⟨_, _, i3, _, _, i6⟩ := parse_switch_inv data (len - 1) _ _ h (by omega) hsw
    obtain ⟨i7, _⟩ := i6 hls
    have hs1 : s ∈ h.size ++ [int16 h.last_size] := hs
    rcases List.mem_append.1 hs1 with hm | hm
    · exact i7 s hm
    · rw [List.mem_singleton.1 hm, int16_id _ (by omega) (by omega)]
      omega

/-- C5: for a packet whose TOC has frame-count-code 3, if the count field (low 6
bits of the second byte) is 0, or count times the samples-per-frame of the TOC at
48 kHz exceeds 5760, the parser returns `OPUS_INVALID_PACKET`, for both values of
`self_delimited` and whatever the rest of the packet contains. -/
theorem parse_code3_rejects_bad_count (data : List Byte) (len : Int) (sd : Bool)
    (hl : 1 ≤ len) (hc : rd data 0 &&& 0x3 = 3)
    (hbad : rd data 1 &&& 0x3F = 0 ∨
      opus_packet_get_samples_per_frame data 48000 * ((rd data 1 &&& 0x3F : Nat) : Int)
        > 5760) :
    opus_packet_parse_impl data len sd = .error OPUS_INVALID_PACKET := by
  apply parse_impl_of_switch_error data len sd _ hl
  rw [parse_switch_code3 _ _ _ _ _ hc]
  unfold parse_code3
  by_cases h1 : len - 1 < 1
  · rw [if_pos h1]
  · rw [if_neg h1]
    simp only
    rw [if_pos]
    rcases hbad with h0 | h0
    · left; omega
    · right; exact h0


theorem parse_rejects_implicit_size_above_1275_witness :
    (opus_packet_parse_impl (0 :: List.replicate 1276 0) 1277 false
        = .error OPUS_INVALID_PACKET) ∧
    (opus_packet_parse_impl (2 :: 0 :: List.replicate 1276 0) 1278 false
        = .error OPUS_INVALID_PACKET) ∧
    (opus_packet_parse_impl (1 :: List.replicate 2552 0) 2553 false
        = .error OPUS_INVALID_PACKET) ∧
    (opus_packet_parse_impl [2, 1, 5, 6, 6] 5 false = .ok ⟨2, 2, [1, 2], [2, 3], 2, 5, 0⟩ ∧
      (0 : Int) ≤ 2 ∧ (2 : Int) ≤ 1275) :=
  ⟨(parse_rejects_implicit_size_above_1275 (0 :: List.replicate 1276 0) 1277).2.1
      (by decide) (by decide),
   (parse_rejects_implicit_size_above_1275 (2 :: 0 :: List.replicate 1276 0) 1278).1
      ⟨2, false, 2, 1276, 1276, 0, [0]⟩ (by decide) rfl (by decide),
   (parse_rejects_implicit_size_above_1275 (1 :: List.replicate 2552 0) 2553).2.2.1
      (by decide) (by decide),
   rfl,
   (parse_rejects_implicit_size_above_1275 [2, 1, 5, 6, 6] 5).2.2.2
      ⟨2, 2, [1, 2], [2, 3], 2, 5, 0⟩ rfl 2 (by decide)⟩

theorem parse_code3_rejects_bad_count_witness :
    opus_packet_parse_impl [0x03, 0x00, 7, 7] 4 true = .error OPUS_INVALID_PACKET ∧
    opus_packet_parse_impl [0x1B, 0x03, 7, 7, 7] 5 false = .error OPUS_INVALID_PACKET :=
  ⟨parse_code3_rejects_bad_count [0x03, 0x00, 7, 7] 4 true (by decide) (by decide)
      (Or.inl (by decide)),
   parse_code3_rejects_bad_count [0x1B, 0x03, 7, 7, 7] 5 false (by decide) (by decide)
      (Or.inr (by decide))⟩

/-! ## Frame-count-code 2 -/

/-- The exact result of the parser on a code-2 packet with `self_delimited = 0`. -/
theorem parse_code2_eq (data : List Byte) (len : Int)
    (hl : 1 ≤ len) (hc : rd data 0 &&& 0x3 = 2) :
    opus_packet_parse_impl data len false =
      if ((parse_size data 1 (len - 1)).1 = 1 ∨ (parse_size data 1 (len - 1)).1 = 2) ∧
          (parse_size data 1 (len - 1)).2 ≤ len - 1 - (parse_size data 1 (len - 1)).1 ∧
          len - 1 - (parse_size data 1 (len - 1)).1 - (parse_size data 1 (len - 1)).2 ≤ 1275
      then .ok ⟨rd data 0, 2,
        [(parse_size data 1 (len - 1)).2,
         len - 1 - (parse_size data 1 (len - 1)).1 - (parse_size data 1 (len - 1)).2],
        [1 + (parse_size data 1 (len - 1)).1,
         1 + (parse_size data 1 (len - 1)).1 + (parse_size data 1 (len - 1)).2],
        1 + (parse_size data 1 (len - 1)).1, len, 0⟩
      else .error OPUS_INVALID_PACKET := by
  have hsw := parse_switch_code2 data (len - 1) false (rd data 0)
    (opus_packet_get_samples_per_frame data 48000) hc
  have hb0 := rd_lt data 1
  have hb1 := rd_lt data (1 + 1)
  have hcases : parse_size data 1 (len - 1) = (-1, -1) ∨
      ∃ b v : Int, parse_size data 1 (len - 1) = (b, v) ∧ (b = 1 ∨ b = 2) ∧
        0 ≤ v ∧ v ≤ 1275 := by
    rcases parse_size_cases data 1 (len - 1) with ⟨he, _⟩ | ⟨he, _, _⟩ | ⟨he, _, _⟩
    · exact Or.inl he
    · exact Or.inr ⟨_, _, he, Or.inl rfl, by omega, by omega⟩
    · exact Or.inr ⟨_, _, he, Or.inr rfl, by omega, by omega⟩
  rcases hcases with he | ⟨b, v, he, hb, hv0, hv1⟩
  · rw [he] at hsw ⊢
    rw [if_pos (Or.inl (by decide))] at hsw
    rw [parse_impl_of_switch_error data len false _ hl hsw, if_neg]
    intro hh
    rcases hh.1 with hh | hh <;> simp at hh
  · rw [he] at hsw ⊢
    simp only at hsw ⊢
    by_cases hfit : v ≤ len - 1 - b
    · rw [if_neg (by omega)] at hsw
      rw [parse_impl_of_switch_ok data len false _ hl hsw, parse_tail_false]
      simp only
      by_cases hbig : len - 1 - b - v ≤ 1275
      · rw [if_neg (by omega), if_pos ⟨hb, hfit, hbig⟩,
          int16_id _ (by omega) (by omega)]
        simp [parse_finish, frames_loop]
      · rw [if_pos (by omega), if_neg (fun hh => hbig hh.2.2)]
    · rw [if_pos (Or.inr (by omega))] at hsw
      rw [parse_impl_of_switch_error data len false _ hl hsw,
        if_neg (fun hh => hfit hh.2.1)]


/-- C8: for a packet with frame-count-code 2 parsed with `self_delimited = 0`,
parsing succeeds iff a size prefix `s`, `b` bytes long (1 or 2), can be read after
the TOC, `s <= len - 1 - b` and `len - 1 - b - s <= 1275`; on success `count = 2`,
`size[0] = s`, `size[1] = len - 1 - b - s` and `payload_offset = 1 + b`. -/
theorem parse_code2_prefixed_then_rest (data : List Byte) (len : Int)
    (hl : 1 ≤ len) (hc : rd data 0 &&& 0x3 = 2) :
    ((∃ out : ParseOut, opus_packet_parse_impl data len false = .ok out) ↔
      (((parse_size data 1 (len - 1)).1 = 1 ∨ (parse_size data 1 (len - 1)).1 = 2) ∧
        (parse_size data 1 (len - 1)).2 ≤ len - 1 - (parse_size data 1 (len - 1)).1 ∧
        len - 1 - (parse_size data 1 (len - 1)).1 - (parse_size data 1 (len - 1)).2
          ≤ 1275)) ∧
    (∀ out : ParseOut, opus_packet_parse_impl data len false = .ok out →
      out.count = 2 ∧
      out.size = [(parse_size data 1 (len - 1)).2,
        len - 1 - (parse_size data 1 (len - 1)).1 - (parse_size data 1 (len - 1)).2] ∧
      out.payload_offset = 1 + (parse_size data 1 (len - 1)).1) := by
  have heq := parse_code2_eq data len hl hc
  by_cases hcond :
      ((parse_size data 1 (len - 1)).1 = 1 ∨ (parse_size data 1 (len - 1)).1 = 2) ∧
        (parse_size data 1 (len - 1)).2 ≤ len - 1 - (parse_size data 1 (len - 1)).1 ∧
        len - 1 - (parse_size data 1 (len - 1)).1 - (parse_size data 1 (len - 1)).2 ≤ 1275
  · rw [if_pos hcond] at heq
    refine ⟨⟨fun _ => hcond, fun _ => ⟨_, heq⟩⟩, ?_⟩
    intro out hok
    rw [heq] at hok
    injection hok with hok
    subst hok
    exact ⟨rfl, rfl, rfl⟩
  · rw [if_neg hcond] at heq
    refine ⟨⟨?_, fun hh => absurd hh hcond⟩, ?_⟩
    · rintro ⟨out, hok⟩
      rw [heq] at hok
      cases hok
    · intro out hok
      rw [heq] at hok
      cases hok

theorem parse_code2_prefixed_then_rest_witness :
    opus_packet_parse_impl [2, 1, 5, 6, 6] 5 false = .ok ⟨2, 2, [1, 2], [2, 3], 2, 5, 0⟩ ∧
    parse_size [2, 1, 5, 6, 6] 1 (5 - 1) = (1, 1) ∧
    (2 : Int) = 2 ∧
    ([1, 2] : List Int) = [(parse_size [2, 1, 5, 6, 6] 1 (5 - 1)).2,
        5 - 1 - (parse_size [2, 1, 5, 6, 6] 1 (5 - 1)).1
          - (parse_size [2, 1, 5, 6, 6] 1 (5 - 1)).2] ∧
    (2 : Int) = 1 + (parse_size [2, 1, 5, 6, 6] 1 (5 - 1)).1 :=
  ⟨rfl, rfl,
    (parse_code2_prefixed_then_rest [2, 1, 5, 6, 6] 5 (by decide) (by decide)).2
      ⟨2, 2, [1, 2], [2, 3], 2, 5, 0⟩ rfl⟩

/-! ## Frame-count-code 3 -/

/-- A successful parse went through the switch and the last-frame stage. -/
theorem parse_impl_ok (data : List Byte) (len : Int) (sd : Bool) (out : ParseOut)
    (hok : opus_packet_parse_impl data len sd = .ok out) :
    1 ≤ len ∧ ∃ h : SwitchState,
      parse_switch data (len - 1) sd (rd data 0)
        (opus_packet_get_samples_per_frame data 48000) = .ok h ∧
      parse_tail data sd (rd data 0) h = .ok out := by
  unfold opus_packet_parse_impl at hok
  by_cases h0 : len < 0
  · rw [if_pos h0] at hok; cases hok
  rw [if_neg h0] at hok
  by_cases h1 : len = 0
  · rw [if_pos h1] at hok; cases hok
  rw [if_neg h1] at hok
  refine ⟨by omega, ?_⟩
  simp only at hok
  split at hok
  · cases hok
  · rename_i h hsw
    exact ⟨h, hsw, hok⟩

/-- The last-frame stage copies `count` and `pad` to the outputs. -/
theorem parse_tail_ok_fields (data : List Byte) (sd : Bool) (toc : Nat)
    (h : SwitchState) (out : ParseOut) (hok : parse_tail data sd toc h = .ok out) :
    out.toc = toc ∧ out.count = h.count ∧ out.padding = h.pad := by
  unfold parse_tail at hok
  simp only at hok
  split_ifs at hok <;> (injection hok with hok; subst hok; exact ⟨rfl, rfl, rfl⟩)


/-- C9: for a packet with frame-count-code 3 and the VBR flag clear, parsed with
`self_delimited = 0`, with `count` the low 6 bits of the count byte: if the bytes
remaining after the count byte and the padding are not an exact multiple of
`count` the parser returns `OPUS_INVALID_PACKET`; on success those remaining
bytes are `len - payload_offset - padding`, they are a multiple of `count`, and
all `count` frames have the same size, remaining / count. -/
theorem parse_code3_cbr_equal_frames (data : List Byte) (len : Int)
    (hl : 1 ≤ len) (hc : rd data 0 &&& 0x3 = 3) (hcbr : rd data 1 &&& 0x80 = 0) :
    (∀ pos2 rem pad : Int,
      parse_padding data (rd data 1) (len - 2) = .ok (pos2, rem, pad) →
      rem % ((rd data 1 &&& 0x3F : Nat) : Int) ≠ 0 →
      opus_packet_parse_impl data len false = .error OPUS_INVALID_PACKET) ∧
    (∀ out : ParseOut, opus_packet_parse_impl data len false = .ok out →
      parse_padding data (rd data 1) (len - 2)
        = .ok (out.payload_offset, len - out.payload_offset - out.padding, out.padding) ∧
      (len - out.payload_offset - out.padding) % ((rd data 1 &&& 0x3F : Nat) : Int) = 0 ∧
      out.count = ((rd data 1 &&& 0x3F : Nat) : Int) ∧
      out.size = List.replicate (rd data 1 &&& 0x3F)
        ((len - out.payload_offset - out.padding) / ((rd data 1 &&& 0x3F : Nat) : Int))) := by
  have hlen2 : len - 1 - 1 = len - 2 := by ring
  constructor
  · intro pos2 rem pad hpad hrem
    apply parse_impl_of_switch_error data len false _ hl
    rw [parse_switch_code3 _ _ _ _ _ hc]
    unfold parse_code3
    by_cases h1 : len - 1 < 1
    · rw [if_pos h1]
    rw [if_neg h1]
    simp only
    by_cases h2 : ((rd data 1 &&& 0x3F : Nat) : Int) ≤ 0 ∨
        opus_packet_get_samples_per_frame data 48000 * ((rd data 1 &&& 0x3F : Nat) : Int)
          > 5760
    · rw [if_pos h2]
    rw [if_neg h2, hlen2, hpad]
    simp only
    by_cases h3 : rem < 0
    · rw [if_pos h3]
    rw [if_neg h3]
    simp only [hcbr, decide_True, Bool.not_true, Bool.false_eq_true, if_false,
      Bool.not_false, if_true]
    rw [if_pos]
    intro hmul
    apply hrem
    rw [← hmul]
    exact Int.mul_emod_left _ _
  · intro out hok
    obtain ⟨_, h, hsw, hls, rfl⟩ := parse_impl_ok_false data len out hok
    rw [parse_switch_code3 _ _ _ _ _ hc] at hsw
    obtain ⟨h1, h2, _, h4, _, pos2, len2, hpad, hl2, hcase⟩ :=
      parse_code3_ok data (len - 1) false _ h hsw
    rw [hlen2] at hpad
    have hp := parse_padding_ok _ _ _ _ _ _ hpad
    rcases hcase with ⟨hv, _⟩ | ⟨_, _, e1, e2, e3, e4, e5⟩ | ⟨_, hsd, _⟩
    · exact absurd hcbr hv
    · have hnn : 0 ≤ h.last_size := by
        rw [e3]; exact Int.tdiv_nonneg hl2 (by omega)
      have hrem : len - h.pos - h.pad = len2 := by omega
      have hdiv : len2 / h.count = h.last_size := by
        rw [← e4]
        exact Int.mul_ediv_cancel _ (by omega)
      have hcnt : (h.count - 1).toNat + 1 = (rd data 1 &&& 0x3F) := by omega
      show parse_padding data (rd data 1) (len - 2) = .ok (h.pos, len - h.pos - h.pad, h.pad) ∧
        (len - h.pos - h.pad) % ((rd data 1 &&& 0x3F : Nat) : Int) = 0 ∧
        h.count = ((rd data 1 &&& 0x3F : Nat) : Int) ∧
        h.size ++ [int16 h.last_size] = List.replicate (rd data 1 &&& 0x3F)
          ((len - h.pos - h.pad) / ((rd data 1 &&& 0x3F : Nat) : Int))
      rw [hrem, ← h4, hdiv, e1]
      refine ⟨hpad, ?_, rfl, ?_⟩
      · rw [← e4]; exact Int.mul_emod_left _ _
      · rw [e5, ← hcnt, int16_id _ (by omega) (by omega)]
        exact (replicate_snoc _ _).symm
    · cases hsd

theorem parse_code3_cbr_equal_frames_witness :
    (parse_padding [3, 0x43, 2, 5, 6, 6, 0, 0, 0] (rd [3, 0x43, 2, 5, 6, 6, 0, 0, 0] 1) (9 - 2)
        = .ok (3, 4, 2) ∧
      (4 : Int) % ((rd [3, 0x43, 2, 5, 6, 6, 0, 0, 0] 1 &&& 0x3F : Nat) : Int) ≠ 0 ∧
      opus_packet_parse_impl [3, 0x43, 2, 5, 6, 6, 0, 0, 0] 9 false
        = .error OPUS_INVALID_PACKET) ∧
    (opus_packet_parse_impl [3, 0x43, 2, 5, 6, 6, 0, 0] 8 false
        = .ok ⟨3, 3, [1, 1, 1], [3, 4, 5], 3, 8, 2⟩ ∧
      parse_padding [3, 0x43, 2, 5, 6, 6, 0, 0] (rd [3, 0x43, 2, 5, 6, 6, 0, 0] 1) (8 - 2)
        = .ok (3, 8 - 3 - 2, 2) ∧
      ((8 : Int) - 3 - 2) % ((rd [3, 0x43, 2, 5, 6, 6, 0, 0] 1 &&& 0x3F : Nat) : Int) = 0 ∧
      (3 : Int) = ((rd [3, 0x43, 2, 5, 6, 6, 0, 0] 1 &&& 0x3F : Nat) : Int) ∧
      ([1, 1, 1] : List Int) = List.replicate (rd [3, 0x43, 2, 5, 6, 6, 0, 0] 1 &&& 0x3F)
        (((8 : Int) - 3 - 2) / ((rd [3, 0x43, 2, 5, 6, 6, 0, 0] 1 &&& 0x3F : Nat) : Int))) :=
  ⟨⟨rfl, by decide,
    (parse_code3_cbr_equal_frames [3, 0x43, 2, 5, 6, 6, 0, 0, 0] 9 (by decide) (by decide)
      (by decide)).1 3 4 2 rfl (by decide)⟩,
   rfl,
   (parse_code3_cbr_equal_frames [3, 0x43, 2, 5, 6, 6, 0, 0] 8 (by decide) (by decide)
      (by decide)).2 ⟨3, 3, [1, 1, 1], [3, 4, 5], 3, 8, 2⟩ rfl⟩


/-- The padding loop on `j` bytes of value 255 followed by a byte `t < 255`, with
at least `len` iterations allowed. -/
theorem padding_loop_run :
    ∀ (j n : Nat) (data : List Byte) (pos len pad : Int) (t : Nat),
      len ≤ n →
      (∀ i : Nat, i < j → rd data (pos + (i : Int)) = 255) →
      rd data (pos + (j : Int)) = t → t < 255 →
      padding_loop n data pos len pad =
        if len ≤ 255 * (j : Int) then .error OPUS_INVALID_PACKET
        else .ok (pos + (j : Int) + 1, len - 255 * (j : Int) - 1 - (t : Int),
                  pad + 254 * (j : Int) + (t : Int)) := by
  intro j
  induction j with
  | zero =>
    intro n data pos len pad t hn _ ht htl
    have ht0 : rd data pos = t := by simpa using ht
    cases n with
    | zero =>
      rw [padding_loop, if_pos (by omega)]
    | succ n =>
      rw [padding_loop]
      by_cases hl : len ≤ 0
      · rw [if_pos hl, if_pos (by omega)]
      · rw [if_neg hl, if_neg (by omega)]
        simp only [ht0]
        rw [if_neg (by omega), if_neg (by omega)]
        simp
  | succ j ih =>
    intro n data pos len pad t hn h255 ht htl
    have hp : rd data pos = 255 := by simpa using h255 0 (by omega)
    cases n with
    | zero =>
      rw [padding_loop, if_pos (by omega)]
    | succ n =>
      rw [padding_loop]
      by_cases hl : len ≤ 0
      · rw [if_pos hl, if_pos (by omega)]
      · rw [if_neg hl]
        simp only [hp, if_true]
        rw [ih n data (pos + 1) (len - 1 - 254) (pad + 254) t (by omega) ?_ ?_ htl]
        · by_cases hle : len ≤ 255 * ((j + 1 : Nat) : Int)
          · rw [if_pos hle, if_pos (by omega)]
          · rw [if_neg hle, if_neg (by omega)]
            congr 1
            simp only [Prod.mk.injEq]
            refine ⟨by omega, by omega, by omega⟩
        · intro i hi
          have := h255 (i + 1) (by omega)
          rw [← this]
          congr 1
          omega
        · rw [← ht]
          congr 1
          omega


theorem parse_code3_invalid_of_padding (data : List Byte) (len : Int) (sd : Bool)
    (fs : Int)
    (h : parse_padding data (rd data 1) (len - 1) = .error OPUS_INVALID_PACKET ∨
      ∃ pos2 len2 pad : Int,
        parse_padding data (rd data 1) (len - 1) = .ok (pos2, len2, pad) ∧ len2 < 0) :
    parse_code3 data len sd fs = .error OPUS_INVALID_PACKET := by
  unfold parse_code3
  by_cases h1 : len < 1
  · rw [if_pos h1]
  rw [if_neg h1]
  simp only
  by_cases h2 : ((rd data 1 &&& 0x3F : Nat) : Int) ≤ 0 ∨
      fs * ((rd data 1 &&& 0x3F : Nat) : Int) > 5760
  · rw [if_pos h2]
  rw [if_neg h2]
  rcases h with h | ⟨pos2, len2, pad, h, hneg⟩
  · rw [h]
  · rw [h]
    simp only
    rw [if_pos hneg]

/-- C10: for a code-3 packet with the padding flag (bit 6 of the count byte) set
whose padding length bytes are `k - 1` bytes of value 255 followed by one terminal
byte `t < 255`: the padding stage fails when the length bytes run past the bytes
left, and otherwise yields a padding total of `254*(k-1) + t`, a data pointer
advanced over the `k` length bytes and a remaining length lowered by `k` and by
the padding total; the parser returns `OPUS_INVALID_PACKET` when the `k` length
bytes plus the padding exceed the bytes after the count byte, and on success the
padding it reports is `254*(k-1) + t`. -/
theorem parse_code3_padding_total (data : List Byte) (len : Int) (sd : Bool)
    (k t : Nat) (hl : 1 ≤ len) (hc : rd data 0 &&& 0x3 = 3)
    (hflag : rd data 1 &&& 0x40 ≠ 0) (hk : 1 ≤ k)
    (h255 : ∀ i : Nat, i + 1 < k → rd data (2 + (i : Int)) = 255)
    (ht : rd data (1 + (k : Int)) = t) (htl : t < 255) :
    parse_padding data (rd data 1) (len - 2) =
      (if len - 2 ≤ 255 * ((k : Int) - 1) then .error OPUS_INVALID_PACKET
       else .ok (2 + (k : Int),
                 len - 2 - (k : Int) - (254 * ((k : Int) - 1) + (t : Int)),
                 254 * ((k : Int) - 1) + (t : Int))) ∧
    (len - 2 < (k : Int) + (254 * ((k : Int) - 1) + (t : Int)) →
      opus_packet_parse_impl data len sd = .error OPUS_INVALID_PACKET) ∧
    (∀ out : ParseOut, opus_packet_parse_impl data len sd = .ok out →
      out.padding = 254 * ((k : Int) - 1) + (t : Int) ∧
      (k : Int) + out.padding ≤ len - 2) := by
  have hlen2 : len - 1 - 1 = len - 2 := by ring
  have hkc : (((k - 1 : Nat) : Nat) : Int) = (k : Int) - 1 := by omega
  have hrun := padding_loop_run (k - 1) (len - 2).toNat data 2 (len - 2) 0 t (by omega)
    (fun i hi => h255 i (by omega))
    (by rw [hkc, ← ht]; congr 1; omega) htl
  rw [hkc] at hrun
  have hpad : parse_padding data (rd data 1) (len - 2) =
      (if len - 2 ≤ 255 * ((k : Int) - 1) then .error OPUS_INVALID_PACKET
       else .ok (2 + (k : Int),
                 len - 2 - (k : Int) - (254 * ((k : Int) - 1) + (t : Int)),
                 254 * ((k : Int) - 1) + (t : Int))) := by
    unfold parse_padding
    rw [if_pos hflag, hrun]
    by_cases hle : len - 2 ≤ 255 * ((k : Int) - 1)
    · rw [if_pos hle, if_pos hle]
    · rw [if_neg hle, if_neg hle]
      congr 1
      simp only [Prod.mk.injEq]
      refine ⟨by omega, by omega, by omega⟩
  refine ⟨hpad, ?_, ?_⟩
  · intro hbig
    apply parse_impl_of_switch_error data len sd _ hl
    rw [parse_switch_code3 _ _ _ _ _ hc]
    apply parse_code3_invalid_of_padding
    rw [hlen2, hpad]
    by_cases hle : len - 2 ≤ 255 * ((k : Int) - 1)
    · left; rw [if_pos hle]
    · right
      rw [if_neg hle]
      exact ⟨_, _, _, rfl, by omega⟩
  · intro out hok
    obtain ⟨_, h, hsw, htail⟩ := parse_impl_ok data len sd out hok
    rw [parse_switch_code3 _ _ _ _ _ hc] at hsw
    obtain ⟨_, _, _, _, _, pos2, len2, hp, hl2, _⟩ := parse_code3_ok data (len - 1) sd _ h hsw
    obtain ⟨_, _, hpd⟩ := parse_tail_ok_fields data sd _ h out htail
    rw [hlen2, hpad] at hp
    by_cases hle : len - 2 ≤ 255 * ((k : Int) - 1)
    · rw [if_pos hle] at hp; cases hp
    · rw [if_neg hle] at hp
      injection hp with hp
      simp only [Prod.mk.injEq] at hp
      rw [hpd]
      omega

theorem parse_code3_padding_total_witness :
    parse_padding (3 :: 0x41 :: 255 :: 3 :: 9 :: List.replicate 257 0)
        (rd (3 :: 0x41 :: 255 :: 3 :: 9 :: List.replicate 257 0) 1) (262 - 2) =
      (if (262 : Int) - 2 ≤ 255 * (((2 : Nat) : Int) - 1) then .error OPUS_INVALID_PACKET
       else .ok (2 + ((2 : Nat) : Int),
                 262 - 2 - ((2 : Nat) : Int) - (254 * (((2 : Nat) : Int) - 1) + ((3 : Nat) : Int)),
                 254 * (((2 : Nat) : Int) - 1) + ((3 : Nat) : Int))) ∧
    ((260 : Int) - 2 < ((2 : Nat) : Int) + (254 * (((2 : Nat) : Int) - 1) + ((3 : Nat) : Int)) ∧
      opus_packet_parse_impl (3 :: 0x41 :: 255 :: 3 :: List.replicate 256 0) 260 true
        = .error OPUS_INVALID_PACKET) ∧
    (opus_packet_parse_impl (3 :: 0x41 :: 255 :: 3 :: 9 :: List.replicate 257 0) 262 false
        = .ok ⟨3, 1, [1], [4], 4, 262, 257⟩ ∧
      (257 : Int) = 254 * (((2 : Nat) : Int) - 1) + ((3 : Nat) : Int) ∧
      ((2 : Nat) : Int) + 257 ≤ 262 - 2) :=
  ⟨(parse_code3_padding_total (3 :: 0x41 :: 255 :: 3 :: 9 :: List.replicate 257 0) 262 false
      2 3 (by decide) (by decide) (by decide) (by decide)
      (by intro i hi; obtain rfl : i = 0 := by omega
          decide) (by decide) (by decide)).1,
   ⟨by decide,
    (parse_code3_padding_total (3 :: 0x41 :: 255 :: 3 :: List.replicate 256 0) 260 true
      2 3 (by decide) (by decide) (by decide) (by decide)
      (by intro i hi; obtain rfl : i = 0 := by omega
          decide) (by decide) (by decide)).2.1 (by decide)⟩,
   rfl,
   (parse_code3_padding_total (3 :: 0x41 :: 255 :: 3 :: 9 :: List.replicate 257 0) 262 false
      2 3 (by decide) (by decide) (by decide) (by decide)
      (by intro i hi; obtain rfl : i = 0 := by omega
          decide) (by decide) (by decide)).2.2 ⟨3, 1, [1], [4], 4, 262, 257⟩ rfl⟩

/-! ## Bounds on the samples per frame and on the frame count -/

theorem size_code_le (t : Nat) : (t >>> 3) &&& 0x3 ≤ 3 := Nat.and_le_right

/-- At 48 kHz a frame has between 120 (2.5 ms) and 2880 (60 ms) samples. -/
theorem samples_per_frame_48k_bounds (data : List Byte) :
    120 ≤ opus_packet_get_samples_per_frame data 48000 ∧
    opus_packet_get_samples_per_frame data 48000 ≤ 2880 := by
  have ha := size_code_le (rd data 0)
  unfold opus_packet_get_samples_per_frame
  generalize (rd data 0 >>> 3) &&& 0x3 = a at ha
  split_ifs <;> first
    | decide
    | (interval_cases a <;> decide)

theorem code_le (t : Nat) : t &&& 0x3 ≤ 3 := Nat.and_le_right

/-- The frame count left by the switch is between 1 and 48 when a frame has at
least 120 samples. -/
theorem parse_switch_count (data : List Byte) (len : Int) (sd : Bool) (toc : Nat)
    (fs : Int) (h : SwitchState) (hfs : 120 ≤ fs)
    (hok : parse_switch data len sd toc fs = .ok h) :
    1 ≤ h.count ∧ h.count ≤ 48 := by
  have hc := code_le toc
  by_cases c0 : toc &&& 0x3 = 0
  · rw [parse_switch_code0 _ _ _ _ _ c0] at hok
    injection hok with hok
    subst hok
    exact ⟨by simp, by simp⟩
  by_cases c1 : toc &&& 0x3 = 1
  · unfold parse_switch at hok
    rw [if_neg c0, if_pos c1] at hok
    split_ifs at hok <;> (injection hok with hok; subst hok; exact ⟨by simp, by simp⟩)
  by_cases c2 : toc &&& 0x3 = 2
  · rw [parse_switch_code2 _ _ _ _ _ c2] at hok
    split_ifs at hok
    injection hok with hok
    subst hok
    exact ⟨by simp, by simp⟩
  rw [parse_switch_code3 _ _ _ _ _ (by omega)] at hok
  obtain ⟨_, h2, h3, h4, _⟩ := parse_code3_ok data len sd fs h hok
  rw [h4]
  refine ⟨h2, ?_⟩
  by_contra hgt
  have h49 : (49 : Int) ≤ ((rd data 1 &&& 0x3F : Nat) : Int) := by omega
  have : fs * 49 ≤ fs * ((rd data 1 &&& 0x3F : Nat) : Int) :=
    Int.mul_le_mul_of_nonneg_left h49 (by omega)
  omega

/-- What holds after the switch when `self_delimited = 1`: the header bytes, the
bytes left and the padding account for the packet; `cbr` is set exactly for code 1
and for code 3 without the VBR flag; and in the other cases `count - 1` sizes in
`0..1275` have been written and `last_size` is what the packet has left for the
last frame and its size field. -/
theorem parse_switch_inv_sd (data : List Byte) (len : Int) (toc : Nat) (fs : Int)
    (h : SwitchState)
    (hok : parse_switch data len true toc fs = .ok h) :
    0 ≤ h.pad ∧ 1 ≤ h.pos ∧ h.pos + h.len + h.pad = len + 1 ∧
    (h.cbr = true ↔ (toc &&& 0x3 = 1 ∨ (toc &&& 0x3 = 3 ∧ rd data 1 &&& 0x80 = 0))) ∧
    (h.cbr = false →
      (h.size.length : Int) + 1 = h.count ∧ (∀ s ∈ h.size, 0 ≤ s ∧ s ≤ 1275) ∧
      h.pos + h.size.sum + h.last_size + h.pad = len + 1) := by
  have hc := code_le toc
  by_cases c0 : toc &&& 0x3 = 0
  · rw [parse_switch_code0 _ _ _ _ _ c0] at hok
    injection hok with hok
    subst hok
    simp
    omega
  by_cases c1 : toc &&& 0x3 = 1
  · unfold parse_switch at hok
    rw [if_neg c0, if_pos c1] at hok
    simp only [Bool.not_true, Bool.false_eq_true, if_false] at hok
    injection hok with hok
    subst hok
    simp [c1]
    omega
  by_cases c2 : toc &&& 0x3 = 2
  · rw [parse_switch_code2 _ _ _ _ _ c2] at hok
    by_cases hcnd : (parse_size data 1 len).2 < 0 ∨
        (parse_size data 1 len).2 > len - (parse_size data 1 len).1
    · rw [if_pos hcnd] at hok; cases hok
    rw [if_neg hcnd] at hok
    have hb := parse_size_bounds data 1 len (fun hh => hcnd (Or.inl hh))
    injection hok with hok
    subst hok
    simp [c2]
    omega
  have c3 : toc &&& 0x3 = 3 := by omega
  rw [parse_switch_code3 _ _ _ _ _ c3] at hok
  obtain ⟨h1, h2, _, h4, h5, pos2, len2, hpad, hl2, hcase⟩ :=
    parse_code3_ok data len true fs h hok
  have hp := parse_padding_ok _ _ _ _ _ _ hpad
  have hcnt : ((h.count - 1).toNat : Int) = h.count - 1 := by omega
  rcases hcase with ⟨hvbr, hv, hls⟩ | ⟨_, hsd, _⟩ | ⟨hcb, _, e1, e2, e3, e4⟩
  · obtain ⟨new, n1, n2, n3, n4, n5, n6⟩ := vbr_loop_ok _ _ _ _ _ _ _ _ _ _ hv
    rw [List.nil_append] at n1
    have hcf : h.cbr = false := by rw [h5]; simpa using hvbr
    refine ⟨hp.2.1, by omega, by omega, ?_, ?_⟩
    · rw [hcf]
      simp [c3, hvbr]
    · intro _
      rw [n1]
      exact ⟨by rw [n2]; exact_mod_cast (by omega), n3, by omega⟩
  · cases hsd
  · have hct : h.cbr = true := by rw [h5]; simpa using hcb
    refine ⟨hp.2.1, by omega, by omega, ?_, ?_⟩
    · rw [hct]
      simp [c3, hcb]
    · intro hf
      rw [hct] at hf
      cases hf

/-- Every way the last-frame stage can succeed when `self_delimited = 1`. -/
theorem parse_tail_true_ok (data : List Byte) (toc : Nat) (h : SwitchState)
    (out : ParseOut) (hok : parse_tail data true toc h = .ok out) :
    1 ≤ (parse_size data h.pos h.len).1 ∧ (parse_size data h.pos h.len).1 ≤ 2 ∧
    0 ≤ (parse_size data h.pos h.len).2 ∧ (parse_size data h.pos h.len).2 ≤ 1275 ∧
    (parse_size data h.pos h.len).2 ≤ h.len - (parse_size data h.pos h.len).1 ∧
    ((h.cbr = true ∧
        (parse_size data h.pos h.len).2 * h.count
          ≤ h.len - (parse_size data h.pos h.len).1 ∧
        out = parse_finish toc h.count (h.pos + (parse_size data h.pos h.len).1) h.pad
          (List.replicate (h.count - 1).toNat (parse_size data h.pos h.len).2
            ++ [(parse_size data h.pos h.len).2])) ∨
     (h.cbr = false ∧
        (parse_size data h.pos h.len).1 + (parse_size data h.pos h.len).2 ≤ h.last_size ∧
        out = parse_finish toc h.count (h.pos + (parse_size data h.pos h.len).1) h.pad
          (h.size ++ [(parse_size data h.pos h.len).2]))) := by
  unfold parse_tail at hok
  simp only [if_true] at hok
  by_cases hc : (parse_size data h.pos h.len).2 < 0 ∨
      (parse_size data h.pos h.len).2 > h.len - (parse_size data h.pos h.len).1
  · rw [if_pos hc] at hok; cases hok
  rw [if_neg hc] at hok
  have hb := parse_size_bounds data h.pos h.len (fun hh => hc (Or.inl hh))
  refine ⟨hb.1, hb.2.1, hb.2.2.2.1, hb.2.2.2.2, by omega, ?_⟩
  by_cases hcbr : h.cbr = true
  · rw [if_pos hcbr] at hok
    by_cases hm : (parse_size data h.pos h.len).2 * h.count
        > h.len - (parse_size data h.pos h.len).1
    · rw [if_pos hm] at hok; cases hok
    rw [if_neg hm] at hok
    injection hok with hok
    exact Or.inl ⟨hcbr, by omega, hok.symm⟩
  · rw [if_neg hcbr] at hok
    by_cases hm : (parse_size data h.pos h.len).1 + (parse_size data h.pos h.len).2
        > h.last_size
    · rw [if_pos hm] at hok; cases hok
    rw [if_neg hm] at hok
    injection hok with hok
    exact Or.inr ⟨by simpa using hcbr, by omega, hok.symm⟩

/-- The layout of a successful parse, for both values of `self_delimited`:
`count` sizes, all in `0..1275`, which together with the header bytes and the
padding fit in the packet. -/
theorem parse_ok_layout (data : List Byte) (len : Int) (sd : Bool) (out : ParseOut)
    (hok : opus_packet_parse_impl data len sd = .ok out) :
    (out.size.length : Int) = out.count ∧
    (∀ s ∈ out.size, 0 ≤ s ∧ s ≤ 1275) ∧
    out.payload_offset + out.size.sum + out.padding ≤ len := by
  obtain ⟨hl, h, hsw, htail⟩ := parse_impl_ok data len sd out hok
  have hcount := parse_switch_count data (len - 1) sd _ _ h
    (samples_per_frame_48k_bounds data).1 hsw
  cases sd
  · obtain ⟨i1, i2, i3, i4, i5, i6⟩ := parse_switch_inv data (len - 1) _ _ h (by omega) hsw
    rw [parse_tail_false] at htail
    by_cases hbig : h.last_size > 1275
    · rw [if_pos hbig] at htail; cases htail
    rw [if_neg hbig] at htail
    injection htail with htail
    subst htail
    obtain ⟨i7, i8⟩ := i6 (by omega)
    have hid : int16 h.last_size = h.last_size := int16_id _ (by omega) (by omega)
    refine ⟨?_, ?_, ?_⟩
    · show ((h.size ++ [int16 h.last_size]).length : Int) = h.count
      rw [List.length_append, List.length_singleton]
      push_cast
      omega
    · intro s hs
      have hs1 : s ∈ h.size ++ [int16 h.last_size] := hs
      rcases List.mem_append.1 hs1 with hm | hm
      · exact i7 s hm
      · rw [List.mem_singleton.1 hm, hid]
        omega
    · show h.pos + (h.size ++ [int16 h.last_size]).sum + h.pad ≤ len
      rw [List.sum_append, List.sum_singleton, hid]
      omega
  · obtain ⟨j1, j2, j3, j4, j5⟩ := parse_switch_inv_sd data (len - 1) _ _ h hsw
    obtain ⟨t1, t2, t3, t4, t5, t6⟩ := parse_tail_true_ok data _ h out htail
    have hcnt : ((h.count - 1).toNat : Int) = h.count - 1 := by omega
    rcases t6 with ⟨hcbr, hm, rfl⟩ | ⟨hcbr, hm, rfl⟩
    · refine ⟨?_, ?_, ?_⟩
      · show ((List.replicate (h.count - 1).toNat _ ++ [_]).length : Int) = h.count
        rw [List.length_append, List.length_singleton, List.length_replicate]
        push_cast
        omega
      · intro s hs
        have hs1 : s ∈ List.replicate (h.count - 1).toNat
            (parse_size data h.pos h.len).2 ++ [(parse_size data h.pos h.len).2] := hs
        rcases List.mem_append.1 hs1 with hm1 | hm1
        · rw [List.eq_of_mem_replicate hm1]; omega
        · rw [List.mem_singleton.1 hm1]; omega
      · show h.pos + (parse_size data h.pos h.len).1
          + (List.replicate (h.count - 1).toNat (parse_size data h.pos h.len).2
              ++ [(parse_size data h.pos h.len).2]).sum + h.pad ≤ len
        rw [List.sum_append, List.sum_singleton, sum_replicate_int, hcnt]
        have : (h.count - 1) * (parse_size data h.pos h.len).2
            + (parse_size data h.pos h.len).2
            = (parse_size data h.pos h.len).2 * h.count := by ring
        omega
    · obtain ⟨k1, k2, k3⟩ := j5 hcbr
      refine ⟨?_, ?_, ?_⟩
      · show ((h.size ++ [_]).length : Int) = h.count
        rw [List.length_append, List.length_singleton]
        push_cast
        omega
      · intro s hs
        have hs1 : s ∈ h.size ++ [(parse_size data h.pos h.len).2] := hs
        rcases List.mem_append.1 hs1 with hm1 | hm1
        · exact k2 s hm1
        · rw [List.mem_singleton.1 hm1]; omega
      · show h.pos + (parse_size data h.pos h.len).1
          + (h.size ++ [(parse_size data h.pos h.len).2]).sum + h.pad ≤ len
        rw [List.sum_append, List.sum_singleton]
        omega

/-- The count returned by a successful parse is between 1 and 48. -/
theorem parse_ok_count (data : List Byte) (len : Int) (sd : Bool) (out : ParseOut)
    (hok : opus_packet_parse_impl data len sd = .ok out) :
    1 ≤ out.count ∧ out.count ≤ 48 := by
  obtain ⟨hl, h, hsw, htail⟩ := parse_impl_ok data len sd out hok
  have hcount := parse_switch_count data (len - 1) sd _ _ h
    (samples_per_frame_48k_bounds data).1 hsw
  rw [(parse_tail_ok_fields data sd _ h out htail).2.1]
  exact hcount

theorem parse_tail_ok_finish (data : List Byte) (sd : Bool) (toc : Nat)
    (h : SwitchState) (out : ParseOut) (hok : parse_tail data sd toc h = .ok out) :
    out = parse_finish toc out.count out.payload_offset out.padding out.size := by
  unfold parse_tail at hok
  simp only at hok
  split_ifs at hok <;> (injection hok with hok; subst hok; rfl)

theorem parse_ok_packet_offset (data : List Byte) (len : Int) (sd : Bool)
    (out : ParseOut) (hok : opus_packet_parse_impl data len sd = .ok out) :
    out.packet_offset = out.padding + (out.payload_offset + out.size.sum) := by
  obtain ⟨_, h, _, htail⟩ := parse_impl_ok data len sd out hok
  have hfin := parse_tail_ok_finish data sd _ h out htail
  have hlen := (parse_ok_layout data len sd out hok).1
  rw [hfin]
  exact parse_finish_packet_offset _ _ _ _ _ hlen

/-! ## Results of the parser for both framings -/

/-- C11: for every input, a non-negative result of `opus_packet_parse_impl` is a
frame count between 1 and 48: every failure result is a negative error code, and
a success returns `count` with exactly `count <= 48` entries of `size[]` written. -/
theorem parse_returns_count_or_negative (data : List Byte) (len : Int) (sd : Bool) :
    (0 ≤ parse_ret (opus_packet_parse_impl data len sd) →
      1 ≤ parse_ret (opus_packet_parse_impl data len sd) ∧
      parse_ret (opus_packet_parse_impl data len sd) ≤ 48) ∧
    (∀ e : OpusError, opus_packet_parse_impl data len sd = .error e →
      parse_ret (opus_packet_parse_impl data len sd) = e.toInt ∧ e.toInt < 0) ∧
    (∀ out : ParseOut, opus_packet_parse_impl data len sd = .ok out →
      parse_ret (opus_packet_parse_impl data len sd) = out.count ∧
      (out.size.length : Int) = out.count ∧ out.size.length ≤ 48) := by
  have hneg : ∀ e : OpusError, e.toInt < 0 := by
    intro e; cases e <;> decide
  refine ⟨?_, ?_, ?_⟩
  · intro hnn
    cases hr : opus_packet_parse_impl data len sd with
    | error e =>
      rw [hr] at hnn
      have := hneg e
      simp only [parse_ret] at hnn
      omega
    | ok out =>
      exact parse_ok_count data len sd out hr
  · intro e hr
    rw [hr]
    exact ⟨rfl, hneg e⟩
  · intro out hr
    have hc := parse_ok_count data len sd out hr
    have hlay := (parse_ok_layout data len sd out hr).1
    rw [hr]
    exact ⟨rfl, hlay, by omega⟩

theorem parse_returns_count_or_negative_witness :
    (opus_packet_parse_impl [3, 0x83, 1, 2, 5, 6, 6, 0, 0] 9 false
        = .ok ⟨3, 3, [1, 2, 2], [4, 5, 7], 4, 9, 0⟩ ∧
      (1 : Int) ≤ 3 ∧ (3 : Int) ≤ 48) ∧
    (opus_packet_parse_impl [3, 0x83, 1, 2, 5, 6, 6, 0, 0] 9 true
        = .error OpusError.OPUS_INVALID_PACKET ∧
      parse_ret (opus_packet_parse_impl [3, 0x83, 1, 2, 5, 6, 6, 0, 0] 9 true)
        = OpusError.OPUS_INVALID_PACKET.toInt ∧
      OpusError.OPUS_INVALID_PACKET.toInt < 0) ∧
    (parse_ret (opus_packet_parse_impl [3, 0x83, 1, 2, 5, 6, 6, 0, 0] 9 false) = 3 ∧
      ((([1, 2, 2] : List Int).length : Nat) : Int) = 3 ∧
      ([1, 2, 2] : List Int).length ≤ 48) :=
  ⟨⟨rfl, (parse_returns_count_or_negative [3, 0x83, 1, 2, 5, 6, 6, 0, 0] 9 false).1
      (by decide)⟩,
   ⟨rfl, (parse_returns_count_or_negative [3, 0x83, 1, 2, 5, 6, 6, 0, 0] 9 true).2.1
      OpusError.OPUS_INVALID_PACKET rfl⟩,
   (parse_returns_count_or_negative [3, 0x83, 1, 2, 5, 6, 6, 0, 0] 9 false).2.2
      ⟨3, 3, [1, 2, 2], [4, 5, 7], 4, 9, 0⟩ rfl⟩

/-- C12: whenever `opus_packet_parse_impl` succeeds, with `self_delimited` 0 or 1,
the frames lie inside the packet: `payload_offset` plus the sum of the sizes plus
the padding is at most `len`, this sum is the reported `packet_offset`, and every
`size[i]` is between 0 and 1275. -/
theorem parse_frames_inside_packet (data : List Byte) (len : Int) (sd : Bool)
    (out : ParseOut) (hok : opus_packet_parse_impl data len sd = .ok out) :
    out.payload_offset + out.size.sum + out.padding ≤ len ∧
    out.packet_offset = out.padding + (out.payload_offset + out.size.sum) ∧
    out.packet_offset ≤ len ∧
    (∀ s ∈ out.size, 0 ≤ s ∧ s ≤ 1275) := by
  obtain ⟨_, h2, h3⟩ := parse_ok_layout data len sd out hok
  have h4 := parse_ok_packet_offset data len sd out hok
  exact ⟨h3, h4, by omega, h2⟩

theorem parse_frames_inside_packet_witness :
    opus_packet_parse_impl [3, 0x03, 2, 5, 6, 6, 0, 0, 0, 9, 9] 11 true
      = .ok ⟨3, 3, [2, 2, 2], [3, 5, 7], 3, 9, 0⟩ ∧
    (3 : Int) + ([2, 2, 2] : List Int).sum + 0 ≤ 11 ∧
    (9 : Int) = 0 + (3 + ([2, 2, 2] : List Int).sum) ∧
    (9 : Int) ≤ 11 ∧ (0 : Int) ≤ 2 ∧ (2 : Int) ≤ 1275 :=
  ⟨rfl,
   (parse_frames_inside_packet [3, 0x03, 2, 5, 6, 6, 0, 0, 0, 9, 9] 11 true
      ⟨3, 3, [2, 2, 2], [3, 5, 7], 3, 9, 0⟩ rfl).1,
   (parse_frames_inside_packet [3, 0x03, 2, 5, 6, 6, 0, 0, 0, 9, 9] 11 true
      ⟨3, 3, [2, 2, 2], [3, 5, 7], 3, 9, 0⟩ rfl).2.1,
   (parse_frames_inside_packet [3, 0x03, 2, 5, 6, 6, 0, 0, 0, 9, 9] 11 true
      ⟨3, 3, [2, 2, 2], [3, 5, 7], 3, 9, 0⟩ rfl).2.2.1,
   (parse_frames_inside_packet [3, 0x03, 2, 5, 6, 6, 0, 0, 0, 9, 9] 11 true
      ⟨3, 3, [2, 2, 2], [3, 5, 7], 3, 9, 0⟩ rfl).2.2.2 2 (by decide)⟩

/-- C13: with `self_delimited = 1`, once the switch has left the state `h`, a size
field `s` of `b` bytes is read for the last frame at `h.pos`, after the other
headers, out of the `h.len` bytes left; the packet is rejected when the field
cannot be read or `s` exceeds the bytes after it; for CBR packets (`h.cbr`, set
exactly for code 1 and for code 3 with the VBR flag clear) it is rejected when
`s * count` exceeds the bytes after the field, and otherwise all `count` frames
get size `s`; for the other packets (codes 0, 2, VBR code 3) it is rejected when
`b + s` exceeds `last_size`, and otherwise `s` is the size of the last frame. -/
theorem parse_self_delimited_last_size (data : List Byte) (len : Int)
    (h : SwitchState) (hl : 1 ≤ len)
    (hsw : parse_switch data (len - 1) true (rd data 0)
      (opus_packet_get_samples_per_frame data 48000) = .ok h) :
    h.pos + h.len + h.pad = len ∧
    (h.cbr = true ↔
      (rd data 0 &&& 0x3 = 1 ∨ (rd data 0 &&& 0x3 = 3 ∧ rd data 1 &&& 0x80 = 0))) ∧
    ((parse_size data h.pos h.len).2 < 0 ∨
        (parse_size data h.pos h.len).2 > h.len - (parse_size data h.pos h.len).1 →
      opus_packet_parse_impl data len true = .error OPUS_INVALID_PACKET) ∧
    (h.cbr = true →
        (parse_size data h.pos h.len).2 * h.count
          > h.len - (parse_size data h.pos h.len).1 →
      opus_packet_parse_impl data len true = .error OPUS_INVALID_PACKET) ∧
    (h.cbr = false →
        (parse_size data h.pos h.len).1 + (parse_size data h.pos h.len).2 > h.last_size →
      opus_packet_parse_impl data len true = .error OPUS_INVALID_PACKET) ∧
    (∀ out : ParseOut, opus_packet_parse_impl data len true = .ok out →
      out.count = h.count ∧
      out.payload_offset = h.pos + (parse_size data h.pos h.len).1 ∧
      (h.cbr = true →
        out.size = List.replicate h.count.toNat (parse_size data h.pos h.len).2) ∧
      (h.cbr = false → out.size = h.size ++ [(parse_size data h.pos h.len).2])) := by
  obtain ⟨j1, j2, j3, j4, j5⟩ := parse_switch_inv_sd data (len - 1) _ _ h hsw
  have hcount := parse_switch_count data (len - 1) true _ _ h
    (samples_per_frame_48k_bounds data).1 hsw
  have himpl := parse_impl_of_switch_ok data len true h hl hsw
  have htail : parse_tail data true (rd data 0) h =
      if (parse_size data h.pos h.len).2 < 0 ∨
          (parse_size data h.pos h.len).2 > h.len - (parse_size data h.pos h.len).1 then
        .error OPUS_INVALID_PACKET
      else if h.cbr = true then
        if (parse_size data h.pos h.len).2 * h.count
            > h.len - (parse_size data h.pos h.len).1 then
          .error OPUS_INVALID_PACKET
        else .ok (parse_finish (rd data 0) h.count
          (h.pos + (parse_size data h.pos h.len).1) h.pad
          (List.replicate (h.count - 1).toNat (parse_size data h.pos h.len).2
            ++ [(parse_size data h.pos h.len).2]))
      else if (parse_size data h.pos h.len).1 + (parse_size data h.pos h.len).2
          > h.last_size then
        .error OPUS_INVALID_PACKET
      else .ok (parse_finish (rd data 0) h.count
        (h.pos + (parse_size data h.pos h.len).1) h.pad
        (h.size ++ [(parse_size data h.pos h.len).2])) := by
    unfold parse_tail
    simp only [if_true]
  rw [himpl, htail]
  refine ⟨by omega, j4, ?_, ?_, ?_, ?_⟩
  · intro hbad
    rw [if_pos hbad]
  · intro hcbr hbig
    by_cases hbad : (parse_size data h.pos h.len).2 < 0 ∨
        (parse_size data h.pos h.len).2 > h.len - (parse_size data h.pos h.len).1
    · rw [if_pos hbad]
    · rw [if_neg hbad, if_pos hcbr, if_pos hbig]
  · intro hcbr hbig
    by_cases hbad : (parse_size data h.pos h.len).2 < 0 ∨
        (parse_size data h.pos h.len).2 > h.len - (parse_size data h.pos h.len).1
    · rw [if_pos hbad]
    · rw [if_neg hbad, if_neg (by simp [hcbr]), if_pos hbig]
  · intro out hout
    have hcnt : (h.count - 1).toNat + 1 = h.count.toNat := by omega
    split_ifs at hout with hbad hcbr hbig hbig
    · injection hout with hout
      subst hout
      refine ⟨rfl, rfl, fun _ => ?_, fun hf => ?_⟩
      · show List.replicate (h.count - 1).toNat _ ++ [_] = List.replicate h.count.toNat _
        rw [← hcnt]
        exact (replicate_snoc _ _).symm
      · rw [hcbr] at hf; cases hf
    · injection hout with hout
      subst hout
      exact ⟨rfl, rfl, fun ht => absurd ht hcbr, fun _ => rfl⟩

theorem parse_self_delimited_last_size_witness :
    (parse_switch [2, 3, 3, 7, 7, 7, 7] (7 - 1) true (rd [2, 3, 3, 7, 7, 7, 7] 0)
        (opus_packet_get_samples_per_frame [2, 3, 3, 7, 7, 7, 7] 48000)
        = .ok ⟨2, false, 2, 5, 2, 0, [3]⟩ ∧
      parse_size [2, 3, 3, 7, 7, 7, 7] 2 5 = (1, 3) ∧
      opus_packet_parse_impl [2, 3, 3, 7, 7, 7, 7] 7 true = .error OPUS_INVALID_PACKET) ∧
    (parse_switch [3, 0x03, 2, 5, 6, 6, 0, 0, 0, 9, 9] (11 - 1) true
        (rd [3, 0x03, 2, 5, 6, 6, 0, 0, 0, 9, 9] 0)
        (opus_packet_get_samples_per_frame [3, 0x03, 2, 5, 6, 6, 0, 0, 0, 9, 9] 48000)
        = .ok ⟨3, true, 2, 9, 10, 0, []⟩ ∧
      parse_size [3, 0x03, 2, 5, 6, 6, 0, 0, 0, 9, 9] 2 9 = (1, 2) ∧
      opus_packet_parse_impl [3, 0x03, 2, 5, 6, 6, 0, 0, 0, 9, 9] 11 true
        = .ok ⟨3, 3, [2, 2, 2], [3, 5, 7], 3, 9, 0⟩ ∧
      ([2, 2, 2] : List Int) = List.replicate (3 : Int).toNat
        (parse_size [3, 0x03, 2, 5, 6, 6, 0, 0, 0, 9, 9] 2 9).2) :=
  ⟨⟨rfl, rfl,
    (parse_self_delimited_last_size [2, 3, 3, 7, 7, 7, 7] 7 ⟨2, false, 2, 5, 2, 0, [3]⟩
      (by decide) rfl).2.2.2.2.1 rfl (by decide)⟩,
   rfl, rfl, rfl,
   ((parse_self_delimited_last_size [3, 0x03, 2, 5, 6, 6, 0, 0, 0, 9, 9] 11
      ⟨3, true, 2, 9, 10, 0, []⟩ (by decide) rfl).2.2.2.2.2
      ⟨3, 3, [2, 2, 2], [3, 5, 7], 3, 9, 0⟩ rfl).2.2.1 rfl⟩

/-! ## The bit fields of the TOC byte -/

set_option maxRecDepth 100000 in
/-- The masks and shifts the source applies to a byte, read as bits and bit
fields. -/
theorem byte_masks : ∀ t : Fin 256,
    ((t.val &&& 0x80 ≠ 0) ↔ t.val.testBit 7 = true) ∧
    ((t.val &&& 0x60 = 0x60) ↔ (t.val.testBit 5 = true ∧ t.val.testBit 6 = true)) ∧
    ((t.val &&& 0x08 ≠ 0) ↔ t.val.testBit 3 = true) ∧
    ((t.val &&& 0x10 ≠ 0) ↔ t.val.testBit 4 = true) ∧
    ((t.val &&& 0x4 ≠ 0) ↔ t.val.testBit 2 = true) ∧
    ((t.val >>> 3) &&& 0x3 = t.val / 8 % 4) ∧
    ((t.val >>> 5) &&& 0x3 = t.val / 32 % 4) := by
  decide

theorem toc_masks (data : List Byte) :
    ((rd data 0 &&& 0x80 ≠ 0) ↔ (rd data 0).testBit 7 = true) ∧
    ((rd data 0 &&& 0x60 = 0x60) ↔
      ((rd data 0).testBit 5 = true ∧ (rd data 0).testBit 6 = true)) ∧
    ((rd data 0 &&& 0x08 ≠ 0) ↔ (rd data 0).testBit 3 = true) ∧
    ((rd data 0 &&& 0x10 ≠ 0) ↔ (rd data 0).testBit 4 = true) ∧
    ((rd data 0 &&& 0x4 ≠ 0) ↔ (rd data 0).testBit 2 = true) ∧
    ((rd data 0 >>> 3) &&& 0x3 = rd data 0 / 8 % 4) ∧
    ((rd data 0 >>> 5) &&& 0x3 = rd data 0 / 32 % 4) :=
  byte_masks ⟨rd data 0, rd_lt data 0⟩

/-! ## Samples per frame -/

/-- C14 fails as stated: for the TOC byte `0x88` (bit 7 set) the 2-bit value held
in bits 4-5 is 0, which would give `48000 / 400 = 120` samples, while the function
reads bits 3-4 (value 1) and returns `(48000 << 1) / 400 = 240`. -/
theorem samples_per_frame_celt_counterexample :
    (0x88 : Nat).testBit 7 = true ∧ (0x88 : Nat) / 16 % 4 = 0 ∧
    ((48000 : Int) * 2 ^ ((0x88 : Nat) / 16 % 4)).tdiv 400 = 120 ∧
    opus_packet_get_samples_per_frame [0x88] 48000 = 240 ∧
    ¬ opus_packet_get_samples_per_frame [0x88] 48000
        = ((48000 : Int) * 2 ^ ((0x88 : Nat) / 16 % 4)).tdiv 400 := by
  decide

/-- C14 (amended): for every TOC byte with bit 7 set (transform-only) and every
sampling rate `Fs`, `opus_packet_get_samples_per_frame` returns
`(Fs << size_code) / 400` where `size_code` is the 2-bit value held in bits 3-4 of
the TOC byte; the shift is the 32-bit shift of the source, `int32 (Fs * 2^size_code)`,
and for `-2^28 <= Fs < 2^28` it is the exact product `Fs * 2^size_code`. -/
theorem samples_per_frame_celt (data : List Byte) (Fs : Int)
    (h7 : (rd data 0).testBit 7 = true) :
    opus_packet_get_samples_per_frame data Fs
      = (int32 (Fs * 2 ^ (rd data 0 / 8 % 4))).tdiv 400 ∧
    (-268435456 ≤ Fs → Fs < 268435456 →
      opus_packet_get_samples_per_frame data Fs
        = (Fs * 2 ^ (rd data 0 / 8 % 4)).tdiv 400) := by
  obtain ⟨m7, _, _, _, _, m34, _⟩ := toc_masks data
  have hw : opus_packet_get_samples_per_frame data Fs
      = (int32 (Fs * 2 ^ (rd data 0 / 8 % 4))).tdiv 400 := by
    unfold opus_packet_get_samples_per_frame
    rw [if_pos (m7.2 h7), m34]
  refine ⟨hw, fun h0 h1 => ?_⟩
  rw [hw]
  have ha : rd data 0 / 8 % 4 < 4 := Nat.mod_lt _ (by decide)
  generalize rd data 0 / 8 % 4 = a at ha
  interval_cases a <;> rw [int32_id _ (by omega) (by omega)]

theorem samples_per_frame_celt_witness :
    (rd [0x88, 1, 2] 0).testBit 7 = true ∧
    opus_packet_get_samples_per_frame [0x88, 1, 2] 48000
      = ((48000 : Int) * 2 ^ (rd [0x88, 1, 2] 0 / 8 % 4)).tdiv 400 ∧
    opus_packet_get_samples_per_frame [0x98] 1073741824
      = (int32 (1073741824 * 2 ^ (rd [0x98] 0 / 8 % 4))).tdiv 400 ∧
    opus_packet_get_samples_per_frame [0x98] 1073741824 = 0 :=
  ⟨by decide,
   (samples_per_frame_celt [0x88, 1, 2] 48000 (by decide)).2 (by decide) (by decide),
   (samples_per_frame_celt [0x98] 1073741824 (by decide)).1, by decide⟩

/-- C15: for every TOC byte with bit 7 clear and every `Fs`: if bits 5 and 6 are
both set (hybrid) `opus_packet_get_samples_per_frame` returns `Fs/50` when bit 3 is
set and `Fs/100` otherwise; else (prediction-only), with `size_code` the 2-bit
field in bits 3-4 that it reads, it returns `(Fs << size_code)/100` for
`size_code` 0..2 and `Fs*60/1000` for `size_code` 3. The shift and the product are
the 32-bit operations of the source, `int32 (Fs * 2^size_code)` and
`int32 (Fs * 60)`; they are the exact products for `-2^29 <= Fs < 2^29` and for
`-35791394 <= Fs <= 35791394`. -/
theorem samples_per_frame_silk_hybrid (data : List Byte) (Fs : Int)
    (h7 : (rd data 0).testBit 7 = false) :
    (((rd data 0).testBit 5 = true ∧ (rd data 0).testBit 6 = true) →
      opus_packet_get_samples_per_frame data Fs
        = if (rd data 0).testBit 3 = true then Fs.tdiv 50 else Fs.tdiv 100) ∧
    (¬ ((rd data 0).testBit 5 = true ∧ (rd data 0).testBit 6 = true) →
      rd data 0 / 8 % 4 ≤ 3 ∧
      (rd data 0 / 8 % 4 ≤ 2 →
        opus_packet_get_samples_per_frame data Fs
          = (int32 (Fs * 2 ^ (rd data 0 / 8 % 4))).tdiv 100 ∧
        (-536870912 ≤ Fs → Fs < 536870912 →
          opus_packet_get_samples_per_frame data Fs
            = (Fs * 2 ^ (rd data 0 / 8 % 4)).tdiv 100)) ∧
      (rd data 0 / 8 % 4 = 3 →
        opus_packet_get_samples_per_frame data Fs = (int32 (Fs * 60)).tdiv 1000 ∧
        (-35791394 ≤ Fs → Fs ≤ 35791394 →
          opus_packet_get_samples_per_frame data Fs = (Fs * 60).tdiv 1000))) := by
  obtain ⟨m7, m56, m3, _, _, m34, _⟩ := toc_masks data
  have hn7 : ¬ (rd data 0 &&& 0x80 ≠ 0) := by
    rw [m7, h7]; simp
  unfold opus_packet_get_samples_per_frame
  rw [if_neg hn7, m34]
  constructor
  · intro hh
    rw [if_pos (m56.2 hh)]
    by_cases h3 : (rd data 0).testBit 3 = true
    · rw [if_pos (m3.2 h3), if_pos h3]
    · rw [if_neg (fun hc => h3 (m3.1 hc)), if_neg h3]
  · intro hh
    rw [if_neg (fun hc => hh (m56.1 hc))]
    refine ⟨by omega, ?_, ?_⟩
    · intro h2
      simp only
      rw [if_neg (by omega)]
      refine ⟨rfl, fun h0 h1 => ?_⟩
      generalize rd data 0 / 8 % 4 = a at h2
      interval_cases a <;> rw [int32_id _ (by omega) (by omega)]
    · intro h3
      simp only
      rw [if_pos h3]
      exact ⟨rfl, fun h0 h1 => by rw [int32_id _ (by omega) (by omega)]⟩

theorem samples_per_frame_silk_hybrid_witness :
    ((rd [0x68] 0).testBit 7 = false ∧
      (rd [0x68] 0).testBit 5 = true ∧ (rd [0x68] 0).testBit 6 = true ∧
      opus_packet_get_samples_per_frame [0x68] 48000
        = if (rd [0x68] 0).testBit 3 = true then (48000 : Int).tdiv 50
          else (48000 : Int).tdiv 100) ∧
    ((rd [0x18] 0).testBit 7 = false ∧ rd [0x18] 0 / 8 % 4 = 3 ∧
      opus_packet_get_samples_per_frame [0x18] 48000 = ((48000 : Int) * 60).tdiv 1000 ∧
      opus_packet_get_samples_per_frame [0x18] 2147483647
        = (int32 (2147483647 * 60)).tdiv 1000 ∧
      opus_packet_get_samples_per_frame [0x18] 2147483647 = 0) ∧
    (rd [0x10] 0 / 8 % 4 ≤ 2 ∧
      opus_packet_get_samples_per_frame [0x10] 48000
        = ((48000 : Int) * 2 ^ (rd [0x10] 0 / 8 % 4)).tdiv 100) :=
  ⟨⟨by decide, by decide, by decide,
    (samples_per_frame_silk_hybrid [0x68] 48000 (by decide)).1 (by decide)⟩,
   ⟨by decide, by decide,
    (((samples_per_frame_silk_hybrid [0x18] 48000 (by decide)).2 (by decide)).2.2
      (by decide)).2 (by decide) (by decide),
    (((samples_per_frame_silk_hybrid [0x18] 2147483647 (by decide)).2 (by decide)).2.2
      (by decide)).1,
    by decide⟩,
   by decide,
   (((samples_per_frame_silk_hybrid [0x10] 48000 (by decide)).2 (by decide)).2.1
      (by decide)).2 (by decide) (by decide)⟩

/-! ## Bandwidth -/

set_option maxRecDepth 100000 in
theorem byte_bits_5_6 : ∀ t : Fin 256,
    (t.val / 32 % 4 = 3 ↔ (t.val.testBit 5 = true ∧ t.val.testBit 6 = true)) := by
  decide

/-- C16: for every TOC byte, `opus_packet_get_bandwidth` returns one of the five
bandwidths narrowband..fullband (1101..1105): in transform-only mode (bit 7 set)
the values 0, 1, 2, 3 of bits 5-6 map to narrowband, wideband, superwideband,
fullband and mediumband is never returned; in hybrid mode (bit 7 clear, bits 5 and
6 set) bit 4 selects fullband (set) or superwideband (clear); in prediction-only
mode the values 0, 1, 2 of bits 5-6 map to narrowband, mediumband, wideband. -/
theorem packet_bandwidth_map (data : List Byte) :
    (1101 ≤ opus_packet_get_bandwidth data ∧ opus_packet_get_bandwidth data ≤ 1105) ∧
    ((rd data 0).testBit 7 = true →
      (rd data 0 / 32 % 4 = 0 →
        opus_packet_get_bandwidth data = OPUS_BANDWIDTH_NARROWBAND) ∧
      (rd data 0 / 32 % 4 = 1 →
        opus_packet_get_bandwidth data = OPUS_BANDWIDTH_WIDEBAND) ∧
      (rd data 0 / 32 % 4 = 2 →
        opus_packet_get_bandwidth data = OPUS_BANDWIDTH_SUPERWIDEBAND) ∧
      (rd data 0 / 32 % 4 = 3 →
        opus_packet_get_bandwidth data = OPUS_BANDWIDTH_FULLBAND) ∧
      opus_packet_get_bandwidth data ≠ OPUS_BANDWIDTH_MEDIUMBAND) ∧
    ((rd data 0).testBit 7 = false →
      ((rd data 0).testBit 5 = true ∧ (rd data 0).testBit 6 = true) →
      opus_packet_get_bandwidth data
        = if (rd data 0).testBit 4 = true then OPUS_BANDWIDTH_FULLBAND
          else OPUS_BANDWIDTH_SUPERWIDEBAND) ∧
    ((rd data 0).testBit 7 = false →
      ¬ ((rd data 0).testBit 5 = true ∧ (rd data 0).testBit 6 = true) →
      rd data 0 / 32 % 4 ≤ 2 ∧
      (rd data 0 / 32 % 4 = 0 →
        opus_packet_get_bandwidth data = OPUS_BANDWIDTH_NARROWBAND) ∧
      (rd data 0 / 32 % 4 = 1 →
        opus_packet_get_bandwidth data = OPUS_BANDWIDTH_MEDIUMBAND) ∧
      (rd data 0 / 32 % 4 = 2 →
        opus_packet_get_bandwidth data = OPUS_BANDWIDTH_WIDEBAND)) := by
  obtain ⟨m7, m56, _, m4, _, _, m5⟩ := toc_masks data
  have hb56 := byte_bits_5_6 ⟨rd data 0, rd_lt data 0⟩
  simp only at hb56
  have hlt : rd data 0 / 32 % 4 < 4 := Nat.mod_lt _ (by decide)
  unfold opus_packet_get_bandwidth
  simp only [OPUS_BANDWIDTH_NARROWBAND, OPUS_BANDWIDTH_MEDIUMBAND, OPUS_BANDWIDTH_WIDEBAND,
    OPUS_BANDWIDTH_SUPERWIDEBAND, OPUS_BANDWIDTH_FULLBAND, m5]
  by_cases h7 : (rd data 0).testBit 7 = true
  · rw [if_pos (m7.2 h7)]
    refine ⟨?_, fun _ => ⟨?_, ?_, ?_, ?_, ?_⟩, fun hf => ?_, fun hf => ?_⟩
    · split_ifs <;> omega
    · intro h0; rw [h0]; simp
    · intro h0; rw [h0]; simp
    · intro h0; rw [h0]; simp
    · intro h0; rw [h0]; simp
    · split_ifs <;> omega
    · rw [h7] at hf; cases hf
    · rw [h7] at hf; cases hf
  · have hn7 : ¬ (rd data 0 &&& 0x80 ≠ 0) := fun hc => h7 (m7.1 hc)
    rw [if_neg hn7]
    by_cases h56 : (rd data 0).testBit 5 = true ∧ (rd data 0).testBit 6 = true
    · rw [if_pos (m56.2 h56)]
      refine ⟨?_, fun ht => absurd ht h7, fun _ _ => ?_, fun _ hn => absurd h56 hn⟩
      · split_ifs <;> omega
      · by_cases h4 : (rd data 0).testBit 4 = true
        · rw [if_pos (m4.2 h4), if_pos h4]
        · rw [if_neg (fun hc => h4 (m4.1 hc)), if_neg h4]
    · rw [if_neg (fun hc => h56 (m56.1 hc))]
      have hne3 : rd data 0 / 32 % 4 ≠ 3 := fun hc => h56 (hb56.1 hc)
      refine ⟨by omega, fun ht => absurd ht h7, fun _ hh => absurd hh h56,
        fun _ _ => ⟨by omega, ?_, ?_, ?_⟩⟩
      · intro h0; rw [h0]; simp
      · intro h0; rw [h0]; simp
      · intro h0; rw [h0]; simp

theorem packet_bandwidth_map_witness :
    ((rd [0xA0] 0).testBit 7 = true ∧ rd [0xA0] 0 / 32 % 4 = 1 ∧
      opus_packet_get_bandwidth [0xA0] = OPUS_BANDWIDTH_WIDEBAND) ∧
    ((rd [0x70] 0).testBit 7 = false ∧
      (rd [0x70] 0).testBit 5 = true ∧ (rd [0x70] 0).testBit 6 = true ∧
      opus_packet_get_bandwidth [0x70]
        = if (rd [0x70] 0).testBit 4 = true then OPUS_BANDWIDTH_FULLBAND
          else OPUS_BANDWIDTH_SUPERWIDEBAND) ∧
    ((rd [0x20] 0).testBit 7 = false ∧ rd [0x20] 0 / 32 % 4 = 1 ∧
      opus_packet_get_bandwidth [0x20] = OPUS_BANDWIDTH_MEDIUMBAND) :=
  ⟨⟨by decide, by decide,
    ((packet_bandwidth_map [0xA0]).2.1 (by decide)).2.1 (by decide)⟩,
   ⟨by decide, by decide, by decide,
    (packet_bandwidth_map [0x70]).2.2.1 (by decide) (by decide)⟩,
   ⟨by decide, by decide,
    ((packet_bandwidth_map [0x20]).2.2.2 (by decide) (by decide)).2.2.1 (by decide)⟩⟩

/-! ## Frame and sample totals -/

/-- For `0 <= Fs <= 35791394` no operation of `opus_packet_get_samples_per_frame`
leaves the 32-bit range, and a frame has between 0 and `3*Fs/50` samples (60 ms). -/
theorem samples_per_frame_le (data : List Byte) (Fs : Int) (h0 : 0 ≤ Fs)
    (h1 : Fs ≤ 35791394) :
    0 ≤ opus_packet_get_samples_per_frame data Fs ∧
    opus_packet_get_samples_per_frame data Fs * 50 ≤ 3 * Fs := by
  have ha := size_code_le (rd data 0)
  unfold opus_packet_get_samples_per_frame
  simp only
  generalize (rd data 0 >>> 3) &&& 0x3 = a at ha
  split_ifs
  · interval_cases a <;>
      rw [int32_id _ (by omega) (by omega), Int.tdiv_eq_ediv (by omega) (by decide)] <;> omega
  · rw [Int.tdiv_eq_ediv h0 (by decide)]; omega
  · rw [Int.tdiv_eq_ediv h0 (by decide)]; omega
  · rw [int32_id _ (by omega) (by omega), Int.tdiv_eq_ediv (by omega) (by decide)]; omega
  · interval_cases a <;>
      first
      | omega
      | (rw [int32_id _ (by omega) (by omega), Int.tdiv_eq_ediv (by omega) (by decide)]
         omega)

/-- C17: `opus_packet_get_nb_samples` returns `OPUS_BAD_ARG` when `len < 1` and
`OPUS_INVALID_PACKET` for a code-3 packet with `len < 2`; otherwise the frame count
is 1 for code 0, 2 for codes 1 and 2 and the low 6 bits of the second byte for
code 3, and with `total = frame_count * samples_per_frame(TOC, Fs)` the function
returns `total` when `total*25 <= Fs*3` (at most 120 ms) and
`OPUS_INVALID_PACKET` when `total*25 > Fs*3`. This holds for every `Fs` with the
three products taken in 32 bits, as the source takes them, and for
`0 <= Fs <= 22000000` with the exact products, none of which then leaves the
32-bit range. -/
theorem packet_nb_samples (packet : List Byte) (len Fs : Int) :
    (len < 1 → opus_packet_get_nb_samples packet len Fs = OpusError.OPUS_BAD_ARG.toInt) ∧
    (1 ≤ len → rd packet 0 &&& 0x3 = 3 → len < 2 →
      opus_packet_get_nb_samples packet len Fs = OpusError.OPUS_INVALID_PACKET.toInt) ∧
    (1 ≤ len → (rd packet 0 &&& 0x3 = 3 → 2 ≤ len) →
      opus_packet_get_nb_frames packet len
        = (if rd packet 0 &&& 0x3 = 0 then 1
           else if rd packet 0 &&& 0x3 = 3 then ((rd packet 1 &&& 0x3F : Nat) : Int)
           else 2) ∧
      (int32 (int32 (opus_packet_get_nb_frames packet len
          * opus_packet_get_samples_per_frame packet Fs) * 25) ≤ int32 (Fs * 3) →
        opus_packet_get_nb_samples packet len Fs
          = int32 (opus_packet_get_nb_frames packet len
              * opus_packet_get_samples_per_frame packet Fs)) ∧
      (int32 (int32 (opus_packet_get_nb_frames packet len
          * opus_packet_get_samples_per_frame packet Fs) * 25) > int32 (Fs * 3) →
        opus_packet_get_nb_samples packet len Fs
          = OpusError.OPUS_INVALID_PACKET.toInt) ∧
      (0 ≤ Fs → Fs ≤ 22000000 →
        (opus_packet_get_nb_frames packet len
            * opus_packet_get_samples_per_frame packet Fs * 25 ≤ Fs * 3 →
          opus_packet_get_nb_samples packet len Fs
            = opus_packet_get_nb_frames packet len
              * opus_packet_get_samples_per_frame packet Fs) ∧
        (opus_packet_get_nb_frames packet len
            * opus_packet_get_samples_per_frame packet Fs * 25 > Fs * 3 →
          opus_packet_get_nb_samples packet len Fs
            = OpusError.OPUS_INVALID_PACKET.toInt))) := by
  refine ⟨?_, ?_, ?_⟩
  · intro hl
    have hfr : opus_packet_get_nb_frames packet len = -1 := by
      unfold opus_packet_get_nb_frames
      rw [if_pos hl]
      rfl
    unfold opus_packet_get_nb_samples
    simp only
    rw [hfr, if_pos (by decide)]
    rfl
  · intro hl hc hl2
    have hfr : opus_packet_get_nb_frames packet len = -4 := by
      unfold opus_packet_get_nb_frames
      rw [if_neg (by omega)]
      simp only
      rw [if_neg (by omega), if_neg (by simpa using hc), if_pos hl2]
      rfl
    unfold opus_packet_get_nb_samples
    simp only
    rw [hfr, if_pos (by decide)]
    rfl
  · intro hl hc3
    have hfr : opus_packet_get_nb_frames packet len
        = (if rd packet 0 &&& 0x3 = 0 then 1
           else if rd packet 0 &&& 0x3 = 3 then ((rd packet 1 &&& 0x3F : Nat) : Int)
           else 2) := by
      unfold opus_packet_get_nb_frames
      rw [if_neg (by omega)]
      simp only
      by_cases c0 : rd packet 0 &&& 0x3 = 0
      · rw [if_pos c0, if_pos c0]
      · rw [if_neg c0, if_neg c0]
        by_cases c3 : rd packet 0 &&& 0x3 = 3
        · rw [if_neg (by simpa using c3), if_neg (by have := hc3 c3; omega), if_pos c3]
        · rw [if_pos c3, if_neg c3]
    have h63 : rd packet 1 &&& 0x3F ≤ 63 := Nat.and_le_right
    have hrange : 0 ≤ opus_packet_get_nb_frames packet len
        ∧ opus_packet_get_nb_frames packet len ≤ 63 := by
      rw [hfr]
      split_ifs <;> omega
    have hnn : ¬ (opus_packet_get_nb_frames packet len < 0) := by omega
    have hle32 : int32 (int32 (opus_packet_get_nb_frames packet len
          * opus_packet_get_samples_per_frame packet Fs) * 25) ≤ int32 (Fs * 3) →
        opus_packet_get_nb_samples packet len Fs
          = int32 (opus_packet_get_nb_frames packet len
              * opus_packet_get_samples_per_frame packet Fs) := by
      intro hle
      unfold opus_packet_get_nb_samples
      simp only
      rw [if_neg hnn, if_neg (by omega)]
    have hgt32 : int32 (int32 (opus_packet_get_nb_frames packet len
          * opus_packet_get_samples_per_frame packet Fs) * 25) > int32 (Fs * 3) →
        opus_packet_get_nb_samples packet len Fs
          = OpusError.OPUS_INVALID_PACKET.toInt := by
      intro hgt
      unfold opus_packet_get_nb_samples
      simp only
      rw [if_neg hnn, if_pos hgt]
    refine ⟨hfr, hle32, hgt32, fun h0 h1 => ?_⟩
    obtain ⟨s0, s1⟩ := samples_per_frame_le packet Fs h0 (by omega)
    have p0 : 0 ≤ opus_packet_get_nb_frames packet len
        * opus_packet_get_samples_per_frame packet Fs := mul_nonneg hrange.1 s0
    have p1 : opus_packet_get_nb_frames packet len
        * opus_packet_get_samples_per_frame packet Fs
        ≤ 63 * opus_packet_get_samples_per_frame packet Fs :=
      mul_le_mul_of_nonneg_right hrange.2 s0
    have e1 : int32 (opus_packet_get_nb_frames packet len
        * opus_packet_get_samples_per_frame packet Fs)
        = opus_packet_get_nb_frames packet len
          * opus_packet_get_samples_per_frame packet Fs :=
      int32_id _ (by omega) (by omega)
    have e2 : int32 (opus_packet_get_nb_frames packet len
        * opus_packet_get_samples_per_frame packet Fs * 25)
        = opus_packet_get_nb_frames packet len
          * opus_packet_get_samples_per_frame packet Fs * 25 :=
      int32_id _ (by omega) (by omega)
    have e3 : int32 (Fs * 3) = Fs * 3 := int32_id _ (by omega) (by omega)
    rw [e1, e2, e3] at hle32 hgt32
    exact ⟨hle32, hgt32⟩

theorem packet_nb_samples_witness :
    opus_packet_get_nb_samples [] 0 48000 = OpusError.OPUS_BAD_ARG.toInt ∧
    opus_packet_get_nb_samples [0x03] 1 48000 = OpusError.OPUS_INVALID_PACKET.toInt ∧
    (opus_packet_get_nb_frames [0x0B, 0x03, 1, 1, 1] 5 = 3 ∧
      opus_packet_get_samples_per_frame [0x0B, 0x03, 1, 1, 1] 48000 = 960 ∧
      opus_packet_get_nb_samples [0x0B, 0x03, 1, 1, 1] 5 48000
        = opus_packet_get_nb_frames [0x0B, 0x03, 1, 1, 1] 5
          * opus_packet_get_samples_per_frame [0x0B, 0x03, 1, 1, 1] 48000) ∧
    (opus_packet_get_nb_frames [0x1B, 0x03, 1, 1, 1] 5 = 3 ∧
      opus_packet_get_samples_per_frame [0x1B, 0x03, 1, 1, 1] 48000 = 2880 ∧
      opus_packet_get_nb_samples [0x1B, 0x03, 1, 1, 1] 5 48000
        = OpusError.OPUS_INVALID_PACKET.toInt) ∧
    (opus_packet_get_samples_per_frame [0x98] 1073741824 = 0 ∧
      int32 (1073741824 * 3) = -1073741824 ∧
      opus_packet_get_nb_samples [0x98] 1 1073741824
        = OpusError.OPUS_INVALID_PACKET.toInt) :=
  ⟨(packet_nb_samples [] 0 48000).1 (by decide),
   (packet_nb_samples [0x03] 1 48000).2.1 (by decide) (by decide) (by decide),
   ⟨by decide, by decide,
    (((packet_nb_samples [0x0B, 0x03, 1, 1, 1] 5 48000).2.2 (by decide)
      (fun _ => by decide)).2.2.2 (by decide) (by decide)).1 (by decide)⟩,
   ⟨by decide, by decide,
    (((packet_nb_samples [0x1B, 0x03, 1, 1, 1] 5 48000).2.2 (by decide)
      (fun _ => by decide)).2.2.2 (by decide) (by decide)).2 (by decide)⟩,
   ⟨by decide, by decide,
    ((packet_nb_samples [0x98] 1 1073741824).2.2 (by decide)
      (fun h => absurd h (by decide))).2.2.1 (by decide)⟩⟩

/-! ## Concealment before any frame has been decoded -/

theorem zero_loop_spec (off : Int) :
    ∀ (n : Nat) (i : Int) (pcm : PCM) (j : Int),
      zero_loop off n i pcm j = if off + i ≤ j ∧ j < off + i + n then 0 else pcm j := by
  intro n
  induction n with
  | zero =>
    intro i pcm j
    rw [zero_loop, if_neg]
    omega
  | succ n ih =>
    intro i pcm j
    rw [zero_loop, ih]
    by_cases h1 : off + (i + 1) ≤ j ∧ j < off + (i + 1) + n
    · rw [if_pos h1, if_pos]
      push_cast
      omega
    · rw [if_neg h1]
      by_cases h2 : j = off + i
      · rw [if_pos h2, if_pos]
        push_cast
        omega
      · rw [if_neg h2, if_neg]
        push_cast
        omega

/-- A concealment call of `opus_decode_frame` before any frame has been decoded
(`prev_mode == 0`) with at least 2.5 ms requested: it returns the requested size
capped at 120 ms and at `st->frame_size`, writes that many zero samples per
channel and leaves the state as it is. -/
theorem decode_frame_silence (ext : Engines) (st : OpusDecoder) (pcm : PCM)
    (off fs : Int) (hpm : st.prev_mode = 0)
    (hfs : ¬ fs < ((st.Fs.tdiv 50 >>> (1 : Nat)) >>> (1 : Nat)) >>> (1 : Nat)) :
    opus_decode_frame ext st none 0 pcm off fs 0 =
      some ⟨IMIN (IMIN fs (st.Fs.tdiv 25 * 3)) st.frame_size, st,
        zero_loop off (IMIN (IMIN fs (st.Fs.tdiv 25 * 3)) st.frame_size
          * st.channels).toNat 0 pcm⟩ := by
  unfold opus_decode_frame opus_decode_frame_depth opus_decode_frame_body
  simp only [hfs, if_false, hpm, if_true, Int.reduceLE]

theorem IMIN_le_left (a b : Int) : IMIN a b ≤ a := by
  unfold IMIN; split_ifs <;> omega

theorem IMIN_le_right (a b : Int) : IMIN a b ≤ b := by
  unfold IMIN; split_ifs <;> omega

theorem IMIN_cases (a b : Int) : IMIN a b = a ∨ IMIN a b = b := by
  unfold IMIN; split_ifs
  · exact Or.inl rfl
  · exact Or.inr rfl

theorem IMIN_ge (a b c : Int) (ha : c ≤ a) (hb : c ≤ b) : c ≤ IMIN a b := by
  unfold IMIN; split_ifs <;> omega

theorem IMIN_dvd (a b u : Int) (ha : u ∣ a) (hb : u ∣ b) : u ∣ IMIN a b := by
  rcases IMIN_cases a b with h | h <;> rw [h] <;> assumption

/-- The concealment loop of `opus_decode_native` before any frame has been
decoded: when `F2_5` divides what is left to produce, the 120 ms cap and
`st->frame_size`, the loop returns `frame_size`, records it as the last packet
duration, changes nothing else in the state, and has written zeros from
`pcm_count * channels` up to `frame_size * channels`. -/
theorem conceal_loop_silence (ext : Engines) (st : OpusDecoder) (N : Int)
    (hpm : st.prev_mode = 0) (hch : 0 ≤ st.channels)
    (hcap : ((st.Fs.tdiv 50 >>> (1 : Nat)) >>> (1 : Nat)) >>> (1 : Nat)
      ∣ st.Fs.tdiv 25 * 3)
    (hcap1 : 1 ≤ st.Fs.tdiv 25 * 3)
    (hfsz : ((st.Fs.tdiv 50 >>> (1 : Nat)) >>> (1 : Nat)) >>> (1 : Nat) ∣ st.frame_size)
    (hfsz1 : 1 ≤ st.frame_size) :
    ∀ (n : Nat) (pc : Int) (pcm : PCM), 0 ≤ pc → pc < N →
      ((st.Fs.tdiv 50 >>> (1 : Nat)) >>> (1 : Nat)) >>> (1 : Nat) ∣ N - pc →
      N - pc ≤ n →
      ∃ pcm1 : PCM,
        native_conceal_loop ext N n st pcm pc
          = some ⟨N, { st with last_packet_duration := N }, pcm1⟩ ∧
        ∀ j : Int, pcm1 j
          = if pc * st.channels ≤ j ∧ j < N * st.channels then 0 else pcm j := by
  intro n
  induction n with
  | zero =>
    intro pc pcm h0 hlt hdvd hn
    exfalso
    omega
  | succ n ih =>
    intro pc pcm h0 hlt hdvd hn
    have hR : ((st.Fs.tdiv 50 >>> (1 : Nat)) >>> (1 : Nat)) >>> (1 : Nat) ≤ N - pc :=
      Int.le_of_dvd (by omega) hdvd
    have hd1 := IMIN_dvd _ _ _ hdvd hcap
    have hd2 := IMIN_dvd _ _ _ hd1 hfsz
    have hge : 1 ≤ IMIN (IMIN (N - pc) (st.Fs.tdiv 25 * 3)) st.frame_size :=
      IMIN_ge _ _ _ (IMIN_ge _ _ _ (by omega) hcap1) hfsz1
    have hle : IMIN (IMIN (N - pc) (st.Fs.tdiv 25 * 3)) st.frame_size ≤ N - pc :=
      le_trans (IMIN_le_left _ _) (IMIN_le_left _ _)
    generalize hr : IMIN (IMIN (N - pc) (st.Fs.tdiv 25 * 3)) st.frame_size = r
      at hd2 hge hle
    have hstep := decode_frame_silence ext st pcm (pc * st.channels) (N - pc) hpm
      (by omega)
    rw [hr] at hstep
    have hrc : 0 ≤ r * st.channels := Int.mul_nonneg (by omega) hch
    have hpcc : 0 ≤ pc * st.channels := Int.mul_nonneg h0 hch
    have hexp : (pc + r) * st.channels = pc * st.channels + r * st.channels := by ring
    rw [native_conceal_loop, hstep]
    simp only
    rw [if_neg (by omega)]
    by_cases hmore : pc + r < N
    · rw [if_pos hmore]
      obtain ⟨pcm1, h1, h2⟩ := ih (pc + r) _ (by omega) hmore
        (by
          have : N - (pc + r) = N - pc - r := by ring
          rw [this]
          exact Int.dvd_sub hdvd hd2)
        (by omega)
      refine ⟨pcm1, h1, ?_⟩
      intro j
      have hmono : (pc + r) * st.channels ≤ N * st.channels :=
        Int.mul_le_mul_of_nonneg_right (by omega) hch
      rw [h2 j, zero_loop_spec, hexp]
      rw [hexp] at hmono
      have htn : (((r * st.channels).toNat : Nat) : Int) = r * st.channels :=
        Int.toNat_of_nonneg hrc
      by_cases hj1 : pc * st.channels + r * st.channels ≤ j ∧ j < N * st.channels
      · rw [if_pos hj1, if_pos (by omega)]
      · rw [if_neg hj1]
        by_cases hj2 : pc * st.channels + 0 ≤ j
            ∧ j < pc * st.channels + 0 + ((r * st.channels).toNat : Nat)
        · rw [if_pos hj2, if_pos (by omega)]
        · rw [if_neg hj2, if_neg (by omega)]
    · rw [if_neg hmore]
      have hN : pc + r = N := by omega
      rw [hN]
      refine ⟨_, rfl, ?_⟩
      intro j
      have htn : (((r * st.channels).toNat : Nat) : Int) = r * st.channels :=
        Int.toNat_of_nonneg hrc
      rw [zero_loop_spec, ← hN, hexp]
      by_cases hj2 : pc * st.channels + 0 ≤ j
          ∧ j < pc * st.channels + 0 + ((r * st.channels).toNat : Nat)
      · rw [if_pos hj2, if_pos (by omega)]
      · rw [if_neg hj2, if_neg (by omega)]

/-- The frame sizes derived from a valid sampling rate: with `u = Fs/400`,
`F20 = 8u`, `F10 = 4u`, `F5 = 2u`, `F2_5 = u` and the 120 ms cap is `48u`. -/
theorem valid_rate_sizes (Fs : Int)
    (h : Fs = 48000 ∨ Fs = 24000 ∨ Fs = 16000 ∨ Fs = 12000 ∨ Fs = 8000) :
    1 ≤ Fs.tdiv 400 ∧ Fs.tdiv 50 = 8 * Fs.tdiv 400 ∧
    Fs.tdiv 50 >>> (1 : Nat) = 4 * Fs.tdiv 400 ∧
    (Fs.tdiv 50 >>> (1 : Nat)) >>> (1 : Nat) = 2 * Fs.tdiv 400 ∧
    ((Fs.tdiv 50 >>> (1 : Nat)) >>> (1 : Nat)) >>> (1 : Nat) = Fs.tdiv 400 ∧
    Fs.tdiv 25 * 3 = 48 * Fs.tdiv 400 := by
  rcases h with h | h | h | h | h <;> subst h <;> decide

theorem tmod_zero_dvd (x d : Int) (hx : 0 ≤ x) (hd : 0 ≤ d) (h : x.tmod d = 0) : d ∣ x := by
  rw [Int.tmod_eq_emod hx hd] at h
  exact Int.dvd_of_emod_eq_zero h

/-- The call `opus_decode_native(st, NULL, 0, pcm, N, 0, ...)` before any frame has
been decoded, in a state with a valid rate, a non-negative channel count and a
`frame_size` that is a positive multiple of 2.5 ms, for `N` a positive multiple
of 2.5 ms. -/
theorem native_null_silence (ext : Engines) (st : OpusDecoder) (pcm : PCM) (N : Int)
    (hFs : st.Fs = 48000 ∨ st.Fs = 24000 ∨ st.Fs = 16000 ∨ st.Fs = 12000 ∨ st.Fs = 8000)
    (hch : 0 ≤ st.channels) (hpm : st.prev_mode = 0)
    (hfsz1 : 1 ≤ st.frame_size) (hfsz : st.frame_size.tmod (st.Fs.tdiv 400) = 0)
    (hN : 0 < N) (hmul : N.tmod (st.Fs.tdiv 400) = 0) :
    ∃ pcm1 : PCM,
      native_conceal_loop ext N (N.toNat + 1) st pcm 0
        = some ⟨N, { st with last_packet_duration := N }, pcm1⟩ ∧
      ∀ j : Int, pcm1 j = if 0 ≤ j ∧ j < N * st.channels then 0 else pcm j := by
  obtain ⟨r1, _, _, _, r5, r6⟩ := valid_rate_sizes st.Fs hFs
  have hdN := tmod_zero_dvd N _ (by omega) (by omega) hmul
  have hdf := tmod_zero_dvd st.frame_size _ (by omega) (by omega) hfsz
  obtain ⟨pcm1, h1, h2⟩ := conceal_loop_silence ext st N hpm hch
    (by rw [r5, r6]; exact Dvd.intro_left 48 rfl) (by omega) (by rw [r5]; exact hdf) hfsz1
    (N.toNat + 1) 0 pcm (le_refl 0) hN (by rw [r5]; simpa using hdN) (by omega)
  refine ⟨pcm1, h1, fun j => ?_⟩
  rw [h2 j]
  simp

/-- The state left by a successful `opus_decoder_init`. -/
theorem init_ok_fields (ext : Engines) (st0 st : OpusDecoder) (Fs channels : Int)
    (h : opus_decoder_init ext st0 Fs channels = (0, st)) :
    (Fs = 48000 ∨ Fs = 24000 ∨ Fs = 16000 ∨ Fs = 12000 ∨ Fs = 8000) ∧
    (channels = 1 ∨ channels = 2) ∧
    st.Fs = Fs ∧ st.channels = channels ∧ st.stream_channels = channels ∧
    st.prev_mode = 0 ∧ st.frame_size = Fs.tdiv 400 ∧ st.decode_gain = 0 ∧
    st.mode = 0 ∧ st.bandwidth = 0 ∧ st.prev_redundancy = 0 ∧
    st.last_packet_duration = 0 ∧ st.rangeFinal = 0 := by
  unfold opus_decoder_init at h
  by_cases hbad : (Fs ≠ 48000 ∧ Fs ≠ 24000 ∧ Fs ≠ 16000 ∧ Fs ≠ 12000 ∧ Fs ≠ 8000)
      ∨ (channels ≠ 1 ∧ channels ≠ 2)
  · rw [if_pos hbad] at h
    simp [OpusError.toInt] at h
  rw [if_neg hbad] at h
  have hv : (Fs = 48000 ∨ Fs = 24000 ∨ Fs = 16000 ∨ Fs = 12000 ∨ Fs = 8000) ∧
      (channels = 1 ∨ channels = 2) := by omega
  simp only at h
  split_ifs at h
  all_goals first
    | (simp [OpusError.toInt] at h; done)
    | (simp only [Prod.mk.injEq, true_and] at h
       subst h
       exact ⟨hv.1, hv.2, rfl, rfl, rfl, rfl, rfl, rfl, rfl, rfl, rfl, rfl, rfl⟩)

/-! ## The top-level decode call -/

/-- C18: `opus_decode` called with a requested `frame_size <= 0` returns
`OPUS_BAD_ARG` and leaves the decoder state and the output buffer unchanged,
whatever the state, the packet, the other arguments and the sub-decoders are. -/
theorem opus_decode_rejects_nonpositive_frame_size (ext : Engines) (st : OpusDecoder)
    (data : Option (List Byte)) (len : Int) (pcm : PCM) (frame_size decode_fec : Int)
    (h : frame_size ≤ 0) :
    opus_decode ext st data len pcm frame_size decode_fec
      = some ⟨OpusError.OPUS_BAD_ARG.toInt, st, pcm⟩ := by
  unfold opus_decode
  rw [if_pos h]

theorem opus_decode_rejects_nonpositive_frame_size_witness :
    opus_decode silent_engines (opus_decoder_init silent_engines blank_decoder 48000 2).2
        (some [0x08, 1, 2, 3]) 4 (fun _ => 7) 0 0
      = some ⟨OpusError.OPUS_BAD_ARG.toInt,
          (opus_decoder_init silent_engines blank_decoder 48000 2).2, fun _ => 7⟩ :=
  opus_decode_rejects_nonpositive_frame_size silent_engines _ _ 4 _ 0 0 (by decide)

theorem opus_decode_null_eq (ext : Engines) (st : OpusDecoder) (pcm : PCM) (N : Int)
    (hN : 0 < N) (hmul : N.tmod (st.Fs.tdiv 400) = 0) :
    opus_decode ext st none 0 pcm N 0
      = native_conceal_loop ext N (N.toNat + 1) st pcm 0 := by
  unfold opus_decode opus_decode_native
  rw [if_neg (by omega), if_neg (by omega), if_neg (fun hh => hh.2 hmul)]

/-- C20: on a freshly initialised decoder (any valid `Fs` and channel count), a
concealment call `opus_decode(st, NULL, 0, out, N, 0)` with `N` a positive multiple
of `Fs/400` returns `N`, writes `N*channels` zero samples, leaves every field of
the state, the memory of both sub-decoders included, as it was except
`last_packet_duration`, which becomes `N` (so `prev_mode` stays 0), and gives the
same result whatever the sub-decoders are: it invokes neither. -/
theorem fresh_decoder_conceals_silence (ext : Engines) (st0 st : OpusDecoder)
    (Fs channels : Int) (pcm : PCM) (N : Int)
    (hinit : opus_decoder_init ext st0 Fs channels = (0, st))
    (hN : 0 < N) (hmul : N.tmod (Fs.tdiv 400) = 0) :
    (opus_decode ext st none 0 pcm N 0).map DecodeOut.ret = some N ∧
    (opus_decode ext st none 0 pcm N 0).map DecodeOut.st
      = some { st with last_packet_duration := N } ∧
    (∀ j : Int, 0 ≤ j → j < N * channels →
      (opus_decode ext st none 0 pcm N 0).map (fun o => o.pcm j) = some 0) ∧
    st.prev_mode = 0 ∧
    (∀ ext1 : Engines,
      opus_decode ext1 st none 0 pcm N 0 = opus_decode ext st none 0 pcm N 0) := by
  obtain ⟨hFs, hch, e1, e2, _, e4, e5, _⟩ := init_ok_fields ext st0 st Fs channels hinit
  have hr := valid_rate_sizes Fs hFs
  have hcall : ∀ e : Engines, ∃ pcm1 : PCM,
      opus_decode e st none 0 pcm N 0
        = some ⟨N, { st with last_packet_duration := N }, pcm1⟩ ∧
      ∀ j : Int, pcm1 j = if 0 ≤ j ∧ j < N * st.channels then 0 else pcm j := by
    intro e
    rw [opus_decode_null_eq e st pcm N hN (by rw [e1]; exact hmul)]
    exact native_null_silence e st pcm N (by rw [e1]; exact hFs) (by omega) e4
      (by rw [e5]; omega)
      (by rw [e5, e1]; exact Int.tmod_self) hN (by rw [e1]; exact hmul)
  obtain ⟨pcm1, h1, h2⟩ := hcall ext
  refine ⟨by rw [h1]; rfl, by rw [h1]; rfl, ?_, e4, ?_⟩
  · intro j hj0 hj1
    rw [h1]
    show some (pcm1 j) = some 0
    rw [h2 j, if_pos ⟨hj0, by rw [e2]; exact hj1⟩]
  · intro ext1
    obtain ⟨pcm2, h3, h4⟩ := hcall ext1
    rw [h1, h3]
    have : pcm2 = pcm1 := by
      funext j
      rw [h2 j, h4 j]
    rw [this]

theorem fresh_decoder_conceals_silence_witness :
    opus_decoder_init silent_engines blank_decoder 48000 2
      = (0, (opus_decoder_init silent_engines blank_decoder 48000 2).2) ∧
    (opus_decode silent_engines (opus_decoder_init silent_engines blank_decoder 48000 2).2
        none 0 (fun _ => 7) 960 0).map DecodeOut.ret = some 960 ∧
    (opus_decode silent_engines (opus_decoder_init silent_engines blank_decoder 48000 2).2
        none 0 (fun _ => 7) 960 0).map (fun o => o.pcm 1919) = some 0 ∧
    (opus_decoder_init silent_engines blank_decoder 48000 2).2.prev_mode = 0 :=
  ⟨rfl,
   (fresh_decoder_conceals_silence silent_engines blank_decoder _ 48000 2 (fun _ => 7) 960
      rfl (by decide) (by decide)).1,
   (fresh_decoder_conceals_silence silent_engines blank_decoder _ 48000 2 (fun _ => 7) 960
      rfl (by decide) (by decide)).2.2.1 1919 (by decide) (by decide),
   (fresh_decoder_conceals_silence silent_engines blank_decoder _ 48000 2 (fun _ => 7) 960
      rfl (by decide) (by decide)).2.2.2.1⟩

/-! ## Concealment after a frame has been decoded -/

/-- The SILK loop of a concealment call (`lost_flag != 0`): when the SILK decoder
reports a positive number of samples whenever it succeeds, the loop ends without
an error and only the SILK memory and `DecControl` have changed in the state. -/
theorem silk_loop_lost (ext : Engines)
    (hsilk : ∀ (s : List Int) (dc : DecControlStruct) (lf ff : Int) (dec : ec_dec)
      (p : PCM) (o a : Int),
      (ext.silk_Decode s dc lf ff dec p o a).ret ≠ 0
        ∨ 0 < (ext.silk_Decode s dc lf ff dec p o a).nSamplesOut)
    (lost_flag frame_size : Int) (hlf : lost_flag ≠ 0) (hfs : 1 ≤ frame_size) :
    ∀ (n : Nat) (st : OpusDecoder) (dec : ec_dec) (buf : PCM) (ptr decoded : Int),
      frame_size - decoded ≤ n → 1 ≤ n →
      ∃ (st1 : OpusDecoder) (dec1 : ec_dec) (buf1 : PCM),
        silk_loop ext lost_flag frame_size n st dec buf ptr decoded
          = some (.ok (st1, dec1, buf1)) ∧
        st1.fixed = st.fixed ∧ st1.prev_mode = st.prev_mode ∧
        st1.prev_redundancy = st.prev_redundancy ∧ st1.celt_dec = st.celt_dec := by
  intro n
  induction n with
  | zero =>
    intro st dec buf ptr decoded _ h1
    exfalso
    omega
  | succ n ih =>
    intro st dec buf ptr decoded hn _
    rw [silk_loop]
    simp only
    rw [if_neg (fun hh => hlf hh.2)]
    have hpos := hsilk st.silk_dec st.DecControl lost_flag (if decoded = 0 then 1 else 0)
      dec buf ptr st.arch
    generalize ext.silk_Decode st.silk_dec st.DecControl lost_flag
      (if decoded = 0 then 1 else 0) dec buf ptr st.arch = r at hpos
    have hsfs : 1 ≤ (if r.ret ≠ 0 then frame_size else r.nSamplesOut) := by
      split_ifs with hc
      · exact hfs
      · rcases hpos with h | h
        · exact absurd h hc
        · omega
    generalize (if r.ret ≠ 0 then frame_size else r.nSamplesOut) = sfs at hsfs
    by_cases hmore : decoded + sfs < frame_size
    · rw [if_pos hmore]
      obtain ⟨st1, dec1, buf1, h1, h2, h3, h4, h5⟩ :=
        ih { st with silk_dec := r.silk_dec, DecControl := r.DecControl } r.dec
          (if r.ret ≠ 0 then
            zero_loop ptr (frame_size * st.channels).toNat 0 r.pcm else r.pcm)
          (ptr + sfs * st.channels) (decoded + sfs) (by omega) (by omega)
      exact ⟨st1, dec1, buf1, h1, h2, h3, h4, h5⟩
    · rw [if_neg hmore]
      exact ⟨_, _, _, rfl, rfl, rfl, rfl, rfl⟩

theorem silk_setup_fixed (ext : Engines) (st : OpusDecoder)
    (data : Option (List Byte × Int)) (mode bandwidth audiosize : Int) :
    (frame_silk_setup ext st data mode bandwidth audiosize).fixed = st.fixed ∧
    (frame_silk_setup ext st data mode bandwidth audiosize).prev_mode = st.prev_mode ∧
    (frame_silk_setup ext st data mode bandwidth audiosize).prev_redundancy
      = st.prev_redundancy ∧
    (frame_silk_setup ext st data mode bandwidth audiosize).celt_dec = st.celt_dec := by
  unfold frame_silk_setup
  simp only
  split_ifs <;> exact ⟨rfl, rfl, rfl, rfl⟩

/-- The SILK processing of a concealment call ends without an error and leaves
the fields of the state it does not own as they were. -/
theorem silk_stage_lost (ext : Engines)
    (hsilk : ∀ (s : List Int) (dc : DecControlStruct) (lf ff : Int) (dec : ec_dec)
      (p : PCM) (o a : Int),
      (ext.silk_Decode s dc lf ff dec p o a).ret ≠ 0
        ∨ 0 < (ext.silk_Decode s dc lf ff dec p o a).nSamplesOut)
    (st : OpusDecoder) (mode bandwidth audiosize frame_size decode_fec : Int)
    (celt_accum : Bool) (dec : ec_dec) (pcm : PCM) (off : Int) (pcm_silk : PCM)
    (hfs : 1 ≤ frame_size) :
    ∃ (st1 : OpusDecoder) (dec1 : ec_dec) (pcm1 ps1 : PCM),
      frame_silk_stage ext st none mode bandwidth audiosize frame_size decode_fec
          celt_accum dec pcm off pcm_silk = some (.ok (st1, dec1, pcm1, ps1)) ∧
      st1.fixed = st.fixed ∧ st1.prev_mode = st.prev_mode ∧
      st1.prev_redundancy = st.prev_redundancy := by
  obtain ⟨f1, f2, f3, _⟩ := silk_setup_fixed ext st none mode bandwidth audiosize
  unfold frame_silk_stage
  simp only [Option.isSome_none, Bool.false_eq_true, if_false]
  cases celt_accum
  · obtain ⟨st1, dec1, buf1, h1, h2, h3, h4, _⟩ :=
      silk_loop_lost ext hsilk 1 frame_size (by decide) hfs (frame_size.toNat + 1)
        (frame_silk_setup ext st none mode bandwidth audiosize) dec pcm_silk 0 0
        (by omega) (by omega)
    simp only [Bool.false_eq_true, if_false, h1]
    exact ⟨_, _, _, _, rfl, h2.trans f1, h3.trans f2, h4.trans f3⟩
  · obtain ⟨st1, dec1, buf1, h1, h2, h3, h4, _⟩ :=
      silk_loop_lost ext hsilk 1 frame_size (by decide) hfs (frame_size.toNat + 1)
        (frame_silk_setup ext st none mode bandwidth audiosize) dec pcm off 0
        (by omega) (by omega)
    simp only [if_true, h1]
    exact ⟨_, _, _, _, rfl, h2.trans f1, h3.trans f2, h4.trans f3⟩

theorem fixed_celt_ctl (ext : Engines) (st : OpusDecoder) (req : CeltRequest) :
    (celt_ctl ext st req).fixed = st.fixed := rfl

theorem prev_mode_celt_ctl (ext : Engines) (st : OpusDecoder) (req : CeltRequest) :
    (celt_ctl ext st req).prev_mode = st.prev_mode := rfl

theorem fixed_set_celt_dec (st : OpusDecoder) (x : List Int) :
    ({ st with celt_dec := x } : OpusDecoder).fixed = st.fixed := rfl

theorem prev_mode_set_celt_dec (st : OpusDecoder) (x : List Int) :
    ({ st with celt_dec := x } : OpusDecoder).prev_mode = st.prev_mode := rfl

/-- The CELT processing leaves the fields of the state it does not own as they
were. -/
theorem celt_stage_fixed (ext : Engines) (st : OpusDecoder)
    (data : Option (List Byte × Int))
    (mode bandwidth frame_size decode_fec : Int) (celt_accum : Bool)
    (rv : RedundancyVars) (pcm : PCM) (off : Int) (pcm_silk : PCM) (F2_5 F5 F20 : Int) :
    (frame_celt_stage ext st data mode bandwidth frame_size decode_fec celt_accum rv
        pcm off pcm_silk F2_5 F5 F20).st.fixed = st.fixed ∧
    (frame_celt_stage ext st data mode bandwidth frame_size decode_fec celt_accum rv
        pcm off pcm_silk F2_5 F5 F20).st.prev_mode = st.prev_mode := by
  constructor
  · simp only [frame_celt_stage, apply_ite FrameVars.st, apply_ite OpusDecoder.fixed,
      fixed_celt_ctl, fixed_set_celt_dec, ite_self]
  · simp only [frame_celt_stage, apply_ite FrameVars.st, apply_ite OpusDecoder.prev_mode,
      prev_mode_celt_ctl, prev_mode_set_celt_dec, ite_self]

/-- On a concealment call the return value kept from the CELT processing is the
one of the CELT decoder run without data, with the length left after the search
for a redundant frame, on `IMIN(F20, frame_size)` samples, or 0 in SILK-only
mode. -/
theorem celt_stage_lost_ret (ext : Engines) (st : OpusDecoder)
    (mode bandwidth frame_size decode_fec : Int) (celt_accum : Bool)
    (rv : RedundancyVars) (pcm : PCM) (off : Int) (pcm_silk : PCM) (F2_5 F5 F20 : Int)
    (l : Int) (hl : rv.len = l)
    (hret : mode ≠ MODE_SILK_ONLY →
      ∀ (c : List Int) (p : PCM) (o : Int) (e : Option ec_dec) (a : Int),
      0 ≤ (ext.celt_decode_with_ec c none l p o (IMIN F20 frame_size) e a).ret) :
    0 ≤ (frame_celt_stage ext st none mode bandwidth frame_size decode_fec celt_accum rv
        pcm off pcm_silk F2_5 F5 F20).celt_ret := by
  subst hl
  simp only [frame_celt_stage, apply_ite FrameVars.celt_ret, ite_self]
  by_cases hm : mode ≠ MODE_SILK_ONLY
  · rw [if_pos hm]
    split_ifs <;> exact hret hm _ _ _ _ _
  · rw [if_neg hm]

/-- The end of `opus_decode_frame` returns `celt_ret` when it is negative and
`audiosize` otherwise, sets `prev_mode` to `mode` and leaves the fields of the
state it does not own as they were. -/
theorem final_stage_props (ext : Engines) (v : FrameVars)
    (data : Option (List Byte × Int)) (rv : RedundancyVars) (transition : Bool)
    (pcm_transition : PCM) (off frame_size audiosize mode F2_5 F5 : Int) :
    (frame_final_stage ext v data rv transition pcm_transition off frame_size audiosize
        mode F2_5 F5).ret = (if v.celt_ret < 0 then v.celt_ret else audiosize) ∧
    (frame_final_stage ext v data rv transition pcm_transition off frame_size audiosize
        mode F2_5 F5).st.fixed = v.st.fixed ∧
    (frame_final_stage ext v data rv transition pcm_transition off frame_size audiosize
        mode F2_5 F5).st.prev_mode = mode := by
  refine ⟨rfl, ?_, rfl⟩
  simp only [frame_final_stage, OpusDecoder.fixed, apply_ite OpusDecoder.celt_dec_offset,
    apply_ite OpusDecoder.silk_dec_offset, apply_ite OpusDecoder.channels,
    apply_ite OpusDecoder.Fs, apply_ite OpusDecoder.decode_gain, apply_ite OpusDecoder.arch,
    apply_ite OpusDecoder.stream_channels, apply_ite OpusDecoder.bandwidth,
    apply_ite OpusDecoder.mode, apply_ite OpusDecoder.frame_size,
    apply_ite OpusDecoder.last_packet_duration, celt_ctl, ite_self]

/-- Without data no redundant frame is looked for: the length handed on is `len`. -/
theorem redundancy_lost_len (ext : Engines) (st : OpusDecoder) (mode len decode_fec : Int)
    (dec : ec_dec) : (frame_redundancy ext st none mode len decode_fec dec).len = len := by
  unfold frame_redundancy
  simp only [Option.isSome_none, Bool.false_eq_true, false_and, and_false, if_false]

/-- The main part of `opus_decode_frame` on a concealment call (no data) with
`1 <= audiosize <= frame_size`: when the SILK decoder reports a positive number of
samples whenever it succeeds and, unless the mode is SILK-only, the CELT decoder
reports no error on `IMIN(F20, audiosize)` samples without data and with the
length `len`, the call returns `audiosize`, makes
no recursive call, sets `prev_mode` to `mode` and leaves the fields of the state
it does not own as they were. -/
theorem frame_main_lost (ext : Engines)
    (hsilk : ∀ (s : List Int) (dc : DecControlStruct) (lf ff : Int) (dec : ec_dec)
      (p : PCM) (o a : Int),
      (ext.silk_Decode s dc lf ff dec p o a).ret ≠ 0
        ∨ 0 < (ext.silk_Decode s dc lf ff dec p o a).nSamplesOut)
    (self : OpusDecoder → PCM → Int → Int → Option DecodeOut)
    (st : OpusDecoder) (len : Int) (pcm : PCM)
    (off frame_size decode_fec audiosize mode : Int) (dec : ec_dec)
    (F2_5 F5 F10 F20 : Int) (ha1 : 1 ≤ audiosize) (hle : audiosize ≤ frame_size)
    (hret : mode ≠ MODE_SILK_ONLY →
      ∀ (c : List Int) (p : PCM) (o : Int) (e : Option ec_dec) (a : Int),
      0 ≤ (ext.celt_decode_with_ec c none len p o (IMIN F20 audiosize) e a).ret) :
    ∃ out : DecodeOut,
      frame_main ext self st none len pcm off frame_size decode_fec audiosize mode 0 dec
        F2_5 F5 F10 F20 = some out ∧
      out.ret = audiosize ∧ out.st.fixed = st.fixed ∧ out.st.prev_mode = mode := by
  unfold frame_main
  simp only [Option.isSome_none, Bool.false_eq_true, false_and, decide_False, if_false,
    Bool.false_and]
  rw [if_neg (by omega)]
  by_cases hm : mode ≠ MODE_CELT_ONLY
  · obtain ⟨st1, dec1, pcm1, ps1, h1, h2, h3, h4⟩ :=
      silk_stage_lost ext hsilk st mode 0 audiosize audiosize decode_fec
        (decide (mode ≠ MODE_CELT_ONLY ∧ frame_size ≥ F10)) dec pcm off ext.stack_pcm ha1
    rw [if_pos hm, h1]
    simp only
    refine ⟨_, rfl, ?_, ?_, ?_⟩
    · rw [(final_stage_props _ _ _ _ _ _ _ _ _ _ _ _).1,
        if_neg (not_lt.2 (celt_stage_lost_ret _ _ _ _ _ _ _ _ _ _ _ _ _ _ len
          (redundancy_lost_len _ _ _ _ _ _) hret))]
    · rw [(final_stage_props _ _ _ _ _ _ _ _ _ _ _ _).2.1,
        (celt_stage_fixed _ _ _ _ _ _ _ _ _ _ _ _ _ _ _).1, h2]
    · exact (final_stage_props _ _ _ _ _ _ _ _ _ _ _ _).2.2
  · rw [if_neg hm]
    simp only
    refine ⟨_, rfl, ?_, ?_, ?_⟩
    · rw [(final_stage_props _ _ _ _ _ _ _ _ _ _ _ _).1,
        if_neg (not_lt.2 (celt_stage_lost_ret _ _ _ _ _ _ _ _ _ _ _ _ _ _ len
          (redundancy_lost_len _ _ _ _ _ _) hret))]
    · rw [(final_stage_props _ _ _ _ _ _ _ _ _ _ _ _).2.1,
        (celt_stage_fixed _ _ _ _ _ _ _ _ _ _ _ _ _ _ _).1]
    · exact (final_stage_props _ _ _ _ _ _ _ _ _ _ _ _).2.2

theorem fixed_fields (a b : OpusDecoder) (h : a.fixed = b.fixed) :
    a.Fs = b.Fs ∧ a.channels = b.channels ∧ a.frame_size = b.frame_size := by
  unfold OpusDecoder.fixed at h
  simp only [Prod.mk.injEq] at h
  exact ⟨h.2.2.2.1, h.2.2.1, h.2.2.2.2.2.2.2.2.2.1⟩

theorem parse_ok_len_pos (buf : List Byte) (len : Int) (sd : Bool) (p : ParseOut)
    (hp : opus_packet_parse_impl buf len sd = .ok p) : 0 < len := by
  unfold opus_packet_parse_impl at hp
  by_cases h1 : len < 0
  · rw [if_pos h1] at hp; cases hp
  · rw [if_neg h1] at hp
    by_cases h2 : len = 0
    · rw [if_pos h2] at hp; cases hp
    · omega

/-- The call `opus_decode_native(st, data, len, pcm, frame_size, 0, ...)` on a
packet that parses, up to the buffer check of line 689. -/
theorem native_normal_eq (ext : Engines) (st : OpusDecoder) (buf : List Byte) (len : Int)
    (pcm : PCM) (frame_size : Int) (sd : Bool) (sc : Int) (p : ParseOut)
    (hp : opus_packet_parse_impl buf len sd = .ok p) :
    opus_decode_native ext st (some buf) len pcm frame_size 0 sd sc
      = if p.count * opus_packet_get_samples_per_frame buf st.Fs > frame_size then
          some ⟨OpusError.OPUS_BUFFER_TOO_SMALL.toInt, st, pcm⟩
        else
          native_frames_loop ext buf p.size frame_size p.count.toNat 0
            { st with mode := opus_packet_get_mode buf,
                      bandwidth := opus_packet_get_bandwidth buf,
                      frame_size := opus_packet_get_samples_per_frame buf st.Fs,
                      stream_channels := opus_packet_get_nb_channels buf }
            pcm p.payload_offset 0 := by
  have hl := parse_ok_len_pos buf len sd p hp
  unfold opus_decode_native
  rw [if_neg (by omega), if_neg (by simp; omega)]
  simp only [hp]
  rw [if_neg (by omega), if_neg (by omega), if_neg (by simp)]

/-- C21, refuted as stated: on the freshly initialised 48 kHz stereo decoder the
packet `69 01 02 03 04` (hybrid, 20 ms, two frames of 2 bytes) parses to 2 frames
of 960 samples, more than the requested `frame_size = 960`; decoded with
`decode_fec = 1` the call returns 960, not `OPUS_BUFFER_TOO_SMALL`, and the mode
of the state goes from 0 to `MODE_HYBRID`. -/
theorem buffer_check_counterexample :
    (opus_packet_parse_impl [0x69, 1, 2, 3, 4] 5 false).toOption.map
      (fun p => p.count * opus_packet_get_samples_per_frame [0x69, 1, 2, 3, 4] 48000)
      = some 1920 ∧
    (opus_decoder_init silent_engines blank_decoder 48000 2).2.mode = 0 ∧
    (opus_decode silent_engines (opus_decoder_init silent_engines blank_decoder 48000 2).2
        (some [0x69, 1, 2, 3, 4]) 5 (fun _ => 7) 960 1).map
      (fun o => (o.ret, o.st.mode)) = some (960, MODE_HYBRID) :=
  ⟨rfl, rfl, rfl⟩

/-- C21, amended: for every decoder state and every packet that parses, when the
parsed frame count times the samples per frame at the decoder's `Fs` exceeds the
requested `frame_size`, the decode call with `decode_fec = 0` returns
`OPUS_BUFFER_TOO_SMALL` and leaves the whole decoder state (so `mode`, `bandwidth`,
`frame_size` and `stream_channels`) and the output memory unchanged; this holds
for `opus_decode_native` and, for a positive `frame_size`, for `opus_decode`. -/
theorem buffer_too_small_keeps_state (ext : Engines) (st : OpusDecoder) (buf : List Byte)
    (len : Int) (pcm : PCM) (frame_size : Int) (sd : Bool) (sc : Int) (p : ParseOut)
    (hp : opus_packet_parse_impl buf len sd = .ok p)
    (hbig : p.count * opus_packet_get_samples_per_frame buf st.Fs > frame_size) :
    opus_decode_native ext st (some buf) len pcm frame_size 0 sd sc
      = some ⟨OpusError.OPUS_BUFFER_TOO_SMALL.toInt, st, pcm⟩ ∧
    (sd = false → 0 < frame_size →
      opus_decode ext st (some buf) len pcm frame_size 0
        = some ⟨OpusError.OPUS_BUFFER_TOO_SMALL.toInt, st, pcm⟩) := by
  have h := native_normal_eq ext st buf len pcm frame_size sd sc p hp
  rw [if_pos hbig] at h
  refine ⟨h, fun hsd hpos => ?_⟩
  subst hsd
  unfold opus_decode
  rw [if_neg (by omega)]
  have h0 := native_normal_eq ext st buf len pcm frame_size false 0 p hp
  rw [if_pos hbig] at h0
  exact h0

theorem buffer_too_small_keeps_state_witness :
    opus_decode silent_engines (opus_decoder_init silent_engines blank_decoder 48000 2).2
        (some [0x69, 1, 2, 3, 4]) 5 (fun _ => 7) 960 0
      = some ⟨OpusError.OPUS_BUFFER_TOO_SMALL.toInt,
          (opus_decoder_init silent_engines blank_decoder 48000 2).2, fun _ => 7⟩ :=
  (buffer_too_small_keeps_state silent_engines _ [0x69, 1, 2, 3, 4] 5 (fun _ => 7) 960
    false 0 ⟨0x69, 2, [2, 2], [1, 3], 1, 5, 0⟩ rfl (by decide)).2 rfl (by decide)

/-- C22: for every decoder state and every non-empty packet (`len > 0`) on which
`opus_packet_parse_impl` fails, `opus_decode_native` called with `decode_fec` 0 or
1 and, when `decode_fec = 1`, a `frame_size` that is a multiple of `Fs/400`,
returns the error code of the parser, which is negative, leaves every field of
the decoder state and the output memory unchanged, and gives the same result
whatever the sub-decoders are: it calls neither. -/
theorem parse_failure_keeps_state (ext : Engines) (st : OpusDecoder) (buf : List Byte)
    (len : Int) (pcm : PCM) (frame_size decode_fec : Int) (sd : Bool) (sc : Int)
    (e : OpusError) (hlen : 0 < len)
    (hfec : decode_fec = 0 ∨ decode_fec = 1)
    (hfs : decode_fec = 1 → frame_size.tmod (st.Fs.tdiv 400) = 0)
    (hp : opus_packet_parse_impl buf len sd = .error e) :
    opus_decode_native ext st (some buf) len pcm frame_size decode_fec sd sc
      = some ⟨parse_ret (opus_packet_parse_impl buf len sd), st, pcm⟩ ∧
    parse_ret (opus_packet_parse_impl buf len sd) < 0 ∧
    (∀ ext1 : Engines,
      opus_decode_native ext1 st (some buf) len pcm frame_size decode_fec sd sc
        = opus_decode_native ext st (some buf) len pcm frame_size decode_fec sd sc) := by
  have hcall : ∀ x : Engines,
      opus_decode_native x st (some buf) len pcm frame_size decode_fec sd sc
        = some ⟨e.toInt, st, pcm⟩ := by
    intro x
    unfold opus_decode_native
    rw [if_neg (by omega)]
    rw [if_neg (by
      rintro ⟨h1, h2⟩
      rcases hfec with h | h
      · rcases h1 with h1 | h1 | h1
        · exact h1 h
        · omega
        · simp at h1
      · exact h2 (hfs h))]
    simp only [hp]
    rw [if_neg (by omega), if_neg (by omega)]
  refine ⟨?_, ?_, fun ext1 => ?_⟩
  · rw [hcall ext, hp]; rfl
  · rw [hp]; cases e <;> decide
  · rw [hcall ext1, hcall ext]

theorem parse_failure_keeps_state_witness :
    opus_decode_native silent_engines celt_history_decoder (some [0x01, 1, 2, 3]) 4
        (fun _ => 7) 960 1 false 0
      = some ⟨OpusError.OPUS_INVALID_PACKET.toInt, celt_history_decoder, fun _ => 7⟩ :=
  (parse_failure_keeps_state silent_engines celt_history_decoder [0x01, 1, 2, 3] 4 (fun _ => 7)
    960 1 false 0 OPUS_INVALID_PACKET (by decide) (Or.inr rfl) (fun _ => by decide) rfl).1

/-- The plain concealment call `opus_decode_native(st, NULL, 0, pcm, frame_size, 0,
0, NULL, soft_clip)`. -/
theorem native_null_call (ext : Engines) (st : OpusDecoder) (pcm : PCM)
    (frame_size sc : Int) :
    opus_decode_native ext st none 0 pcm frame_size 0 false sc
      = opus_decode_native_null ext st pcm frame_size := by
  unfold opus_decode_native opus_decode_native_null
  rw [if_neg (by omega)]
  by_cases hm : frame_size.tmod (st.Fs.tdiv 400) = 0
  · rw [if_neg (fun h => h.2 hm), if_neg (fun h => h hm)]
  · rw [if_pos ⟨Or.inr (Or.inl rfl), hm⟩, if_pos hm]

/-- C27: for every decoder state and every packet that parses, decoded with
`decode_fec = 1`: when the requested `frame_size` is smaller than the samples per
frame of the packet, or the mode of the packet is `MODE_CELT_ONLY`, or the mode of
the decoder is `MODE_CELT_ONLY`, the call is the plain concealment call
`opus_decode_native(st, NULL, 0, pcm, frame_size, 0, 0, NULL, soft_clip)`: same
return value, same output memory, same decoder state (also when both reject a
`frame_size` that is not a multiple of `Fs/400`). -/
theorem fec_degrades_to_concealment (ext : Engines) (st : OpusDecoder) (buf : List Byte)
    (len : Int) (pcm : PCM) (frame_size : Int) (sd : Bool) (sc : Int) (p : ParseOut)
    (hp : opus_packet_parse_impl buf len sd = .ok p)
    (hcond : frame_size < opus_packet_get_samples_per_frame buf st.Fs
      ∨ opus_packet_get_mode buf = MODE_CELT_ONLY ∨ st.mode = MODE_CELT_ONLY) :
    opus_decode_native ext st (some buf) len pcm frame_size 1 sd sc
      = opus_decode_native ext st none 0 pcm frame_size 0 false sc := by
  have hl := parse_ok_len_pos buf len sd p hp
  rw [native_null_call ext st pcm frame_size sc]
  unfold opus_decode_native
  rw [if_neg (by omega)]
  by_cases hm : frame_size.tmod (st.Fs.tdiv 400) = 0
  · rw [if_neg (fun h => h.2 hm)]
    simp only [hp]
    rw [if_neg (by omega), if_neg (by omega), if_pos (by decide), if_pos hcond]
  · rw [if_pos ⟨Or.inl (by decide), hm⟩]
    unfold opus_decode_native_null
    rw [if_pos hm]

theorem fec_degrades_to_concealment_witness :
    opus_decode_native silent_engines celt_history_decoder (some [0x80, 1, 2]) 3
        (fun _ => 7) 960 1 false 0
      = opus_decode_native silent_engines celt_history_decoder none 0 (fun _ => 7) 960 0
        false 0 :=
  fec_degrades_to_concealment silent_engines celt_history_decoder [0x80, 1, 2] 3
    (fun _ => 7) 960 false 0 ⟨0x80, 1, [2], [1], 1, 3, 0⟩ rfl (Or.inr (Or.inl rfl))

/-! ## Initialisation and reset -/

/-- C25: `opus_decoder_init` returns `OPUS_BAD_ARG` if and only if `Fs` is not one
of 8000, 12000, 16000, 24000, 48000 or `channels` is not 1 or 2; with valid
arguments and sub-decoder constructors that succeed it returns `OPUS_OK`; and
whenever it returns `OPUS_OK` the state has `prev_mode = 0`,
`frame_size = Fs/400`, `stream_channels = channels` and `decode_gain = 0` (and
holds `Fs` and `channels`). -/
theorem init_bad_arg_iff (ext : Engines) (st : OpusDecoder) (Fs channels : Int) :
    ((opus_decoder_init ext st Fs channels).1 = OpusError.OPUS_BAD_ARG.toInt ↔
      ¬ (Fs = 8000 ∨ Fs = 12000 ∨ Fs = 16000 ∨ Fs = 24000 ∨ Fs = 48000)
        ∨ ¬ (channels = 1 ∨ channels = 2)) ∧
    ((Fs = 8000 ∨ Fs = 12000 ∨ Fs = 16000 ∨ Fs = 24000 ∨ Fs = 48000) →
      (channels = 1 ∨ channels = 2) →
      ext.silk_Get_Decoder_Size.1 = 0 → (∀ s, (ext.silk_InitDecoder s).2 = 0) →
      (∀ c, (ext.celt_decoder_init c Fs channels).2 = 0) →
      (opus_decoder_init ext st Fs channels).1 = 0) ∧
    ((opus_decoder_init ext st Fs channels).1 = 0 →
      (opus_decoder_init ext st Fs channels).2.prev_mode = 0 ∧
      (opus_decoder_init ext st Fs channels).2.frame_size = Fs.tdiv 400 ∧
      (opus_decoder_init ext st Fs channels).2.stream_channels = channels ∧
      (opus_decoder_init ext st Fs channels).2.decode_gain = 0 ∧
      (opus_decoder_init ext st Fs channels).2.Fs = Fs ∧
      (opus_decoder_init ext st Fs channels).2.channels = channels) := by
  refine ⟨?_, ?_, ?_⟩
  · unfold opus_decoder_init
    by_cases hbad : (Fs ≠ 48000 ∧ Fs ≠ 24000 ∧ Fs ≠ 16000 ∧ Fs ≠ 12000 ∧ Fs ≠ 8000)
        ∨ (channels ≠ 1 ∧ channels ≠ 2)
    · rw [if_pos hbad]
      constructor
      · intro _; omega
      · intro _; rfl
    · rw [if_neg hbad]
      constructor
      · intro h
        exfalso
        simp only at h
        split_ifs at h <;> simp [OpusError.toInt] at h
      · intro h; omega
  · intro hFs hch h1 h2 h3
    unfold opus_decoder_init
    rw [if_neg (by omega), if_neg (by simp [h1])]
    simp only
    rw [if_neg (by simp [h2]), if_neg (by simp [h3])]
  · intro h
    have he : opus_decoder_init ext st Fs channels
        = (0, (opus_decoder_init ext st Fs channels).2) := by
      rw [← h]
    obtain ⟨-, -, e1, e2, e3, e4, e5, e6, -⟩ :=
      init_ok_fields ext st (opus_decoder_init ext st Fs channels).2 Fs channels he
    exact ⟨e4, e5, e3, e6, e1, e2⟩

theorem init_bad_arg_iff_witness :
    (opus_decoder_init silent_engines blank_decoder 48000 2).1 = 0 ∧
    (opus_decoder_init silent_engines blank_decoder 48000 2).2.prev_mode = 0 ∧
    (opus_decoder_init silent_engines blank_decoder 48000 2).2.frame_size = 120 ∧
    (opus_decoder_init silent_engines blank_decoder 44100 2).1 = -1 :=
  ⟨(init_bad_arg_iff silent_engines blank_decoder 48000 2).2.1 (by decide) (by decide) rfl
      (fun _ => rfl) (fun _ => rfl),
   ((init_bad_arg_iff silent_engines blank_decoder 48000 2).2.2 rfl).1,
   ((init_bad_arg_iff silent_engines blank_decoder 48000 2).2.2 rfl).2.1,
   (init_bad_arg_iff silent_engines blank_decoder 44100 2).1.2 (Or.inl (by decide))⟩

/-- C23, refuted as stated: on the 48 kHz stereo decoder whose gain has been set
to 5 (`OPUS_SET_GAIN`), the reset request leaves `decode_gain` at 5, while
`opus_decoder_init` with the same `Fs` and `channels` gives `decode_gain = 0`. -/
theorem reset_gain_counterexample :
    (opus_decoder_ctl silent_engines
      (opus_decoder_ctl silent_engines
        (opus_decoder_init silent_engines blank_decoder 48000 2).2
        (.OPUS_SET_GAIN_REQUEST 5)).st .OPUS_RESET_STATE).st.decode_gain = 5 ∧
    (opus_decoder_init silent_engines blank_decoder 48000 2).1 = 0 ∧
    (opus_decoder_init silent_engines blank_decoder 48000 2).2.decode_gain = 0 ∧
    (opus_decoder_ctl silent_engines
        (opus_decoder_init silent_engines blank_decoder 48000 2).2
        (.OPUS_SET_GAIN_REQUEST 5)).st.Fs = 48000 ∧
    (opus_decoder_ctl silent_engines
        (opus_decoder_init silent_engines blank_decoder 48000 2).2
        (.OPUS_SET_GAIN_REQUEST 5)).st.channels = 2 :=
  ⟨rfl, rfl, rfl, rfl, rfl⟩

/-- C23, amended: for every decoder state, after the reset request
(`OPUS_RESET_STATE`) the fields `mode`, `bandwidth`, `stream_channels`,
`frame_size`, `prev_mode`, `prev_redundancy`, `last_packet_duration` and
`rangeFinal` equal their values right after a successful `opus_decoder_init` with
the same `Fs` and `channels`, while `Fs`, `channels` and `decode_gain` are
preserved; the request returns `OPUS_OK`. -/
theorem reset_restores_mutable_fields (ext : Engines) (st st0 sti : OpusDecoder)
    (hinit : opus_decoder_init ext st0 st.Fs st.channels = (0, sti)) :
    (opus_decoder_ctl ext st .OPUS_RESET_STATE).ret = 0 ∧
    (opus_decoder_ctl ext st .OPUS_RESET_STATE).st.mode = sti.mode ∧
    (opus_decoder_ctl ext st .OPUS_RESET_STATE).st.bandwidth = sti.bandwidth ∧
    (opus_decoder_ctl ext st .OPUS_RESET_STATE).st.stream_channels = sti.stream_channels ∧
    (opus_decoder_ctl ext st .OPUS_RESET_STATE).st.frame_size = sti.frame_size ∧
    (opus_decoder_ctl ext st .OPUS_RESET_STATE).st.prev_mode = sti.prev_mode ∧
    (opus_decoder_ctl ext st .OPUS_RESET_STATE).st.prev_redundancy = sti.prev_redundancy ∧
    (opus_decoder_ctl ext st .OPUS_RESET_STATE).st.last_packet_duration
      = sti.last_packet_duration ∧
    (opus_decoder_ctl ext st .OPUS_RESET_STATE).st.rangeFinal = sti.rangeFinal ∧
    (opus_decoder_ctl ext st .OPUS_RESET_STATE).st.Fs = st.Fs ∧
    (opus_decoder_ctl ext st .OPUS_RESET_STATE).st.channels = st.channels ∧
    (opus_decoder_ctl ext st .OPUS_RESET_STATE).st.decode_gain = st.decode_gain := by
  obtain ⟨-, -, e1, e2, e3, e4, e5, e6, e7, e8, e9, e10, e11⟩ :=
    init_ok_fields ext st0 sti st.Fs st.channels hinit
  rw [e3, e4, e5, e7, e8, e9, e10, e11]
  exact ⟨rfl, rfl, rfl, rfl, rfl, rfl, rfl, rfl, rfl, rfl, rfl, rfl⟩

theorem reset_restores_mutable_fields_witness :
    (opus_decoder_ctl silent_engines celt_history_decoder .OPUS_RESET_STATE).st.prev_mode = 0 ∧
    (opus_decoder_ctl silent_engines celt_history_decoder .OPUS_RESET_STATE).st.frame_size
      = 120 :=
  ⟨(reset_restores_mutable_fields silent_engines celt_history_decoder blank_decoder
      (opus_decoder_init silent_engines blank_decoder 48000 2).2 rfl).2.2.2.2.2.1,
   (reset_restores_mutable_fields silent_engines celt_history_decoder blank_decoder
      (opus_decoder_init silent_engines blank_decoder 48000 2).2 rfl).2.2.2.2.1⟩

/-- C24: reset is idempotent. For every decoder state, when the reset of the CELT
decoder and `silk_InitDecoder` are idempotent on the memory of their sub-decoder,
applying the `OPUS_RESET_STATE` request twice leaves the same decoder state (all
fields of `OpusDecoder` and the memory of both sub-decoders) as applying it once,
and the request returns `OPUS_OK` each time. -/
theorem reset_idempotent (ext : Engines) (st : OpusDecoder)
    (hcelt : ∀ c : List Int,
      (ext.celt_decoder_ctl (ext.celt_decoder_ctl c .OPUS_RESET_STATE).celt_dec
        .OPUS_RESET_STATE).celt_dec = (ext.celt_decoder_ctl c .OPUS_RESET_STATE).celt_dec)
    (hsilk : ∀ s : List Int,
      (ext.silk_InitDecoder (ext.silk_InitDecoder s).1).1 = (ext.silk_InitDecoder s).1) :
    (opus_decoder_ctl ext (opus_decoder_ctl ext st .OPUS_RESET_STATE).st
        .OPUS_RESET_STATE).st = (opus_decoder_ctl ext st .OPUS_RESET_STATE).st ∧
    (opus_decoder_ctl ext st .OPUS_RESET_STATE).ret = 0 ∧
    (opus_decoder_ctl ext (opus_decoder_ctl ext st .OPUS_RESET_STATE).st
        .OPUS_RESET_STATE).ret = 0 := by
  refine ⟨?_, rfl, rfl⟩
  simp only [opus_decoder_ctl, opus_decoder_reset, celt_ctl, hcelt, hsilk]

theorem reset_idempotent_witness :
    (opus_decoder_ctl silent_engines
        (opus_decoder_ctl silent_engines celt_history_decoder .OPUS_RESET_STATE).st
        .OPUS_RESET_STATE).st
      = (opus_decoder_ctl silent_engines celt_history_decoder .OPUS_RESET_STATE).st :=
  (reset_idempotent silent_engines celt_history_decoder (fun _ => rfl) (fun _ => rfl)).1

/-! ## What every call of `opus_decode_frame` keeps -/

/-- The SILK loop writes only the SILK memory and `DecControl` in the state,
whatever it returns. -/
theorem silk_loop_keeps (ext : Engines) (lost_flag frame_size : Int) :
    ∀ (n : Nat) (st : OpusDecoder) (dec : ec_dec) (buf : PCM) (ptr decoded : Int)
      (r : Except (OpusDecoder × PCM) (OpusDecoder × ec_dec × PCM)),
      silk_loop ext lost_flag frame_size n st dec buf ptr decoded = some r →
      (match r with
        | .error x => x.1
        | .ok x => x.1).fixed = st.fixed ∧
      (match r with
        | .error x => x.1
        | .ok x => x.1).prev_mode = st.prev_mode := by
  intro n
  induction n with
  | zero =>
    intro st dec buf ptr decoded r h
    rw [silk_loop] at h
    cases h
  | succ n ih =>
    intro st dec buf ptr decoded r h
    rw [silk_loop] at h
    simp only at h
    generalize ext.silk_Decode st.silk_dec st.DecControl lost_flag
      (if decoded = 0 then 1 else 0) dec buf ptr st.arch = q at h
    by_cases h1 : q.ret ≠ 0 ∧ lost_flag = 0
    · rw [if_pos h1] at h
      cases h
      exact ⟨rfl, rfl⟩
    · rw [if_neg h1] at h
      by_cases h2 : decoded + (if q.ret ≠ 0 then frame_size else q.nSamplesOut) < frame_size
      · rw [if_pos h2] at h
        have hk := ih _ _ _ _ _ r h
        exact hk
      · rw [if_neg h2] at h
        cases h
        exact ⟨rfl, rfl⟩

/-- The SILK processing leaves the fields of the state it does not own and
`prev_mode` as they were; when it fails, its return value is negative. -/
theorem silk_stage_keeps (ext : Engines) (st : OpusDecoder)
    (data : Option (List Byte × Int))
    (mode bandwidth audiosize frame_size decode_fec : Int)
    (celt_accum : Bool) (dec : ec_dec) (pcm : PCM) (off : Int) (pcm_silk : PCM)
    (r : Except DecodeOut (OpusDecoder × ec_dec × PCM × PCM))
    (h : frame_silk_stage ext st data mode bandwidth audiosize frame_size decode_fec
      celt_accum dec pcm off pcm_silk = some r) :
    match r with
    | .error out => out.st.fixed = st.fixed ∧ out.st.prev_mode = st.prev_mode ∧ out.ret < 0
    | .ok x => x.1.fixed = st.fixed ∧ x.1.prev_mode = st.prev_mode := by
  obtain ⟨f1, f2, -, -⟩ := silk_setup_fixed ext st data mode bandwidth audiosize
  unfold frame_silk_stage at h
  simp only at h
  cases celt_accum
  · simp only [Bool.false_eq_true, if_false] at h
    generalize hl : silk_loop ext (if data.isSome = true then 2 * decode_fec else 1)
      frame_size (frame_size.toNat + 1)
      (frame_silk_setup ext st data mode bandwidth audiosize) dec pcm_silk 0 0 = l at h
    cases l with
    | none => cases h
    | some v =>
      have hk := silk_loop_keeps ext _ _ _ _ _ _ _ _ v hl
      cases v with
      | error x =>
        obtain ⟨s, b⟩ := x
        simp only [Option.some.injEq] at h
        subst h
        exact ⟨hk.1.trans f1, hk.2.trans f2, (by decide : OpusError.OPUS_INTERNAL_ERROR.toInt < 0)⟩
      | ok x =>
        obtain ⟨s, d, b⟩ := x
        simp only [Option.some.injEq] at h
        subst h
        exact ⟨hk.1.trans f1, hk.2.trans f2⟩
  · simp only [if_true] at h
    generalize hl : silk_loop ext (if data.isSome = true then 2 * decode_fec else 1)
      frame_size (frame_size.toNat + 1)
      (frame_silk_setup ext st data mode bandwidth audiosize) dec pcm off 0 = l at h
    cases l with
    | none => cases h
    | some v =>
      have hk := silk_loop_keeps ext _ _ _ _ _ _ _ _ v hl
      cases v with
      | error x =>
        obtain ⟨s, b⟩ := x
        simp only [Option.some.injEq] at h
        subst h
        exact ⟨hk.1.trans f1, hk.2.trans f2, (by decide : OpusError.OPUS_INTERNAL_ERROR.toInt < 0)⟩
      | ok x =>
        obtain ⟨s, d, b⟩ := x
        simp only [Option.some.injEq] at h
        subst h
        exact ⟨hk.1.trans f1, hk.2.trans f2⟩

/-- The concealment of a transition (lines 305-310 and 421-426), when it is made,
leaves the fields of the state it does not own and `prev_mode` as they were,
provided the recursive call does. -/
theorem transition_keeps (self : OpusDecoder → PCM → Int → Int → Option DecodeOut)
    (hself : ∀ (s : OpusDecoder) (p : PCM) (o f : Int) (r : DecodeOut),
      self s p o f = some r → r.st.fixed = s.fixed ∧ r.st.prev_mode = s.prev_mode)
    (c : Prop) [Decidable c] (st : OpusDecoder) (p p1 : PCM) (f : Int)
    (x : OpusDecoder × PCM)
    (h : (if c then Option.map (fun r => (r.st, r.pcm)) (self st p 0 f)
      else some (st, p1)) = some x) :
    x.1.fixed = st.fixed ∧ x.1.prev_mode = st.prev_mode := by
  by_cases hc : c
  · rw [if_pos hc] at h
    cases hs : self st p 0 f with
    | none => rw [hs] at h; cases h
    | some r =>
      rw [hs] at h
      cases h
      exact hself st p 0 f r hs
  · rw [if_neg hc] at h
    cases h
    exact ⟨rfl, rfl⟩

/-- Every call of the main part of `opus_decode_frame` that returns leaves the
fields of the state it does not own as they were, leaves `prev_mode` as it was or
sets it to `mode`, and returns a negative value or `audiosize`; the recursive
calls are assumed to keep those fields and `prev_mode`. -/
theorem frame_main_keeps (ext : Engines)
    (self : OpusDecoder → PCM → Int → Int → Option DecodeOut)
    (hself : ∀ (s : OpusDecoder) (p : PCM) (o f : Int) (r : DecodeOut),
      self s p o f = some r → r.st.fixed = s.fixed ∧ r.st.prev_mode = s.prev_mode)
    (st : OpusDecoder) (data : Option (List Byte × Int)) (len : Int) (pcm : PCM)
    (off frame_size decode_fec audiosize mode bandwidth : Int) (dec : ec_dec)
    (F2_5 F5 F10 F20 : Int) (out : DecodeOut)
    (h : frame_main ext self st data len pcm off frame_size decode_fec audiosize mode
      bandwidth dec F2_5 F5 F10 F20 = some out) :
    out.st.fixed = st.fixed ∧
    (out.st.prev_mode = st.prev_mode ∨ out.st.prev_mode = mode) ∧
    (out.ret < 0 ∨ out.ret = audiosize) := by
  unfold frame_main at h
  simp only at h
  generalize decide (data.isSome = true ∧ st.prev_mode > 0 ∧
    (mode = MODE_CELT_ONLY ∧ st.prev_mode ≠ MODE_CELT_ONLY ∧ st.prev_redundancy = 0 ∨
      mode ≠ MODE_CELT_ONLY ∧ st.prev_mode = MODE_CELT_ONLY)) = t0 at h
  generalize decide (mode ≠ MODE_CELT_ONLY ∧ frame_size ≥ F10) = accum at h
  split at h
  · cases h
  · rename_i st1 ptr1 heq1
    have k1 := transition_keeps self hself _ st _ _ _ _ heq1
    by_cases hbig : audiosize > frame_size
    · rw [if_pos hbig] at h
      cases h
      exact ⟨k1.1, Or.inl k1.2, Or.inl (by decide : OpusError.OPUS_BAD_ARG.toInt < 0)⟩
    · rw [if_neg hbig] at h
      split at h
      · cases h
      · rename_i out1 heq2
        cases h
        by_cases hm : mode ≠ MODE_CELT_ONLY
        · rw [if_pos hm] at heq2
          have k2 := silk_stage_keeps ext st1 data mode bandwidth audiosize audiosize
            decode_fec accum dec pcm off ext.stack_pcm _ heq2
          exact ⟨k2.1.trans k1.1, Or.inl (k2.2.1.trans k1.2), Or.inl k2.2.2⟩
        · rw [if_neg hm] at heq2
          cases heq2
      · rename_i st2 dec2 pcm2 pcm_silk heq2
        have k2 : st2.fixed = st1.fixed ∧ st2.prev_mode = st1.prev_mode := by
          by_cases hm : mode ≠ MODE_CELT_ONLY
          · rw [if_pos hm] at heq2
            exact silk_stage_keeps ext st1 data mode bandwidth audiosize audiosize
              decode_fec accum dec pcm off ext.stack_pcm _ heq2
          · rw [if_neg hm] at heq2
            cases heq2
            exact ⟨rfl, rfl⟩
        split at h
        · cases h
        · rename_i st3 ptr3 heq3
          have k3 := transition_keeps self hself _ st2 _ _ _ _ heq3
          cases h
          refine ⟨?_, Or.inr ?_, ?_⟩
          · rw [(final_stage_props _ _ _ _ _ _ _ _ _ _ _ _).2.1,
              (celt_stage_fixed _ _ _ _ _ _ _ _ _ _ _ _ _ _ _).1]
            exact k3.1.trans (k2.1.trans k1.1)
          · exact (final_stage_props _ _ _ _ _ _ _ _ _ _ _ _).2.2
          · rw [(final_stage_props _ _ _ _ _ _ _ _ _ _ _ _).1]
            split_ifs with hc
            · exact Or.inl hc
            · exact Or.inr rfl

/-- The chunk loop of a long concealment leaves the fields of the state it does
not own and `prev_mode` as they were, and returns a negative value or
`frame_size`, provided the recursive call keeps those fields and `prev_mode`. -/
theorem plc_chunk_loop_keeps (self : OpusDecoder → PCM → Int → Int → Option DecodeOut)
    (hself : ∀ (s : OpusDecoder) (p : PCM) (o f : Int) (r : DecodeOut),
      self s p o f = some r → r.st.fixed = s.fixed ∧ r.st.prev_mode = s.prev_mode)
    (F20 fs : Int) :
    ∀ (n : Nat) (st : OpusDecoder) (pcm : PCM) (off a : Int) (out : DecodeOut),
      plc_chunk_loop self F20 fs n st pcm off a = some out →
      out.st.fixed = st.fixed ∧ out.st.prev_mode = st.prev_mode ∧
      (out.ret < 0 ∨ out.ret = fs) := by
  intro n
  induction n with
  | zero =>
    intro st pcm off a out h
    rw [plc_chunk_loop] at h
    cases h
  | succ n ih =>
    intro st pcm off a out h
    rw [plc_chunk_loop] at h
    cases hs : self st pcm off (IMIN a F20) with
    | none => rw [hs] at h; cases h
    | some r =>
      rw [hs] at h
      simp only at h
      have kr := hself st pcm off (IMIN a F20) r hs
      by_cases hneg : r.ret < 0
      · rw [if_pos hneg] at h
        cases h
        exact ⟨kr.1, kr.2, Or.inl hneg⟩
      · rw [if_neg hneg] at h
        by_cases hmore : a - r.ret > 0
        · rw [if_pos hmore] at h
          have k := ih _ _ _ _ out h
          exact ⟨k.1.trans kr.1, k.2.1.trans kr.2, k.2.2⟩
        · rw [if_neg hmore] at h
          cases h
          exact ⟨kr.1, kr.2, Or.inr rfl⟩

/-- Every call of `opus_decode_frame` that returns leaves the fields of the state
it does not own as they were; it leaves `prev_mode` as it was, unless it was given
data of more than one byte, in which case it may have set `prev_mode` to
`st->mode`. The recursive calls are assumed to keep those fields and `prev_mode`. -/
theorem decode_frame_body_keeps (ext : Engines)
    (self : OpusDecoder → PCM → Int → Int → Option DecodeOut)
    (hself : ∀ (s : OpusDecoder) (p : PCM) (o f : Int) (r : DecodeOut),
      self s p o f = some r → r.st.fixed = s.fixed ∧ r.st.prev_mode = s.prev_mode)
    (st : OpusDecoder) (data : Option (List Byte × Int)) (len : Int) (pcm : PCM)
    (off fs decode_fec : Int) (out : DecodeOut)
    (h : opus_decode_frame_body ext self st data len pcm off fs decode_fec = some out) :
    out.st.fixed = st.fixed ∧
    (out.st.prev_mode = st.prev_mode
      ∨ (1 < len ∧ data.isSome ∧ out.st.prev_mode = st.mode)) := by
  unfold opus_decode_frame_body at h
  simp only at h
  by_cases hsmall : fs < ((st.Fs.tdiv 50 >>> (1 : Nat)) >>> (1 : Nat)) >>> (1 : Nat)
  · rw [if_pos hsmall] at h
    cases h
    exact ⟨rfl, Or.inl rfl⟩
  · rw [if_neg hsmall] at h
    generalize (if len ≤ 1 then IMIN (IMIN fs (st.Fs.tdiv 25 * 3)) st.frame_size
      else IMIN fs (st.Fs.tdiv 25 * 3)) = n at h
    split at h
    · rename_i d hd
      have hl : ¬ len ≤ 1 := by
        intro hl
        rw [if_pos hl] at hd
        cases hd
      rw [if_neg hl] at hd
      have k := frame_main_keeps ext self hself _ _ _ _ _ _ _ _ _ _ _ _ _ _ _ _ h
      refine ⟨k.1, ?_⟩
      rcases k.2.1 with k2 | k2
      · exact Or.inl k2
      · exact Or.inr ⟨by omega, by rw [hd]; rfl, k2⟩
    · by_cases hpm : st.prev_mode = 0
      · rw [if_pos hpm] at h
        cases h
        exact ⟨rfl, Or.inl rfl⟩
      · rw [if_neg hpm] at h
        by_cases hlong : n > st.Fs.tdiv 50
        · rw [if_pos hlong] at h
          have k := plc_chunk_loop_keeps self hself _ _ _ _ _ _ _ out h
          exact ⟨k.1, Or.inl k.2.1⟩
        · rw [if_neg hlong] at h
          have k := frame_main_keeps ext self hself _ _ _ _ _ _ _ _ _ _ _ _ _ _ _ _ h
          refine ⟨k.1, Or.inl ?_⟩
          rcases k.2.1 with k2 | k2
          · exact k2
          · exact k2

/-- Every call of `opus_decode_frame` that returns, at any nesting depth, leaves
the fields of the state it does not own as they were, and leaves `prev_mode` as
it was unless it was given data of more than one byte, in which case it may have
set `prev_mode` to `st->mode`. -/
theorem decode_frame_keeps (ext : Engines) :
    ∀ (d : Nat) (st : OpusDecoder) (data : Option (List Byte × Int)) (len : Int)
      (pcm : PCM) (off fs decode_fec : Int) (out : DecodeOut),
      opus_decode_frame_depth ext d st data len pcm off fs decode_fec = some out →
      out.st.fixed = st.fixed ∧
      (out.st.prev_mode = st.prev_mode
        ∨ (1 < len ∧ data.isSome ∧ out.st.prev_mode = st.mode)) := by
  intro d
  induction d with
  | zero =>
    intro st data len pcm off fs decode_fec out h
    cases h
  | succ d ih =>
    intro st data len pcm off fs decode_fec out h
    refine decode_frame_body_keeps ext
      (fun st1 pcm1 off1 fs1 => opus_decode_frame_depth ext d st1 none 0 pcm1 off1 fs1 0)
      ?_ st data len pcm off fs decode_fec out h
    intro s p o f r hr
    have k := ih s none 0 p o f 0 r hr
    refine ⟨k.1, ?_⟩
    rcases k.2 with k2 | ⟨k2, -, -⟩
    · exact k2
    · omega

/-! ## What every call of `opus_decode_native` keeps -/

theorem fixed_iff_config (a b : OpusDecoder) :
    a.fixed = b.fixed ↔
      a.config = b.config ∧ a.last_packet_duration = b.last_packet_duration := by
  unfold OpusDecoder.fixed OpusDecoder.config
  simp only [Prod.mk.injEq]
  tauto

theorem config_fields (a b : OpusDecoder) (h : a.config = b.config) :
    a.Fs = b.Fs ∧ a.channels = b.channels ∧ a.decode_gain = b.decode_gain ∧
    a.mode = b.mode ∧ a.bandwidth = b.bandwidth ∧ a.frame_size = b.frame_size ∧
    a.stream_channels = b.stream_channels := by
  unfold OpusDecoder.config at h
  simp only [Prod.mk.injEq] at h
  obtain ⟨-, -, h3, h4, h5, -, h7, h8, h9, h10⟩ := h
  exact ⟨h4, h3, h5, h9, h8, h10, h7⟩

/-- The concealment loop of `opus_decode_native`, whenever it returns: `prev_mode`
and the fields of the state a frame does not own are as before; it has failed
with `last_packet_duration` as before, or it has returned a non-negative count
recorded in `last_packet_duration`. -/
theorem conceal_loop_keeps (ext : Engines) (N : Int) :
    ∀ (n : Nat) (st : OpusDecoder) (pcm : PCM) (pc : Int) (out : DecodeOut),
      0 ≤ pc → native_conceal_loop ext N n st pcm pc = some out →
      out.st.config = st.config ∧ out.st.prev_mode = st.prev_mode ∧
      ((out.ret < 0 ∧ out.st.last_packet_duration = st.last_packet_duration)
        ∨ (0 ≤ out.ret ∧ out.st.last_packet_duration = out.ret)) := by
  intro n
  induction n with
  | zero =>
    intro st pcm pc out _ h
    rw [native_conceal_loop] at h
    cases h
  | succ n ih =>
    intro st pcm pc out hpc h
    rw [native_conceal_loop] at h
    cases hs : opus_decode_frame ext st none 0 pcm (pc * st.channels) (N - pc) 0 with
    | none => rw [hs] at h; cases h
    | some r =>
      rw [hs] at h
      simp only at h
      have kr := decode_frame_keeps ext 3 st none 0 pcm _ _ 0 r hs
      have kpm : r.st.prev_mode = st.prev_mode := by
        rcases kr.2 with k | ⟨k, -, -⟩
        · exact k
        · omega
      obtain ⟨kc, kl⟩ := (fixed_iff_config r.st st).1 kr.1
      by_cases hneg : r.ret < 0
      · rw [if_pos hneg] at h
        cases h
        exact ⟨kc, kpm, Or.inl ⟨hneg, kl⟩⟩
      · rw [if_neg hneg] at h
        by_cases hmore : pc + r.ret < N
        · rw [if_pos hmore] at h
          have k := ih _ _ _ out (by omega) h
          refine ⟨k.1.trans kc, k.2.1.trans kpm, ?_⟩
          rcases k.2.2 with ⟨k1, k2⟩ | k1
          · exact Or.inl ⟨k1, k2.trans kl⟩
          · exact Or.inr k1
        · rw [if_neg hmore] at h
          cases h
          exact ⟨kc, kpm, Or.inr ⟨by show 0 ≤ pc + r.ret; omega, rfl⟩⟩

/-- The frames loop of `opus_decode_native`, whenever it returns: the fields of
the state a frame does not own are as before; `prev_mode` is as before unless a
frame of more than one byte was handed over, in which case it may be `st->mode`;
it has failed with `last_packet_duration` as before, or it has returned a
non-negative count recorded in `last_packet_duration`. -/
theorem frames_loop_keeps (ext : Engines) (buf : List Byte) (size : List Int)
    (frame_size : Int) :
    ∀ (n i : Nat) (st : OpusDecoder) (pcm : PCM) (d nb : Int) (out : DecodeOut),
      0 ≤ nb → native_frames_loop ext buf size frame_size n i st pcm d nb = some out →
      out.st.config = st.config ∧
      (out.st.prev_mode = st.prev_mode
        ∨ ((∃ j : Nat, 1 < size.getD j 0) ∧ out.st.prev_mode = st.mode)) ∧
      ((out.ret < 0 ∧ out.st.last_packet_duration = st.last_packet_duration)
        ∨ (0 ≤ out.ret ∧ out.st.last_packet_duration = out.ret)) := by
  intro n
  induction n with
  | zero =>
    intro i st pcm d nb out hnb h
    rw [native_frames_loop] at h
    cases h
    exact ⟨rfl, Or.inl rfl, Or.inr ⟨hnb, rfl⟩⟩
  | succ n ih =>
    intro i st pcm d nb out hnb h
    rw [native_frames_loop] at h
    cases hs : opus_decode_frame ext st (some (buf, d)) (size.getD i 0) pcm
        (nb * st.channels) (frame_size - nb) 0 with
    | none => rw [hs] at h; cases h
    | some r =>
      rw [hs] at h
      simp only at h
      have kr := decode_frame_keeps ext 3 st _ _ pcm _ _ 0 r hs
      obtain ⟨kc, kl⟩ := (fixed_iff_config r.st st).1 kr.1
      have kpm : r.st.prev_mode = st.prev_mode
          ∨ ((∃ j : Nat, 1 < size.getD j 0) ∧ r.st.prev_mode = st.mode) := by
        rcases kr.2 with k | ⟨k1, -, k3⟩
        · exact Or.inl k
        · exact Or.inr ⟨⟨i, k1⟩, k3⟩
      by_cases hneg : r.ret < 0
      · rw [if_pos hneg] at h
        cases h
        exact ⟨kc, kpm, Or.inl ⟨hneg, kl⟩⟩
      · rw [if_neg hneg] at h
        have k := ih _ _ _ _ _ out (by omega) h
        have hmode : r.st.mode = st.mode := (config_fields r.st st kc).2.2.2.1
        refine ⟨k.1.trans kc, ?_, ?_⟩
        · rcases k.2.1 with k1 | ⟨k1, k2⟩
          · rcases kpm with k3 | k3
            · exact Or.inl (k1.trans k3)
            · exact Or.inr ⟨k3.1, k1.trans k3.2⟩
          · exact Or.inr ⟨k1, k2.trans hmode⟩
        · rcases k.2.2 with ⟨k1, k2⟩ | k1
          · exact Or.inl ⟨k1, k2.trans kl⟩
          · exact Or.inr k1

theorem toInt_neg (e : OpusError) : e.toInt < 0 := by
  cases e <;> decide

/-- The plain concealment call that `opus_decode_native` makes on itself,
whenever it returns: as `conceal_loop_keeps`. -/
theorem native_null_keeps (ext : Engines) (st : OpusDecoder) (pcm : PCM) (N : Int)
    (out : DecodeOut) (h : opus_decode_native_null ext st pcm N = some out) :
    out.st.config = st.config ∧ out.st.prev_mode = st.prev_mode ∧
    ((out.ret < 0 ∧ out.st.last_packet_duration = st.last_packet_duration)
      ∨ (0 ≤ out.ret ∧ out.st.last_packet_duration = out.ret)) := by
  unfold opus_decode_native_null at h
  by_cases hm : N.tmod (st.Fs.tdiv 400) ≠ 0
  · rw [if_pos hm] at h
    cases h
    exact ⟨rfl, rfl, Or.inl ⟨toInt_neg OpusError.OPUS_BAD_ARG, rfl⟩⟩
  · rw [if_neg hm] at h
    exact conceal_loop_keeps ext N _ st pcm 0 out (le_refl 0) h

/-- Every call of `opus_decode_native` that returns leaves `Fs`, `channels` and
`decode_gain` as they were; it leaves `prev_mode` as it was unless the packet
parses and holds a frame of more than one byte, in which case `prev_mode` may be
the mode of the packet; a non-negative return value is recorded in
`last_packet_duration`; and with `decode_fec = 0` a negative return value leaves
`last_packet_duration` as it was. -/
theorem native_keeps (ext : Engines) (st : OpusDecoder) (data : Option (List Byte))
    (len : Int) (pcm : PCM) (frame_size decode_fec : Int) (sd : Bool) (sc : Int)
    (out : DecodeOut)
    (h : opus_decode_native ext st data len pcm frame_size decode_fec sd sc = some out) :
    (out.st.Fs = st.Fs ∧ out.st.channels = st.channels ∧
      out.st.decode_gain = st.decode_gain) ∧
    (out.st.prev_mode = st.prev_mode
      ∨ ∃ buf p, data = some buf ∧ opus_packet_parse_impl buf len sd = .ok p ∧
          (∃ j : Nat, 1 < p.size.getD j 0) ∧
          out.st.prev_mode = opus_packet_get_mode buf) ∧
    (0 ≤ out.ret → out.st.last_packet_duration = out.ret) ∧
    (out.ret < 0 → decode_fec = 0 →
      out.st.last_packet_duration = st.last_packet_duration) := by
  have hbad : OpusError.OPUS_BAD_ARG.toInt < 0 := toInt_neg _
  have conc : ∀ o : DecodeOut,
      o.st.config = st.config ∧ o.st.prev_mode = st.prev_mode ∧
      ((o.ret < 0 ∧ o.st.last_packet_duration = st.last_packet_duration)
        ∨ (0 ≤ o.ret ∧ o.st.last_packet_duration = o.ret)) →
      (o.st.Fs = st.Fs ∧ o.st.channels = st.channels ∧
        o.st.decode_gain = st.decode_gain) ∧
      (o.st.prev_mode = st.prev_mode
        ∨ ∃ buf p, data = some buf ∧ opus_packet_parse_impl buf len sd = .ok p ∧
            (∃ j : Nat, 1 < p.size.getD j 0) ∧
            o.st.prev_mode = opus_packet_get_mode buf) ∧
      (0 ≤ o.ret → o.st.last_packet_duration = o.ret) ∧
      (o.ret < 0 → decode_fec = 0 →
        o.st.last_packet_duration = st.last_packet_duration) := by
    intro o k
    obtain ⟨c1, c2, c3, -⟩ := config_fields o.st st k.1
    refine ⟨⟨c1, c2, c3⟩, Or.inl k.2.1, ?_, ?_⟩
    · intro h0
      rcases k.2.2 with ⟨k1, -⟩ | ⟨-, k2⟩
      · omega
      · exact k2
    · intro h0 _
      rcases k.2.2 with ⟨-, k2⟩ | ⟨k1, -⟩
      · exact k2
      · omega
  have same : ∀ e : Int, e < 0 →
      (st.Fs = st.Fs ∧ st.channels = st.channels ∧ st.decode_gain = st.decode_gain) ∧
      (st.prev_mode = st.prev_mode
        ∨ ∃ buf p, data = some buf ∧ opus_packet_parse_impl buf len sd = .ok p ∧
            (∃ j : Nat, 1 < p.size.getD j 0) ∧
            st.prev_mode = opus_packet_get_mode buf) ∧
      (0 ≤ e → st.last_packet_duration = e) ∧
      (e < 0 → decode_fec = 0 → st.last_packet_duration = st.last_packet_duration) :=
    fun e he => ⟨⟨rfl, rfl, rfl⟩, Or.inl rfl, fun h0 => by omega, fun _ _ => rfl⟩
  unfold opus_decode_native at h
  by_cases c1 : decode_fec < 0 ∨ decode_fec > 1
  · rw [if_pos c1] at h
    cases h
    exact same _ hbad
  rw [if_neg c1] at h
  by_cases c2 : (decode_fec ≠ 0 ∨ len = 0 ∨ data.isNone) ∧
      frame_size.tmod (st.Fs.tdiv 400) ≠ 0
  · rw [if_pos c2] at h
    cases h
    exact same _ hbad
  rw [if_neg c2] at h
  cases data with
  | none =>
    simp only at h
    exact conc out (conceal_loop_keeps ext frame_size _ st pcm 0 out (le_refl 0) h)
  | some buf =>
    simp only at h
    by_cases c3 : len = 0
    · rw [if_pos c3] at h
      exact conc out (conceal_loop_keeps ext frame_size _ st pcm 0 out (le_refl 0) h)
    rw [if_neg c3] at h
    by_cases c4 : len < 0
    · rw [if_pos c4] at h
      cases h
      exact same _ hbad
    rw [if_neg c4] at h
    cases hp : opus_packet_parse_impl buf len sd with
    | error e =>
      rw [hp] at h
      simp only at h
      cases h
      exact same _ (toInt_neg e)
    | ok p =>
      rw [hp] at h
      simp only at h
      by_cases c5 : decode_fec ≠ 0
      · rw [if_pos c5] at h
        by_cases c6 : frame_size < opus_packet_get_samples_per_frame buf st.Fs
            ∨ opus_packet_get_mode buf = MODE_CELT_ONLY ∨ st.mode = MODE_CELT_ONLY
        · rw [if_pos c6] at h
          exact conc out (native_null_keeps ext st pcm frame_size out h)
        rw [if_neg c6] at h
        split at h
        · cases h
        · rename_i r hpre
          have kr : r.st.config = st.config ∧ r.st.prev_mode = st.prev_mode := by
            by_cases c7 : frame_size - opus_packet_get_samples_per_frame buf st.Fs ≠ 0
            · rw [if_pos c7] at hpre
              have k := native_null_keeps ext st pcm _ r hpre
              exact ⟨k.1, k.2.1⟩
            · rw [if_neg c7] at hpre
              cases hpre
              exact ⟨rfl, rfl⟩
          obtain ⟨r1, r2, r3, -⟩ := config_fields r.st st kr.1
          by_cases c8 : r.ret < 0
          · rw [if_pos c8] at h
            cases h
            exact ⟨⟨r1, r2, r3⟩, Or.inl kr.2, fun h0 => by
              have : r.ret < 0 := c8
              exact absurd h0 (by show ¬ (0 ≤ r.ret); omega), fun _ h0 => absurd h0 c5⟩
          rw [if_neg c8] at h
          split at h
          · cases h
          · rename_i rf hfr
            have k2 := decode_frame_keeps ext 3 _ _ _ _ _ _ _ rf hfr
            obtain ⟨kc2, -⟩ := (fixed_iff_config _ _).1 k2.1
            obtain ⟨q1, q2, q3, -⟩ := config_fields _ _ kc2
            have hpm : rf.st.prev_mode = st.prev_mode
                ∨ ∃ b q, some buf = some b ∧ opus_packet_parse_impl b len sd = .ok q ∧
                    (∃ j : Nat, 1 < q.size.getD j 0) ∧
                    rf.st.prev_mode = opus_packet_get_mode b := by
              rcases k2.2 with k | ⟨k1, -, k3⟩
              · exact Or.inl (k.trans kr.2)
              · exact Or.inr ⟨buf, p, rfl, hp, ⟨0, k1⟩, k3⟩
            by_cases c9 : rf.ret < 0
            · rw [if_pos c9] at h
              cases h
              exact ⟨⟨q1.trans r1, q2.trans r2, q3.trans r3⟩, hpm,
                fun h0 => by omega, fun _ h0 => absurd h0 c5⟩
            · rw [if_neg c9] at h
              cases h
              exact ⟨⟨q1.trans r1, q2.trans r2, q3.trans r3⟩, hpm,
                fun _ => rfl, fun _ h0 => absurd h0 c5⟩
      · rw [if_neg c5] at h
        by_cases c6 : p.count * opus_packet_get_samples_per_frame buf st.Fs > frame_size
        · rw [if_pos c6] at h
          cases h
          exact same _ (toInt_neg OpusError.OPUS_BUFFER_TOO_SMALL)
        rw [if_neg c6] at h
        have k := frames_loop_keeps ext buf p.size frame_size _ _ _ _ _ _ out (le_refl 0) h
        obtain ⟨q1, q2, q3, -⟩ := config_fields _ _ k.1
        refine ⟨⟨q1, q2, q3⟩, ?_, ?_, ?_⟩
        · rcases k.2.1 with k1 | ⟨k1, k2⟩
          · exact Or.inl k1
          · exact Or.inr ⟨buf, p, rfl, hp, k1, k2⟩
        · intro h0
          rcases k.2.2 with ⟨k1, -⟩ | ⟨-, k2⟩
          · omega
          · exact k2
        · intro h0 _
          rcases k.2.2 with ⟨-, k2⟩ | ⟨k1, -⟩
          · exact k2
          · omega

/-! ## The invariant of `prev_mode` -/

theorem packet_mode_cases (data : List Byte) :
    opus_packet_get_mode data = MODE_SILK_ONLY ∨ opus_packet_get_mode data = MODE_HYBRID
      ∨ opus_packet_get_mode data = MODE_CELT_ONLY := by
  unfold opus_packet_get_mode
  split_ifs
  · exact Or.inr (Or.inr rfl)
  · exact Or.inr (Or.inl rfl)
  · exact Or.inl rfl

/-- A control request leaves `prev_mode` as it was or, for a reset, sets it to 0. -/
theorem ctl_prev_mode (ext : Engines) (st : OpusDecoder) (req : CtlRequest) :
    (opus_decoder_ctl ext st req).st.prev_mode = st.prev_mode
      ∨ (opus_decoder_ctl ext st req).st.prev_mode = 0 := by
  cases req <;> simp only [opus_decoder_ctl] <;> first
    | exact Or.inl rfl
    | exact Or.inr rfl
    | (split_ifs <;> exact Or.inl rfl)
    | exact Or.inl trivial

/-- Every call of `opus_decode` that returns: as `native_keeps`. -/
theorem opus_decode_keeps (ext : Engines) (st : OpusDecoder) (data : Option (List Byte))
    (len : Int) (pcm : PCM) (frame_size decode_fec : Int) (out : DecodeOut)
    (h : opus_decode ext st data len pcm frame_size decode_fec = some out) :
    (out.st.Fs = st.Fs ∧ out.st.channels = st.channels ∧
      out.st.decode_gain = st.decode_gain) ∧
    (out.st.prev_mode = st.prev_mode
      ∨ ∃ buf p, data = some buf ∧ opus_packet_parse_impl buf len false = .ok p ∧
          (∃ j : Nat, 1 < p.size.getD j 0) ∧
          out.st.prev_mode = opus_packet_get_mode buf) ∧
    (0 ≤ out.ret → out.st.last_packet_duration = out.ret) ∧
    (out.ret < 0 → decode_fec = 0 →
      out.st.last_packet_duration = st.last_packet_duration) := by
  unfold opus_decode at h
  by_cases hf : frame_size ≤ 0
  · rw [if_pos hf] at h
    cases h
    have hn := toInt_neg OpusError.OPUS_BAD_ARG
    exact ⟨⟨rfl, rfl, rfl⟩, Or.inl rfl, fun h0 => absurd h0 (not_le.2 hn), fun _ _ => rfl⟩
  · rw [if_neg hf] at h
    exact native_keeps ext st data len pcm frame_size decode_fec false 0 out h

/-- C26: in every state reachable from a successful `opus_decoder_init` through
`opus_decode` and `opus_decoder_ctl` calls, `prev_mode` is 0 or one of the three
coding modes 1000, 1001, 1002; a call of `opus_decode_frame` without data or with
`len <= 1` leaves `prev_mode` as it was; and `prev_mode` is 0 in every state
reached without a frame of more than one byte having been decoded. -/
theorem prev_mode_invariant (ext : Engines) :
    (∀ st : OpusDecoder, Reachable ext st →
      st.prev_mode = 0 ∨ st.prev_mode = MODE_SILK_ONLY ∨ st.prev_mode = MODE_HYBRID
        ∨ st.prev_mode = MODE_CELT_ONLY) ∧
    (∀ (st : OpusDecoder) (data : Option (List Byte × Int)) (len : Int) (pcm : PCM)
        (off frame_size decode_fec : Int) (out : DecodeOut),
      opus_decode_frame ext st data len pcm off frame_size decode_fec = some out →
      (data = none ∨ len ≤ 1) → out.st.prev_mode = st.prev_mode) ∧
    (∀ st : OpusDecoder, NoRealFrame ext st → st.prev_mode = 0) := by
  refine ⟨?_, ?_, ?_⟩
  · intro st hr
    induction hr with
    | init st0 st Fs channels h =>
      exact Or.inl (init_ok_fields ext st0 st Fs channels h).2.2.2.2.2.1
    | decode st data len pcm frame_size decode_fec out _ h ih =>
      rcases (opus_decode_keeps ext st data len pcm frame_size decode_fec out h).2.1 with
        k | ⟨buf, p, -, -, -, k⟩
      · rw [k]; exact ih
      · rw [k]; exact Or.inr (packet_mode_cases buf)
    | ctl st req _ ih =>
      rcases ctl_prev_mode ext st req with k | k
      · rw [k]; exact ih
      · exact Or.inl k
  · intro st data len pcm off frame_size decode_fec out h hc
    rcases (decode_frame_keeps ext 3 st data len pcm off frame_size decode_fec out h).2 with
      k | ⟨k1, k2, -⟩
    · exact k
    · rcases hc with hc | hc
      · rw [hc] at k2
        cases k2
      · omega
  · intro st hr
    induction hr with
    | init st0 st Fs channels h =>
      exact (init_ok_fields ext st0 st Fs channels h).2.2.2.2.2.1
    | decode st data len pcm frame_size decode_fec out _ hc h ih =>
      rcases (opus_decode_keeps ext st data len pcm frame_size decode_fec out h).2.1 with
        k | ⟨buf, p, k1, k2, ⟨j, k3⟩, -⟩
      · rw [k]; exact ih
      · exfalso
        rcases hc with hc | hc | hc
        · rw [hc] at k1
          cases k1
        · have := parse_ok_len_pos buf len false p k2
          omega
        · have := hc buf p k1 k2 j
          omega
    | ctl st req _ ih =>
      rcases ctl_prev_mode ext st req with k | k
      · rw [k]; exact ih
      · exact k

/-! ## The sample count of the normal path -/

/-- For a valid sampling rate the samples per frame of a packet are 1, 2, 4, 8, 16
or 24 times `Fs/400` (2.5, 5, 10, 20, 40 or 60 ms). -/
theorem samples_per_frame_sizes (data : List Byte) (Fs : Int)
    (hFs : Fs = 48000 ∨ Fs = 24000 ∨ Fs = 16000 ∨ Fs = 12000 ∨ Fs = 8000) :
    opus_packet_get_samples_per_frame data Fs = Fs.tdiv 400
      ∨ opus_packet_get_samples_per_frame data Fs = 2 * Fs.tdiv 400
      ∨ opus_packet_get_samples_per_frame data Fs = 4 * Fs.tdiv 400
      ∨ opus_packet_get_samples_per_frame data Fs = 8 * Fs.tdiv 400
      ∨ opus_packet_get_samples_per_frame data Fs = 16 * Fs.tdiv 400
      ∨ opus_packet_get_samples_per_frame data Fs = 24 * Fs.tdiv 400 := by
  have ha := size_code_le (rd data 0)
  unfold opus_packet_get_samples_per_frame
  generalize (rd data 0 >>> 3) &&& 0x3 = a at ha
  rcases hFs with rfl | rfl | rfl | rfl | rfl <;>
    (split_ifs <;> first
      | decide
      | (interval_cases a <;> decide))

theorem IMIN_eq_right (a b : Int) (h : b ≤ a) : IMIN a b = b := by
  unfold IMIN
  split_ifs <;> omega

/-- A call of `opus_decode_frame` with a data pointer, on a state with a valid
`Fs` whose `frame_size` is a frame size of the rate and fits in the requested
`frame_size`: whenever it returns, the value is negative or `st->frame_size`,
also for a frame of at most one byte, which is concealed. -/
theorem decode_frame_body_ret (ext : Engines)
    (self : OpusDecoder → PCM → Int → Int → Option DecodeOut)
    (hself : ∀ (s : OpusDecoder) (p : PCM) (o f : Int) (r : DecodeOut),
      self s p o f = some r → r.st.fixed = s.fixed ∧ r.st.prev_mode = s.prev_mode)
    (st : OpusDecoder) (d : List Byte × Int) (len : Int) (pcm : PCM)
    (off fs decode_fec : Int) (out : DecodeOut)
    (hFs : st.Fs = 48000 ∨ st.Fs = 24000 ∨ st.Fs = 16000 ∨ st.Fs = 12000 ∨ st.Fs = 8000)
    (hsz : st.frame_size = st.Fs.tdiv 400 ∨ st.frame_size = 2 * st.Fs.tdiv 400
      ∨ st.frame_size = 4 * st.Fs.tdiv 400 ∨ st.frame_size = 8 * st.Fs.tdiv 400
      ∨ st.frame_size = 16 * st.Fs.tdiv 400 ∨ st.frame_size = 24 * st.Fs.tdiv 400)
    (hfit : st.frame_size ≤ fs)
    (h : opus_decode_frame_body ext self st (some d) len pcm off fs decode_fec = some out) :
    out.ret < 0 ∨ out.ret = st.frame_size := by
  obtain ⟨r1, r2, r3, r4, r5, r6⟩ := valid_rate_sizes st.Fs hFs
  unfold opus_decode_frame_body at h
  simp only at h
  rw [r5, r4, r3, r2, r6] at h
  by_cases hsmall : fs < st.Fs.tdiv 400
  · rw [if_pos hsmall] at h
    cases h
    exact Or.inl (toInt_neg OpusError.OPUS_BUFFER_TOO_SMALL)
  rw [if_neg hsmall] at h
  by_cases hl : len ≤ 1
  · simp only [if_pos hl] at h
    have hn : IMIN (IMIN fs (48 * st.Fs.tdiv 400)) st.frame_size = st.frame_size :=
      IMIN_eq_right _ _ (IMIN_ge _ _ _ hfit (by omega))
    rw [hn] at h
    by_cases hpm : st.prev_mode = 0
    · rw [if_pos hpm] at h
      cases h
      exact Or.inr rfl
    rw [if_neg hpm] at h
    by_cases hlong : st.frame_size > 8 * st.Fs.tdiv 400
    · rw [if_pos hlong] at h
      exact (plc_chunk_loop_keeps self hself _ _ _ _ _ _ _ out h).2.2
    rw [if_neg hlong] at h
    have k := (frame_main_keeps ext self hself _ _ _ _ _ _ _ _ _ _ _ _ _ _ _ _ h).2.2
    rcases k with k | k
    · exact Or.inl k
    · right
      rw [k]
      split_ifs <;> omega
  · simp only [if_neg hl] at h
    exact (frame_main_keeps ext self hself _ _ _ _ _ _ _ _ _ _ _ _ _ _ _ _ h).2.2

theorem decode_frame_ret (ext : Engines)
    (st : OpusDecoder) (d : List Byte × Int) (len : Int) (pcm : PCM)
    (off fs decode_fec : Int) (out : DecodeOut)
    (hFs : st.Fs = 48000 ∨ st.Fs = 24000 ∨ st.Fs = 16000 ∨ st.Fs = 12000 ∨ st.Fs = 8000)
    (hsz : st.frame_size = st.Fs.tdiv 400 ∨ st.frame_size = 2 * st.Fs.tdiv 400
      ∨ st.frame_size = 4 * st.Fs.tdiv 400 ∨ st.frame_size = 8 * st.Fs.tdiv 400
      ∨ st.frame_size = 16 * st.Fs.tdiv 400 ∨ st.frame_size = 24 * st.Fs.tdiv 400)
    (hfit : st.frame_size ≤ fs)
    (h : opus_decode_frame ext st (some d) len pcm off fs decode_fec = some out) :
    out.ret < 0 ∨ out.ret = st.frame_size := by
  refine decode_frame_body_ret ext
    (fun st1 pcm1 off1 fs1 => opus_decode_frame_depth ext 2 st1 none 0 pcm1 off1 fs1 0)
    ?_ st d len pcm off fs decode_fec out hFs hsz hfit h
  intro s p o f r hr
  have k := decode_frame_keeps ext 2 s none 0 p o f 0 r hr
  refine ⟨k.1, ?_⟩
  rcases k.2 with k2 | ⟨k2, -, -⟩
  · exact k2
  · omega

/-- The frames loop of `opus_decode_native` on a state with a valid `Fs` whose
`frame_size` is a frame size of the rate, when the frames still to decode fit in
the requested `frame_size`: whenever it returns, the value is negative or
`nb_samples` plus `st->frame_size` for every frame still to decode. -/
theorem frames_loop_ret (ext : Engines) (buf : List Byte) (size : List Int)
    (frame_size Fs pfs : Int)
    (hFs : Fs = 48000 ∨ Fs = 24000 ∨ Fs = 16000 ∨ Fs = 12000 ∨ Fs = 8000)
    (hsz : pfs = Fs.tdiv 400 ∨ pfs = 2 * Fs.tdiv 400 ∨ pfs = 4 * Fs.tdiv 400
      ∨ pfs = 8 * Fs.tdiv 400 ∨ pfs = 16 * Fs.tdiv 400 ∨ pfs = 24 * Fs.tdiv 400) :
    ∀ (n i : Nat) (st : OpusDecoder) (pcm : PCM) (d nb : Int) (out : DecodeOut),
      st.Fs = Fs → st.frame_size = pfs → nb + n * pfs ≤ frame_size →
      native_frames_loop ext buf size frame_size n i st pcm d nb = some out →
      out.ret < 0 ∨ out.ret = nb + n * pfs := by
  obtain ⟨r1, -, -, -, -, -⟩ := valid_rate_sizes Fs hFs
  have hp0 : 0 ≤ pfs := by omega
  intro n
  induction n with
  | zero =>
    intro i st pcm d nb out _ _ _ h
    rw [native_frames_loop] at h
    cases h
    right
    show nb = nb + ((0 : Nat) : Int) * pfs
    simp
  | succ n ih =>
    intro i st pcm d nb out e1 e2 hfit h
    have hnp : 0 ≤ (n : Int) * pfs := Int.mul_nonneg (Int.ofNat_nonneg n) hp0
    have hexp : ((n + 1 : Nat) : Int) * pfs = (n : Int) * pfs + pfs := by
      push_cast
      ring
    rw [hexp] at hfit ⊢
    rw [native_frames_loop] at h
    cases hs : opus_decode_frame ext st (some (buf, d)) (size.getD i 0) pcm
        (nb * st.channels) (frame_size - nb) 0 with
    | none => rw [hs] at h; cases h
    | some r =>
      rw [hs] at h
      simp only at h
      have kr := decode_frame_keeps ext 3 st _ _ pcm _ _ 0 r hs
      obtain ⟨f1, -, f3⟩ := fixed_fields r.st st kr.1
      have kret := decode_frame_ret ext st (buf, d) _ pcm _ _ 0 r (by rw [e1]; exact hFs)
        (by rw [e1, e2]; exact hsz) (by rw [e2]; omega) hs
      by_cases hneg : r.ret < 0
      · rw [if_pos hneg] at h
        cases h
        exact Or.inl hneg
      · rw [if_neg hneg] at h
        have hr : r.ret = pfs := by
          rcases kret with k | k
          · exact absurd k hneg
          · rw [k, e2]
        rw [hr] at h
        have k := ih _ _ _ _ _ out (f1.trans e1) (f3.trans e2) (by omega) h
        rcases k with k | k
        · exact Or.inl k
        · right
          rw [k]
          ring

/-- C30: for every decoder state with a valid `Fs` and every packet that parses,
decoded on the normal path (`decode_fec = 0`) with
`count * samples_per_frame <= frame_size`: every call of `opus_decode_frame` on a
state holding the rate and the frame size of the packet, with room for one frame,
returns a negative value or exactly the samples per frame of the packet, whatever
the length of the frame (so also for a DTX frame of at most one byte); and the
whole call, whenever it returns, returns a negative value or
`count * samples_per_frame`. -/
theorem normal_path_sample_count (ext : Engines) (st : OpusDecoder) (buf : List Byte)
    (len : Int) (pcm : PCM) (frame_size : Int) (sd : Bool) (sc : Int) (p : ParseOut)
    (hFs : st.Fs = 48000 ∨ st.Fs = 24000 ∨ st.Fs = 16000 ∨ st.Fs = 12000 ∨ st.Fs = 8000)
    (hp : opus_packet_parse_impl buf len sd = .ok p)
    (hfit : p.count * opus_packet_get_samples_per_frame buf st.Fs ≤ frame_size) :
    (∀ (s : OpusDecoder) (d len1 : Int) (pcm1 : PCM) (off fs : Int) (r : DecodeOut),
      s.Fs = st.Fs → s.frame_size = opus_packet_get_samples_per_frame buf st.Fs →
      opus_packet_get_samples_per_frame buf st.Fs ≤ fs →
      opus_decode_frame ext s (some (buf, d)) len1 pcm1 off fs 0 = some r →
      r.ret < 0 ∨ r.ret = opus_packet_get_samples_per_frame buf st.Fs) ∧
    (∀ out : DecodeOut,
      opus_decode_native ext st (some buf) len pcm frame_size 0 sd sc = some out →
      out.ret < 0 ∨ out.ret = p.count * opus_packet_get_samples_per_frame buf st.Fs) := by
  have hsz := samples_per_frame_sizes buf st.Fs hFs
  obtain ⟨hc1, -⟩ := parse_ok_count buf len sd p hp
  refine ⟨?_, ?_⟩
  · intro s d len1 pcm1 off fs r e1 e2 hroom h
    have k := decode_frame_ret ext s (buf, d) len1 pcm1 off fs 0 r (by rw [e1]; exact hFs)
      (by rw [e1, e2]; exact hsz) (by rw [e2]; exact hroom) h
    rw [e2] at k
    exact k
  · intro out h
    rw [native_normal_eq ext st buf len pcm frame_size sd sc p hp, if_neg (by omega)] at h
    have hcn : ((p.count.toNat : Nat) : Int) = p.count := Int.toNat_of_nonneg (by omega)
    have k := frames_loop_ret ext buf p.size frame_size st.Fs _ hFs hsz p.count.toNat 0 _
      pcm p.payload_offset 0 out (by rfl) (by rfl) (by rw [hcn]; omega) h
    rw [hcn] at k
    simpa using k

theorem normal_path_sample_count_witness :
    (opus_decode_native silent_engines
        (opus_decoder_init silent_engines blank_decoder 48000 2).2
        (some [0x69, 1, 2, 3, 4]) 5 (fun _ => 7) 1920 0 false 0).map DecodeOut.ret
      = some 1920 ∧
    ∀ out : DecodeOut,
      opus_decode_native silent_engines
        (opus_decoder_init silent_engines blank_decoder 48000 2).2
        (some [0x69, 1, 2, 3, 4]) 5 (fun _ => 7) 1920 0 false 0 = some out →
      out.ret < 0 ∨ out.ret
        = 2 * opus_packet_get_samples_per_frame [0x69, 1, 2, 3, 4] 48000 :=
  ⟨rfl,
   (normal_path_sample_count silent_engines
      (opus_decoder_init silent_engines blank_decoder 48000 2).2 [0x69, 1, 2, 3, 4] 5
      (fun _ => 7) 1920 false 0 ⟨0x69, 2, [2, 2], [1, 3], 1, 5, 0⟩ (Or.inl rfl) rfl
      (by decide)).2⟩


/-! ## The gain requests of `opus_decoder_ctl` -/

/-- C31: for every decoder state, the set-gain request with a value in
-32768..32767 returns `OPUS_OK` and changes only `decode_gain`, which holds the
value, so that a following get-gain request returns `OPUS_OK` and that value
without changing the state; with a value outside that range it returns
`OPUS_BAD_ARG` and leaves the state unchanged; and a request without a `case`
returns `OPUS_UNIMPLEMENTED` and leaves the state unchanged. -/
theorem gain_requests (ext : Engines) (st : OpusDecoder) :
    (∀ value : Int, -32768 ≤ value → value ≤ 32767 →
      (opus_decoder_ctl ext st (.OPUS_SET_GAIN_REQUEST value)).ret = 0 ∧
      (opus_decoder_ctl ext st (.OPUS_SET_GAIN_REQUEST value)).st
        = { st with decode_gain := value } ∧
      (opus_decoder_ctl ext (opus_decoder_ctl ext st (.OPUS_SET_GAIN_REQUEST value)).st
        (.OPUS_GET_GAIN_REQUEST true)).ret = 0 ∧
      (opus_decoder_ctl ext (opus_decoder_ctl ext st (.OPUS_SET_GAIN_REQUEST value)).st
        (.OPUS_GET_GAIN_REQUEST true)).value = some value ∧
      (opus_decoder_ctl ext (opus_decoder_ctl ext st (.OPUS_SET_GAIN_REQUEST value)).st
        (.OPUS_GET_GAIN_REQUEST true)).st
        = (opus_decoder_ctl ext st (.OPUS_SET_GAIN_REQUEST value)).st) ∧
    (∀ value : Int, value < -32768 ∨ 32767 < value →
      (opus_decoder_ctl ext st (.OPUS_SET_GAIN_REQUEST value)).ret
        = OpusError.OPUS_BAD_ARG.toInt ∧
      (opus_decoder_ctl ext st (.OPUS_SET_GAIN_REQUEST value)).st = st) ∧
    (∀ request : Int,
      (opus_decoder_ctl ext st (.unknown request)).ret
        = OpusError.OPUS_UNIMPLEMENTED.toInt ∧
      (opus_decoder_ctl ext st (.unknown request)).st = st) := by
  refine ⟨?_, ?_, fun _ => ⟨rfl, rfl⟩⟩
  · intro value h1 h2
    have hset : opus_decoder_ctl ext st (.OPUS_SET_GAIN_REQUEST value)
        = ⟨0, { st with decode_gain := value }, none⟩ := by
      simp only [opus_decoder_ctl]
      rw [if_neg (by omega)]
    rw [hset]
    exact ⟨rfl, rfl, rfl, rfl, rfl⟩
  · intro value h
    have hset : opus_decoder_ctl ext st (.OPUS_SET_GAIN_REQUEST value)
        = ⟨OpusError.OPUS_BAD_ARG.toInt, st, none⟩ := by
      simp only [opus_decoder_ctl]
      rw [if_pos (by omega)]
    rw [hset]
    exact ⟨rfl, rfl⟩

theorem gain_requests_witness :
    (opus_decoder_ctl silent_engines
        (opus_decoder_ctl silent_engines celt_history_decoder
          (.OPUS_SET_GAIN_REQUEST (-256))).st
        (.OPUS_GET_GAIN_REQUEST true)).value = some (-256) ∧
    (opus_decoder_ctl silent_engines celt_history_decoder
      (.OPUS_SET_GAIN_REQUEST 32768)).ret = -1 :=
  ⟨((gain_requests silent_engines celt_history_decoder).1 (-256) (by decide)
      (by decide)).2.2.2.1,
   ((gain_requests silent_engines celt_history_decoder).2.1 32768
      (Or.inr (by decide))).1⟩

/-! ## Consistency of the metadata of a TOC byte -/

set_option maxRecDepth 100000 in
theorem byte_silk_bits : ∀ t : Fin 256,
    ¬ (t.val &&& 0x80 ≠ 0) → ¬ (t.val &&& 0x60 = 0x60) → (t.val >>> 5) &&& 0x3 ≤ 2 := by
  decide

/-- C37: for every TOC byte the mode and the bandwidth read from it are
consistent: when `opus_packet_get_mode` is `MODE_SILK_ONLY`,
`opus_packet_get_bandwidth` is narrowband, mediumband or wideband, never
superwideband or fullband; so the internal rate that `opus_decode_frame` gives the
SILK decoder for a frame with data, with mode and bandwidth from the same TOC
byte, is 8000, 12000 or 16000 for narrowband, mediumband, wideband in SILK-only
mode and 16000 otherwise, and the last `else` branch (the one of
`celt_assert(0)`) is not taken. -/
theorem silk_rate_from_toc (ext : Engines) (st : OpusDecoder) (buf : List Byte)
    (d : List Byte × Int) (audiosize : Int) :
    (opus_packet_get_mode buf = MODE_SILK_ONLY →
      (opus_packet_get_bandwidth buf = OPUS_BANDWIDTH_NARROWBAND
        ∨ opus_packet_get_bandwidth buf = OPUS_BANDWIDTH_MEDIUMBAND
        ∨ opus_packet_get_bandwidth buf = OPUS_BANDWIDTH_WIDEBAND) ∧
      opus_packet_get_bandwidth buf ≠ OPUS_BANDWIDTH_SUPERWIDEBAND ∧
      opus_packet_get_bandwidth buf ≠ OPUS_BANDWIDTH_FULLBAND) ∧
    (frame_silk_setup ext st (some d) (opus_packet_get_mode buf)
        (opus_packet_get_bandwidth buf) audiosize).DecControl.internalSampleRate
      = (if opus_packet_get_mode buf = MODE_SILK_ONLY then
          if opus_packet_get_bandwidth buf = OPUS_BANDWIDTH_NARROWBAND then 8000
          else if opus_packet_get_bandwidth buf = OPUS_BANDWIDTH_MEDIUMBAND then 12000
          else 16000
        else 16000) ∧
    (opus_packet_get_mode buf = MODE_SILK_ONLY →
      ¬ (opus_packet_get_bandwidth buf ≠ OPUS_BANDWIDTH_NARROWBAND ∧
        opus_packet_get_bandwidth buf ≠ OPUS_BANDWIDTH_MEDIUMBAND ∧
        opus_packet_get_bandwidth buf ≠ OPUS_BANDWIDTH_WIDEBAND)) := by
  have hbw : opus_packet_get_mode buf = MODE_SILK_ONLY →
      (opus_packet_get_bandwidth buf = OPUS_BANDWIDTH_NARROWBAND
        ∨ opus_packet_get_bandwidth buf = OPUS_BANDWIDTH_MEDIUMBAND
        ∨ opus_packet_get_bandwidth buf = OPUS_BANDWIDTH_WIDEBAND) := by
    intro hm
    have hb := byte_silk_bits ⟨rd buf 0, rd_lt buf 0⟩
    unfold opus_packet_get_mode at hm
    unfold opus_packet_get_bandwidth
    by_cases h1 : rd buf 0 &&& 0x80 ≠ 0
    · rw [if_pos h1] at hm
      exact absurd hm (by decide)
    rw [if_neg h1] at hm ⊢
    by_cases h2 : rd buf 0 &&& 0x60 = 0x60
    · rw [if_pos h2] at hm
      exact absurd hm (by decide)
    rw [if_neg h2]
    have h3 := hb h1 h2
    simp only at h3
    generalize (rd buf 0 >>> 5) &&& 0x3 = a at h3
    interval_cases a
    · exact Or.inl rfl
    · exact Or.inr (Or.inl rfl)
    · exact Or.inr (Or.inr rfl)
  refine ⟨fun hm => ⟨hbw hm, ?_, ?_⟩, ?_, ?_⟩
  · rcases hbw hm with h | h | h <;> rw [h] <;> decide
  · rcases hbw hm with h | h | h <;> rw [h] <;> decide
  · unfold frame_silk_setup
    simp only [Option.isSome_some, if_true]
    by_cases hm : opus_packet_get_mode buf = MODE_SILK_ONLY
    · rw [if_pos hm, if_pos hm]
      split_ifs <;> rfl
    · rw [if_neg hm, if_neg hm]
  · intro hm hn
    rcases hbw hm with h | h | h
    · exact hn.1 h
    · exact hn.2.1 h
    · exact hn.2.2 h

/-! ## Samples per frame at the valid rates -/

/-- C38: for every TOC byte and every valid `Fs` (8000, 12000, 16000, 24000,
48000), `opus_packet_get_samples_per_frame` is a positive multiple of `Fs/400`
between `Fs/400` (2.5 ms) and `3*Fs/50` (60 ms), and it scales exactly with the
rate: its value at 48000 is `48000/Fs` times its value at `Fs`; so a count times
samples per frame is at most 5760 at 48 kHz exactly when, at `Fs`, it is at most
`3*Fs/25` (120 ms). -/
theorem samples_per_frame_scaling (data : List Byte) (Fs : Int)
    (hFs : Fs = 8000 ∨ Fs = 12000 ∨ Fs = 16000 ∨ Fs = 24000 ∨ Fs = 48000) :
    0 < opus_packet_get_samples_per_frame data Fs ∧
    Fs.tdiv 400 ∣ opus_packet_get_samples_per_frame data Fs ∧
    Fs.tdiv 400 ≤ opus_packet_get_samples_per_frame data Fs ∧
    opus_packet_get_samples_per_frame data Fs ≤ (3 * Fs).tdiv 50 ∧
    opus_packet_get_samples_per_frame data 48000
      = (48000 : Int).tdiv Fs * opus_packet_get_samples_per_frame data Fs ∧
    (∀ count : Int,
      count * opus_packet_get_samples_per_frame data 48000 ≤ 5760 ↔
        count * opus_packet_get_samples_per_frame data Fs ≤ (3 * Fs).tdiv 25) := by
  have ha := size_code_le (rd data 0)
  have hscale : opus_packet_get_samples_per_frame data 48000
      = (48000 : Int).tdiv Fs * opus_packet_get_samples_per_frame data Fs := by
    unfold opus_packet_get_samples_per_frame
    generalize (rd data 0 >>> 3) &&& 0x3 = a at ha
    rcases hFs with rfl | rfl | rfl | rfl | rfl <;>
      (split_ifs <;> first
        | decide
        | (interval_cases a <;> decide))
  have hs := samples_per_frame_sizes data Fs (by omega)
  have hu : 0 < Fs.tdiv 400 ∧ (3 * Fs).tdiv 50 = 24 * Fs.tdiv 400
      ∧ (3 * Fs).tdiv 25 = 48 * Fs.tdiv 400 ∧ (48000 : Int).tdiv Fs * Fs.tdiv 400 = 120 := by
    rcases hFs with rfl | rfl | rfl | rfl | rfl <;> decide
  obtain ⟨u0, u1, u2, u3⟩ := hu
  refine ⟨?_, ?_, ?_, ?_, hscale, ?_⟩
  · rcases hs with h | h | h | h | h | h <;> rw [h] <;> omega
  · rcases hs with h | h | h | h | h | h <;> rw [h]
    all_goals exact Dvd.intro_left _ rfl
  · rcases hs with h | h | h | h | h | h <;> rw [h] <;> omega
  · rw [u1]
    rcases hs with h | h | h | h | h | h <;> rw [h] <;> omega
  · intro count
    rw [hscale, u2]
    have hk : (48000 : Int).tdiv Fs = 6 ∧ Fs.tdiv 400 = 20
        ∨ (48000 : Int).tdiv Fs = 4 ∧ Fs.tdiv 400 = 30
        ∨ (48000 : Int).tdiv Fs = 3 ∧ Fs.tdiv 400 = 40
        ∨ (48000 : Int).tdiv Fs = 2 ∧ Fs.tdiv 400 = 60
        ∨ (48000 : Int).tdiv Fs = 1 ∧ Fs.tdiv 400 = 120 := by
      rcases hFs with rfl | rfl | rfl | rfl | rfl <;> decide
    generalize opus_packet_get_samples_per_frame data Fs = s
    rcases hk with ⟨k1, k2⟩ | ⟨k1, k2⟩ | ⟨k1, k2⟩ | ⟨k1, k2⟩ | ⟨k1, k2⟩ <;>
      rw [k1, k2] <;>
      constructor <;> intro h <;> nlinarith [h]

theorem samples_per_frame_scaling_witness :
    opus_packet_get_samples_per_frame [0x78] 48000
      = (48000 : Int).tdiv 16000 * opus_packet_get_samples_per_frame [0x78] 16000 ∧
    opus_packet_get_samples_per_frame [0x78] 16000 ≤ (3 * 16000 : Int).tdiv 50 :=
  ⟨(samples_per_frame_scaling [0x78] 16000 (Or.inr (Or.inr (Or.inl rfl)))).2.2.2.2.1,
   (samples_per_frame_scaling [0x78] 16000 (Or.inr (Or.inr (Or.inl rfl)))).2.2.2.1⟩

/-! ## The frame count of the parser and of `opus_packet_get_nb_frames` -/

/-- C39: for every packet on which `opus_packet_parse` (`self_delimited = 0`)
succeeds with frame count `c`, `opus_packet_get_nb_frames` on the same packet
returns `c`, and `opus_packet_get_nb_samples` at 48000 Hz returns `c` times the
samples per frame, a positive number: it does not report
`OPUS_INVALID_PACKET`. -/
theorem nb_frames_agrees_with_parse (data : List Byte) (len : Int) (out : ParseOut)
    (hok : opus_packet_parse data len = .ok out) :
    opus_packet_get_nb_frames data len = out.count ∧
    opus_packet_get_nb_samples data len 48000
      = out.count * opus_packet_get_samples_per_frame data 48000 ∧
    0 < opus_packet_get_nb_samples data len 48000 ∧
    opus_packet_get_nb_samples data len 48000 ≠ OpusError.OPUS_INVALID_PACKET.toInt := by
  unfold opus_packet_parse at hok
  obtain ⟨hl, h, hsw, htail⟩ := parse_impl_ok data len false out hok
  have hcnt : out.count = h.count := (parse_tail_ok_fields data false _ h out htail).2.1
  obtain ⟨b1, b2⟩ := samples_per_frame_48k_bounds data
  have hc := code_le (rd data 0)
  have key : opus_packet_get_nb_frames data len = h.count ∧
      h.count * opus_packet_get_samples_per_frame data 48000 ≤ 5760 ∧ 1 ≤ h.count := by
    unfold opus_packet_get_nb_frames
    rw [if_neg (by omega)]
    simp only
    by_cases c0 : rd data 0 &&& 0x3 = 0
    · rw [parse_switch_code0 _ _ _ _ _ c0] at hsw
      cases hsw
      rw [if_pos c0]
      exact ⟨rfl, by show (1 : Int) * _ ≤ 5760; omega, le_refl _⟩
    rw [if_neg c0]
    by_cases c1 : rd data 0 &&& 0x3 = 1
    · rw [parse_switch_code1 _ _ _ _ c1] at hsw
      rw [if_pos (by omega)]
      split_ifs at hsw
      cases hsw
      exact ⟨rfl, by show (2 : Int) * _ ≤ 5760; omega, by show (1 : Int) ≤ 2; decide⟩
    by_cases c2 : rd data 0 &&& 0x3 = 2
    · rw [parse_switch_code2 _ _ _ _ _ c2] at hsw
      rw [if_pos (by omega)]
      split_ifs at hsw
      cases hsw
      exact ⟨rfl, by show (2 : Int) * _ ≤ 5760; omega, by show (1 : Int) ≤ 2; decide⟩
    have c3 : rd data 0 &&& 0x3 = 3 := by omega
    rw [parse_switch_code3 _ _ _ _ _ c3] at hsw
    obtain ⟨k1, k2, k3, k4, -⟩ := parse_code3_ok data (len - 1) false _ h hsw
    rw [if_neg (by omega), if_neg (by omega), k4]
    refine ⟨rfl, ?_, k2⟩
    rw [mul_comm]
    exact k3
  obtain ⟨e1, e2, e3⟩ := key
  have hpos : 0 < h.count * opus_packet_get_samples_per_frame data 48000 :=
    Int.mul_pos (by omega) (by omega)
  have hns : opus_packet_get_nb_samples data len 48000
      = out.count * opus_packet_get_samples_per_frame data 48000 := by
    have hi1 : int32 (h.count * opus_packet_get_samples_per_frame data 48000)
        = h.count * opus_packet_get_samples_per_frame data 48000 :=
      int32_id _ (by omega) (by omega)
    have hi2 : int32 (h.count * opus_packet_get_samples_per_frame data 48000 * 25)
        = h.count * opus_packet_get_samples_per_frame data 48000 * 25 :=
      int32_id _ (by omega) (by omega)
    have hi3 : int32 ((48000 : Int) * 3) = 144000 := by decide
    unfold opus_packet_get_nb_samples
    simp only
    rw [e1, hcnt, if_neg (by omega), hi1, hi2, hi3, if_neg (by omega)]
  refine ⟨by rw [e1, hcnt], hns, ?_, ?_⟩
  · rw [hns, hcnt]
    exact hpos
  · rw [hns, hcnt]
    intro hbad
    rw [hbad] at hpos
    exact absurd hpos (by decide)

theorem nb_frames_agrees_with_parse_witness :
    opus_packet_get_nb_frames [0x03, 0x02, 5, 6] 4 = 2 ∧
    opus_packet_get_nb_samples [0x03, 0x02, 5, 6] 4 48000 = 2 * 480 :=
  ⟨(nb_frames_agrees_with_parse [0x03, 0x02, 5, 6] 4
      ⟨0x03, 2, [1, 1], [2, 3], 2, 4, 0⟩ rfl).1,
   (nb_frames_agrees_with_parse [0x03, 0x02, 5, 6] 4
      ⟨0x03, 2, [1, 1], [2, 3], 2, 4, 0⟩ rfl).2.1⟩

/-! ## Concealment sizes -/

/-- A concealment call of `opus_decode_frame` (`len <= 1`) that passes the 2.5 ms
check, after a frame has been decoded, for a clamped size of at most 20 ms: the
call is the main part of the function run without data on the rounded size. -/
theorem body_conceal_eq (ext : Engines)
    (self : OpusDecoder → PCM → Int → Int → Option DecodeOut)
    (st : OpusDecoder) (data : Option (List Byte × Int)) (len : Int) (pcm : PCM)
    (off fs decode_fec : Int)
    (hFs : st.Fs = 48000 ∨ st.Fs = 24000 ∨ st.Fs = 16000 ∨ st.Fs = 12000 ∨ st.Fs = 8000)
    (hlen : len ≤ 1) (hpm : st.prev_mode ≠ 0) (hfs : st.Fs.tdiv 400 ≤ fs)
    (hsmall : IMIN (IMIN fs (st.Fs.tdiv 25 * 3)) st.frame_size ≤ st.Fs.tdiv 50) :
    opus_decode_frame_body ext self st data len pcm off fs decode_fec
      = frame_main ext self st none len pcm off
          (IMIN (IMIN fs (st.Fs.tdiv 25 * 3)) st.frame_size) decode_fec
          (if IMIN (IMIN fs (st.Fs.tdiv 25 * 3)) st.frame_size < st.Fs.tdiv 50 then
            if IMIN (IMIN fs (st.Fs.tdiv 25 * 3)) st.frame_size
                > st.Fs.tdiv 50 >>> (1 : Nat) then st.Fs.tdiv 50 >>> (1 : Nat)
            else if st.prev_mode ≠ MODE_SILK_ONLY ∧
                IMIN (IMIN fs (st.Fs.tdiv 25 * 3)) st.frame_size
                  > (st.Fs.tdiv 50 >>> (1 : Nat)) >>> (1 : Nat) ∧
                IMIN (IMIN fs (st.Fs.tdiv 25 * 3)) st.frame_size
                  < st.Fs.tdiv 50 >>> (1 : Nat) then
              (st.Fs.tdiv 50 >>> (1 : Nat)) >>> (1 : Nat)
            else IMIN (IMIN fs (st.Fs.tdiv 25 * 3)) st.frame_size
          else IMIN (IMIN fs (st.Fs.tdiv 25 * 3)) st.frame_size)
          st.prev_mode 0 ext.dec_uninit
          (((st.Fs.tdiv 50 >>> (1 : Nat)) >>> (1 : Nat)) >>> (1 : Nat))
          ((st.Fs.tdiv 50 >>> (1 : Nat)) >>> (1 : Nat))
          (st.Fs.tdiv 50 >>> (1 : Nat)) (st.Fs.tdiv 50) := by
  obtain ⟨r1, r2, r3, r4, r5, r6⟩ := valid_rate_sizes st.Fs hFs
  unfold opus_decode_frame_body
  simp only
  rw [if_neg (by rw [r5]; omega)]
  simp only [if_pos hlen]
  rw [if_neg hpm, if_neg (not_lt.mpr hsmall)]

/-- The main part of `opus_decode_frame` on a concealment call (no data) with
`1 <= audiosize <= frame_size` returns, when the SILK decoder reports a positive
number of samples whenever it succeeds. -/
theorem frame_main_lost_some (ext : Engines)
    (hsilk : ∀ (s : List Int) (dc : DecControlStruct) (lf ff : Int) (dec : ec_dec)
      (p : PCM) (o a : Int),
      (ext.silk_Decode s dc lf ff dec p o a).ret ≠ 0
        ∨ 0 < (ext.silk_Decode s dc lf ff dec p o a).nSamplesOut)
    (self : OpusDecoder → PCM → Int → Int → Option DecodeOut)
    (st : OpusDecoder) (len : Int) (pcm : PCM)
    (off frame_size decode_fec audiosize mode : Int) (dec : ec_dec)
    (F2_5 F5 F10 F20 : Int) (ha1 : 1 ≤ audiosize) (hle : audiosize ≤ frame_size) :
    ∃ out : DecodeOut,
      frame_main ext self st none len pcm off frame_size decode_fec audiosize mode 0 dec
        F2_5 F5 F10 F20 = some out := by
  unfold frame_main
  simp only [Option.isSome_none, Bool.false_eq_true, false_and, decide_False, if_false,
    Bool.false_and]
  rw [if_neg (by omega)]
  by_cases hm : mode ≠ MODE_CELT_ONLY
  · obtain ⟨st1, dec1, pcm1, ps1, h1, -⟩ :=
      silk_stage_lost ext hsilk st mode 0 audiosize audiosize decode_fec
        (decide (mode ≠ MODE_CELT_ONLY ∧ frame_size ≥ F10)) dec pcm off ext.stack_pcm ha1
    rw [if_pos hm, h1]
    exact ⟨_, rfl⟩
  · rw [if_neg hm]
    exact ⟨_, rfl⟩

/-- The rounding of lines 282-288 at a valid rate, for `1 <= n <= F20`: the
result is between 1 and `n`. -/
theorem plc_round_bounds (Fs n mode : Int)
    (hFs : Fs = 48000 ∨ Fs = 24000 ∨ Fs = 16000 ∨ Fs = 12000 ∨ Fs = 8000)
    (h1 : 1 ≤ n) :
    1 ≤ (if n < Fs.tdiv 50 then
          if n > Fs.tdiv 50 >>> (1 : Nat) then Fs.tdiv 50 >>> (1 : Nat)
          else if mode ≠ MODE_SILK_ONLY ∧ n > (Fs.tdiv 50 >>> (1 : Nat)) >>> (1 : Nat) ∧
              n < Fs.tdiv 50 >>> (1 : Nat) then
            (Fs.tdiv 50 >>> (1 : Nat)) >>> (1 : Nat)
          else n
        else n) ∧
    (if n < Fs.tdiv 50 then
          if n > Fs.tdiv 50 >>> (1 : Nat) then Fs.tdiv 50 >>> (1 : Nat)
          else if mode ≠ MODE_SILK_ONLY ∧ n > (Fs.tdiv 50 >>> (1 : Nat)) >>> (1 : Nat) ∧
              n < Fs.tdiv 50 >>> (1 : Nat) then
            (Fs.tdiv 50 >>> (1 : Nat)) >>> (1 : Nat)
          else n
        else n) ≤ n := by
  obtain ⟨r1, r2, r3, r4, -, -⟩ := valid_rate_sizes Fs hFs
  rw [r4, r3]
  split_ifs <;> constructor <;> omega

/-- C32: for a concealment call of `opus_decode_frame` (`len <= 1`, so the data
pointer is dropped) on a state with a valid `Fs`, `prev_mode != 0` and a positive
`frame_size`, with a requested `frame_size` of at least 2.5 ms and a clamped size
`n = min(frame_size, Fs/25*3, st->frame_size)` of at most 20 ms (`F20 = Fs/50`,
`F10 = F20 >> 1`, `F5 = F10 >> 1`), let `r` be `n` if `n = F20`, `F10` if
`F10 < n < F20`, `F5` if `F5 < n < F10` and `prev_mode` is not `MODE_SILK_ONLY`,
and `n` otherwise. Provided the sub-decoders report no error on the calls this
run makes (the SILK decoder reports a positive number of samples whenever it
succeeds; outside `MODE_SILK_ONLY` the CELT decoder, called without data, with
the length `len` and for `r` samples, returns a non-negative value), the call
returns `r` and leaves `prev_mode` as it was. -/
theorem concealment_rounding (ext : Engines)
    (hsilk : ∀ (s : List Int) (dc : DecControlStruct) (lf ff : Int) (dec : ec_dec)
      (p : PCM) (o a : Int),
      (ext.silk_Decode s dc lf ff dec p o a).ret ≠ 0
        ∨ 0 < (ext.silk_Decode s dc lf ff dec p o a).nSamplesOut)
    (st : OpusDecoder) (data : Option (List Byte × Int)) (len : Int) (pcm : PCM)
    (off fs decode_fec n r : Int)
    (hFs : st.Fs = 48000 ∨ st.Fs = 24000 ∨ st.Fs = 16000 ∨ st.Fs = 12000 ∨ st.Fs = 8000)
    (hlen : len ≤ 1) (hpm : st.prev_mode ≠ 0) (hfs : st.Fs.tdiv 400 ≤ fs)
    (hfsz1 : 1 ≤ st.frame_size)
    (hn : n = IMIN (IMIN fs (st.Fs.tdiv 25 * 3)) st.frame_size)
    (hsmall : n ≤ st.Fs.tdiv 50)
    (hr : r = (if n = st.Fs.tdiv 50 then n
        else if st.Fs.tdiv 50 >>> (1 : Nat) < n then st.Fs.tdiv 50 >>> (1 : Nat)
        else if (st.Fs.tdiv 50 >>> (1 : Nat)) >>> (1 : Nat) < n
            ∧ n < st.Fs.tdiv 50 >>> (1 : Nat) ∧ st.prev_mode ≠ MODE_SILK_ONLY then
          (st.Fs.tdiv 50 >>> (1 : Nat)) >>> (1 : Nat)
        else n))
    (hcelt : st.prev_mode ≠ MODE_SILK_ONLY →
      ∀ (c : List Int) (p : PCM) (o : Int) (e : Option ec_dec) (a : Int),
        0 ≤ (ext.celt_decode_with_ec c none len p o r e a).ret) :
    ∃ out : DecodeOut,
      opus_decode_frame ext st data len pcm off fs decode_fec = some out ∧
      out.ret = r ∧ out.st.prev_mode = st.prev_mode := by
  obtain ⟨r1, r2, r3, r4, r5, r6⟩ := valid_rate_sizes st.Fs hFs
  have hn1 : 1 ≤ n := by
    rw [hn]
    exact IMIN_ge _ _ _ (IMIN_ge _ _ _ (by omega) (by omega)) hfsz1
  have hb := plc_round_bounds st.Fs n st.prev_mode hFs hn1
  have hR : (if n < st.Fs.tdiv 50 then
        if n > st.Fs.tdiv 50 >>> (1 : Nat) then st.Fs.tdiv 50 >>> (1 : Nat)
        else if st.prev_mode ≠ MODE_SILK_ONLY ∧
            n > (st.Fs.tdiv 50 >>> (1 : Nat)) >>> (1 : Nat) ∧
            n < st.Fs.tdiv 50 >>> (1 : Nat) then
          (st.Fs.tdiv 50 >>> (1 : Nat)) >>> (1 : Nat)
        else n
      else n) = r := by
    rw [hr, r4, r3]
    split_ifs <;> omega
  rw [hR] at hb
  have himin : IMIN (st.Fs.tdiv 50) r = r := IMIN_eq_right _ _ (by omega)
  have heq := body_conceal_eq ext
    (fun st1 pcm1 off1 fs1 => opus_decode_frame_depth ext 2 st1 none 0 pcm1 off1 fs1 0)
    st data len pcm off fs decode_fec hFs hlen hpm hfs (by rw [← hn]; exact hsmall)
  rw [← hn, hR] at heq
  obtain ⟨out, h1, h2, -, h4⟩ := frame_main_lost ext hsilk _ st len pcm off n decode_fec r
    st.prev_mode ext.dec_uninit _ _ _ _ hb.1 hb.2
    (fun hm c p o e a => by
      rw [himin]
      exact hcelt hm c p o e a)
  exact ⟨out, heq.trans h1, h2, h4⟩

theorem concealment_rounding_witness :
    ∃ out : DecodeOut,
      opus_decode_frame strict_engines
        { celt_history_decoder with frame_size := 960 } none 0 (fun _ => 7) 0 600 0
        = some out ∧
      out.ret = 480 :=
  (concealment_rounding strict_engines
    (fun s dc _ _ dec p _ _ => Or.inr (by
      show 0 < IMAX 1 ((dc.payloadSize_ms * dc.API_sampleRate).tdiv 1000)
      unfold IMAX
      split_ifs <;> omega))
    { celt_history_decoder with frame_size := 960 } none 0 (fun _ => 7) 0 600 0 600 480
    (Or.inl rfl) (by decide) (by decide) (by decide) (by decide) (by decide)
    (by decide) (by decide)
    (fun _ _ _ _ _ _ => by
      show (0 : Int) ≤ 480
      decide)).imp (fun _ h => ⟨h.1, h.2.1⟩)

theorem IMIN_eq_left (a b : Int) (h : a ≤ b) : IMIN a b = a := by
  unfold IMIN
  split_ifs <;> omega

/-- The check of line 322 in the main part of `opus_decode_frame`: when the
lookahead call of a transition returns, a coded size `audiosize` above
`frame_size` gives `OPUS_BAD_ARG` and leaves the output as it was. -/
theorem frame_main_bad_arg (ext : Engines)
    (self : OpusDecoder → PCM → Int → Int → Option DecodeOut)
    (st : OpusDecoder) (data : Option (List Byte × Int)) (len : Int) (pcm : PCM)
    (off frame_size decode_fec audiosize mode bandwidth : Int) (dec : ec_dec)
    (F2_5 F5 F10 F20 : Int)
    (hself : ∃ r : DecodeOut, self st ext.stack_pcm 0 (IMIN F5 audiosize) = some r)
    (hbig : audiosize > frame_size) :
    ∃ out : DecodeOut,
      frame_main ext self st data len pcm off frame_size decode_fec audiosize mode bandwidth
        dec F2_5 F5 F10 F20 = some out ∧
      out.ret = OpusError.OPUS_BAD_ARG.toInt ∧ out.pcm = pcm := by
  obtain ⟨r, hr⟩ := hself
  unfold frame_main
  simp only
  generalize decide (data.isSome ∧ st.prev_mode > 0 ∧
    ((mode = MODE_CELT_ONLY ∧ st.prev_mode ≠ MODE_CELT_ONLY ∧ st.prev_redundancy = 0)
      ∨ (mode ≠ MODE_CELT_ONLY ∧ st.prev_mode = MODE_CELT_ONLY))) = t0
  by_cases hc : t0 = true ∧ mode = MODE_CELT_ONLY
  · rw [if_pos hc, hr]
    simp only [Option.map_some']
    rw [if_pos hbig]
    exact ⟨_, rfl, rfl, rfl⟩
  · rw [if_neg hc]
    simp only
    rw [if_pos hbig]
    exact ⟨_, rfl, rfl, rfl⟩

/-- The cap of line 234 in the body of `opus_decode_frame`: a size of at least
2.5 ms and the size capped at `Fs/25*3` give the same call. -/
theorem body_cap (ext : Engines)
    (self : OpusDecoder → PCM → Int → Int → Option DecodeOut)
    (st : OpusDecoder) (data : Option (List Byte × Int)) (len : Int) (pcm : PCM)
    (off fs decode_fec : Int)
    (hFs : st.Fs = 48000 ∨ st.Fs = 24000 ∨ st.Fs = 16000 ∨ st.Fs = 12000 ∨ st.Fs = 8000)
    (hfs : st.Fs.tdiv 400 ≤ fs) :
    opus_decode_frame_body ext self st data len pcm off fs decode_fec
      = opus_decode_frame_body ext self st data len pcm off (IMIN fs (st.Fs.tdiv 25 * 3))
          decode_fec := by
  obtain ⟨r1, r2, r3, r4, r5, r6⟩ := valid_rate_sizes st.Fs hFs
  have hc : st.Fs.tdiv 400 ≤ IMIN fs (st.Fs.tdiv 25 * 3) := IMIN_ge _ _ _ hfs (by omega)
  have hii : IMIN (IMIN fs (st.Fs.tdiv 25 * 3)) (st.Fs.tdiv 25 * 3)
      = IMIN fs (st.Fs.tdiv 25 * 3) := IMIN_eq_left _ _ (IMIN_le_right _ _)
  have h1 : ¬ fs < ((st.Fs.tdiv 50 >>> (1 : Nat)) >>> (1 : Nat)) >>> (1 : Nat) := by
    rw [r5]; omega
  have h2 : ¬ IMIN fs (st.Fs.tdiv 25 * 3)
      < ((st.Fs.tdiv 50 >>> (1 : Nat)) >>> (1 : Nat)) >>> (1 : Nat) := by
    rw [r5]; omega
  unfold opus_decode_frame_body
  simp only
  rw [if_neg h1, if_neg h2, hii]

/-- C35: for a decoder state with a valid `Fs`: (1) `opus_decode_frame` called
with `frame_size < Fs/400` returns `OPUS_BUFFER_TOO_SMALL` and leaves the state
and the output as they were; (2) with `frame_size >= Fs/400` the call is the same
as the call with `frame_size` capped at `Fs/25*3`, which is `3*Fs/25`; (3) a frame
with data (`len > 1`) whose coded size `st->frame_size` exceeds the capped
`frame_size` returns `OPUS_BAD_ARG` and leaves the output as it was, when the SILK
decoder reports a positive number of samples whenever it succeeds (the lookahead
of a transition, made before the check, then ends). -/
theorem frame_size_limits (ext : Engines) (st : OpusDecoder)
    (data : Option (List Byte × Int)) (len : Int) (pcm : PCM) (off fs decode_fec : Int)
    (hFs : st.Fs = 48000 ∨ st.Fs = 24000 ∨ st.Fs = 16000 ∨ st.Fs = 12000 ∨ st.Fs = 8000) :
    (fs < st.Fs.tdiv 400 →
      opus_decode_frame ext st data len pcm off fs decode_fec
        = some ⟨OpusError.OPUS_BUFFER_TOO_SMALL.toInt, st, pcm⟩) ∧
    (st.Fs.tdiv 400 ≤ fs →
      opus_decode_frame ext st data len pcm off fs decode_fec
        = opus_decode_frame ext st data len pcm off (IMIN fs (st.Fs.tdiv 25 * 3)) decode_fec) ∧
    st.Fs.tdiv 25 * 3 = (3 * st.Fs).tdiv 25 ∧
    ((∀ (s : List Int) (dc : DecControlStruct) (lf ff : Int) (dec : ec_dec)
        (p : PCM) (o a : Int),
        (ext.silk_Decode s dc lf ff dec p o a).ret ≠ 0
          ∨ 0 < (ext.silk_Decode s dc lf ff dec p o a).nSamplesOut) →
      st.Fs.tdiv 400 ≤ fs → data.isSome → 1 < len →
      IMIN fs (st.Fs.tdiv 25 * 3) < st.frame_size →
      ∃ out : DecodeOut,
        opus_decode_frame ext st data len pcm off fs decode_fec = some out ∧
        out.ret = OpusError.OPUS_BAD_ARG.toInt ∧ out.pcm = pcm) := by
  obtain ⟨r1, r2, r3, r4, r5, r6⟩ := valid_rate_sizes st.Fs hFs
  have hbody : ∀ x : Int, opus_decode_frame ext st data len pcm off x decode_fec
      = opus_decode_frame_body ext
          (fun st1 pcm1 off1 fs1 => opus_decode_frame_depth ext 2 st1 none 0 pcm1 off1 fs1 0)
          st data len pcm off x decode_fec := fun _ => rfl
  refine ⟨?_, ?_, ?_, ?_⟩
  · intro hlt
    rw [hbody]
    unfold opus_decode_frame_body
    simp only
    rw [if_pos (by rw [r5]; exact hlt)]
  · intro hge
    rw [hbody, hbody]
    exact body_cap ext _ st data len pcm off fs decode_fec hFs hge
  · rcases hFs with h | h | h | h | h <;> rw [h] <;> decide
  · intro hsilk hge hdata hlen hbig
    obtain ⟨d, hd⟩ := Option.isSome_iff_exists.mp hdata
    have hcap : st.Fs.tdiv 400 ≤ IMIN fs (st.Fs.tdiv 25 * 3) := IMIN_ge _ _ _ hge (by omega)
    have hself : ∃ r : DecodeOut,
        opus_decode_frame_depth ext 2 st none 0 ext.stack_pcm 0
          (IMIN ((st.Fs.tdiv 50 >>> (1 : Nat)) >>> (1 : Nat)) st.frame_size) 0 = some r := by
      by_cases hpm : st.prev_mode = 0
      · have hnot : ¬ IMIN ((st.Fs.tdiv 50 >>> (1 : Nat)) >>> (1 : Nat)) st.frame_size
            < ((st.Fs.tdiv 50 >>> (1 : Nat)) >>> (1 : Nat)) >>> (1 : Nat) := by
          rw [r5, r4]
          exact not_lt.mpr (IMIN_ge _ _ _ (by omega) (by omega))
        show ∃ r : DecodeOut, opus_decode_frame_body ext
          (fun st1 pcm1 off1 fs1 => opus_decode_frame_depth ext 1 st1 none 0 pcm1 off1 fs1 0)
          st none 0 ext.stack_pcm 0
          (IMIN ((st.Fs.tdiv 50 >>> (1 : Nat)) >>> (1 : Nat)) st.frame_size) 0 = some r
        unfold opus_decode_frame_body
        simp only
        rw [if_neg hnot]
        simp only [Int.reduceLE, if_true]
        rw [if_pos hpm]
        exact ⟨_, rfl⟩
      · have hf5 : st.Fs.tdiv 400 ≤
            IMIN ((st.Fs.tdiv 50 >>> (1 : Nat)) >>> (1 : Nat)) st.frame_size := by
          rw [r4]
          exact IMIN_ge _ _ _ (by omega) (by omega)
        have hle5 : IMIN ((st.Fs.tdiv 50 >>> (1 : Nat)) >>> (1 : Nat)) st.frame_size
            ≤ 2 * st.Fs.tdiv 400 := by
          rw [r4]
          exact IMIN_le_left _ _
        have hn1 : 1 ≤ IMIN (IMIN (IMIN ((st.Fs.tdiv 50 >>> (1 : Nat)) >>> (1 : Nat))
            st.frame_size) (st.Fs.tdiv 25 * 3)) st.frame_size :=
          IMIN_ge _ _ _ (IMIN_ge _ _ _ (by omega) (by omega)) (by omega)
        have hsm : IMIN (IMIN (IMIN ((st.Fs.tdiv 50 >>> (1 : Nat)) >>> (1 : Nat))
            st.frame_size) (st.Fs.tdiv 25 * 3)) st.frame_size ≤ st.Fs.tdiv 50 :=
          le_trans (IMIN_le_left _ _) (le_trans (IMIN_le_left _ _) (by omega))
        have heq := body_conceal_eq ext
          (fun st1 pcm1 off1 fs1 => opus_decode_frame_depth ext 1 st1 none 0 pcm1 off1 fs1 0)
          st none 0 ext.stack_pcm 0
          (IMIN ((st.Fs.tdiv 50 >>> (1 : Nat)) >>> (1 : Nat)) st.frame_size) 0
          hFs (le_of_lt (by decide)) hpm hf5 hsm
        have hb := plc_round_bounds st.Fs _ st.prev_mode hFs hn1
        obtain ⟨out, ho⟩ := frame_main_lost_some ext hsilk
          (fun st1 pcm1 off1 fs1 => opus_decode_frame_depth ext 1 st1 none 0 pcm1 off1 fs1 0)
          st 0 ext.stack_pcm 0 _ 0 _ st.prev_mode ext.dec_uninit
          (((st.Fs.tdiv 50 >>> (1 : Nat)) >>> (1 : Nat)) >>> (1 : Nat))
          ((st.Fs.tdiv 50 >>> (1 : Nat)) >>> (1 : Nat))
          (st.Fs.tdiv 50 >>> (1 : Nat)) (st.Fs.tdiv 50) hb.1 hb.2
        exact ⟨out, heq.trans ho⟩
    rw [hbody, hd]
    unfold opus_decode_frame_body
    simp only
    rw [if_neg (by rw [r5]; omega)]
    simp only [if_neg (not_le.mpr hlen)]
    exact frame_main_bad_arg ext _ st (some d) len pcm off _ decode_fec st.frame_size st.mode
      st.bandwidth _ _ _ _ _ hself hbig

theorem frame_size_limits_witness :
    ∃ out : DecodeOut,
      opus_decode_frame silent_engines { celt_history_decoder with frame_size := 960 }
        (some ([0x68, 1, 2, 3], 0)) 4 (fun _ => 7) 0 480 0 = some out ∧
      out.ret = OpusError.OPUS_BAD_ARG.toInt ∧ out.pcm = fun _ => 7 :=
  (frame_size_limits silent_engines { celt_history_decoder with frame_size := 960 }
    (some ([0x68, 1, 2, 3], 0)) 4 (fun _ => 7) 0 480 0 (Or.inl rfl)).2.2.2
    (fun s dc _ _ dec p _ _ => Or.inr (by
      show 0 < IMAX 1 ((dc.payloadSize_ms * dc.API_sampleRate).tdiv 1000)
      unfold IMAX
      split_ifs <;> omega))
    (by decide) rfl (by decide) (by decide)


/-! ## The cross-fade `smooth_fade` -/

theorem shiftRight_fifteen (m : Int) : m >>> (15 : Nat) = m / 32768 := by
  rw [Int.shiftRight_eq_div_pow]
  rfl

/-- Interleaved indices `k * channels + c` with `0 <= c < channels` are met once. -/
theorem fade_index_unique (ch k c k2 c2 : Int) (hc0 : 0 ≤ c) (hc1 : c < ch)
    (hd0 : 0 ≤ c2) (hd1 : c2 < ch) (h : k * ch + c = k2 * ch + c2) : k = k2 ∧ c = c2 := by
  have hk : k = k2 := by
    rcases lt_trichotomy k k2 with hlt | heq | hgt
    · exfalso
      have := mul_le_mul_of_nonneg_right (show k + 1 ≤ k2 by omega) (show (0 : Int) ≤ ch by omega)
      rw [add_mul, one_mul] at this
      omega
    · exact heq
    · exfalso
      have := mul_le_mul_of_nonneg_right (show k2 + 1 ≤ k by omega) (show (0 : Int) ≤ ch by omega)
      rw [add_mul, one_mul] at this
      omega
  subst hk
  exact ⟨rfl, by omega⟩

/-- The inner loop of `smooth_fade` leaves every sample it does not address. -/
theorem smooth_fade_inner_miss (in1 : PCM) (o1 : Int) (in2 : PCM) (o2 oo channels : Int)
    (window : Int → Int) (inc c : Int) :
    ∀ (n : Nat) (i : Int) (out : PCM) (j : Int),
      (∀ k : Int, i ≤ k → k < i + n → j ≠ oo + (k * channels + c)) →
      smooth_fade_inner in1 o1 in2 o2 oo channels window inc c n i out j = out j := by
  intro n
  induction n with
  | zero => intro i out j _; rfl
  | succ m ih =>
    intro i out j h
    rw [smooth_fade_inner]
    rw [ih (i + 1) _ j (fun k hk1 hk2 => h k (by omega) (by push_cast; omega))]
    exact if_neg (h i le_rfl (by push_cast; omega))

/-- The inner loop of `smooth_fade` stores the blend at each sample offset of
its channel. -/
theorem smooth_fade_inner_hit (in1 : PCM) (o1 : Int) (in2 : PCM) (o2 oo channels : Int)
    (window : Int → Int) (inc c : Int) (hch : channels ≠ 0) :
    ∀ (n : Nat) (i : Int) (out : PCM) (k : Int), i ≤ k → k < i + n →
      smooth_fade_inner in1 o1 in2 o2 oo channels window inc c n i out
          (oo + (k * channels + c))
        = int16 (SHR32 (MAC16_16
            (MULT16_16 (int16 (MULT16_16_Q15 (window (k * inc)) (window (k * inc))))
              (in2 (o2 + (k * channels + c))))
            (Q15ONE - int16 (MULT16_16_Q15 (window (k * inc)) (window (k * inc))))
            (in1 (o1 + (k * channels + c)))) 15) := by
  intro n
  induction n with
  | zero => intro i out k h1 h2; exfalso; simp only [Nat.cast_zero] at h2; omega
  | succ m ih =>
    intro i out k h1 h2
    rw [smooth_fade_inner]
    by_cases hk : k = i
    · subst hk
      rw [smooth_fade_inner_miss in1 o1 in2 o2 oo channels window inc c m (k + 1) _ _
        (fun k2 hk1 hk2 heq => by
          have h3 : k * channels = k2 * channels := by omega
          have h4 := mul_right_cancel₀ hch h3
          omega)]
      exact if_pos rfl
    · exact ih (i + 1) _ k (by omega) (by push_cast at h2; omega)

/-- The outer loop of `smooth_fade` leaves every sample it does not address. -/
theorem smooth_fade_outer_miss (in1 : PCM) (o1 : Int) (in2 : PCM) (o2 oo overlap channels : Int)
    (window : Int → Int) (inc : Int) :
    ∀ (n : Nat) (c0 : Int) (out : PCM) (j : Int),
      (∀ c k : Int, c0 ≤ c → c < c0 + n → 0 ≤ k → k < overlap →
        j ≠ oo + (k * channels + c)) →
      smooth_fade_outer in1 o1 in2 o2 oo overlap channels window inc n c0 out j = out j := by
  intro n
  induction n with
  | zero => intro c0 out j _; rfl
  | succ m ih =>
    intro c0 out j h
    rw [smooth_fade_outer]
    rw [ih (c0 + 1) _ j (fun c k hc1 hc2 hk1 hk2 => h c k (by omega) (by push_cast; omega) hk1 hk2)]
    exact smooth_fade_inner_miss in1 o1 in2 o2 oo channels window inc c0 _ 0 out j
      (fun k hk1 hk2 => h c0 k le_rfl (by push_cast; omega) hk1 (by omega))

/-- The outer loop of `smooth_fade` stores the blend at each sample offset of
each channel it runs over. -/
theorem smooth_fade_outer_hit (in1 : PCM) (o1 : Int) (in2 : PCM) (o2 oo overlap channels : Int)
    (window : Int → Int) (inc : Int) :
    ∀ (n : Nat) (c0 : Int) (out : PCM) (c k : Int), 0 ≤ c0 → c0 ≤ c → c < c0 + n →
      c0 + n ≤ channels → 0 ≤ k → k < overlap →
      smooth_fade_outer in1 o1 in2 o2 oo overlap channels window inc n c0 out
          (oo + (k * channels + c))
        = int16 (SHR32 (MAC16_16
            (MULT16_16 (int16 (MULT16_16_Q15 (window (k * inc)) (window (k * inc))))
              (in2 (o2 + (k * channels + c))))
            (Q15ONE - int16 (MULT16_16_Q15 (window (k * inc)) (window (k * inc))))
            (in1 (o1 + (k * channels + c)))) 15) := by
  intro n
  induction n with
  | zero => intro c0 out c k _ h1 h2; exfalso; simp only [Nat.cast_zero] at h2; omega
  | succ m ih =>
    intro c0 out c k h0 h1 h2 h3 hk0 hk1
    push_cast at h2 h3
    rw [smooth_fade_outer]
    by_cases hc : c = c0
    · subst hc
      rw [smooth_fade_outer_miss in1 o1 in2 o2 oo overlap channels window inc m (c + 1) _ _
        (fun c2 k2 hc1 hc2 _ _ heq => by
          have h5 := fade_index_unique channels k c k2 c2 h0 (by omega) (by omega) (by omega)
            (by omega)
          omega)]
      exact smooth_fade_inner_hit in1 o1 in2 o2 oo channels window inc c (by omega) _ 0 out k
        hk0 (by omega)
    · exact ih (c0 + 1) _ c k (by omega) (by omega) (by omega) (by omega) hk0 hk1

/-- The blend of one sample: for a weight `0 <= w <= 32767` and 16-bit `a`, `b`,
the value `(w*b + (32767 - w)*a) >> 15` is a 16-bit value between
`min(a, b) - 1` and `max(a, b) + 1`. -/
theorem blend_bounds (w a b : Int) (hw0 : 0 ≤ w) (hw1 : w ≤ 32767)
    (ha0 : -32768 ≤ a) (ha1 : a ≤ 32767) (hb0 : -32768 ≤ b) (hb1 : b ≤ 32767) :
    -32768 ≤ (w * b + (32767 - w) * a) / 32768 ∧
    (w * b + (32767 - w) * a) / 32768 ≤ 32767 ∧
    min a b - 1 ≤ (w * b + (32767 - w) * a) / 32768 ∧
    (w * b + (32767 - w) * a) / 32768 ≤ max a b + 1 := by
  have hv0 : (0 : Int) ≤ 32767 - w := by omega
  have lo : 32767 * min a b ≤ w * b + (32767 - w) * a := by
    have t1 := mul_le_mul_of_nonneg_left (min_le_right a b) hw0
    have t2 := mul_le_mul_of_nonneg_left (min_le_left a b) hv0
    have e2 : 32767 * min a b = w * min a b + (32767 - w) * min a b := by ring
    rw [e2]
    exact add_le_add t1 t2
  have hi : w * b + (32767 - w) * a ≤ 32767 * max a b := by
    have t1 := mul_le_mul_of_nonneg_left (le_max_right a b) hw0
    have t2 := mul_le_mul_of_nonneg_left (le_max_left a b) hv0
    have e2 : 32767 * max a b = w * max a b + (32767 - w) * max a b := by ring
    rw [e2]
    exact add_le_add t1 t2
  have m0 : -32768 ≤ min a b := le_min ha0 hb0
  have m1 : min a b ≤ 32767 := le_trans (min_le_left a b) ha1
  have x0 : -32768 ≤ max a b := le_trans ha0 (le_max_left a b)
  have x1 : max a b ≤ 32767 := max_le ha1 hb1
  generalize w * b + (32767 - w) * a = S at lo hi
  generalize min a b = m at lo m0 m1
  generalize max a b = x at hi x0 x1
  refine ⟨?_, ?_, ?_, ?_⟩ <;> omega

/-- C36: for every overlap, channel count and rate, a window with entries in
`0..32767` and 16-bit inputs `in1`, `in2`: at every sample offset
`0 <= i < overlap` and channel `0 <= c < channels`, with
`w = (window[i*inc]^2) >> 15` and `inc = 48000/Fs`, the weights `w` and
`32767 - w` are non-negative and sum to `Q15ONE = 32767`, `smooth_fade` stores
`out[i*channels+c] = (w*in2[i*channels+c] + (32767 - w)*in1[i*channels+c]) >> 15`,
and that value lies between `min(in1, in2) - 1` and `max(in1, in2) + 1`. -/
theorem smooth_fade_blend (in1 : PCM) (o1 : Int) (in2 : PCM) (o2 : Int) (out : PCM)
    (oo overlap channels : Int) (window : Int → Int) (Fs : Int)
    (hwin : ∀ j : Int, 0 ≤ window j ∧ window j ≤ 32767)
    (hin1 : ∀ j : Int, -32768 ≤ in1 j ∧ in1 j ≤ 32767)
    (hin2 : ∀ j : Int, -32768 ≤ in2 j ∧ in2 j ≤ 32767)
    (i c : Int) (hi0 : 0 ≤ i) (hi1 : i < overlap) (hc0 : 0 ≤ c) (hc1 : c < channels) :
    0 ≤ (window (i * (48000 : Int).tdiv Fs) ^ 2) >>> (15 : Nat) ∧
    0 ≤ 32767 - (window (i * (48000 : Int).tdiv Fs) ^ 2) >>> (15 : Nat) ∧
    (window (i * (48000 : Int).tdiv Fs) ^ 2) >>> (15 : Nat)
      + (32767 - (window (i * (48000 : Int).tdiv Fs) ^ 2) >>> (15 : Nat)) = Q15ONE ∧
    smooth_fade in1 o1 in2 o2 out oo overlap channels window Fs (oo + (i * channels + c))
      = ((window (i * (48000 : Int).tdiv Fs) ^ 2) >>> (15 : Nat)
            * in2 (o2 + (i * channels + c))
          + (32767 - (window (i * (48000 : Int).tdiv Fs) ^ 2) >>> (15 : Nat))
            * in1 (o1 + (i * channels + c))) >>> (15 : Nat) ∧
    min (in1 (o1 + (i * channels + c))) (in2 (o2 + (i * channels + c))) - 1
      ≤ smooth_fade in1 o1 in2 o2 out oo overlap channels window Fs
          (oo + (i * channels + c)) ∧
    smooth_fade in1 o1 in2 o2 out oo overlap channels window Fs (oo + (i * channels + c))
      ≤ max (in1 (o1 + (i * channels + c))) (in2 (o2 + (i * channels + c))) + 1 := by
  obtain ⟨hw0, hw1⟩ := hwin (i * (48000 : Int).tdiv Fs)
  obtain ⟨ha0, ha1⟩ := hin1 (o1 + (i * channels + c))
  obtain ⟨hb0, hb1⟩ := hin2 (o2 + (i * channels + c))
  have hP0 : 0 ≤ window (i * (48000 : Int).tdiv Fs) ^ 2 := sq_nonneg _
  have hP1 : window (i * (48000 : Int).tdiv Fs) ^ 2 ≤ 32767 * 32767 := by nlinarith
  have hwq0 : 0 ≤ (window (i * (48000 : Int).tdiv Fs) ^ 2) >>> (15 : Nat) := by
    rw [shiftRight_fifteen]; omega
  have hwq1 : (window (i * (48000 : Int).tdiv Fs) ^ 2) >>> (15 : Nat) ≤ 32767 := by
    rw [shiftRight_fifteen]; omega
  have hval : smooth_fade in1 o1 in2 o2 out oo overlap channels window Fs
      (oo + (i * channels + c))
      = ((window (i * (48000 : Int).tdiv Fs) ^ 2) >>> (15 : Nat)
            * in2 (o2 + (i * channels + c))
          + (32767 - (window (i * (48000 : Int).tdiv Fs) ^ 2) >>> (15 : Nat))
            * in1 (o1 + (i * channels + c))) >>> (15 : Nat) := by
    unfold smooth_fade
    rw [smooth_fade_outer_hit in1 o1 in2 o2 oo overlap channels window _ channels.toNat 0 out
      c i le_rfl hc0 (by omega) (by omega) hi0 hi1]
    have ew : MULT16_16_Q15 (window (i * (48000 : Int).tdiv Fs))
        (window (i * (48000 : Int).tdiv Fs))
        = (window (i * (48000 : Int).tdiv Fs) ^ 2) >>> (15 : Nat) := by
      unfold MULT16_16_Q15 SHR32 MULT16_16
      rw [sq]
    have hw16 : int16 ((window (i * (48000 : Int).tdiv Fs) ^ 2) >>> (15 : Nat))
        = (window (i * (48000 : Int).tdiv Fs) ^ 2) >>> (15 : Nat) := int16_id _ (by omega) hwq1
    rw [ew, hw16]
    unfold SHR32 MAC16_16 MULT16_16 Q15ONE
    obtain ⟨q1, q2, -, -⟩ := blend_bounds _ _ _ hwq0 hwq1 ha0 ha1 hb0 hb1
    rw [shiftRight_fifteen (_ + _)]
    exact int16_id _ q1 q2
  obtain ⟨-, -, q3, q4⟩ := blend_bounds _ _ _ hwq0 hwq1 ha0 ha1 hb0 hb1
  refine ⟨hwq0, by omega, ?_, hval, ?_, ?_⟩
  · unfold Q15ONE
    omega
  · rw [hval, shiftRight_fifteen]; exact q3
  · rw [hval, shiftRight_fifteen]; exact q4

theorem smooth_fade_blend_witness :
    smooth_fade (fun _ => 100) 0 (fun _ => -50) 0 (fun _ => 0) 0 2 2 (fun _ => 16384) 48000
        (0 + (1 * 2 + 1)) = 62 ∧
    (-50 : Int) - 1 ≤ 62 ∧ (62 : Int) ≤ 100 + 1 := by
  have h := smooth_fade_blend (fun _ => 100) 0 (fun _ => -50) 0 (fun _ => 0) 0 2 2
    (fun _ => 16384) 48000 (fun _ => ⟨by norm_num, by norm_num⟩)
    (fun _ => ⟨by norm_num, by norm_num⟩) (fun _ => ⟨by norm_num, by norm_num⟩) 1 1 (by decide) (by decide) (by decide) (by decide)
  exact ⟨h.2.2.2.1.trans (by decide), by decide, by decide⟩


/-! ## The cross-fade of a mode transition -/

/-- The search for a redundant frame finds none in a CELT-only frame. -/
theorem redundancy_celt_only (ext : Engines) (st : OpusDecoder)
    (data : Option (List Byte × Int)) (mode len decode_fec : Int) (dec : ec_dec)
    (hm : mode = MODE_CELT_ONLY) :
    frame_redundancy ext st data mode len decode_fec dec = ⟨0, 0, 0, len, dec⟩ := by
  unfold frame_redundancy
  rw [if_neg (fun h => h.2.1 hm)]

/-- Without a transition the end of `opus_decode_frame` does not read the fade
source. -/
theorem final_stage_no_fade (ext : Engines) (v : FrameVars)
    (data : Option (List Byte × Int)) (rv : RedundancyVars) (pt pt2 : PCM)
    (off frame_size audiosize mode F2_5 F5 : Int) :
    frame_final_stage ext v data rv false pt off frame_size audiosize mode F2_5 F5
      = frame_final_stage ext v data rv false pt2 off frame_size audiosize mode F2_5 F5 :=
  rfl

/-- The main part of `opus_decode_frame` on a frame with data that fits the
buffer. Either the SILK processing fails, or: after the SILK processing (none in a
CELT-only frame) and the search for a redundant frame, a transition is decided by
`prev_mode > 0`, no redundant frame, and a change between CELT-only and another
mode; on a transition `self` is called on a state with the `prev_mode` of the
entry for `IMIN(F5, audiosize)` samples and its output is the fade source of the
end of the function; otherwise the end of the function runs without a fade
source. -/
theorem frame_main_transition (ext : Engines)
    (self : OpusDecoder → PCM → Int → Int → Option DecodeOut)
    (st : OpusDecoder) (d : List Byte × Int) (len : Int) (pcm : PCM)
    (off frame_size decode_fec audiosize mode bandwidth : Int) (dec : ec_dec)
    (F2_5 F5 F10 F20 : Int) (out : DecodeOut)
    (hle : audiosize ≤ frame_size)
    (h : frame_main ext self st (some d) len pcm off frame_size decode_fec audiosize mode
      bandwidth dec F2_5 F5 F10 F20 = some out) :
    (mode ≠ MODE_CELT_ONLY ∧
      frame_silk_stage ext st (some d) mode bandwidth audiosize audiosize decode_fec
        (decide (mode ≠ MODE_CELT_ONLY ∧ frame_size ≥ F10)) dec pcm off ext.stack_pcm
        = some (.error out)) ∨
    ∃ (st2 : OpusDecoder) (dec2 : ec_dec) (pcm2 pcm_silk : PCM),
      st2.prev_mode = st.prev_mode ∧
      (mode ≠ MODE_CELT_ONLY →
        frame_silk_stage ext st (some d) mode bandwidth audiosize audiosize decode_fec
          (decide (mode ≠ MODE_CELT_ONLY ∧ frame_size ≥ F10)) dec pcm off ext.stack_pcm
          = some (.ok (st2, dec2, pcm2, pcm_silk))) ∧
      (mode = MODE_CELT_ONLY →
        st2 = st ∧ dec2 = dec ∧ pcm2 = pcm ∧ pcm_silk = ext.stack_pcm) ∧
      ((st.prev_mode > 0 ∧
          (frame_redundancy ext st2 (some d) mode len decode_fec dec2).redundancy = 0 ∧
          ((mode = MODE_CELT_ONLY ∧ st.prev_mode ≠ MODE_CELT_ONLY ∧ st.prev_redundancy = 0)
            ∨ (mode ≠ MODE_CELT_ONLY ∧ st.prev_mode = MODE_CELT_ONLY))) →
        ∃ r : DecodeOut,
          self st2 ext.stack_pcm 0 (IMIN F5 audiosize) = some r ∧
          out = frame_final_stage ext
            (frame_celt_stage ext r.st (some d) mode bandwidth audiosize decode_fec
              (decide (mode ≠ MODE_CELT_ONLY ∧ frame_size ≥ F10))
              (frame_redundancy ext st2 (some d) mode len decode_fec dec2)
              pcm2 off pcm_silk F2_5 F5 F20)
            (some d) (frame_redundancy ext st2 (some d) mode len decode_fec dec2)
            true r.pcm off audiosize audiosize mode F2_5 F5) ∧
      (¬ (st.prev_mode > 0 ∧
          (frame_redundancy ext st2 (some d) mode len decode_fec dec2).redundancy = 0 ∧
          ((mode = MODE_CELT_ONLY ∧ st.prev_mode ≠ MODE_CELT_ONLY ∧ st.prev_redundancy = 0)
            ∨ (mode ≠ MODE_CELT_ONLY ∧ st.prev_mode = MODE_CELT_ONLY))) →
        ∀ pt : PCM,
          out = frame_final_stage ext
            (frame_celt_stage ext st2 (some d) mode bandwidth audiosize decode_fec
              (decide (mode ≠ MODE_CELT_ONLY ∧ frame_size ≥ F10))
              (frame_redundancy ext st2 (some d) mode len decode_fec dec2)
              pcm2 off pcm_silk F2_5 F5 F20)
            (some d) (frame_redundancy ext st2 (some d) mode len decode_fec dec2)
            false pt off audiosize audiosize mode F2_5 F5) := by
  unfold frame_main at h
  simp only at h
  generalize ht0 : decide ((some d).isSome = true ∧ st.prev_mode > 0 ∧
    (mode = MODE_CELT_ONLY ∧ st.prev_mode ≠ MODE_CELT_ONLY ∧ st.prev_redundancy = 0 ∨
      mode ≠ MODE_CELT_ONLY ∧ st.prev_mode = MODE_CELT_ONLY)) = t0 at h
  generalize decide (mode ≠ MODE_CELT_ONLY ∧ frame_size ≥ F10) = accum at h ⊢
  have hbig : ¬ audiosize > frame_size := not_lt.mpr hle
  cases t0
  · -- no change between CELT-only and another mode
    have hC : ¬ (st.prev_mode > 0 ∧
        (mode = MODE_CELT_ONLY ∧ st.prev_mode ≠ MODE_CELT_ONLY ∧ st.prev_redundancy = 0 ∨
          mode ≠ MODE_CELT_ONLY ∧ st.prev_mode = MODE_CELT_ONLY)) :=
      fun hc => of_decide_eq_false ht0 ⟨rfl, hc⟩
    rw [if_neg (fun hc => Bool.false_ne_true hc.1)] at h
    simp only at h
    rw [if_neg hbig] at h
    split at h
    · cases h
    · rename_i o1 heq
      cases h
      left
      by_cases hm : mode ≠ MODE_CELT_ONLY
      · rw [if_pos hm] at heq
        exact ⟨hm, heq⟩
      · rw [if_neg hm] at heq
        cases heq
    · rename_i st2 dec2 pcm2 pcm_silk heq
      right
      simp only [Bool.false_and] at h
      rw [if_neg (fun hc => Bool.false_ne_true hc.1)] at h
      simp only at h
      cases h
      refine ⟨st2, dec2, pcm2, pcm_silk, ?_, ?_, ?_, ?_, ?_⟩
      · by_cases hm : mode ≠ MODE_CELT_ONLY
        · rw [if_pos hm] at heq
          exact (silk_stage_keeps ext st (some d) mode bandwidth audiosize audiosize
            decode_fec accum dec pcm off ext.stack_pcm _ heq).2
        · rw [if_neg hm] at heq
          cases heq
          rfl
      · intro hm
        rw [if_pos hm] at heq
        exact heq
      · intro hm
        rw [if_neg (not_not.mpr hm)] at heq
        cases heq
        exact ⟨rfl, rfl, rfl, rfl⟩
      · intro hT
        exact absurd ⟨hT.1, hT.2.2⟩ hC
      · intro _ pt
        exact final_stage_no_fade ext _ _ _ _ _ _ _ _ _ _ _
  · -- a change between CELT-only and another mode
    have hC : st.prev_mode > 0 ∧
        (mode = MODE_CELT_ONLY ∧ st.prev_mode ≠ MODE_CELT_ONLY ∧ st.prev_redundancy = 0 ∨
          mode ≠ MODE_CELT_ONLY ∧ st.prev_mode = MODE_CELT_ONLY) :=
      (of_decide_eq_true ht0).2
    by_cases hm : mode = MODE_CELT_ONLY
    · rw [if_pos ⟨rfl, hm⟩] at h
      split at h
      · cases h
      · rename_i st1 pt1 heq1
        obtain ⟨r, hr, hpair⟩ := Option.map_eq_some'.mp heq1
        cases hpair
        rw [if_neg hbig, if_neg (not_not.mpr hm)] at h
        simp only at h
        rw [if_neg (fun hc => hc.2 hm)] at h
        simp only at h
        cases h
        right
        refine ⟨st, dec, pcm, ext.stack_pcm, rfl, fun hne => absurd hm hne,
          fun _ => ⟨rfl, rfl, rfl, rfl⟩, ?_, ?_⟩
        · intro _
          refine ⟨r, hr, ?_⟩
          rw [redundancy_celt_only ext r.st _ _ _ _ _ hm,
            redundancy_celt_only ext st _ _ _ _ _ hm]
          rfl
        · intro hn
          exfalso
          apply hn
          refine ⟨hC.1, ?_, hC.2⟩
          rw [redundancy_celt_only ext st _ _ _ _ _ hm]
    · rw [if_neg (fun hc => hm hc.2)] at h
      simp only at h
      rw [if_neg hbig, if_pos hm] at h
      split at h
      · cases h
      · rename_i o1 heq
        cases h
        exact Or.inl ⟨hm, heq⟩
      · rename_i st2 dec2 pcm2 pcm_silk heq
        have hprev : st2.prev_mode = st.prev_mode :=
          (silk_stage_keeps ext st (some d) mode bandwidth audiosize audiosize
            decode_fec accum dec pcm off ext.stack_pcm _ heq).2
        right
        by_cases hr : (frame_redundancy ext st2 (some d) mode len decode_fec dec2).redundancy = 0
        · rw [decide_eq_true hr] at h
          simp only [Bool.and_self] at h
          rw [if_pos ⟨trivial, hm⟩] at h
          split at h
          · cases h
          · rename_i st3 pt3 heq3
            obtain ⟨r, hr3, hpair⟩ := Option.map_eq_some'.mp heq3
            cases hpair
            cases h
            exact ⟨st2, dec2, pcm2, pcm_silk, hprev, fun _ => heq, fun hc => absurd hc hm,
              fun _ => ⟨r, hr3, rfl⟩, fun hn => absurd ⟨hC.1, hr, hC.2⟩ hn⟩
        · rw [decide_eq_false hr] at h
          simp only [Bool.and_false] at h
          rw [if_neg (fun hc => Bool.false_ne_true hc.1)] at h
          simp only at h
          cases h
          exact ⟨st2, dec2, pcm2, pcm_silk, hprev, fun _ => heq, fun hc => absurd hc hm,
            fun hT => absurd hT.2.1 hr,
            fun _ pt => final_stage_no_fade ext _ _ _ _ _ _ _ _ _ _ _⟩

/-- With a transition the end of `opus_decode_frame` differs from the end without
one by the cross-fade from the fade source (lines 538-557), made before the gain
is applied: over the whole of the first 2.5 ms copied from the source when
`audiosize >= F5`, directly otherwise. -/
theorem final_stage_fade (ext : Engines) (v : FrameVars)
    (data : Option (List Byte × Int)) (rv : RedundancyVars) (pt : PCM)
    (off frame_size audiosize mode F2_5 F5 : Int) :
    ∃ X : PCM,
      (frame_final_stage ext v data rv false pt off frame_size audiosize mode F2_5 F5).pcm
        = (if v.st.decode_gain ≠ 0 then
            gain_loop ext (ext.gain_of v.st.decode_gain) off
              (frame_size * v.st.channels).toNat 0 X
          else X) ∧
      (frame_final_stage ext v data rv true pt off frame_size audiosize mode F2_5 F5).pcm
        = (if v.st.decode_gain ≠ 0 then
            gain_loop ext (ext.gain_of v.st.decode_gain) off
              (frame_size * v.st.channels).toNat 0
              (if audiosize ≥ F5 then
                smooth_fade pt (v.st.channels * F2_5)
                  (copy_loop pt 0 off (v.st.channels * F2_5).toNat 0 X)
                  (off + v.st.channels * F2_5)
                  (copy_loop pt 0 off (v.st.channels * F2_5).toNat 0 X)
                  (off + v.st.channels * F2_5) F2_5 v.st.channels v.window v.st.Fs
              else smooth_fade pt 0 X off X off F2_5 v.st.channels v.window v.st.Fs)
          else
            (if audiosize ≥ F5 then
              smooth_fade pt (v.st.channels * F2_5)
                (copy_loop pt 0 off (v.st.channels * F2_5).toNat 0 X)
                (off + v.st.channels * F2_5)
                (copy_loop pt 0 off (v.st.channels * F2_5).toNat 0 X)
                (off + v.st.channels * F2_5) F2_5 v.st.channels v.window v.st.Fs
            else smooth_fade pt 0 X off X off F2_5 v.st.channels v.window v.st.Fs)) := by
  unfold frame_final_stage
  simp only
  by_cases hpost : rv.redundancy ≠ 0 ∧ rv.celt_to_silk = 0
  · rw [decide_eq_true hpost]
    exact ⟨_, rfl, rfl⟩
  · rw [decide_eq_false hpost]
    exact ⟨_, rfl, rfl⟩

/-- C34: for a call of `opus_decode_frame` with data (`len > 1`) that passes the
2.5 ms check and whose coded size fits the capped `frame_size`, and that returns
`out`, with `mode = st->mode`, `audiosize = st->frame_size` and `F5 = Fs/50 >> 2`:
either the SILK processing failed, or, with the state `st2` left by the SILK
processing (`st` itself in a CELT-only frame; its `prev_mode` is that of the
entry) and the result of the search for a redundant frame, the transition
condition is `prev_mode > 0`, no redundant frame, and (`mode` CELT-only,
`prev_mode` not CELT-only, `prev_redundancy = 0`) or (`mode` not CELT-only,
`prev_mode` CELT-only). When it holds, a concealment call (no data, `len = 0`,
`decode_fec = 0`) on `st2` for `IMIN(F5, audiosize)` samples returned, and `out`
is the end of the function run with the transition flag set and the output of
that call as fade source; when it does not hold, `out` is the end of the function
run with the flag clear, whatever the fade source. And the end of the function
with the flag set differs from the one with the flag clear by the cross-fade
from the fade source, made before the gain. -/
theorem transition_cross_fade (ext : Engines) (st : OpusDecoder) (d : List Byte × Int)
    (len : Int) (pcm : PCM) (off fs decode_fec : Int) (out : DecodeOut)
    (hlen : 1 < len)
    (hfs : ¬ fs < ((st.Fs.tdiv 50 >>> (1 : Nat)) >>> (1 : Nat)) >>> (1 : Nat))
    (hle : st.frame_size ≤ IMIN fs (st.Fs.tdiv 25 * 3))
    (h : opus_decode_frame ext st (some d) len pcm off fs decode_fec = some out) :
    ((st.mode ≠ MODE_CELT_ONLY ∧
      frame_silk_stage ext st (some d) st.mode st.bandwidth st.frame_size st.frame_size
        decode_fec
        (decide (st.mode ≠ MODE_CELT_ONLY ∧
          IMIN fs (st.Fs.tdiv 25 * 3) ≥ st.Fs.tdiv 50 >>> (1 : Nat)))
        (ext.ec_dec_init d.1 d.2 len) pcm off ext.stack_pcm = some (.error out)) ∨
    ∃ (st2 : OpusDecoder) (dec2 : ec_dec) (pcm2 pcm_silk : PCM),
      st2.prev_mode = st.prev_mode ∧
      (st.mode ≠ MODE_CELT_ONLY →
        frame_silk_stage ext st (some d) st.mode st.bandwidth st.frame_size st.frame_size
          decode_fec
          (decide (st.mode ≠ MODE_CELT_ONLY ∧
            IMIN fs (st.Fs.tdiv 25 * 3) ≥ st.Fs.tdiv 50 >>> (1 : Nat)))
          (ext.ec_dec_init d.1 d.2 len) pcm off ext.stack_pcm
          = some (.ok (st2, dec2, pcm2, pcm_silk))) ∧
      (st.mode = MODE_CELT_ONLY →
        st2 = st ∧ dec2 = ext.ec_dec_init d.1 d.2 len ∧ pcm2 = pcm ∧
          pcm_silk = ext.stack_pcm) ∧
      ((st.prev_mode > 0 ∧
          (frame_redundancy ext st2 (some d) st.mode len decode_fec dec2).redundancy = 0 ∧
          ((st.mode = MODE_CELT_ONLY ∧ st.prev_mode ≠ MODE_CELT_ONLY ∧
              st.prev_redundancy = 0)
            ∨ (st.mode ≠ MODE_CELT_ONLY ∧ st.prev_mode = MODE_CELT_ONLY))) →
        ∃ r : DecodeOut,
          opus_decode_frame_depth ext 2 st2 none 0 ext.stack_pcm 0
            (IMIN ((st.Fs.tdiv 50 >>> (1 : Nat)) >>> (1 : Nat)) st.frame_size) 0 = some r ∧
          out = frame_final_stage ext
            (frame_celt_stage ext r.st (some d) st.mode st.bandwidth st.frame_size decode_fec
              (decide (st.mode ≠ MODE_CELT_ONLY ∧
                IMIN fs (st.Fs.tdiv 25 * 3) ≥ st.Fs.tdiv 50 >>> (1 : Nat)))
              (frame_redundancy ext st2 (some d) st.mode len decode_fec dec2)
              pcm2 off pcm_silk (((st.Fs.tdiv 50 >>> (1 : Nat)) >>> (1 : Nat)) >>> (1 : Nat))
              ((st.Fs.tdiv 50 >>> (1 : Nat)) >>> (1 : Nat)) (st.Fs.tdiv 50))
            (some d) (frame_redundancy ext st2 (some d) st.mode len decode_fec dec2)
            true r.pcm off st.frame_size st.frame_size st.mode
            (((st.Fs.tdiv 50 >>> (1 : Nat)) >>> (1 : Nat)) >>> (1 : Nat))
            ((st.Fs.tdiv 50 >>> (1 : Nat)) >>> (1 : Nat))) ∧
      (¬ (st.prev_mode > 0 ∧
          (frame_redundancy ext st2 (some d) st.mode len decode_fec dec2).redundancy = 0 ∧
          ((st.mode = MODE_CELT_ONLY ∧ st.prev_mode ≠ MODE_CELT_ONLY ∧
              st.prev_redundancy = 0)
            ∨ (st.mode ≠ MODE_CELT_ONLY ∧ st.prev_mode = MODE_CELT_ONLY))) →
        ∀ pt : PCM,
          out = frame_final_stage ext
            (frame_celt_stage ext st2 (some d) st.mode st.bandwidth st.frame_size decode_fec
              (decide (st.mode ≠ MODE_CELT_ONLY ∧
                IMIN fs (st.Fs.tdiv 25 * 3) ≥ st.Fs.tdiv 50 >>> (1 : Nat)))
              (frame_redundancy ext st2 (some d) st.mode len decode_fec dec2)
              pcm2 off pcm_silk (((st.Fs.tdiv 50 >>> (1 : Nat)) >>> (1 : Nat)) >>> (1 : Nat))
              ((st.Fs.tdiv 50 >>> (1 : Nat)) >>> (1 : Nat)) (st.Fs.tdiv 50))
            (some d) (frame_redundancy ext st2 (some d) st.mode len decode_fec dec2)
            false pt off st.frame_size st.frame_size st.mode
            (((st.Fs.tdiv 50 >>> (1 : Nat)) >>> (1 : Nat)) >>> (1 : Nat))
            ((st.Fs.tdiv 50 >>> (1 : Nat)) >>> (1 : Nat)))) ∧
    (∀ (v : FrameVars) (rv : RedundancyVars) (pt : PCM) (F2_5 : Int), ∃ X : PCM,
      (frame_final_stage ext v (some d) rv false pt off st.frame_size st.frame_size st.mode
          F2_5 ((st.Fs.tdiv 50 >>> (1 : Nat)) >>> (1 : Nat))).pcm
        = (if v.st.decode_gain ≠ 0 then
            gain_loop ext (ext.gain_of v.st.decode_gain) off
              (st.frame_size * v.st.channels).toNat 0 X
          else X) ∧
      (frame_final_stage ext v (some d) rv true pt off st.frame_size st.frame_size st.mode
          F2_5 ((st.Fs.tdiv 50 >>> (1 : Nat)) >>> (1 : Nat))).pcm
        = (if v.st.decode_gain ≠ 0 then
            gain_loop ext (ext.gain_of v.st.decode_gain) off
              (st.frame_size * v.st.channels).toNat 0
              (if st.frame_size ≥ (st.Fs.tdiv 50 >>> (1 : Nat)) >>> (1 : Nat) then
                smooth_fade pt (v.st.channels * F2_5)
                  (copy_loop pt 0 off (v.st.channels * F2_5).toNat 0 X)
                  (off + v.st.channels * F2_5)
                  (copy_loop pt 0 off (v.st.channels * F2_5).toNat 0 X)
                  (off + v.st.channels * F2_5) F2_5 v.st.channels v.window v.st.Fs
              else smooth_fade pt 0 X off X off F2_5 v.st.channels v.window v.st.Fs)
          else
            (if st.frame_size ≥ (st.Fs.tdiv 50 >>> (1 : Nat)) >>> (1 : Nat) then
              smooth_fade pt (v.st.channels * F2_5)
                (copy_loop pt 0 off (v.st.channels * F2_5).toNat 0 X)
                (off + v.st.channels * F2_5)
                (copy_loop pt 0 off (v.st.channels * F2_5).toNat 0 X)
                (off + v.st.channels * F2_5) F2_5 v.st.channels v.window v.st.Fs
            else smooth_fade pt 0 X off X off F2_5 v.st.channels v.window v.st.Fs))) := by
  refine ⟨?_, fun v rv pt F2_5 =>
    final_stage_fade ext v (some d) rv pt off st.frame_size st.frame_size st.mode F2_5 _⟩
  have hbody : opus_decode_frame ext st (some d) len pcm off fs decode_fec
      = opus_decode_frame_body ext
          (fun st1 pcm1 off1 fs1 => opus_decode_frame_depth ext 2 st1 none 0 pcm1 off1 fs1 0)
          st (some d) len pcm off fs decode_fec := rfl
  rw [hbody] at h
  unfold opus_decode_frame_body at h
  simp only at h
  rw [if_neg hfs] at h
  simp only [if_neg (not_le.mpr hlen)] at h
  exact frame_main_transition ext _ st d len pcm off _ decode_fec st.frame_size st.mode
    st.bandwidth _ _ _ _ _ out hle h

theorem transition_cross_fade_witness :
    ∃ out r : DecodeOut,
      opus_decode_frame silent_engines
        { celt_history_decoder with
          prev_mode := MODE_SILK_ONLY, mode := MODE_CELT_ONLY, frame_size := 480,
          bandwidth := OPUS_BANDWIDTH_FULLBAND, stream_channels := 2 }
        (some ([0xF0, 1, 2, 3], 1)) 3 (fun _ => 7) 0 480 0 = some out ∧
      opus_decode_frame_depth silent_engines 2
        { celt_history_decoder with
          prev_mode := MODE_SILK_ONLY, mode := MODE_CELT_ONLY, frame_size := 480,
          bandwidth := OPUS_BANDWIDTH_FULLBAND, stream_channels := 2 }
        none 0 silent_engines.stack_pcm 0 (IMIN 240 480) 0 = some r := by
  have h := (Option.some_get (rfl : (opus_decode_frame silent_engines
        { celt_history_decoder with
          prev_mode := MODE_SILK_ONLY, mode := MODE_CELT_ONLY, frame_size := 480,
          bandwidth := OPUS_BANDWIDTH_FULLBAND, stream_channels := 2 }
        (some ([0xF0, 1, 2, 3], 1)) 3 (fun _ => 7) 0 480 0).isSome = true)).symm
  rcases (transition_cross_fade silent_engines
        { celt_history_decoder with
          prev_mode := MODE_SILK_ONLY, mode := MODE_CELT_ONLY, frame_size := 480,
          bandwidth := OPUS_BANDWIDTH_FULLBAND, stream_channels := 2 }
        ([0xF0, 1, 2, 3], 1) 3 (fun _ => 7) 0 480 0 _ (by decide) (by decide) (by decide)
        h).1 with ⟨hm, -⟩ | ⟨st2, dec2, pcm2, pcm_silk, -, -, hc, hT, -⟩
  · exact absurd rfl hm
  · obtain ⟨e1, e2, -, -⟩ := hc rfl
    subst e1 e2
    obtain ⟨r, hr, -⟩ := hT ⟨by decide, rfl, Or.inl ⟨rfl, by decide, rfl⟩⟩
    exact ⟨_, r, h, hr⟩


/-! ## The coefficient fit `silk_LPC_fit` -/

theorem ediv_ediv_two (x P : Int) (hP : 0 < P) : x / P / 2 = x / (P * 2) := by
  apply le_antisymm
  · rw [Int.le_ediv_iff_mul_le (by omega)]
    have h1 : x / P / 2 * 2 ≤ x / P := Int.ediv_mul_le _ (by norm_num)
    have h2 : x / P * P ≤ x := Int.ediv_mul_le _ (by omega)
    have h3 := mul_le_mul_of_nonneg_right h1 (le_of_lt hP)
    have e : x / P / 2 * (P * 2) = x / P / 2 * 2 * P := by ring
    rw [e]
    exact le_trans h3 h2
  · rw [Int.le_ediv_iff_mul_le (by norm_num), Int.le_ediv_iff_mul_le hP]
    have h := Int.ediv_mul_le x (show P * 2 ≠ 0 by omega)
    have e : x / (P * 2) * 2 * P = x / (P * 2) * (P * 2) := by ring
    rw [e]
    exact h

/-- The rounding shift is the quotient rounded half up. -/
theorem rshift_round_eq (a s : Int) (hs : 1 ≤ s) :
    silk_RSHIFT_ROUND a s = (a + 2 ^ (s - 1).toNat) / 2 ^ s.toNat := by
  unfold silk_RSHIFT_ROUND
  by_cases h1 : s = 1
  · rw [if_pos h1, h1, Int.shiftRight_eq_div_pow]
    norm_num
    omega
  · rw [if_neg h1]
    obtain ⟨n, hn⟩ : ∃ n : Nat, (s - 1).toNat = n := ⟨_, rfl⟩
    have hs2 : s.toNat = n + 1 := by omega
    rw [hn, hs2, Int.shiftRight_eq_div_pow, Int.shiftRight_eq_div_pow]
    push_cast
    have hp : (0 : Int) < 2 ^ n := pow_pos (by norm_num) _
    have e1 : (a + 2 ^ n) / 2 ^ n = a / 2 ^ n + 1 := by
      have := Int.add_mul_ediv_right a 1 (ne_of_gt hp)
      rw [one_mul] at this
      exact this
    rw [pow_succ, ← ediv_ediv_two _ _ hp, e1]

/-- A coefficient of magnitude at most `M` whose bound rounds to at most 32767
rounds to a 16-bit value. -/
theorem round_bounds (x M h P : Int) (hP : 0 < P) (hh : 0 ≤ h) (h1 : -M ≤ x) (h2 : x ≤ M)
    (hM : (M + h) / P ≤ 32767) :
    -32768 ≤ (x + h) / P ∧ (x + h) / P ≤ 32767 := by
  constructor
  · rw [Int.le_ediv_iff_mul_le hP]
    have h3 : (M + h) / P < 32768 := by omega
    rw [Int.ediv_lt_iff_lt_mul hP] at h3
    omega
  · exact le_trans (Int.ediv_le_ediv hP (by omega)) hM

/-- The absolute value of a 32-bit value above `INT32_MIN`. -/
theorem silk_abs_bounds (a : Int) (h0 : -2147483648 < a) (h1 : a < 2147483648) :
    0 ≤ silk_abs a ∧ silk_abs a < 2147483648 ∧ a ≤ silk_abs a ∧ -a ≤ silk_abs a := by
  unfold silk_abs int32
  split_ifs <;> omega

/-- The search for the maximum absolute value: the result is at least the start
value and bounds the coefficients the loop has seen. -/
theorem lpc_maxabs_loop_spec (a : Int → Int)
    (ha : ∀ k : Int, -2147483648 < a k ∧ a k < 2147483648) :
    ∀ (n : Nat) (k0 m idx : Int),
      m ≤ (lpc_maxabs_loop a n k0 m idx).1 ∧
      ∀ k : Int, k0 ≤ k → k < k0 + n →
        a k ≤ (lpc_maxabs_loop a n k0 m idx).1 ∧ -a k ≤ (lpc_maxabs_loop a n k0 m idx).1 := by
  intro n
  induction n with
  | zero =>
    intro k0 m idx
    refine ⟨le_refl _, fun k h1 h2 => ?_⟩
    exfalso
    simp only [Nat.cast_zero] at h2
    omega
  | succ j ih =>
    intro k0 m idx
    obtain ⟨b0, -, b2, b3⟩ := silk_abs_bounds (a k0) (ha k0).1 (ha k0).2
    rw [lpc_maxabs_loop]
    by_cases hgt : silk_abs (a k0) > m
    · rw [if_pos hgt]
      obtain ⟨i1, i2⟩ := ih (k0 + 1) (silk_abs (a k0)) k0
      refine ⟨by omega, fun k h1 h2 => ?_⟩
      by_cases hk : k = k0
      · subst hk
        exact ⟨by omega, by omega⟩
      · exact i2 k (by omega) (by push_cast at h2; omega)
    · rw [if_neg hgt]
      obtain ⟨i1, i2⟩ := ih (k0 + 1) m idx
      refine ⟨i1, fun k h1 h2 => ?_⟩
      by_cases hk : k = k0
      · subst hk
        exact ⟨by omega, by omega⟩
      · exact i2 k (by omega) (by push_cast at h2; omega)

/-- The expansion loop of `silk_LPC_fit` keeps the coefficients above
`INT32_MIN` when the expander does, and when it stops before `i == 10` every
coefficient rounds to a 16-bit value. -/
theorem lpc_fit_loop_spec (bw : (Int → Int) → Int → Int → Int → Int) (QOUT QIN d : Int)
    (hQ : QOUT < QIN)
    (hbw : ∀ (a : Int → Int) (n c : Int),
      (∀ k : Int, -2147483648 < a k ∧ a k < 2147483648) →
      ∀ k : Int, -2147483648 < bw a n c k ∧ bw a n c k < 2147483648) :
    ∀ (n : Nat) (a : Int → Int) (idx : Int),
      (∀ k : Int, -2147483648 < a k ∧ a k < 2147483648) →
      (∀ k : Int, -2147483648 < (lpc_fit_loop bw QOUT QIN d n a idx).2 k ∧
        (lpc_fit_loop bw QOUT QIN d n a idx).2 k < 2147483648) ∧
      ((lpc_fit_loop bw QOUT QIN d n a idx).1 = false →
        ∀ k : Int, 0 ≤ k → k < d →
          -32768 ≤ silk_RSHIFT_ROUND ((lpc_fit_loop bw QOUT QIN d n a idx).2 k) (QIN - QOUT) ∧
          silk_RSHIFT_ROUND ((lpc_fit_loop bw QOUT QIN d n a idx).2 k) (QIN - QOUT)
            ≤ 32767) := by
  intro n
  induction n with
  | zero =>
    intro a idx ha
    refine ⟨ha, fun hf => ?_⟩
    exact absurd hf (by simp [lpc_fit_loop])
  | succ j ih =>
    intro a idx ha
    rw [lpc_fit_loop]
    simp only
    by_cases hgt : silk_RSHIFT_ROUND (lpc_maxabs_loop a d.toNat 0 0 idx).1 (QIN - QOUT)
        > silk_int16_MAX
    · rw [if_pos hgt]
      exact ih _ _ (hbw a d _ ha)
    · rw [if_neg hgt]
      refine ⟨ha, fun _ k hk0 hk1 => ?_⟩
      show -32768 ≤ silk_RSHIFT_ROUND (a k) (QIN - QOUT) ∧
        silk_RSHIFT_ROUND (a k) (QIN - QOUT) ≤ 32767
      obtain ⟨m0, m1⟩ := lpc_maxabs_loop_spec a ha d.toNat 0 0 idx
      obtain ⟨b1, b2⟩ := m1 k (by omega) (by omega)
      have hs : 1 ≤ QIN - QOUT := by omega
      rw [rshift_round_eq _ _ hs] at hgt ⊢
      unfold silk_int16_MAX at hgt
      exact round_bounds _ _ _ _ (pow_pos (by norm_num) _) (pow_nonneg (by norm_num) _)
        (by omega) b1 (by omega)

/-- The clipping loop of `silk_LPC_fit`: the entries `k0 <= j < k0 + n` of both
arrays are rewritten from the entry of `a_QIN` before the loop, the others are
left. -/
theorem lpc_clip_loop_spec (QOUT QIN : Int) :
    ∀ (n : Nat) (k0 : Int) (qo qi : Int → Int) (j : Int),
      (lpc_clip_loop QOUT QIN n k0 qo qi).1 j
        = (if k0 ≤ j ∧ j < k0 + n then
            int16 (silk_SAT16 (silk_RSHIFT_ROUND (qi j) (QIN - QOUT)))
          else qo j) ∧
      (lpc_clip_loop QOUT QIN n k0 qo qi).2 j
        = (if k0 ≤ j ∧ j < k0 + n then
            silk_LSHIFT (int16 (silk_SAT16 (silk_RSHIFT_ROUND (qi j) (QIN - QOUT))))
              (QIN - QOUT)
          else qi j) := by
  intro n
  induction n with
  | zero =>
    intro k0 qo qi j
    have hno : ¬ (k0 ≤ j ∧ j < k0 + ((0 : Nat) : Int)) := by
      simp only [Nat.cast_zero]; omega
    rw [if_neg hno, if_neg hno]
    exact ⟨rfl, rfl⟩
  | succ m ih =>
    intro k0 qo qi j
    rw [lpc_clip_loop]
    obtain ⟨i1, i2⟩ := ih (k0 + 1)
      (fun j => if j = k0 then
          int16 (silk_SAT16 (silk_RSHIFT_ROUND (qi k0) (QIN - QOUT)))
        else qo j)
      (fun j => if j = k0 then
          silk_LSHIFT (int16 (silk_SAT16 (silk_RSHIFT_ROUND (qi k0) (QIN - QOUT))))
            (QIN - QOUT)
        else qi j) j
    rw [i1, i2]
    by_cases hin : k0 + 1 ≤ j ∧ j < k0 + 1 + (m : Int)
    · have hne : ¬ j = k0 := by omega
      have hin2 : k0 ≤ j ∧ j < k0 + ((m + 1 : Nat) : Int) := by push_cast; omega
      rw [if_pos hin, if_pos hin, if_pos hin2, if_pos hin2]
      refine ⟨?_, ?_⟩ <;> simp only [if_neg hne]
    · rw [if_neg hin, if_neg hin]
      by_cases hj : j = k0
      · have hin2 : k0 ≤ j ∧ j < k0 + ((m + 1 : Nat) : Int) := by push_cast; omega
        rw [if_pos hin2, if_pos hin2]
        refine ⟨?_, ?_⟩ <;> simp only [hj, if_true]
      · have hin2 : ¬ (k0 ≤ j ∧ j < k0 + ((m + 1 : Nat) : Int)) := by push_cast; omega
        rw [if_neg hin2, if_neg hin2]
        refine ⟨?_, ?_⟩ <;> simp only [if_neg hj]

/-- The rounding loop of `silk_LPC_fit`: the entries `k0 <= j < k0 + n` of
`a_QOUT` are rewritten, the others are left. -/
theorem lpc_round_loop_spec (a : Int → Int) (QOUT QIN : Int) :
    ∀ (n : Nat) (k0 : Int) (qo : Int → Int) (j : Int),
      lpc_round_loop a QOUT QIN n k0 qo j
        = (if k0 ≤ j ∧ j < k0 + n then int16 (silk_RSHIFT_ROUND (a j) (QIN - QOUT))
          else qo j) := by
  intro n
  induction n with
  | zero =>
    intro k0 qo j
    have hno : ¬ (k0 ≤ j ∧ j < k0 + ((0 : Nat) : Int)) := by
      simp only [Nat.cast_zero]; omega
    rw [if_neg hno]
    rfl
  | succ m ih =>
    intro k0 qo j
    rw [lpc_round_loop, ih]
    by_cases hin : k0 + 1 ≤ j ∧ j < k0 + 1 + (m : Int)
    · have hin2 : k0 ≤ j ∧ j < k0 + ((m + 1 : Nat) : Int) := by push_cast; omega
      rw [if_pos hin, if_pos hin2]
    · rw [if_neg hin]
      by_cases hj : j = k0
      · have hin2 : k0 ≤ j ∧ j < k0 + ((m + 1 : Nat) : Int) := by push_cast; omega
        rw [if_pos hin2, if_pos hj, hj]
      · have hin2 : ¬ (k0 ≤ j ∧ j < k0 + ((m + 1 : Nat) : Int)) := by push_cast; omega
        rw [if_neg hin2, if_neg hj]

/-- C40: for every order `d`, every `QIN > QOUT`, every coefficient vector with
entries of magnitude below `2^31` and every bandwidth expander that returns such
vectors, at every index `0 <= k < d`, with `a` the vector `a_QIN` left by the
expansion loop: `silk_LPC_fit` stores in `a_QOUT[k]` the value
`silk_RSHIFT_ROUND(a[k], QIN - QOUT)`, clipped by `silk_SAT16` when the loop ran
to `i == 10`, as an integer in `-32768..32767` (the conversion to `int16_t` does
not wrap); the rounding shift is `(a[k] + 2^(QIN-QOUT-1)) / 2^(QIN-QOUT)` rounded
down; when the loop stopped early `a_QIN[k]` is left as `a[k]`; when it ran to
`i == 10`, `a_QIN[k]` is rewritten to `a_QOUT[k] << (QIN - QOUT)` as a 32-bit
value, which for `QIN - QOUT <= 16` is `a_QOUT[k] * 2^(QIN-QOUT)` and rounds back
to `a_QOUT[k]`. -/
theorem lpc_fit_no_wrap (bw : (Int → Int) → Int → Int → Int → Int)
    (a_QOUT a_QIN : Int → Int) (QOUT QIN d : Int)
    (hQ : QOUT < QIN)
    (hin : ∀ k : Int, -2147483648 < a_QIN k ∧ a_QIN k < 2147483648)
    (hbw : ∀ (a : Int → Int) (n c : Int),
      (∀ k : Int, -2147483648 < a k ∧ a k < 2147483648) →
      ∀ k : Int, -2147483648 < bw a n c k ∧ bw a n c k < 2147483648)
    (k : Int) (hk0 : 0 ≤ k) (hk1 : k < d) :
    (silk_LPC_fit bw a_QOUT a_QIN QOUT QIN d).1 k
      = (if (lpc_fit_loop bw QOUT QIN d 10 a_QIN 0).1 then
          silk_SAT16 (silk_RSHIFT_ROUND ((lpc_fit_loop bw QOUT QIN d 10 a_QIN 0).2 k)
            (QIN - QOUT))
        else silk_RSHIFT_ROUND ((lpc_fit_loop bw QOUT QIN d 10 a_QIN 0).2 k) (QIN - QOUT)) ∧
    -32768 ≤ (silk_LPC_fit bw a_QOUT a_QIN QOUT QIN d).1 k ∧
    (silk_LPC_fit bw a_QOUT a_QIN QOUT QIN d).1 k ≤ 32767 ∧
    silk_RSHIFT_ROUND ((lpc_fit_loop bw QOUT QIN d 10 a_QIN 0).2 k) (QIN - QOUT)
      = ((lpc_fit_loop bw QOUT QIN d 10 a_QIN 0).2 k + 2 ^ (QIN - QOUT - 1).toNat)
          / 2 ^ (QIN - QOUT).toNat ∧
    ((lpc_fit_loop bw QOUT QIN d 10 a_QIN 0).1 = false →
      (silk_LPC_fit bw a_QOUT a_QIN QOUT QIN d).2 k
        = (lpc_fit_loop bw QOUT QIN d 10 a_QIN 0).2 k) ∧
    ((lpc_fit_loop bw QOUT QIN d 10 a_QIN 0).1 = true →
      (silk_LPC_fit bw a_QOUT a_QIN QOUT QIN d).2 k
        = int32 ((silk_LPC_fit bw a_QOUT a_QIN QOUT QIN d).1 k * 2 ^ (QIN - QOUT).toNat) ∧
      (QIN - QOUT ≤ 16 →
        (silk_LPC_fit bw a_QOUT a_QIN QOUT QIN d).2 k
          = (silk_LPC_fit bw a_QOUT a_QIN QOUT QIN d).1 k * 2 ^ (QIN - QOUT).toNat ∧
        silk_RSHIFT_ROUND ((silk_LPC_fit bw a_QOUT a_QIN QOUT QIN d).2 k) (QIN - QOUT)
          = (silk_LPC_fit bw a_QOUT a_QIN QOUT QIN d).1 k)) := by
  have hs : 1 ≤ QIN - QOUT := by omega
  obtain ⟨-, hfit⟩ := lpc_fit_loop_spec bw QOUT QIN d hQ hbw 10 a_QIN 0 hin
  have hrange : (0 : Int) ≤ k ∧ k < 0 + (d.toNat : Int) := by omega
  have hsat : ∀ x : Int, -32768 ≤ silk_SAT16 x ∧ silk_SAT16 x ≤ 32767 := by
    intro x
    unfold silk_SAT16 silk_int16_MAX silk_int16_MIN
    split_ifs <;> omega
  generalize hR : lpc_fit_loop bw QOUT QIN d 10 a_QIN 0 = R at hfit ⊢
  have hout : (silk_LPC_fit bw a_QOUT a_QIN QOUT QIN d).1 k
      = (if R.1 then silk_SAT16 (silk_RSHIFT_ROUND (R.2 k) (QIN - QOUT))
        else silk_RSHIFT_ROUND (R.2 k) (QIN - QOUT)) := by
    unfold silk_LPC_fit
    simp only [hR]
    by_cases hb : R.1 = true
    · rw [if_pos hb, if_pos hb, (lpc_clip_loop_spec QOUT QIN d.toNat 0 a_QOUT R.2 k).1,
        if_pos hrange]
      exact int16_id _ (hsat _).1 (hsat _).2
    · rw [if_neg hb, if_neg hb]
      show lpc_round_loop R.2 QOUT QIN d.toNat 0 a_QOUT k = _
      rw [lpc_round_loop_spec, if_pos hrange]
      obtain ⟨q1, q2⟩ := hfit (by simpa using hb) k hk0 hk1
      exact int16_id _ q1 q2
  have hlo : -32768 ≤ (silk_LPC_fit bw a_QOUT a_QIN QOUT QIN d).1 k ∧
      (silk_LPC_fit bw a_QOUT a_QIN QOUT QIN d).1 k ≤ 32767 := by
    rw [hout]
    by_cases hb : R.1 = true
    · rw [if_pos hb]
      exact hsat _
    · rw [if_neg hb]
      exact hfit (by simpa using hb) k hk0 hk1
  have hin2 : R.1 = true → (silk_LPC_fit bw a_QOUT a_QIN QOUT QIN d).2 k
      = int32 ((silk_LPC_fit bw a_QOUT a_QIN QOUT QIN d).1 k * 2 ^ (QIN - QOUT).toNat) := by
    intro hb
    rw [hout, if_pos hb]
    unfold silk_LPC_fit
    simp only [hR]
    rw [if_pos hb, (lpc_clip_loop_spec QOUT QIN d.toNat 0 a_QOUT R.2 k).2, if_pos hrange,
      int16_id _ (hsat _).1 (hsat _).2]
    rfl
  refine ⟨hout, hlo.1, hlo.2, rshift_round_eq _ _ hs, ?_, ?_⟩
  · intro hb
    unfold silk_LPC_fit
    simp only [hR]
    rw [if_neg (by simp [hb])]
  · intro hb
    refine ⟨hin2 hb, fun h16 => ?_⟩
    have hp1 : (0 : Int) < 2 ^ (QIN - QOUT).toNat := pow_pos (by norm_num) _
    have hp2 : (2 : Int) ^ (QIN - QOUT).toNat ≤ 2 ^ 16 :=
      pow_le_pow_right₀ (by norm_num) (by omega)
    have hprod : -2147483648 ≤
          (silk_LPC_fit bw a_QOUT a_QIN QOUT QIN d).1 k * 2 ^ (QIN - QOUT).toNat ∧
        (silk_LPC_fit bw a_QOUT a_QIN QOUT QIN d).1 k * 2 ^ (QIN - QOUT).toNat
          < 2147483648 := by
      constructor <;> nlinarith [hlo.1, hlo.2]
    have hexact : (silk_LPC_fit bw a_QOUT a_QIN QOUT QIN d).2 k
        = (silk_LPC_fit bw a_QOUT a_QIN QOUT QIN d).1 k * 2 ^ (QIN - QOUT).toNat := by
      rw [hin2 hb]
      unfold int32
      omega
    refine ⟨hexact, ?_⟩
    rw [hexact, rshift_round_eq _ _ hs, add_comm, Int.add_mul_ediv_right _ _ (ne_of_gt hp1)]
    have hhalf : (2 : Int) ^ (QIN - QOUT - 1).toNat / 2 ^ (QIN - QOUT).toNat = 0 :=
      Int.ediv_eq_zero_of_lt (pow_nonneg (by norm_num) _)
        (pow_lt_pow_right₀ (by norm_num) (by omega))
    rw [hhalf, zero_add]

theorem lpc_fit_no_wrap_witness :
    -32768 ≤ (silk_LPC_fit (fun a _ _ k => a k / 2) (fun _ => 0) (fun _ => 2000000) 12 17 2).1 1 ∧
    (silk_LPC_fit (fun a _ _ k => a k / 2) (fun _ => 0) (fun _ => 2000000) 12 17 2).1 1
      ≤ 32767 := by
  have h := lpc_fit_no_wrap (fun a _ _ k => a k / 2) (fun _ => 0) (fun _ => 2000000) 12 17 2
    (by decide) (fun _ => ⟨by norm_num, by norm_num⟩)
    (fun a _ _ ha k => by
      have h1 := ha k
      show -2147483648 < a k / 2 ∧ a k / 2 < 2147483648
      omega)
    1 (by decide) (by decide)
  exact ⟨h.2.1, h.2.2.1⟩

/-! ## The FEC frame under the concealment contract of the sub-decoders -/

/-- Every call of `opus_decode_native` that returns leaves `frame_size` as it was
or sets it to the samples per frame of the packet at the rate of the decoder. -/
theorem native_frame_size (ext : Engines) (st : OpusDecoder) (data : Option (List Byte))
    (len : Int) (pcm : PCM) (frame_size decode_fec : Int) (sd : Bool) (sc : Int)
    (out : DecodeOut)
    (h : opus_decode_native ext st data len pcm frame_size decode_fec sd sc = some out) :
    out.st.frame_size = st.frame_size
      ∨ ∃ buf, data = some buf ∧
          out.st.frame_size = opus_packet_get_samples_per_frame buf st.Fs := by
  have conc : ∀ o : DecodeOut, o.st.config = st.config →
      o.st.frame_size = st.frame_size
        ∨ ∃ buf, data = some buf ∧
            o.st.frame_size = opus_packet_get_samples_per_frame buf st.Fs :=
    fun o k => Or.inl (config_fields o.st st k).2.2.2.2.2.1
  unfold opus_decode_native at h
  by_cases c1 : decode_fec < 0 ∨ decode_fec > 1
  · rw [if_pos c1] at h
    cases h
    exact Or.inl rfl
  rw [if_neg c1] at h
  by_cases c2 : (decode_fec ≠ 0 ∨ len = 0 ∨ data.isNone) ∧
      frame_size.tmod (st.Fs.tdiv 400) ≠ 0
  · rw [if_pos c2] at h
    cases h
    exact Or.inl rfl
  rw [if_neg c2] at h
  cases data with
  | none =>
    simp only at h
    exact conc out (conceal_loop_keeps ext frame_size _ st pcm 0 out (le_refl 0) h).1
  | some buf =>
    simp only at h
    by_cases c3 : len = 0
    · rw [if_pos c3] at h
      exact conc out (conceal_loop_keeps ext frame_size _ st pcm 0 out (le_refl 0) h).1
    rw [if_neg c3] at h
    by_cases c4 : len < 0
    · rw [if_pos c4] at h
      cases h
      exact Or.inl rfl
    rw [if_neg c4] at h
    cases hp : opus_packet_parse_impl buf len sd with
    | error e =>
      rw [hp] at h
      simp only at h
      cases h
      exact Or.inl rfl
    | ok p =>
      rw [hp] at h
      simp only at h
      by_cases c5 : decode_fec ≠ 0
      · rw [if_pos c5] at h
        by_cases c6 : frame_size < opus_packet_get_samples_per_frame buf st.Fs
            ∨ opus_packet_get_mode buf = MODE_CELT_ONLY ∨ st.mode = MODE_CELT_ONLY
        · rw [if_pos c6] at h
          exact conc out (native_null_keeps ext st pcm frame_size out h).1
        rw [if_neg c6] at h
        split at h
        · cases h
        · rename_i r hpre
          have kr : r.st.config = st.config := by
            by_cases c7 : frame_size - opus_packet_get_samples_per_frame buf st.Fs ≠ 0
            · rw [if_pos c7] at hpre
              exact (native_null_keeps ext st pcm _ r hpre).1
            · rw [if_neg c7] at hpre
              cases hpre
              rfl
          by_cases c8 : r.ret < 0
          · rw [if_pos c8] at h
            cases h
            exact Or.inl (config_fields r.st st kr).2.2.2.2.2.1
          rw [if_neg c8] at h
          split at h
          · cases h
          · rename_i rf hfr
            have k2 := decode_frame_keeps ext 3 _ _ _ _ _ _ _ rf hfr
            have q := (fixed_fields _ _ k2.1).2.2
            by_cases c9 : rf.ret < 0
            · rw [if_pos c9] at h
              cases h
              exact Or.inr ⟨buf, rfl, q⟩
            · rw [if_neg c9] at h
              cases h
              exact Or.inr ⟨buf, rfl, q⟩
      · rw [if_neg c5] at h
        by_cases c6 : p.count * opus_packet_get_samples_per_frame buf st.Fs > frame_size
        · rw [if_pos c6] at h
          cases h
          exact Or.inl rfl
        rw [if_neg c6] at h
        have k := frames_loop_keeps ext buf p.size frame_size _ _ _ _ _ _ out (le_refl 0) h
        exact Or.inr ⟨buf, rfl, (config_fields _ _ k.1).2.2.2.2.2.1⟩

/-- A control request leaves `Fs` and `channels` as they were, and leaves
`frame_size` as it was or, for a reset, sets it to `Fs/400`. -/
theorem ctl_frame_size (ext : Engines) (st : OpusDecoder) (req : CtlRequest) :
    (opus_decoder_ctl ext st req).st.Fs = st.Fs ∧
    (opus_decoder_ctl ext st req).st.channels = st.channels ∧
    ((opus_decoder_ctl ext st req).st.frame_size = st.frame_size
      ∨ (opus_decoder_ctl ext st req).st.frame_size = st.Fs.tdiv 400) := by
  cases req <;> simp only [opus_decoder_ctl] <;> first
    | exact ⟨rfl, rfl, Or.inl rfl⟩
    | exact ⟨rfl, rfl, Or.inr rfl⟩
    | (split_ifs <;> exact ⟨rfl, rfl, Or.inl rfl⟩)
    | exact ⟨trivial, trivial, Or.inl trivial⟩

/-- In every state reachable from a successful `opus_decoder_init` through
`opus_decode` and `opus_decoder_ctl` calls, `Fs` is one of the five valid rates,
`channels` is 1 or 2 and `frame_size` is a positive multiple of `Fs/400`. -/
theorem reachable_state_invariants (ext : Engines) (st : OpusDecoder)
    (hr : Reachable ext st) :
    (st.Fs = 48000 ∨ st.Fs = 24000 ∨ st.Fs = 16000 ∨ st.Fs = 12000 ∨ st.Fs = 8000) ∧
    (st.channels = 1 ∨ st.channels = 2) ∧
    1 ≤ st.frame_size ∧ st.frame_size.tmod (st.Fs.tdiv 400) = 0 := by
  have unit : ∀ Fs : Int,
      (Fs = 48000 ∨ Fs = 24000 ∨ Fs = 16000 ∨ Fs = 12000 ∨ Fs = 8000) →
      1 ≤ Fs.tdiv 400 ∧ (Fs.tdiv 400).tmod (Fs.tdiv 400) = 0 := by
    intro Fs hFs
    rcases hFs with rfl | rfl | rfl | rfl | rfl <;> decide
  induction hr with
  | init st0 st Fs channels h =>
    obtain ⟨h1, h2, h3, h4, -, -, h7, -⟩ := init_ok_fields ext st0 st Fs channels h
    rw [h3, h4, h7]
    exact ⟨h1, h2, unit Fs h1⟩
  | decode st data len pcm frame_size decode_fec out _ h ih =>
    obtain ⟨i1, i2, i3, i4⟩ := ih
    obtain ⟨⟨k1, k2, -⟩, -⟩ := opus_decode_keeps ext st data len pcm frame_size decode_fec out h
    rw [k1, k2]
    refine ⟨i1, i2, ?_⟩
    have hfs : out.st.frame_size = st.frame_size
        ∨ ∃ buf, data = some buf ∧
            out.st.frame_size = opus_packet_get_samples_per_frame buf st.Fs := by
      unfold opus_decode at h
      by_cases hf : frame_size ≤ 0
      · rw [if_pos hf] at h
        cases h
        exact Or.inl rfl
      · rw [if_neg hf] at h
        exact native_frame_size ext st data len pcm frame_size decode_fec false 0 out h
    rcases hfs with k | ⟨buf, -, k⟩
    · rw [k]
      exact ⟨i3, i4⟩
    · rw [k]
      obtain ⟨u1, -⟩ := unit st.Fs i1
      rcases samples_per_frame_sizes buf st.Fs i1 with e | e | e | e | e | e <;>
        (rw [e]
         first
           | exact ⟨by omega, Int.tmod_eq_zero_of_dvd (dvd_refl _)⟩
           | exact ⟨by omega, Int.tmod_eq_zero_of_dvd (Dvd.intro_left _ rfl)⟩)
  | ctl st req _ ih =>
    obtain ⟨i1, i2, i3, i4⟩ := ih
    obtain ⟨k1, k2, k3⟩ := ctl_frame_size ext st req
    rw [k1, k2]
    refine ⟨i1, i2, ?_⟩
    rcases k3 with k | k
    · rw [k]
      exact ⟨i3, i4⟩
    · rw [k]
      exact unit st.Fs i1

/-! ## Failures and the recorded duration of `opus_decode_native` -/

end Opus
